import Mathlib

/-!
Verification of the go-pandoc codec and traversal engine.

This file gives a shallow embedding, in Lean 4, of the core of the
go-pandoc repository: the streaming JSON scanner (src/scan.go), the
Pandoc AST data model (src/types.go), the AST reader (ReadFrom and the
per-variant read functions), the AST writer (src/write.go), and the
generic traversal engine (Filter/Query and the walk functions).

Byte streams are modelled as lists of natural numbers below 256.
Buffering (the 128-byte growable buffer and its refill logic) is
input/output plumbing with no observable effect on the token stream for
tokens shorter than the buffer, so the scanner is embedded bufferless:
a scanner state is the remaining input together with the absolute byte
offset of its head.  Token payloads, which the Go code records in
scanner fields, are carried on the token itself; the Go predicate
stringInBuffer corresponds to the token's inBuf flag, which is true
exactly when the string was scanned without escapes (a string token
shorter than the buffer is spilled only by escapes).

Go float64 values are modelled exactly as sign/mantissa/exponent
triples, with correctly rounded (round to nearest, ties to even)
conversion from rationals; this models the documented behaviour of the
Go standard library strconv.ParseFloat.  The digit generation of
strconv.AppendFloat (shortest decimal that parses back to the same
float) is likewise modelled from its documentation; it is external
standard-library code, not code of this repository.
-/

deriving instance DecidableEq for Except

namespace GoPandoc

/-- ASCII bytes of a Lean string literal (used only for ASCII literals
appearing in the Go source). -/
def gs (s : String) : List Nat := s.data.map Char.toNat

/-- Decimal digits of a natural number, as ASCII bytes, no leading
zeros; fuel-based so that it reduces in the kernel (any fuel above the
digit count gives the same result). -/
def natDigitsAux : Nat → Nat → List Nat → List Nat
  | 0, _, acc => acc
  | fuel + 1, n, acc =>
    if n < 10 then (n + 48) :: acc
    else natDigitsAux fuel (n / 10) ((n % 10 + 48) :: acc)

def natDigits (n : Nat) : List Nat := natDigitsAux (n + 1) n []

/-- strconv.AppendInt base 10: optional minus sign and decimal digits. -/
def intBytes (i : Int) : List Nat :=
  if i < 0 then 45 :: natDigits i.natAbs else natDigits i.natAbs

/-- A Go float64 value: finite values are sign, mantissa and binary
exponent with the IEEE 754 binary64 normalisation invariants; infinities
and NaN are separate.  The two zeroes are distinguished by the sign. -/
inductive GoFloat : Type where
  | fin (neg : Bool) (m : Nat) (e : Int)
  | inf (neg : Bool)
  | nan
  deriving Repr, DecidableEq

namespace GoFloat

/-- The rational value of a finite float (0 for infinities and NaN). -/
def q : GoFloat → ℚ
  | .fin neg m e => (if neg then (-1 : ℚ) else 1) * (m : ℚ) * (2 : ℚ) ^ e
  | _ => 0

def isFinite : GoFloat → Bool
  | .fin _ _ _ => true
  | _ => false

def isZero : GoFloat → Bool
  | .fin _ m _ => m = 0
  | _ => false

/-- math.Abs on the model. -/
def abs : GoFloat → GoFloat
  | .fin _ m e => .fin false m e
  | .inf _ => .inf false
  | .nan => .nan

/-- Positive zero. -/
def zero : GoFloat := .fin false 0 (-1074)

/-- Negative zero (math.Copysign(0, -1)). -/
def negZero : GoFloat := .fin true 0 (-1074)

end GoFloat

/-- Number of bits of a natural number (0 for 0); fuel-based so that it
reduces in the kernel. -/
def bitlenAux : Nat → Nat → Nat
  | 0, _ => 0
  | fuel + 1, n => if n = 0 then 0 else bitlenAux fuel (n / 2) + 1

def bitlen (n : Nat) : Nat := bitlenAux (n + 1) n

/-- floor (p / (q * 2^e)) for positive rationals p/q and integer e. -/
def scaledFloor (p q : Nat) (e : Int) : Nat :=
  if e ≥ 0 then p / (q * 2 ^ e.toNat) else (p * 2 ^ (-e).toNat) / q

/-- remainder matching scaledFloor: p/q / 2^e - floor, scaled to an exact
comparison pair (r, d) with fractional part r / d. -/
def scaledRem (p q : Nat) (e : Int) : Nat × Nat :=
  if e ≥ 0 then (p % (q * 2 ^ e.toNat), q * 2 ^ e.toNat)
  else ((p * 2 ^ (-e).toNat) % q, q)

/-- Does v = p/q satisfy v / 2^e ≥ 2^53 (i.e. the candidate exponent is
too small)? -/
def expTooSmall (p q : Nat) (e : Int) : Bool :=
  scaledFloor p q e ≥ 2 ^ 53

/-- Does v = p/q satisfy v / 2^e < 2^52 (candidate exponent too large)? -/
def expTooBig (p q : Nat) (e : Int) : Bool :=
  scaledFloor p q e < 2 ^ 52

/-- Adjust the candidate binary exponent upward while the scaled mantissa
still has 54 or more bits.  The initial estimate from bit lengths is off
by at most one, so small fuel suffices. -/
def adjUp (fuel : Nat) (p q : Nat) (e : Int) : Int :=
  match fuel with
  | 0 => e
  | fuel + 1 => if expTooSmall p q e then adjUp fuel p q (e + 1) else e

/-- Adjust the candidate binary exponent downward while the scaled
mantissa has fewer than 53 bits (stopping at the subnormal floor). -/
def adjDown (fuel : Nat) (p q : Nat) (e : Int) : Int :=
  match fuel with
  | 0 => e
  | fuel + 1 =>
    if e ≤ -1074 then e
    else if expTooBig p q e then adjDown fuel p q (e - 1) else e

/-- Round the positive rational p/q to the nearest binary64 value
(ties to even), as mantissa/exponent; overflows to infinity. -/
def roundPos (neg : Bool) (p q : Nat) : GoFloat :=
  let e0 : Int := (bitlen p : Int) - (bitlen q : Int) - 53
  let e1 := adjUp 4 p q (max e0 (-1074))
  let e2 := adjDown 8 p q e1
  let m0 := scaledFloor p q e2
  let (r, d) := scaledRem p q e2
  let m := if 2 * r > d ∨ (2 * r = d ∧ m0 % 2 = 1) then m0 + 1 else m0
  let (m, e3) := if m = 2 ^ 53 then (2 ^ 52, e2 + 1) else (m, e2)
  if e3 > 971 then .inf neg
  else if m = 0 then .fin neg 0 (-1074)
  else .fin neg m e3

/-- Correctly rounded conversion from an arbitrary rational to binary64
(round to nearest, ties to even); the model of Go's float conversions.
Used in specification statements; executable paths use roundPos. -/
def roundQ (x : ℚ) : GoFloat :=
  if x = 0 then GoFloat.zero
  else roundPos (decide (x < 0)) x.num.natAbs x.den

/-- Go's uint64-to-float64 conversion with an explicit sign
(float64(n), math.Copysign(float64(n), -1)). -/
def roundNat (neg : Bool) (n : Nat) : GoFloat :=
  if n = 0 then .fin neg 0 (-1074) else roundPos neg n 1

/-- Go's int64-to-float64 conversion. -/
def roundInt (n : Int) : GoFloat := roundNat (decide (n < 0)) n.natAbs

/-- Magnitude comparison |a| < |b| of finite floats by exact integer
cross-multiplication. -/
def GoFloat.absLt (a b : GoFloat) : Bool :=
  match a, b with
  | .fin _ m1 e1, .fin _ m2 e2 =>
    m1 * 2 ^ (e1 - e2).toNat < m2 * 2 ^ (e2 - e1).toNat
  | _, _ => false

/-- Number of decimal digits of a natural number (1 for 0). -/
def digitCount (n : Nat) : Nat := (natDigits n).length

/-- Decimal exponent: the t with 10^t ≤ p/q < 10^(t+1), for p, q > 0.
The fuel bounds the search for values below 1; 400 covers every
positive binary64 value. -/
def decExpNeg (fuel : Nat) (p q : Nat) (t : Nat) : Int :=
  match fuel with
  | 0 => -(t : Int)
  | fuel + 1 => if p * 10 ^ t ≥ q then -(t : Int) else decExpNeg fuel p q (t + 1)

def decExp (p q : Nat) : Int :=
  if p ≥ q then (digitCount (p / q) : Int) - 1 else decExpNeg 400 p q 1

/-- floor ((p/q) / 10^g). -/
def scaledFloor10 (p q : Nat) (g : Int) : Nat :=
  if g ≥ 0 then p / (q * 10 ^ g.toNat) else (p * 10 ^ (-g).toNat) / q

/-- Does the decimal candidate D * 10^g (with the given sign) read back
as exactly the float f?  Models the round-trip test underlying shortest
formatting. -/
def readsBack (f : GoFloat) (neg : Bool) (D : Nat) (g : Int) : Bool :=
  let r :=
    if D = 0 then GoFloat.fin neg 0 (-1074)
    else if g ≥ 0 then roundPos neg (D * 10 ^ g.toNat) 1
    else roundPos neg D (10 ^ (-g).toNat)
  r = f

/-- Try to represent f with k significant decimal digits: returns the
digit block and the decimal exponent of its leading digit if some
k-digit decimal parses back to f.  Among the two bracketing candidates
the one nearer to the value is preferred, ties preferring the even
digit block, mirroring shortest-decimal generation. -/
def tryLen (f : GoFloat) (neg : Bool) (p q : Nat) (e10 : Int) (k : Nat) :
    Option (Nat × Int) :=
  let g : Int := e10 - (k : Int) + 1
  let (P, Q) : Nat × Nat :=
    if g ≥ 0 then (p, q * 10 ^ g.toNat) else (p * 10 ^ (-g).toNat, q)
  let D0 := P / Q
  let D1 := D0 + 1
  let rem := P % Q
  let first :=
    if 2 * rem < Q then D0
    else if 2 * rem > Q then D1
    else if D0 % 2 = 0 then D0 else D1
  let second := if first = D0 then D1 else D0
  let fix (D : Nat) : Nat × Int := (D, e10 + (digitCount D : Int) - (k : Int))
  if readsBack f neg first g then some (fix first)
  else if readsBack f neg second g then some (fix second)
  else none

/-- Strip trailing zero digits from a digit block, adjusting nothing
else (the exponent of the leading digit is unchanged). -/
def stripZeros (fuel : Nat) (D : Nat) : Nat :=
  match fuel with
  | 0 => D
  | fuel + 1 => if D ≠ 0 ∧ D % 10 = 0 then stripZeros fuel (D / 10) else D

/-- Shortest-decimal digit generation for a positive finite float:
returns the digit block (no trailing zeros) and the decimal exponent of
its leading digit.  Models strconv's shortest (prec -1) formatting,
which by its documentation produces the shortest decimal that parses
back to the same value. -/
def shortestSearch (f : GoFloat) (neg : Bool) (p q : Nat) (e10 : Int) :
    Nat → Nat → Nat × Int
  | 0, _ => (scaledFloor10 p q (e10 - 17), e10)
  | fuel + 1, k =>
    match tryLen f neg p q e10 k with
    | some (D, e10') => (stripZeros 20 D, e10')
    | none => shortestSearch f neg p q e10 fuel (k + 1)

def shortestForm (f : GoFloat) (neg : Bool) (m : Nat) (e : Int) : Nat × Int :=
  let (p, q) : Nat × Nat :=
    if e ≥ 0 then (m * 2 ^ e.toNat, 1) else (m, 2 ^ (-e).toNat)
  let e10 := decExp p q
  shortestSearch f neg p q e10 17 1

/-- Go strconv 'f' (fixed notation, shortest) digit layout. -/
def fmtFixed (neg : Bool) (D : Nat) (e10 : Int) : List Nat :=
  let ds := natDigits D
  let k : Int := (ds.length : Int)
  let body :=
    if e10 < 0 then
      gs "0." ++ List.replicate (-e10 - 1).toNat 48 ++ ds
    else if k - 1 ≤ e10 then
      ds ++ List.replicate (e10 - (k - 1)).toNat 48
    else
      ds.take (e10 + 1).toNat ++ [46] ++ ds.drop (e10 + 1).toNat
  (if neg then [45] else []) ++ body

/-- Go strconv 'e' (scientific notation, shortest) digit layout: the
exponent carries an explicit sign and at least two digits. -/
def fmtSci (neg : Bool) (D : Nat) (e10 : Int) : List Nat :=
  let ds := natDigits D
  let mant := ds.take 1 ++ (if ds.length > 1 then [46] ++ ds.drop 1 else [])
  let eds := natDigits e10.natAbs
  let eds := if eds.length < 2 then List.replicate (2 - eds.length) 48 ++ eds else eds
  (if neg then [45] else []) ++ mant ++ [101] ++ (if e10 < 0 then [45] else [43]) ++ eds

/-- strconv.AppendFloat(b, f, fmt, -1, 64) for fmt 'f' or 'e', modelled
from its documented shortest-round-trip behaviour.  sci selects 'e'. -/
def goAppendFloat (b : List Nat) (f : GoFloat) (sci : Bool) : List Nat :=
  match f with
  | .fin neg 0 _ =>
    b ++ (if neg then [45] else []) ++ [48]
  | .fin neg m e =>
    let (D, e10) := shortestForm (.fin neg m e) neg m e
    b ++ (if sci then fmtSci neg D e10 else fmtFixed neg D e10)
  | .inf neg => b ++ (if neg then gs "-Inf" else gs "+Inf")
  | .nan => b ++ gs "NaN"

/-- The float64 constant 1e-1 (not exactly one tenth). -/
def c1e_1 : GoFloat := roundPos false 1 10

/-- The float64 constant 1e21 (exactly 10^21). -/
def c1e21 : GoFloat := roundPos false (10 ^ 21) 1

/-- appendFloat from src/write.go: chooses fixed or scientific notation
by the magnitude cutoffs 1e-1 and 1e21, serialises infinities and NaN
as the JSON null literal, and compacts a two-digit negative exponent
with a leading zero to one digit. -/
def appendFloat (b : List Nat) (f : GoFloat) : List Nat :=
  match f with
  | .inf _ => b ++ gs "null"
  | .nan => b ++ gs "null"
  | .fin neg m e =>
    let a := (GoFloat.fin neg m e).abs
    let sci := m ≠ 0 ∧ (a.absLt c1e_1 ∨ ¬ a.absLt c1e21)
    let out := goAppendFloat b (.fin neg m e) sci
    if sci then
      match out.reverse with
      | d :: z :: mi :: ex :: rest =>
        if ex = 101 ∧ mi = 45 ∧ z = 48 then (d :: mi :: ex :: rest).reverse
        else out
      | _ => out
    else out

/-- strconv.ParseFloat on a scanner-validated JSON number literal:
exact decimal value, correctly rounded; values beyond the finite range
are a range error (which the scanner turns into an invalid-number
error), and underflow is a signed zero. -/
def goParseFloat (lit : List Nat) : Except Unit GoFloat :=
  let (neg, rest) :=
    match lit with
    | 45 :: r => (true, r)
    | r => (false, r)
  let rec mantLoop (l : List Nat) (m : Nat) (frac : Option Nat) :
      Nat × Int × List Nat :=
    match l with
    | [] => (m, -(((frac.getD 0) : Int)), [])
    | c :: r =>
      if 48 ≤ c ∧ c ≤ 57 then
        mantLoop r (m * 10 + (c - 48)) (frac.map (· + 1))
      else if c = 46 then mantLoop r m (some 0)
      else (m, -(((frac.getD 0) : Int)), c :: r)
  let (m, fexp, rest2) := mantLoop rest 0 none
  let exp10 : Int :=
    match rest2 with
    | c :: r =>
      if c = 101 ∨ c = 69 then
        let (es, r2) := match r with
          | 45 :: rr => ((-1 : Int), rr)
          | 43 :: rr => ((1 : Int), rr)
          | rr => (1, rr)
        es * (r2.foldl (fun a c => a * 10 + ((c : Int) - 48)) 0)
      else 0
    | [] => 0
  let exp := fexp + exp10
  if m = 0 then .ok (.fin neg 0 (-1074))
  else
    let dp : Int := (digitCount m : Int) + exp
    if dp > 310 then .error ()
    else if dp < -330 then .ok (.fin neg 0 (-1074))
    else
      let (p, q) : Nat × Nat :=
        if exp ≥ 0 then (m * 10 ^ exp.toNat, 1) else (m, 10 ^ (-exp).toNat)
      match roundPos neg p q with
      | .fin n' m' e' => .ok (.fin n' m' e')
      | _ => .error ()

/-! ## Scanner (src/scan.go) -/

/-- Scanner-level errors, one constructor per fmt.Errorf site in
scan.go, each carrying the byte offset the Go error message reports. -/
inductive ScanErr : Type where
  | unexpectedChar (c : Nat) (off : Nat)
  | invalidNum (off : Nat)
  | invalidNumParse (off : Nat)
  | invalidEscape (off : Nat)
  | unexpectedEOF (off : Nat)
  | invalidUTF8 (off : Nat)
  deriving Repr, DecidableEq

/-- The scanned number: exact integer (intnum true) or float64. -/
inductive NumV : Type where
  | i (n : Int)
  | f (x : GoFloat)
  deriving Repr, DecidableEq

/-- numberIsInt. -/
def NumV.isInt : NumV → Bool
  | .i _ => true
  | .f _ => false

/-- Truncation of a float64 toward zero as Go's int64 conversion; out of
range values produce math.MinInt64 (amd64 behaviour). -/
def GoFloat.truncToInt : GoFloat → Int
  | .fin neg m e =>
    let t : Int :=
      if e ≥ 0 then (m : Int) * 2 ^ e.toNat else (m / 2 ^ (-e).toNat : Nat)
    let t := if neg then -t else t
    if t < -(2 ^ 63) ∨ t ≥ 2 ^ 63 then -(2 ^ 63) else t
  | _ => -(2 ^ 63)

/-- scanner.int(). -/
def NumV.toInt : NumV → Int
  | .i n => n
  | .f x => x.truncToInt

/-- scanner.float(). -/
def NumV.toFloat : NumV → GoFloat
  | .i n => roundInt n
  | .f x => x

/-- Tokens, with payloads carried on the token.  inBuf mirrors
scanner.stringInBuffer: true when the string was scanned without
escapes. -/
inductive Tok : Type where
  | lbrack | rbrack | lbrace | rbrace | comma | colon
  | str (v : List Nat) (inBuf : Bool)
  | num (v : NumV)
  | btrue | bfalse | bnull
  | eof
  | terr (e : ScanErr)
  deriving Repr, DecidableEq

/-- Token kinds (what Go's token constants distinguish). -/
inductive TokK : Type where
  | lbrack | rbrack | lbrace | rbrace | comma | colon
  | str | num | btrue | bfalse | bnull | eof | terr
  deriving Repr, DecidableEq

def Tok.kind : Tok → TokK
  | .lbrack => .lbrack | .rbrack => .rbrack
  | .lbrace => .lbrace | .rbrace => .rbrace
  | .comma => .comma | .colon => .colon
  | .str _ _ => .str | .num _ => .num
  | .btrue => .btrue | .bfalse => .bfalse | .bnull => .bnull
  | .eof => .eof | .terr _ => .terr

def isDigit (c : Nat) : Bool := 48 ≤ c ∧ c ≤ 57

def isWs (c : Nat) : Bool := c = 32 ∨ c = 9 ∨ c = 10 ∨ c = 13

/-- skipws: consume blanks, tabs and line ends. -/
def skipWs : List Nat → Nat → List Nat × Nat
  | [], off => ([], off)
  | c :: rest, off =>
    if isWs c then skipWs rest (off + 1) else (c :: rest, off)

/-- Number of leading one bits of a byte (bits.LeadingZeros8 of its
complement). -/
def leadOnes (c : Nat) : Nat :=
  if c < 0x80 then 0
  else if c < 0xC0 then 1
  else if c < 0xE0 then 2
  else if c < 0xF0 then 3
  else if c < 0xF8 then 4
  else if c < 0xFC then 5
  else if c < 0xFE then 6
  else if c < 0xFF then 7
  else 8

def isCont (c : Nat) : Bool := 0x80 ≤ c ∧ c ≤ 0xBF

/-- The number of bytes utf8.DecodeRune consumes from the front of the
list: the length of a valid, minimal, non-surrogate encoding, and 1 for
anything invalid (RuneError, 1). -/
def utf8DecLen : List Nat → Nat
  | [] => 1
  | c :: rest =>
    if c < 0x80 then 1
    else if c < 0xC2 then 1
    else if c ≤ 0xDF then
      match rest with
      | c1 :: _ => if isCont c1 then 2 else 1
      | _ => 1
    else if c ≤ 0xEF then
      match rest with
      | c1 :: c2 :: _ =>
        let lo1 := if c = 0xE0 then 0xA0 else 0x80
        let hi1 := if c = 0xED then 0x9F else 0xBF
        if lo1 ≤ c1 ∧ c1 ≤ hi1 ∧ isCont c2 then 3 else 1
      | _ => 1
    else if c ≤ 0xF4 then
      match rest with
      | c1 :: c2 :: c3 :: _ =>
        let lo1 := if c = 0xF0 then 0x90 else 0x80
        let hi1 := if c = 0xF4 then 0x8F else 0xBF
        if lo1 ≤ c1 ∧ c1 ≤ hi1 ∧ isCont c2 ∧ isCont c3 then 4 else 1
      | _ => 1
    else 1

/-- The escape table of parseStr: the accepted character after a
backslash and the byte it stands for.  A u escape is deliberately
unsupported and falls to the invalid-escape error. -/
def escByte (c : Nat) : Option Nat :=
  if c = 34 then some 34          -- quote
  else if c = 47 then some 47     -- slash, literal passthrough
  else if c = 92 then some 92     -- backslash
  else if c = 98 then some 8      -- b
  else if c = 102 then some 12    -- f
  else if c = 110 then some 10    -- n
  else if c = 114 then some 13    -- r
  else if c = 116 then some 9     -- t
  else none

/-- scanner.parseStr, entered just after the opening quote; returns the
token (string with decoded escapes, or the error), the unconsumed
input, and the offset after the token. -/
def parseStrAux (fuel : Nat) (inp : List Nat) (off : Nat) (acc : List Nat)
    (esc : Bool) : Tok × List Nat × Nat :=
  match fuel with
  | 0 => (.terr (.unexpectedEOF off), inp, off)
  | fuel + 1 =>
    match inp with
    | [] => (.terr (.unexpectedEOF off), [], off)
    | c :: rest =>
      if c = 34 then (.str acc !esc, rest, off + 1)
      else if c = 92 then
        match rest with
        | [] => (.terr (.unexpectedEOF (off + 1)), [], off + 1)
        | e :: rest' =>
          match escByte e with
          | some b => parseStrAux fuel rest' (off + 2) (acc ++ [b]) true
          | none => (.terr (.invalidEscape (off + 1)), rest, off + 1)
      else if c < 0x80 then parseStrAux fuel rest (off + 1) (acc ++ [c]) esc
      else
        let b := leadOnes c
        if b > 4 then (.terr (.invalidUTF8 off), c :: rest, off)
        else if (c :: rest).length < b then
          (.terr (.unexpectedEOF off), c :: rest, off)
        else if utf8DecLen (c :: rest) = b then
          parseStrAux fuel (rest.drop (b - 1)) (off + b)
            (acc ++ (c :: rest).take b) esc
        else (.terr (.invalidUTF8 off), c :: rest, off)

/-- scanner.parseStr, entered just after the opening quote; returns the
token (string with decoded escapes, or the error), the unconsumed
input, and the offset after the token.  The fuel (one per consumed
byte) is instantiated with the input length, which always suffices. -/
def parseStrLoop (inp : List Nat) (off : Nat) (acc : List Nat) (esc : Bool) :
    Tok × List Nat × Nat :=
  parseStrAux (inp.length + 1) inp off acc esc

inductive NumEnd : Type where
  | fin | dot | exp
  deriving Repr, DecidableEq

/-- The integer-accumulation loop of parseNum: exact accumulation in a
64-bit word, switching to the float path on overflow, a decimal point
or an exponent. -/
def intLoop : List Nat → Nat → Bool → Nat × Bool × List Nat × NumEnd
  | [], num, flt => (num, flt, [], .fin)
  | c :: rest, num, flt =>
    if isDigit c then
      let (num', flt') :=
        if flt then (num, true)
        else if num * 10 + (c - 48) < 2 ^ 64 then (num * 10 + (c - 48), false)
        else (num, true)
      intLoop rest num' flt'
    else if c = 46 then (num, true, rest, .dot)
    else if c = 101 ∨ c = 69 then (num, true, rest, .exp)
    else (num, flt, c :: rest, .fin)

/-- The fraction-digit loop; returns the rest and whether an exponent
marker follows. -/
def fracLoop : List Nat → List Nat × Bool
  | [] => ([], false)
  | c :: rest =>
    if isDigit c then fracLoop rest
    else if c = 101 ∨ c = 69 then (rest, true)
    else (c :: rest, false)

def dropDigits : List Nat → List Nat
  | [] => []
  | c :: rest => if isDigit c then dropDigits rest else c :: rest

/-- Closes a float-path scan: reparse the consumed literal with
strconv.ParseFloat. -/
def numFltDone (inp : List Nat) (off : Nat) (rest : List Nat) :
    Tok × List Nat × Nat :=
  let consumed := inp.length - rest.length
  let lit := inp.take consumed
  match goParseFloat lit with
  | .ok f => (.num (.f f), rest, off + consumed)
  | .error _ => (.terr (.invalidNumParse off), rest, off + consumed)

/-- Closes an integer-path scan: exact int64 when the accumulated
magnitude fits, otherwise a float conversion of the 64-bit value. -/
def numIntDone (inp : List Nat) (off : Nat) (neg : Bool) (num : Nat)
    (rest : List Nat) : Tok × List Nat × Nat :=
  let consumed := inp.length - rest.length
  let v : NumV :=
    if neg then
      if num > 2 ^ 63 then .f (roundNat true num)
      else .i (-(num : Int))
    else
      if num > 2 ^ 63 - 1 then .f (roundNat false num)
      else .i (num : Int)
  (.num v, rest, off + consumed)

/-- The exponent part: optional sign, then at least one digit. -/
def numExpPath (inp : List Nat) (off : Nat) (l : List Nat) :
    Tok × List Nat × Nat :=
  match l with
  | [] => (.terr (.invalidNum off), [], off)
  | c :: r =>
    let l2 := if c = 43 ∨ c = 45 then r else c :: r
    match l2 with
    | [] => (.terr (.invalidNum off), [], off)
    | c2 :: _ =>
      if isDigit c2 then numFltDone inp off (dropDigits l2)
      else (.terr (.invalidNum off), l2, off)

/-- The fraction part: at least one digit, optionally followed by an
exponent. -/
def numFracPath (inp : List Nat) (off : Nat) (l : List Nat) :
    Tok × List Nat × Nat :=
  match l with
  | [] => (.terr (.invalidNum off), [], off)
  | c :: _ =>
    if isDigit c then
      let (rest, sawExp) := fracLoop l
      if sawExp then numExpPath inp off rest
      else numFltDone inp off rest
    else (.terr (.invalidNum off), l, off)

/-- scanner.parseNum: inp starts at the first character of the literal
(sign or digit). -/
def parseNum (inp : List Nat) (off : Nat) : Tok × List Nat × Nat :=
  match inp with
  | [] => (.terr (.unexpectedEOF off), [], off)
  | c :: rest0 =>
    let (neg, l1) := if c = 45 then (true, rest0) else (false, c :: rest0)
    match l1 with
    | [] => (.terr (.unexpectedEOF off), [], off)
    | c1 :: l2 =>
      if ¬ isDigit c1 then (.terr (.invalidNum off), l1, off)
      else if c1 = 48 then
        match l2 with
        | [] =>
          if neg then (.num (.f GoFloat.negZero), [], off + 2)
          else (.num (.i 0), [], off + 1)
        | c2 :: l3 =>
          if isDigit c2 then (.terr (.invalidNum off), l2, off)
          else if c2 = 46 then numFracPath inp off l3
          else if c2 = 101 ∨ c2 = 69 then numExpPath inp off l3
          else
            if neg then (.num (.f GoFloat.negZero), l2, off + 2)
            else (.num (.i 0), l2, off + 1)
      else
        match intLoop l2 (c1 - 48) false with
        | (num, flt, rest, .fin) =>
          if flt then numFltDone inp off rest
          else numIntDone inp off neg num rest
        | (_, _, rest, .dot) => numFracPath inp off rest
        | (_, _, rest, .exp) => numExpPath inp off rest

/-- scanner.next: scan one token; returns the token, the unconsumed
input, and the offset after the token (or at the error). -/
def nextTok (inp0 : List Nat) (off0 : Nat) : Tok × List Nat × Nat :=
  let (inp, off) := skipWs inp0 off0
  match inp with
  | [] => (.eof, [], off)
  | c :: rest =>
    if c = 91 then (.lbrack, rest, off + 1)
    else if c = 93 then (.rbrack, rest, off + 1)
    else if c = 123 then (.lbrace, rest, off + 1)
    else if c = 125 then (.rbrace, rest, off + 1)
    else if c = 44 then (.comma, rest, off + 1)
    else if c = 58 then (.colon, rest, off + 1)
    else if c = 110 then
      if inp.take 4 = gs "null" then (.bnull, inp.drop 4, off + 4)
      else (.terr (.unexpectedChar c off), inp, off)
    else if c = 116 then
      if inp.take 4 = gs "true" then (.btrue, inp.drop 4, off + 4)
      else (.terr (.unexpectedChar c off), inp, off)
    else if c = 102 then
      if inp.take 5 = gs "false" then (.bfalse, inp.drop 5, off + 5)
      else (.terr (.unexpectedChar c off), inp, off)
    else if c = 45 ∨ isDigit c then parseNum inp off
    else if c = 34 then parseStrLoop rest (off + 1) [] false
    else (.terr (.unexpectedChar c off), inp, off)

/-- scanner.peek: the kind of the next token, without consuming. -/
def peekK (inp0 : List Nat) : TokK :=
  let (inp, _) := skipWs inp0 0
  match inp with
  | [] => .eof
  | c :: _ =>
    if c = 44 then .comma
    else if c = 58 then .colon
    else if c = 91 then .lbrack
    else if c = 93 then .rbrack
    else if c = 123 then .lbrace
    else if c = 125 then .rbrace
    else if c = 34 then .str
    else if c = 110 then (if inp.take 4 = gs "null" then .bnull else .terr)
    else if c = 116 then (if inp.take 4 = gs "true" then .btrue else .terr)
    else if c = 102 then (if inp.take 5 = gs "false" then .bfalse else .terr)
    else if c = 45 ∨ isDigit c then .num
    else .terr

/-- The scanner state: remaining input and the absolute offset of its
head.  Token payloads are carried on tokens rather than in the state. -/
structure Scanner : Type where
  inp : List Nat
  off : Nat
  deriving Repr, DecidableEq

def Scanner.next (s : Scanner) : Tok × Scanner :=
  let (t, rest, off) := nextTok s.inp s.off
  (t, ⟨rest, off⟩)

def Scanner.peek (s : Scanner) : TokK := peekK s.inp

/-- scanner.current(): the current byte offset. -/
def Scanner.current (s : Scanner) : Nat := s.off

/-! ## Data model (src/types.go) -/

/-- Attribute key-value pair. -/
structure KV : Type where
  key : List Nat
  value : List Nat
  deriving Repr, DecidableEq

/-- Pandoc element attributes: identifier, classes, key-value pairs. -/
structure Attr : Type where
  id : List Nat
  classes : List (List Nat)
  kvs : List KV
  deriving Repr, DecidableEq

/-- Link/image target: url and title. -/
structure Target : Type where
  url : List Nat
  title : List Nat
  deriving Repr, DecidableEq

inductive QuoteType : Type where
  | SingleQuote | DoubleQuote
  deriving Repr, DecidableEq

def QuoteType.tag : QuoteType → List Nat
  | .SingleQuote => gs "SingleQuote"
  | .DoubleQuote => gs "DoubleQuote"

inductive CitationMode : Type where
  | NormalCitation | SuppressAuthor | AuthorInText
  deriving Repr, DecidableEq

def CitationMode.tag : CitationMode → List Nat
  | .NormalCitation => gs "NormalCitation"
  | .SuppressAuthor => gs "SuppressAuthor"
  | .AuthorInText => gs "AuthorInText"

inductive MathType : Type where
  | DisplayMath | InlineMath
  deriving Repr, DecidableEq

def MathType.tag : MathType → List Nat
  | .DisplayMath => gs "DisplayMath"
  | .InlineMath => gs "InlineMath"

inductive ListNumberStyle : Type where
  | DefaultStyle | Example | Decimal | LowerRoman | UpperRoman
  | LowerAlpha | UpperAlpha
  deriving Repr, DecidableEq

def ListNumberStyle.tag : ListNumberStyle → List Nat
  | .DefaultStyle => gs "DefaultStyle"
  | .Example => gs "Example"
  | .Decimal => gs "Decimal"
  | .LowerRoman => gs "LowerRoman"
  | .UpperRoman => gs "UpperRoman"
  | .LowerAlpha => gs "LowerAlpha"
  | .UpperAlpha => gs "UpperAlpha"

inductive ListNumberDelim : Type where
  | DefaultDelim | Period | OneParen | TwoParens
  deriving Repr, DecidableEq

def ListNumberDelim.tag : ListNumberDelim → List Nat
  | .DefaultDelim => gs "DefaultDelim"
  | .Period => gs "Period"
  | .OneParen => gs "OneParen"
  | .TwoParens => gs "TwoParens"

/-- Ordered-list numbering attributes. -/
structure ListAttrs : Type where
  start : Int
  style : ListNumberStyle
  delimiter : ListNumberDelim
  deriving Repr, DecidableEq

inductive Alignment : Type where
  | AlignLeft | AlignRight | AlignCenter | AlignDefault
  deriving Repr, DecidableEq

def Alignment.tag : Alignment → List Nat
  | .AlignLeft => gs "AlignLeft"
  | .AlignRight => gs "AlignRight"
  | .AlignCenter => gs "AlignCenter"
  | .AlignDefault => gs "AlignDefault"

/-- Column width: a float64 fraction or the default marker. -/
structure ColWidth : Type where
  width : GoFloat
  isDefault : Bool
  deriving Repr, DecidableEq

/-- Column specification: alignment and width. -/
structure ColSpec : Type where
  align : Alignment
  width : ColWidth
  deriving Repr, DecidableEq

mutual

/-- Pandoc inline elements (src/types.go); the Citation fields Prefix
and Suffix are rendered pref and suff here. -/
inductive Inline : Type where
  | Str (text : List Nat)
  | Emph (inlines : List Inline)
  | Underline (inlines : List Inline)
  | Strong (inlines : List Inline)
  | Strikeout (inlines : List Inline)
  | Superscript (inlines : List Inline)
  | Subscript (inlines : List Inline)
  | SmallCaps (inlines : List Inline)
  | Quoted (quoteType : QuoteType) (inlines : List Inline)
  | Cite (citations : List Citation) (inlines : List Inline)
  | Code (attr : Attr) (text : List Nat)
  | Space
  | SoftBreak
  | LineBreak
  | Math (mathType : MathType) (text : List Nat)
  | RawInline (format : List Nat) (text : List Nat)
  | Link (attr : Attr) (inlines : List Inline) (target : Target)
  | Image (attr : Attr) (inlines : List Inline) (target : Target)
  | Note (blocks : List Block)
  | Span (attr : Attr) (inlines : List Inline)

/-- Pandoc block elements. -/
inductive Block : Type where
  | Plain (inlines : List Inline)
  | Para (inlines : List Inline)
  | LineBlock (inlines : List (List Inline))
  | CodeBlock (attr : Attr) (text : List Nat)
  | RawBlock (format : List Nat) (text : List Nat)
  | BlockQuote (blocks : List Block)
  | OrderedList (attr : ListAttrs) (items : List (List Block))
  | BulletList (items : List (List Block))
  | DefinitionList (items : List Definition)
  | HorizontalRule
  | Header (level : Int) (attr : Attr) (inlines : List Inline)
  | Table (attr : Attr) (caption : Caption) (aligns : List ColSpec)
      (head : TableHeadFoot) (bodies : List TableBody) (foot : TableHeadFoot)
  | Figure (attr : Attr) (caption : Caption) (blocks : List Block)
  | Div (attr : Attr) (blocks : List Block)

/-- A citation record. -/
inductive Citation : Type where
  | mk (id : List Nat) (pref : List Inline) (suff : List Inline)
      (mode : CitationMode) (noteNum : Int) (hash : Int)

/-- A definition-list item: term and definitions. -/
inductive Definition : Type where
  | mk (term : List Inline) (defs : List (List Block))

/-- Table/figure caption: optional short caption and long caption. -/
inductive Caption : Type where
  | mk (hasShort : Bool) (short : List Inline) (long : List Block)

inductive TableCell : Type where
  | mk (attr : Attr) (align : Alignment) (rowSpan : Int) (colSpan : Int)
      (blocks : List Block)

inductive TableRow : Type where
  | mk (attr : Attr) (cells : List TableCell)

inductive TableHeadFoot : Type where
  | mk (attr : Attr) (rows : List TableRow)

inductive TableBody : Type where
  | mk (attr : Attr) (rowHeadColumns : Int) (head : List TableRow)
      (body : List TableRow)

/-- Metadata values. -/
inductive MetaValue : Type where
  | MetaMap (entries : List MetaMapEntry)
  | MetaList (entries : List MetaValue)
  | MetaInlines (inlines : List Inline)
  | MetaBlocks (blocks : List Block)
  | MetaBool (b : Bool)
  | MetaString (s : List Nat)

/-- An entry of a metadata map (order-preserving). -/
inductive MetaMapEntry : Type where
  | mk (key : List Nat) (value : MetaValue)

end

/-- The document: ordered metadata and block sequence (the Pandoc
struct of src/types.go, which carries no version field). -/
structure Pandoc : Type where
  meta : List MetaMapEntry
  blocks : List Block

/-- The implemented pandoc-api-version constant (_Version, "1.23.1"). -/
def goVersion : List Int := [1, 23, 1]

/-! ## Writer (src/write.go) -/

/-- The characters appendQuote escapes, and the escape letter each is
written with. -/
def escOut (c : Nat) : Option Nat :=
  if c = 34 then some 34
  else if c = 92 then some 92
  else if c = 8 then some 98
  else if c = 12 then some 102
  else if c = 10 then some 110
  else if c = 13 then some 114
  else if c = 9 then some 116
  else none

/-- Body of appendQuote: escape quote, backslash and the five control
characters; all other bytes pass through. -/
def quoteBody : List Nat → List Nat
  | [] => []
  | c :: rest =>
    (match escOut c with
     | some e => [92, e]
     | none => [c]) ++ quoteBody rest

/-- appendQuote of src/write.go (JSON string with the writer's escape
set). -/
def wstr (s : List Nat) : List Nat := 34 :: quoteBody s ++ [34]

/-- strconv.AppendQuote as used by writeKey; on the key domain the
round-trip theorems admit (printable ASCII plus the seven common
escapes) Go quoting coincides with appendQuote, which is how it is
modelled here. -/
def writeKey (name : List Nat) : List Nat := wstr name ++ [58]

/-- The tagged-string form of taggedStr/tstr: left brace, "t": quoted
tag, right brace. -/
def tstr (tag : List Nat) : List Nat :=
  123 :: gs "\"t\":" ++ wstr tag ++ [125]

/-- withTag: left brace, "t": raw tag, "c": content, right brace. -/
def withTag (tag content : List Nat) : List Nat :=
  123 :: gs "\"t\":\"" ++ tag ++ gs "\",\"c\":" ++ content ++ [125]

def tuple2W (a b : List Nat) : List Nat :=
  91 :: a ++ 44 :: b ++ [93]

def tuple3W (a b c : List Nat) : List Nat :=
  91 :: a ++ 44 :: b ++ 44 :: c ++ [93]

/-- Comma-separated concatenation (the body of the generic list
writer). -/
def sepList : List (List Nat) → List Nat
  | [] => []
  | [x] => x
  | x :: xs => x ++ 44 :: sepList xs

/-- The generic list writer: bracketed, comma-separated. -/
def wlist (xs : List (List Nat)) : List Nat := 91 :: sepList xs ++ [93]

def writeKV (kv : KV) : List Nat := tuple2W (wstr kv.key) (wstr kv.value)

def writeAttr (a : Attr) : List Nat :=
  tuple3W (wstr a.id) (wlist (a.classes.map wstr)) (wlist (a.kvs.map writeKV))

def writeTarget (t : Target) : List Nat := tuple2W (wstr t.url) (wstr t.title)

def writeListAttrs (a : ListAttrs) : List Nat :=
  tuple3W (intBytes a.start) (tstr a.style.tag) (tstr a.delimiter.tag)

/-- ColWidth.write: the default marker or a tagged float. -/
def writeColWidth (c : ColWidth) : List Nat :=
  if c.isDefault then tstr (gs "ColWidthDefault")
  else appendFloat (123 :: gs "\"t\":\"ColWidth\",\"c\":") c.width ++ [125]

def writeColSpec (c : ColSpec) : List Nat :=
  tuple2W (tstr c.align.tag) (writeColWidth c.width)

set_option maxHeartbeats 2000000 in
mutual

def writeInline : Inline → List Nat
  | .Str text => withTag (gs "Str") (wstr text)
  | .Emph l => withTag (gs "Emph") ((91 :: writeInlineList l ++ [93]))
  | .Underline l => withTag (gs "Underline") ((91 :: writeInlineList l ++ [93]))
  | .Strong l => withTag (gs "Strong") ((91 :: writeInlineList l ++ [93]))
  | .Strikeout l => withTag (gs "Strikeout") ((91 :: writeInlineList l ++ [93]))
  | .Superscript l => withTag (gs "Superscript") ((91 :: writeInlineList l ++ [93]))
  | .Subscript l => withTag (gs "Subscript") ((91 :: writeInlineList l ++ [93]))
  | .SmallCaps l => withTag (gs "SmallCaps") ((91 :: writeInlineList l ++ [93]))
  | .Quoted qt l => withTag (gs "Quoted") (tuple2W (tstr qt.tag) ((91 :: writeInlineList l ++ [93])))
  | .Cite cs l => withTag (gs "Cite") (tuple2W ((91 :: writeCitationList cs ++ [93])) ((91 :: writeInlineList l ++ [93])))
  | .Code a text => withTag (gs "Code") (tuple2W (writeAttr a) (wstr text))
  | .Space => tstr (gs "Space")
  | .SoftBreak => tstr (gs "SoftBreak")
  | .LineBreak => tstr (gs "LineBreak")
  | .Math mt text => withTag (gs "Math") (tuple2W (tstr mt.tag) (wstr text))
  | .RawInline f text => withTag (gs "RawInline") (tuple2W (wstr f) (wstr text))
  | .Link a l t =>
    withTag (gs "Link") (tuple3W (writeAttr a) ((91 :: writeInlineList l ++ [93])) (writeTarget t))
  | .Image a l t =>
    withTag (gs "Image") (tuple3W (writeAttr a) ((91 :: writeInlineList l ++ [93])) (writeTarget t))
  | .Note bs => withTag (gs "Note") ((91 :: writeBlockList bs ++ [93]))
  | .Span a l => withTag (gs "Span") (tuple2W (writeAttr a) ((91 :: writeInlineList l ++ [93])))
  termination_by structural x => x

def writeInlineList : List Inline → List Nat
  | [] => []
  | [i] => writeInline i
  | i :: is => writeInline i ++ 44 :: writeInlineList is
  termination_by structural x => x

def writeInliness : List (List Inline) → List Nat
  | [] => []
  | [l] => (91 :: writeInlineList l ++ [93])
  | l :: ls => (91 :: writeInlineList l ++ [93]) ++ 44 :: writeInliness ls
  termination_by structural x => x

def writeBlock : Block → List Nat
  | .Plain l => withTag (gs "Plain") ((91 :: writeInlineList l ++ [93]))
  | .Para l => withTag (gs "Para") ((91 :: writeInlineList l ++ [93]))
  | .LineBlock ls => withTag (gs "LineBlock") (91 :: writeInliness ls ++ [93])
  | .CodeBlock a text => withTag (gs "CodeBlock") (tuple2W (writeAttr a) (wstr text))
  | .RawBlock f text => withTag (gs "RawBlock") (tuple2W (wstr f) (wstr text))
  | .BlockQuote bs => withTag (gs "BlockQuote") ((91 :: writeBlockList bs ++ [93]))
  | .OrderedList a items =>
    withTag (gs "OrderedList")
      (tuple2W (writeListAttrs a) (91 :: writeBlockss items ++ [93]))
  | .BulletList items => withTag (gs "BulletList") (91 :: writeBlockss items ++ [93])
  | .DefinitionList items => withTag (gs "DefinitionList") (91 :: writeDefs items ++ [93])
  | .HorizontalRule => tstr (gs "HorizontalRule")
  | .Header lvl a l =>
    withTag (gs "Header") (tuple3W (intBytes lvl) (writeAttr a) ((91 :: writeInlineList l ++ [93])))
  | .Table a cap aligns head bodies foot =>
    123 :: gs "\"t\":\"Table\",\"c\":[" ++
      writeAttr a ++ 44 ::
      writeCaption cap ++ 44 ::
      wlist (aligns.map writeColSpec) ++ 44 ::
      writeTHF head ++ 44 ::
      (91 :: writeBodies bodies ++ [93]) ++ 44 ::
      writeTHF foot ++ gs "]\x7d"
  | .Figure a cap bs =>
    withTag (gs "Figure") (tuple3W (writeAttr a) (writeCaption cap) ((91 :: writeBlockList bs ++ [93])))
  | .Div a bs => withTag (gs "Div") (tuple2W (writeAttr a) ((91 :: writeBlockList bs ++ [93])))
  termination_by structural x => x

def writeBlockList : List Block → List Nat
  | [] => []
  | [b] => writeBlock b
  | b :: bs => writeBlock b ++ 44 :: writeBlockList bs
  termination_by structural x => x

def writeBlockss : List (List Block) → List Nat
  | [] => []
  | [l] => (91 :: writeBlockList l ++ [93])
  | l :: ls => (91 :: writeBlockList l ++ [93]) ++ 44 :: writeBlockss ls
  termination_by structural x => x

/-- citationList: each citation as a six-field object in pinned order. -/
def writeCitation : Citation → List Nat
  | .mk id pref suff mode noteNum hash =>
    123 ::
      writeKey (gs "citationId") ++ wstr id ++ 44 ::
      writeKey (gs "citationPrefix") ++ (91 :: writeInlineList pref ++ [93]) ++ 44 ::
      writeKey (gs "citationSuffix") ++ (91 :: writeInlineList suff ++ [93]) ++ 44 ::
      writeKey (gs "citationMode") ++ tstr mode.tag ++ 44 ::
      writeKey (gs "citationNoteNum") ++ intBytes noteNum ++ 44 ::
      writeKey (gs "citationHash") ++ intBytes hash ++ [125]
  termination_by structural x => x

def writeCitationList : List Citation → List Nat
  | [] => []
  | [c] => writeCitation c
  | c :: cs => writeCitation c ++ 44 :: writeCitationList cs
  termination_by structural x => x

def writeDef : Definition → List Nat
  | .mk term defs => tuple2W ((91 :: writeInlineList term ++ [93])) (91 :: writeBlockss defs ++ [93])
  termination_by structural x => x

def writeDefs : List Definition → List Nat
  | [] => []
  | [d] => writeDef d
  | d :: ds => writeDef d ++ 44 :: writeDefs ds
  termination_by structural x => x

def writeCaption : Caption → List Nat
  | .mk hasShort short long =>
    tuple2W (if hasShort then (91 :: writeInlineList short ++ [93]) else gs "null") ((91 :: writeBlockList long ++ [93]))
  termination_by structural x => x

def writeCell : TableCell → List Nat
  | .mk a align rowSpan colSpan blocks =>
    91 :: writeAttr a ++ 44 :: tstr align.tag ++ 44 :: intBytes rowSpan ++ 44 ::
      intBytes colSpan ++ 44 :: (91 :: writeBlockList blocks ++ [93]) ++ [93]
  termination_by structural x => x

def writeCellList : List TableCell → List Nat
  | [] => []
  | [c] => writeCell c
  | c :: cs => writeCell c ++ 44 :: writeCellList cs
  termination_by structural x => x

def writeRow : TableRow → List Nat
  | .mk a cells => tuple2W (writeAttr a) (91 :: writeCellList cells ++ [93])
  termination_by structural x => x

def writeRowList : List TableRow → List Nat
  | [] => []
  | [r] => writeRow r
  | r :: rs => writeRow r ++ 44 :: writeRowList rs
  termination_by structural x => x

def writeTHF : TableHeadFoot → List Nat
  | .mk a rows => tuple2W (writeAttr a) (91 :: writeRowList rows ++ [93])
  termination_by structural x => x

def writeBody : TableBody → List Nat
  | .mk a rhc head body =>
    91 :: writeAttr a ++ 44 :: intBytes rhc ++ 44 ::
      (91 :: writeRowList head ++ [93]) ++ 44 ::
      (91 :: writeRowList body ++ [93]) ++ [93]
  termination_by structural x => x

def writeBodies : List TableBody → List Nat
  | [] => []
  | [b] => writeBody b
  | b :: bs => writeBody b ++ 44 :: writeBodies bs
  termination_by structural x => x

/-- The tagged metadata-value wrapper (mv/metaValue.write). -/
def writeMetaValue : MetaValue → List Nat
  | .MetaMap entries => withTag (gs "MetaMap") (123 :: writeMetaEntries entries ++ [125])
  | .MetaList entries => withTag (gs "MetaList") (91 :: writeMetaList entries ++ [93])
  | .MetaInlines l => withTag (gs "MetaInlines") ((91 :: writeInlineList l ++ [93]))
  | .MetaBlocks bs => withTag (gs "MetaBlocks") ((91 :: writeBlockList bs ++ [93]))
  | .MetaBool b => withTag (gs "MetaBool") (if b then gs "true" else gs "false")
  | .MetaString s => withTag (gs "MetaString") (wstr s)
  termination_by structural x => x

def writeMetaList : List MetaValue → List Nat
  | [] => []
  | [m] => writeMetaValue m
  | m :: ms => writeMetaValue m ++ 44 :: writeMetaList ms
  termination_by structural x => x

def writeMetaEntry : MetaMapEntry → List Nat
  | .mk key value => writeKey key ++ writeMetaValue value
  termination_by structural x => x

def writeMetaEntries : List MetaMapEntry → List Nat
  | [] => []
  | [e] => writeMetaEntry e
  | e :: es => writeMetaEntry e ++ 44 :: writeMetaEntries es
  termination_by structural x => x

end

/-- The generic list writer instances (bracketed bodies). -/
def writeInlines (l : List Inline) : List Nat := 91 :: writeInlineList l ++ [93]

def writeBlocks (l : List Block) : List Nat := 91 :: writeBlockList l ++ [93]

def writeCitations (cs : List Citation) : List Nat :=
  91 :: writeCitationList cs ++ [93]

/-- The metadata map writer (Meta/MetaMap.write layout). -/
def writeMeta (m : List MetaMapEntry) : List Nat :=
  123 :: writeMetaEntries m ++ [125]

/-- Modelled from the spec: the top-level document writer for the
Pandoc struct is not under src (src/write.go carries the Doc-revision
writer, whose document type has an explicit Version field).  Per the
spec's wire format the writer emits a single object with the keys
pandoc-api-version (the implemented version constant, since Pandoc
carries no version field), meta and blocks, in that order, with no
added whitespace — exactly the layout of Doc.write in src/write.go. -/
def writePandoc (p : Pandoc) : List Nat :=
  123 :: writeKey (gs "pandoc-api-version") ++
    (91 :: sepList (goVersion.map intBytes) ++ [93]) ++ 44 ::
    writeKey (gs "meta") ++ writeMeta p.meta ++ 44 ::
    writeKey (gs "blocks") ++ writeBlocks p.blocks ++ [125]

/-! ## Reader (src parser: readInline, readBlock, ReadFrom, ...) -/

/-- The errorf sites of the parser, each carrying the data its format
arguments carry.  errorf panics in the Go source; the constructors
below therefore mark aborts that surface as panics, not returned
errors. -/
inductive ESite : Type where
  | unknownPandocField (key : List Nat)
  | unsupportedVersion (v : List Int)
  | expectedStringTok
  | expectedTag
  | unknownInlineType (tag : List Nat)
  | unknownBlockType (tag : List Nat)
  | unknownMetaType (tag : List Nat)
  | unknownColWidthType (tag : List Nat)
  | unknownCitationField (key : List Nat)
  | expectedCommaOrRBrack (got : TokK) (off : Nat)
  | expectedNull (got : TokK) (off : Nat)
  | expectedBool (got : TokK) (off : Nat)
  | expectedOneOfTags (tag : List Nat)
  | expectedCommaOrRBraceMeta (got : TokK)
  deriving Repr, DecidableEq

/-- Reader-level failure.  expectErr is the returned error of
scanner.expect when the lookahead is the error token; expectPanic is
the panic it raises on any other token mismatch; errorf wraps the
parser's errorf panics; swallowed is a model-only marker for the corner
in which scanner.expect sees the right lookahead kind but the token
then fails to scan — the Go code continues with corrupted scanner state
there, which no theorem in this file exercises; fuelOut is the
model-only recursion bound. -/
inductive Err : Type where
  | expectErr (want : TokK) (off : Nat)
  | expectPanic (want : TokK) (got : TokK) (off : Nat)
  | expectString (want : List Nat) (off : Nat)
  | swallowed (want : TokK) (e : ScanErr)
  | errorf (site : ESite)
  | fuelOut
  deriving Repr, DecidableEq

/-- The byte offset after pending whitespace (what Go's p.off+p.pos is
right after a peek). -/
def Scanner.peekOff (s : Scanner) : Nat := (skipWs s.inp s.off).2

/-- scanner.expect, returning the scanned token on success. -/
def expectTok (k : TokK) (s : Scanner) : Except Err (Tok × Scanner) :=
  let t := s.peek
  if t = k then
    let (tok, s') := s.next
    if tok.kind = k then .ok (tok, s')
    else
      .error (.swallowed k (match tok with
        | .terr e => e
        | _ => .unexpectedEOF s'.off))
  else if t = .terr then .error (.expectErr k s.peekOff)
  else .error (.expectPanic k t s.peekOff)

/-- scanner.expect when only the consumed state matters. -/
def expect (k : TokK) (s : Scanner) : Except Err Scanner :=
  match expectTok k s with
  | .ok (_, s') => .ok s'
  | .error e => .error e

/-- scanner.expectString: expects a string token with exactly the given
decoded content. -/
def expectStringF (target : List Nat) (s : Scanner) : Except Err Scanner :=
  let t := s.peek
  if t = .str then
    let o := s.peekOff
    let (tok, s') := s.next
    match tok with
    | .str v _ => if v = target then .ok s' else .error (.expectString target o)
    | .terr e => .error (.swallowed .str e)
    | _ => .error (.swallowed .str (.unexpectedEOF o))
  else .error (.expectString target s.peekOff)

/-- readString: expect a string token and return its decoded bytes. -/
def readString (s : Scanner) : Except Err (List Nat × Scanner) :=
  match expectTok .str s with
  | .ok (.str v _, s') => .ok (v, s')
  | .ok (_, s') => .error (.swallowed .str (.unexpectedEOF s'.off))
  | .error e => .error e

/-- readString keeping the inBuf flag (for tag and key dispatch). -/
def readStringB (s : Scanner) : Except Err ((List Nat × Bool) × Scanner) :=
  match expectTok .str s with
  | .ok (.str v b, s') => .ok ((v, b), s')
  | .ok (_, s') => .error (.swallowed .str (.unexpectedEOF s'.off))
  | .error e => .error e

/-- readInt. -/
def readInt (s : Scanner) : Except Err (Int × Scanner) :=
  match expectTok .num s with
  | .ok (.num v, s') => .ok (v.toInt, s')
  | .ok (_, s') => .error (.swallowed .num (.unexpectedEOF s'.off))
  | .error e => .error e

/-- readFloat. -/
def readFloat (s : Scanner) : Except Err (GoFloat × Scanner) :=
  match expectTok .num s with
  | .ok (.num v, s') => .ok (v.toFloat, s')
  | .ok (_, s') => .error (.swallowed .num (.unexpectedEOF s'.off))
  | .error e => .error e

/-- readNull. -/
def readNull (s : Scanner) : Except Err Scanner :=
  let off := s.current
  let (tok, s') := s.next
  if tok.kind = .bnull then .ok s'
  else .error (.errorf (.expectedNull tok.kind off))

/-- readBool. -/
def readBool (s : Scanner) : Except Err (Bool × Scanner) :=
  let off := s.current
  let (tok, s') := s.next
  if tok.kind = .btrue then .ok (true, s')
  else if tok.kind = .bfalse then .ok (false, s')
  else .error (.errorf (.expectedBool tok.kind off))

/-- readTags: reads a bare tagged object and dispatches the tag over
the recognised set. -/
def readTagged {α : Type} (tags : List (List Nat × α)) (s : Scanner) :
    Except Err (α × Scanner) :=
  match expect .lbrace s with
  | .error e => .error e
  | .ok s =>
    match expectStringF (gs "t") s with
    | .error e => .error e
    | .ok s =>
      match expect .colon s with
      | .error e => .error e
      | .ok s =>
        match readStringB s with
        | .error e => .error e
        | .ok ((v, inBuf), s) =>
          if ¬ inBuf then .error (.errorf (.expectedOneOfTags v))
          else
            match tags.lookup v with
            | none => .error (.errorf (.expectedOneOfTags v))
            | some a =>
              match expect .rbrace s with
              | .error e => .error e
              | .ok s => .ok (a, s)

def readQuoteType : Scanner → Except Err (QuoteType × Scanner) :=
  readTagged [(gs "SingleQuote", .SingleQuote), (gs "DoubleQuote", .DoubleQuote)]

def readMathType : Scanner → Except Err (MathType × Scanner) :=
  readTagged [(gs "DisplayMath", .DisplayMath), (gs "InlineMath", .InlineMath)]

def readCitationMode : Scanner → Except Err (CitationMode × Scanner) :=
  readTagged [(gs "AuthorInText", .AuthorInText),
    (gs "SuppressAuthor", .SuppressAuthor),
    (gs "NormalCitation", .NormalCitation)]

def readListNumberStyle : Scanner → Except Err (ListNumberStyle × Scanner) :=
  readTagged [(gs "DefaultStyle", .DefaultStyle), (gs "Example", .Example),
    (gs "Decimal", .Decimal), (gs "LowerRoman", .LowerRoman),
    (gs "UpperRoman", .UpperRoman), (gs "LowerAlpha", .LowerAlpha),
    (gs "UpperAlpha", .UpperAlpha)]

def readListNumberDelim : Scanner → Except Err (ListNumberDelim × Scanner) :=
  readTagged [(gs "DefaultDelim", .DefaultDelim), (gs "Period", .Period),
    (gs "OneParen", .OneParen), (gs "TwoParens", .TwoParens)]

def readAlignment : Scanner → Except Err (Alignment × Scanner) :=
  readTagged [(gs "AlignLeft", .AlignLeft), (gs "AlignRight", .AlignRight),
    (gs "AlignCenter", .AlignCenter), (gs "AlignDefault", .AlignDefault)]

/-- The shared prefix of readObj: comma, the "c" key, colon. -/
def readObjPre (s : Scanner) : Except Err Scanner := do
  let s ← expect .comma s
  let s ← expectStringF (gs "c") s
  expect .colon s

/-- The shared prefix of the tagged-object dispatchers: left brace, the
"t" key, colon, and the tag string with its inBuf flag. -/
def readTagPre (s : Scanner) : Except Err ((List Nat × Bool) × Scanner) := do
  let s ← expect .lbrace s
  let s ← expectStringF (gs "t") s
  let s ← expect .colon s
  readStringB s

/-- listr(readString) loop body (after the opening bracket). -/
def readStringListLoop : Nat → Scanner → Except Err (List (List Nat) × Scanner)
  | 0, _ => .error .fuelOut
  | fuel + 1, s =>
    if s.peek = .rbrack then .ok ([], (s.next).2)
    else do
      let (v, s) ← readString s
      let off := s.current
      let (tok, s) := s.next
      if tok.kind = .rbrack then .ok ([v], s)
      else if tok.kind = .comma then do
        let (rest, s) ← readStringListLoop fuel s
        .ok (v :: rest, s)
      else .error (.errorf (.expectedCommaOrRBrack tok.kind off))

def readStringList (fuel : Nat) (s : Scanner) :
    Except Err (List (List Nat) × Scanner) := do
  let s ← expect .lbrack s
  readStringListLoop fuel s

/-- readAttrKV. -/
def readAttrKV (s : Scanner) : Except Err (KV × Scanner) := do
  let s ← expect .lbrack s
  let (key, s) ← readString s
  let s ← expect .comma s
  let (value, s) ← readString s
  let s ← expect .rbrack s
  .ok (⟨key, value⟩, s)

def readKVListLoop : Nat → Scanner → Except Err (List KV × Scanner)
  | 0, _ => .error .fuelOut
  | fuel + 1, s =>
    if s.peek = .rbrack then .ok ([], (s.next).2)
    else do
      let (v, s) ← readAttrKV s
      let off := s.current
      let (tok, s) := s.next
      if tok.kind = .rbrack then .ok ([v], s)
      else if tok.kind = .comma then do
        let (rest, s) ← readKVListLoop fuel s
        .ok (v :: rest, s)
      else .error (.errorf (.expectedCommaOrRBrack tok.kind off))

/-- readAttr: identifier, classes, key-value pairs as a 3-tuple. -/
def readAttr (fuel : Nat) (s : Scanner) : Except Err (Attr × Scanner) := do
  let s ← expect .lbrack s
  let (id, s) ← readString s
  let s ← expect .comma s
  let s ← expect .lbrack s
  let (classes, s) ← readStringListLoop fuel s
  let s ← expect .comma s
  let s ← expect .lbrack s
  let (kvs, s) ← readKVListLoop fuel s
  let s ← expect .rbrack s
  .ok (⟨id, classes, kvs⟩, s)

/-- readTarget. -/
def readTarget (s : Scanner) : Except Err (Target × Scanner) := do
  let s ← expect .lbrack s
  let (url, s) ← readString s
  let s ← expect .comma s
  let (title, s) ← readString s
  let s ← expect .rbrack s
  .ok (⟨url, title⟩, s)

/-- readListAttr. -/
def readListAttr (s : Scanner) : Except Err (ListAttrs × Scanner) := do
  let s ← expect .lbrack s
  let (start, s) ← readInt s
  let s ← expect .comma s
  let (style, s) ← readListNumberStyle s
  let s ← expect .comma s
  let (delim, s) ← readListNumberDelim s
  let s ← expect .rbrack s
  .ok (⟨start, style, delim⟩, s)

/-- readColWidth: the default marker or a tagged float. -/
def readColWidth (s : Scanner) : Except Err (ColWidth × Scanner) := do
  let ((tag, inBuf), s) ← readTagPre s
  if ¬ inBuf then .error (.errorf .expectedTag)
  else if tag = gs "ColWidthDefault" then do
    let s ← expect .rbrace s
    .ok (⟨GoFloat.zero, true⟩, s)
  else if tag = gs "ColWidth" then do
    let s ← readObjPre s
    let (w, s) ← readFloat s
    let s ← expect .rbrace s
    .ok (⟨w, false⟩, s)
  else .error (.errorf (.unknownColWidthType tag))

/-- readColSpec. -/
def readColSpec (s : Scanner) : Except Err (ColSpec × Scanner) := do
  let s ← expect .lbrack s
  let (align, s) ← readAlignment s
  let s ← expect .comma s
  let (width, s) ← readColWidth s
  let s ← expect .rbrack s
  .ok (⟨align, width⟩, s)

def readColSpecListLoop : Nat → Scanner → Except Err (List ColSpec × Scanner)
  | 0, _ => .error .fuelOut
  | fuel + 1, s =>
    if s.peek = .rbrack then .ok ([], (s.next).2)
    else do
      let (v, s) ← readColSpec s
      let off := s.current
      let (tok, s) := s.next
      if tok.kind = .rbrack then .ok ([v], s)
      else if tok.kind = .comma then do
        let (rest, s) ← readColSpecListLoop fuel s
        .ok (v :: rest, s)
      else .error (.errorf (.expectedCommaOrRBrack tok.kind off))

/-- readCode (no recursion into the node model). -/
def readCode (fuel : Nat) (s : Scanner) : Except Err (Inline × Scanner) := do
  let s ← readObjPre s
  let s ← expect .lbrack s
  let (attr, s) ← readAttr fuel s
  let s ← expect .comma s
  let (text, s) ← readString s
  let s ← expect .rbrack s
  let s ← expect .rbrace s
  .ok (.Code attr text, s)

/-- readMath. -/
def readMath (s : Scanner) : Except Err (Inline × Scanner) := do
  let s ← readObjPre s
  let s ← expect .lbrack s
  let (mt, s) ← readMathType s
  let s ← expect .comma s
  let (text, s) ← readString s
  let s ← expect .rbrack s
  let s ← expect .rbrace s
  .ok (.Math mt text, s)

/-- readRawInline. -/
def readRawInline (s : Scanner) : Except Err (Inline × Scanner) := do
  let s ← readObjPre s
  let s ← expect .lbrack s
  let (format, s) ← readString s
  let s ← expect .comma s
  let (text, s) ← readString s
  let s ← expect .rbrack s
  let s ← expect .rbrace s
  .ok (.RawInline format text, s)

/-- readCodeBlock. -/
def readCodeBlock (fuel : Nat) (s : Scanner) : Except Err (Block × Scanner) := do
  let s ← readObjPre s
  let s ← expect .lbrack s
  let (attr, s) ← readAttr fuel s
  let s ← expect .comma s
  let (text, s) ← readString s
  let s ← expect .rbrack s
  let s ← expect .rbrace s
  .ok (.CodeBlock attr text, s)

/-- readRawBlock. -/
def readRawBlock (s : Scanner) : Except Err (Block × Scanner) := do
  let s ← readObjPre s
  let s ← expect .lbrack s
  let (format, s) ← readString s
  let s ← expect .comma s
  let (text, s) ← readString s
  let s ← expect .rbrack s
  let s ← expect .rbrace s
  .ok (.RawBlock format text, s)

set_option maxHeartbeats 4000000 in
mutual

/-- readInline: tag dispatch over the inline variants. -/
def readInline : Nat → Scanner → Except Err (Inline × Scanner)
  | 0, _ => .error .fuelOut
  | fuel + 1, s => do
    let ((tag, inBuf), s) ← readTagPre s
    if ¬ inBuf then .error (.errorf .expectedTag)
    else if tag = gs "Space" then do
      let s ← expect .rbrace s
      .ok (.Space, s)
    else if tag = gs "SoftBreak" then do
      let s ← expect .rbrace s
      .ok (.SoftBreak, s)
    else if tag = gs "LineBreak" then do
      let s ← expect .rbrace s
      .ok (.LineBreak, s)
    else if tag = gs "Str" then do
      let s ← readObjPre s
      let (text, s) ← readString s
      let s ← expect .rbrace s
      .ok (.Str text, s)
    else if tag = gs "Emph" then readWrap Inline.Emph fuel s
    else if tag = gs "Underline" then readWrap Inline.Underline fuel s
    else if tag = gs "Strong" then readWrap Inline.Strong fuel s
    else if tag = gs "Strikeout" then readWrap Inline.Strikeout fuel s
    else if tag = gs "Superscript" then readWrap Inline.Superscript fuel s
    else if tag = gs "Subscript" then readWrap Inline.Subscript fuel s
    else if tag = gs "SmallCaps" then readWrap Inline.SmallCaps fuel s
    else if tag = gs "Quoted" then readQuoted fuel s
    else if tag = gs "Code" then readCode fuel s
    else if tag = gs "Span" then readSpan fuel s
    else if tag = gs "RawInline" then readRawInline s
    else if tag = gs "Math" then readMath s
    else if tag = gs "Cite" then readCite fuel s
    else if tag = gs "Link" then readLink fuel s
    else if tag = gs "Image" then readImage fuel s
    else if tag = gs "Note" then readNote fuel s
    else .error (.errorf (.unknownInlineType tag))

/-- The shared shape of readEmph/readUnderline/…: a tagged object whose
content is a list of inlines. -/
def readWrap : (List Inline → Inline) → Nat → Scanner → Except Err (Inline × Scanner)
  | _, 0, _ => .error .fuelOut
  | mk, fuel + 1, s => do
    let s ← readObjPre s
    let (l, s) ← readInlineList fuel s
    let s ← expect .rbrace s
    .ok (mk l, s)

def readQuoted : Nat → Scanner → Except Err (Inline × Scanner)
  | 0, _ => .error .fuelOut
  | fuel + 1, s => do
    let s ← readObjPre s
    let s ← expect .lbrack s
    let (qt, s) ← readQuoteType s
    let s ← expect .comma s
    let (l, s) ← readInlineList fuel s
    let s ← expect .rbrack s
    let s ← expect .rbrace s
    .ok (.Quoted qt l, s)

def readSpan : Nat → Scanner → Except Err (Inline × Scanner)
  | 0, _ => .error .fuelOut
  | fuel + 1, s => do
    let s ← readObjPre s
    let s ← expect .lbrack s
    let (attr, s) ← readAttr fuel s
    let s ← expect .comma s
    let (l, s) ← readInlineList fuel s
    let s ← expect .rbrack s
    let s ← expect .rbrace s
    .ok (.Span attr l, s)

def readCite : Nat → Scanner → Except Err (Inline × Scanner)
  | 0, _ => .error .fuelOut
  | fuel + 1, s => do
    let s ← readObjPre s
    let s ← expect .lbrack s
    let s ← expect .lbrack s
    let (cs, s) ← readCitationListLoop fuel s
    let s ← expect .comma s
    let (l, s) ← readInlineList fuel s
    let s ← expect .rbrack s
    let s ← expect .rbrace s
    .ok (.Cite cs l, s)

/-- readCitation: a six-field object in any key order, fields
accumulated over a zero citation (the zero CitationMode is modelled as
NormalCitation; Go's zero value is the empty tag string, which no
input of the round-trip domain produces). -/
def readCitationLoop :
    Nat → Nat →
    List Nat → List Inline → List Inline → CitationMode → Int → Int →
    Scanner → Except Err (Citation × Scanner)
  | 0, _, _, _, _, _, _, _, _ => .error .fuelOut
  | _ + 1, 0, id, pref, suff, mode, nn, h, s =>
    .ok (.mk id pref suff mode nn h, s)
  | fuel + 1, i + 1, id, pref, suff, mode, nn, h, s => do
    let ((key, inBuf), s) ← readStringB s
    if ¬ inBuf then .error (.errorf .expectedStringTok)
    else if key = gs "citationId" then do
      let s ← expect .colon s
      let (v, s) ← readString s
      let s ← expect (if i = 0 then .rbrace else .comma) s
      readCitationLoop fuel i v pref suff mode nn h s
    else if key = gs "citationPrefix" then do
      let s ← expect .colon s
      let s ← expect .lbrack s
      let (v, s) ← readInlineListLoop fuel s
      let s ← expect (if i = 0 then .rbrace else .comma) s
      readCitationLoop fuel i id v suff mode nn h s
    else if key = gs "citationSuffix" then do
      let s ← expect .colon s
      let s ← expect .lbrack s
      let (v, s) ← readInlineListLoop fuel s
      let s ← expect (if i = 0 then .rbrace else .comma) s
      readCitationLoop fuel i id pref v mode nn h s
    else if key = gs "citationMode" then do
      let s ← expect .colon s
      let (v, s) ← readCitationMode s
      let s ← expect (if i = 0 then .rbrace else .comma) s
      readCitationLoop fuel i id pref suff v nn h s
    else if key = gs "citationNoteNum" then do
      let s ← expect .colon s
      let (v, s) ← readInt s
      let s ← expect (if i = 0 then .rbrace else .comma) s
      readCitationLoop fuel i id pref suff mode v h s
    else if key = gs "citationHash" then do
      let s ← expect .colon s
      let (v, s) ← readInt s
      let s ← expect (if i = 0 then .rbrace else .comma) s
      readCitationLoop fuel i id pref suff mode nn v s
    else .error (.errorf (.unknownCitationField key))

def readCitation : Nat → Scanner → Except Err (Citation × Scanner)
  | 0, _ => .error .fuelOut
  | fuel + 1, s => do
    let s ← expect .lbrace s
    readCitationLoop fuel 6 [] [] [] .NormalCitation 0 0 s

def readCitationListLoop : Nat → Scanner → Except Err (List Citation × Scanner)
  | 0, _ => .error .fuelOut
  | fuel + 1, s =>
    if s.peek = .rbrack then .ok ([], (s.next).2)
    else do
      let (v, s) ← readCitation fuel s
      let off := s.current
      let (tok, s) := s.next
      if tok.kind = .rbrack then .ok ([v], s)
      else if tok.kind = .comma then do
        let (rest, s) ← readCitationListLoop fuel s
        .ok (v :: rest, s)
      else .error (.errorf (.expectedCommaOrRBrack tok.kind off))

def readLink : Nat → Scanner → Except Err (Inline × Scanner)
  | 0, _ => .error .fuelOut
  | fuel + 1, s => do
    let s ← readObjPre s
    let s ← expect .lbrack s
    let (attr, s) ← readAttr fuel s
    let s ← expect .comma s
    let (l, s) ← readInlineList fuel s
    let s ← expect .comma s
    let (t, s) ← readTarget s
    let s ← expect .rbrack s
    let s ← expect .rbrace s
    .ok (.Link attr l t, s)

def readImage : Nat → Scanner → Except Err (Inline × Scanner)
  | 0, _ => .error .fuelOut
  | fuel + 1, s => do
    let s ← readObjPre s
    let s ← expect .lbrack s
    let (attr, s) ← readAttr fuel s
    let s ← expect .comma s
    let (l, s) ← readInlineList fuel s
    let s ← expect .comma s
    let (t, s) ← readTarget s
    let s ← expect .rbrack s
    let s ← expect .rbrace s
    .ok (.Image attr l t, s)

def readNote : Nat → Scanner → Except Err (Inline × Scanner)
  | 0, _ => .error .fuelOut
  | fuel + 1, s => do
    let s ← readObjPre s
    let (bs, s) ← readBlockList fuel s
    let s ← expect .rbrace s
    .ok (.Note bs, s)

def readInlineListLoop : Nat → Scanner → Except Err (List Inline × Scanner)
  | 0, _ => .error .fuelOut
  | fuel + 1, s =>
    if s.peek = .rbrack then .ok ([], (s.next).2)
    else do
      let (v, s) ← readInline fuel s
      let off := s.current
      let (tok, s) := s.next
      if tok.kind = .rbrack then .ok ([v], s)
      else if tok.kind = .comma then do
        let (rest, s) ← readInlineListLoop fuel s
        .ok (v :: rest, s)
      else .error (.errorf (.expectedCommaOrRBrack tok.kind off))

def readInlineList : Nat → Scanner → Except Err (List Inline × Scanner)
  | 0, _ => .error .fuelOut
  | fuel + 1, s => do
    let s ← expect .lbrack s
    readInlineListLoop fuel s

def readInlinessLoop : Nat → Scanner → Except Err (List (List Inline) × Scanner)
  | 0, _ => .error .fuelOut
  | fuel + 1, s =>
    if s.peek = .rbrack then .ok ([], (s.next).2)
    else do
      let (v, s) ← readInlineList fuel s
      let off := s.current
      let (tok, s) := s.next
      if tok.kind = .rbrack then .ok ([v], s)
      else if tok.kind = .comma then do
        let (rest, s) ← readInlinessLoop fuel s
        .ok (v :: rest, s)
      else .error (.errorf (.expectedCommaOrRBrack tok.kind off))

/-- readBlock: tag dispatch over the block variants. -/
def readBlock : Nat → Scanner → Except Err (Block × Scanner)
  | 0, _ => .error .fuelOut
  | fuel + 1, s => do
    let ((tag, inBuf), s) ← readTagPre s
    if ¬ inBuf then .error (.errorf .expectedTag)
    else if tag = gs "HorizontalRule" then do
      let s ← expect .rbrace s
      .ok (.HorizontalRule, s)
    else if tag = gs "Plain" then do
      let s ← readObjPre s
      let (l, s) ← readInlineList fuel s
      let s ← expect .rbrace s
      .ok (.Plain l, s)
    else if tag = gs "Para" then do
      let s ← readObjPre s
      let (l, s) ← readInlineList fuel s
      let s ← expect .rbrace s
      .ok (.Para l, s)
    else if tag = gs "Header" then readHeader fuel s
    else if tag = gs "CodeBlock" then readCodeBlock fuel s
    else if tag = gs "Div" then readDiv fuel s
    else if tag = gs "LineBlock" then do
      let s ← readObjPre s
      let s ← expect .lbrack s
      let (ls, s) ← readInlinessLoop fuel s
      let s ← expect .rbrace s
      .ok (.LineBlock ls, s)
    else if tag = gs "RawBlock" then readRawBlock s
    else if tag = gs "Figure" then readFigure fuel s
    else if tag = gs "Table" then readTable fuel s
    else if tag = gs "DefinitionList" then do
      let s ← readObjPre s
      let s ← expect .lbrack s
      let (items, s) ← readDefListLoop fuel s
      let s ← expect .rbrace s
      .ok (.DefinitionList items, s)
    else if tag = gs "BulletList" then do
      let s ← readObjPre s
      let s ← expect .lbrack s
      let (items, s) ← readBlockssLoop fuel s
      let s ← expect .rbrace s
      .ok (.BulletList items, s)
    else if tag = gs "OrderedList" then readOrderedList fuel s
    else if tag = gs "BlockQuote" then do
      let s ← readObjPre s
      let (bs, s) ← readBlockList fuel s
      let s ← expect .rbrace s
      .ok (.BlockQuote bs, s)
    else .error (.errorf (.unknownBlockType tag))

def readHeader : Nat → Scanner → Except Err (Block × Scanner)
  | 0, _ => .error .fuelOut
  | fuel + 1, s => do
    let s ← readObjPre s
    let s ← expect .lbrack s
    let (lvl, s) ← readInt s
    let s ← expect .comma s
    let (attr, s) ← readAttr fuel s
    let s ← expect .comma s
    let (l, s) ← readInlineList fuel s
    let s ← expect .rbrack s
    let s ← expect .rbrace s
    .ok (.Header lvl attr l, s)

def readDiv : Nat → Scanner → Except Err (Block × Scanner)
  | 0, _ => .error .fuelOut
  | fuel + 1, s => do
    let s ← readObjPre s
    let s ← expect .lbrack s
    let (attr, s) ← readAttr fuel s
    let s ← expect .comma s
    let (bs, s) ← readBlockList fuel s
    let s ← expect .rbrack s
    let s ← expect .rbrace s
    .ok (.Div attr bs, s)

def readFigure : Nat → Scanner → Except Err (Block × Scanner)
  | 0, _ => .error .fuelOut
  | fuel + 1, s => do
    let s ← readObjPre s
    let s ← expect .lbrack s
    let (attr, s) ← readAttr fuel s
    let s ← expect .comma s
    let (cap, s) ← readCaption fuel s
    let s ← expect .comma s
    let (bs, s) ← readBlockList fuel s
    let s ← expect .rbrack s
    let s ← expect .rbrace s
    .ok (.Figure attr cap bs, s)

def readOrderedList : Nat → Scanner → Except Err (Block × Scanner)
  | 0, _ => .error .fuelOut
  | fuel + 1, s => do
    let s ← readObjPre s
    let s ← expect .lbrack s
    let (attr, s) ← readListAttr s
    let s ← expect .comma s
    let s ← expect .lbrack s
    let (items, s) ← readBlockssLoop fuel s
    let s ← expect .rbrack s
    let s ← expect .rbrace s
    .ok (.OrderedList attr items, s)

def readTable : Nat → Scanner → Except Err (Block × Scanner)
  | 0, _ => .error .fuelOut
  | fuel + 1, s => do
    let s ← readObjPre s
    let s ← expect .lbrack s
    let (attr, s) ← readAttr fuel s
    let s ← expect .comma s
    let (cap, s) ← readCaption fuel s
    let s ← expect .comma s
    let s ← expect .lbrack s
    let (aligns, s) ← readColSpecListLoop fuel s
    let s ← expect .comma s
    let (head, s) ← readTableHeadFoot fuel s
    let s ← expect .comma s
    let s ← expect .lbrack s
    let (bodies, s) ← readBodyListLoop fuel s
    let s ← expect .comma s
    let (foot, s) ← readTableHeadFoot fuel s
    let s ← expect .rbrack s
    let s ← expect .rbrace s
    .ok (.Table attr cap aligns head bodies foot, s)

def readCaption : Nat → Scanner → Except Err (Caption × Scanner)
  | 0, _ => .error .fuelOut
  | fuel + 1, s => do
    let s ← expect .lbrack s
    if s.peek = .bnull then do
      let s ← readNull s
      let s ← expect .comma s
      let (long, s) ← readBlockList fuel s
      let s ← expect .rbrack s
      .ok (.mk false [] long, s)
    else do
      let (short, s) ← readInlineList fuel s
      let s ← expect .comma s
      let (long, s) ← readBlockList fuel s
      let s ← expect .rbrack s
      .ok (.mk true short long, s)

def readTableCell : Nat → Scanner → Except Err (TableCell × Scanner)
  | 0, _ => .error .fuelOut
  | fuel + 1, s => do
    let s ← expect .lbrack s
    let (attr, s) ← readAttr fuel s
    let s ← expect .comma s
    let (align, s) ← readAlignment s
    let s ← expect .comma s
    let (rowSpan, s) ← readInt s
    let s ← expect .comma s
    let (colSpan, s) ← readInt s
    let s ← expect .comma s
    let (bs, s) ← readBlockList fuel s
    let s ← expect .rbrack s
    .ok (.mk attr align rowSpan colSpan bs, s)

def readCellListLoop : Nat → Scanner → Except Err (List TableCell × Scanner)
  | 0, _ => .error .fuelOut
  | fuel + 1, s =>
    if s.peek = .rbrack then .ok ([], (s.next).2)
    else do
      let (v, s) ← readTableCell fuel s
      let off := s.current
      let (tok, s) := s.next
      if tok.kind = .rbrack then .ok ([v], s)
      else if tok.kind = .comma then do
        let (rest, s) ← readCellListLoop fuel s
        .ok (v :: rest, s)
      else .error (.errorf (.expectedCommaOrRBrack tok.kind off))

def readTableRow : Nat → Scanner → Except Err (TableRow × Scanner)
  | 0, _ => .error .fuelOut
  | fuel + 1, s => do
    let s ← expect .lbrack s
    let (attr, s) ← readAttr fuel s
    let s ← expect .comma s
    let s ← expect .lbrack s
    let (cells, s) ← readCellListLoop fuel s
    let s ← expect .rbrack s
    .ok (.mk attr cells, s)

def readRowListLoop : Nat → Scanner → Except Err (List TableRow × Scanner)
  | 0, _ => .error .fuelOut
  | fuel + 1, s =>
    if s.peek = .rbrack then .ok ([], (s.next).2)
    else do
      let (v, s) ← readTableRow fuel s
      let off := s.current
      let (tok, s) := s.next
      if tok.kind = .rbrack then .ok ([v], s)
      else if tok.kind = .comma then do
        let (rest, s) ← readRowListLoop fuel s
        .ok (v :: rest, s)
      else .error (.errorf (.expectedCommaOrRBrack tok.kind off))

def readTableHeadFoot : Nat → Scanner → Except Err (TableHeadFoot × Scanner)
  | 0, _ => .error .fuelOut
  | fuel + 1, s => do
    let s ← expect .lbrack s
    let (attr, s) ← readAttr fuel s
    let s ← expect .comma s
    let s ← expect .lbrack s
    let (rows, s) ← readRowListLoop fuel s
    let s ← expect .rbrack s
    .ok (.mk attr rows, s)

def readTableBody : Nat → Scanner → Except Err (TableBody × Scanner)
  | 0, _ => .error .fuelOut
  | fuel + 1, s => do
    let s ← expect .lbrack s
    let (attr, s) ← readAttr fuel s
    let s ← expect .comma s
    let (rhc, s) ← readInt s
    let s ← expect .comma s
    let s ← expect .lbrack s
    let (head, s) ← readRowListLoop fuel s
    let s ← expect .comma s
    let s ← expect .lbrack s
    let (body, s) ← readRowListLoop fuel s
    let s ← expect .rbrack s
    .ok (.mk attr rhc head body, s)

def readBodyListLoop : Nat → Scanner → Except Err (List TableBody × Scanner)
  | 0, _ => .error .fuelOut
  | fuel + 1, s =>
    if s.peek = .rbrack then .ok ([], (s.next).2)
    else do
      let (v, s) ← readTableBody fuel s
      let off := s.current
      let (tok, s) := s.next
      if tok.kind = .rbrack then .ok ([v], s)
      else if tok.kind = .comma then do
        let (rest, s) ← readBodyListLoop fuel s
        .ok (v :: rest, s)
      else .error (.errorf (.expectedCommaOrRBrack tok.kind off))

def readDefinition : Nat → Scanner → Except Err (Definition × Scanner)
  | 0, _ => .error .fuelOut
  | fuel + 1, s => do
    let s ← expect .lbrack s
    let (term, s) ← readInlineList fuel s
    let s ← expect .comma s
    let s ← expect .lbrack s
    let (defs, s) ← readBlockssLoop fuel s
    let s ← expect .rbrack s
    .ok (.mk term defs, s)

def readDefListLoop : Nat → Scanner → Except Err (List Definition × Scanner)
  | 0, _ => .error .fuelOut
  | fuel + 1, s =>
    if s.peek = .rbrack then .ok ([], (s.next).2)
    else do
      let (v, s) ← readDefinition fuel s
      let off := s.current
      let (tok, s) := s.next
      if tok.kind = .rbrack then .ok ([v], s)
      else if tok.kind = .comma then do
        let (rest, s) ← readDefListLoop fuel s
        .ok (v :: rest, s)
      else .error (.errorf (.expectedCommaOrRBrack tok.kind off))

def readBlockListLoop : Nat → Scanner → Except Err (List Block × Scanner)
  | 0, _ => .error .fuelOut
  | fuel + 1, s =>
    if s.peek = .rbrack then .ok ([], (s.next).2)
    else do
      let (v, s) ← readBlock fuel s
      let off := s.current
      let (tok, s) := s.next
      if tok.kind = .rbrack then .ok ([v], s)
      else if tok.kind = .comma then do
        let (rest, s) ← readBlockListLoop fuel s
        .ok (v :: rest, s)
      else .error (.errorf (.expectedCommaOrRBrack tok.kind off))

def readBlockList : Nat → Scanner → Except Err (List Block × Scanner)
  | 0, _ => .error .fuelOut
  | fuel + 1, s => do
    let s ← expect .lbrack s
    readBlockListLoop fuel s

def readBlockssLoop : Nat → Scanner → Except Err (List (List Block) × Scanner)
  | 0, _ => .error .fuelOut
  | fuel + 1, s =>
    if s.peek = .rbrack then .ok ([], (s.next).2)
    else do
      let (v, s) ← readBlockList fuel s
      let off := s.current
      let (tok, s) := s.next
      if tok.kind = .rbrack then .ok ([v], s)
      else if tok.kind = .comma then do
        let (rest, s) ← readBlockssLoop fuel s
        .ok (v :: rest, s)
      else .error (.errorf (.expectedCommaOrRBrack tok.kind off))

/-- readMetaValue: tag dispatch over the metadata variants. -/
def readMetaValue : Nat → Scanner → Except Err (MetaValue × Scanner)
  | 0, _ => .error .fuelOut
  | fuel + 1, s => do
    let ((tag, inBuf), s) ← readTagPre s
    if ¬ inBuf then .error (.errorf .expectedTag)
    else if tag = gs "MetaMap" then do
      let s ← readObjPre s
      let (m, s) ← readMeta fuel s
      let s ← expect .rbrace s
      .ok (.MetaMap m, s)
    else if tag = gs "MetaList" then do
      let s ← readObjPre s
      let s ← expect .lbrack s
      let (l, s) ← readMetaListLoop fuel s
      let s ← expect .rbrace s
      .ok (.MetaList l, s)
    else if tag = gs "MetaBool" then do
      let s ← readObjPre s
      let (b, s) ← readBool s
      let s ← expect .rbrace s
      .ok (.MetaBool b, s)
    else if tag = gs "MetaString" then do
      let s ← readObjPre s
      let (v, s) ← readString s
      let s ← expect .rbrace s
      .ok (.MetaString v, s)
    else if tag = gs "MetaInlines" then do
      let s ← readObjPre s
      let (l, s) ← readInlineList fuel s
      let s ← expect .rbrace s
      .ok (.MetaInlines l, s)
    else if tag = gs "MetaBlocks" then do
      let s ← readObjPre s
      let (bs, s) ← readBlockList fuel s
      let s ← expect .rbrace s
      .ok (.MetaBlocks bs, s)
    else .error (.errorf (.unknownMetaType tag))

def readMetaListLoop : Nat → Scanner → Except Err (List MetaValue × Scanner)
  | 0, _ => .error .fuelOut
  | fuel + 1, s =>
    if s.peek = .rbrack then .ok ([], (s.next).2)
    else do
      let (v, s) ← readMetaValue fuel s
      let off := s.current
      let (tok, s) := s.next
      if tok.kind = .rbrack then .ok ([v], s)
      else if tok.kind = .comma then do
        let (rest, s) ← readMetaListLoop fuel s
        .ok (v :: rest, s)
      else .error (.errorf (.expectedCommaOrRBrack tok.kind off))

/-- readMeta: a brace-delimited, order-preserving key/value map. -/
def readMeta : Nat → Scanner → Except Err (List MetaMapEntry × Scanner)
  | 0, _ => .error .fuelOut
  | fuel + 1, s => do
    let s ← expect .lbrace s
    readMetaLoop fuel s

def readMetaLoop : Nat → Scanner → Except Err (List MetaMapEntry × Scanner)
  | 0, _ => .error .fuelOut
  | fuel + 1, s =>
    if s.peek = .rbrace then .ok ([], (s.next).2)
    else do
      let (key, s) ← readString s
      let s ← expect .colon s
      let (val, s) ← readMetaValue fuel s
      let (tok, s) := s.next
      if tok.kind = .rbrace then .ok ([.mk key val], s)
      else if tok.kind = .comma then do
        let (rest, s) ← readMetaLoop fuel s
        .ok (.mk key val :: rest, s)
      else .error (.errorf (.expectedCommaOrRBraceMeta tok.kind))

end

/-- cmpSemver from the parser source: component-wise comparison where a
missing trailing component compares as smaller. -/
def cmpSemver : List Int → List Int → Int
  | [], their => if their.isEmpty then 0 else -1
  | _ :: _, [] => 1
  | m :: ms, t :: ts =>
    if m > t then 1 else if m < t then -1 else cmpSemver ms ts

def readIntListLoop : Nat → Scanner → Except Err (List Int × Scanner)
  | 0, _ => .error .fuelOut
  | fuel + 1, s =>
    if s.peek = .rbrack then .ok ([], (s.next).2)
    else do
      let (v, s) ← readInt s
      let off := s.current
      let (tok, s) := s.next
      if tok.kind = .rbrack then .ok ([v], s)
      else if tok.kind = .comma then do
        let (rest, s) ← readIntListLoop fuel s
        .ok (v :: rest, s)
      else .error (.errorf (.expectedCommaOrRBrack tok.kind off))

/-- The top-level key loop of ReadFrom: exactly three fields are read;
each key is dispatched without tracking which keys were already seen. -/
def readFromLoop : Nat → Nat → Pandoc → Scanner → Except Err (Pandoc × Scanner)
  | 0, _, _, _ => .error .fuelOut
  | _ + 1, 0, doc, s => .ok (doc, s)
  | fuel + 1, i + 1, doc, s => do
    let ((key, inBuf), s) ← readStringB s
    if ¬ inBuf then .error (.errorf .expectedStringTok)
    else if key = gs "pandoc-api-version" then do
      let s ← expect .colon s
      let s ← expect .lbrack s
      let (version, s) ← readIntListLoop fuel s
      let s ← expect (if i = 0 then .rbrace else .comma) s
      if cmpSemver version goVersion < 0 then
        .error (.errorf (.unsupportedVersion version))
      else readFromLoop fuel i doc s
    else if key = gs "meta" then do
      let s ← expect .colon s
      let (m, s) ← readMeta fuel s
      let s ← expect (if i = 0 then .rbrace else .comma) s
      readFromLoop fuel i ⟨m, doc.blocks⟩ s
    else if key = gs "blocks" then do
      let s ← expect .colon s
      let (bs, s) ← readBlockList fuel s
      let s ← expect (if i = 0 then .rbrace else .comma) s
      readFromLoop fuel i ⟨doc.meta, bs⟩ s
    else .error (.errorf (.unknownPandocField key))

/-- ReadFrom: parse a whole document from a byte stream.  The fuel is
the input length, which bounds the reader's recursion depth on any
input. -/
def ReadFrom (inp : List Nat) : Except Err Pandoc := do
  let s : Scanner := ⟨inp, 0⟩
  let s ← expect .lbrace s
  let (doc, _) ← readFromLoop (inp.length + 1) 3 ⟨[], []⟩ s
  .ok doc

/-! ## Traversal engine (Filter/Query and the walk functions of the
bitmask-control revision) -/

/-- traversalResult: the three independent control bits. -/
structure TRes : Type where
  rep : Bool
  skp : Bool
  hlt : Bool
  deriving Repr, DecidableEq

namespace TRes

def replace (r : TRes) : Bool := r.rep

def halt (r : TRes) : Bool := r.hlt

/-- skipChildren() is set by the skip bit or the halt bit. -/
def skipChildren (r : TRes) : Bool := r.skp || r.hlt

end TRes

/-- Continue: keep traversing, children included. -/
def Continue : TRes := ⟨false, false, false⟩

/-- Skip: keep traversing but skip the current element's children. -/
def Skip : TRes := ⟨false, true, false⟩

/-- Halt: stop the traversal. -/
def Halt : TRes := ⟨false, false, true⟩

/-- ReplaceContinue: replace the element, then traverse the
replacement's children. -/
def ReplaceContinue : TRes := ⟨true, false, false⟩

/-- ReplaceSkip: replace the element without visiting the
replacement's children. -/
def ReplaceSkip : TRes := ⟨true, true, false⟩

/-- ReplaceHalt: replace the element and stop. -/
def ReplaceHalt : TRes := ⟨true, false, true⟩

/-- The error channel of the walk functions: a recognised traversal
result, the engine's ErrUnexpectedType, a fatal application error
(payload abstracted to a code), or the model-only fuel bound. -/
inductive WRes : Type where
  | res (r : TRes)
  | unexpectedType
  | fatal (u : Nat)
  | fuelOut
  deriving Repr, DecidableEq

/-- isResult: recognise a traversal-control value (nil is modelled as
res Continue). -/
def isResult : WRes → Option TRes
  | .res r => some r
  | _ => none

/-- The universal element sum the type-directed engine dispatches over:
every single-element type the Go walk functions case on, plus the list
shapes a visiting function may match as a whole. -/
inductive Elt : Type where
  | pandoc (p : Pandoc)
  | inl (i : Inline)
  | blk (b : Block)
  | metaV (m : MetaValue)
  | metaE (e : MetaMapEntry)
  | cit (c : Citation)
  | row (r : TableRow)
  | cell (c : TableCell)
  | thf (h : TableHeadFoot)
  | tbody (b : TableBody)
  | inls (l : List Inline)
  | blks (l : List Block)
  | cits (l : List Citation)
  | rows (l : List TableRow)
  | cells (l : List TableCell)
  | tbodies (l : List TableBody)
  | metaVs (l : List MetaValue)
  | metaEs (l : List MetaMapEntry)

/-- Identifier of an element-list type, used to model the Go type
test "is []R the same slice type as []S" (sameInOut). -/
inductive EltTy : Type where
  | inlineT | blockT | citT | rowT | cellT | tbodyT | metaVT | metaET | otherT
  deriving Repr, DecidableEq

/-- The element type a list-type identifier stands for (Empty for
otherT, which identifies no list type the engine walks). -/
def ElType : EltTy → Type
  | .inlineT => Inline
  | .blockT => Block
  | .citT => Citation
  | .rowT => TableRow
  | .cellT => TableCell
  | .tbodyT => TableBody
  | .metaVT => MetaValue
  | .metaET => MetaMapEntry
  | .otherT => Empty

/-- Embed a typed element into the universal sum. -/
def tyToElt : (t : EltTy) → ElType t → Elt
  | .inlineT => .inl
  | .blockT => .blk
  | .citT => .cit
  | .rowT => .row
  | .cellT => .cell
  | .tbodyT => .tbody
  | .metaVT => .metaV
  | .metaET => .metaE
  | .otherT => Empty.elim

/-- Project an element of the universal sum back to a typed element
(the model of Go's type assertion to the slice element type). -/
def tyOfElt : (t : EltTy) → Elt → Option (ElType t)
  | .inlineT, .inl i => some i
  | .blockT, .blk b => some b
  | .citT, .cit c => some c
  | .rowT, .row r => some r
  | .cellT, .cell c => some c
  | .tbodyT, .tbody b => some b
  | .metaVT, .metaV m => some m
  | .metaET, .metaE e => some e
  | _, _ => none

/-- Embed a typed list into the universal sum (what the whole-list
match is tested against). -/
def tyListElt : (t : EltTy) → List (ElType t) → Elt
  | .inlineT => .inls
  | .blockT => .blks
  | .citT => .cits
  | .rowT => .rows
  | .cellT => .cells
  | .tbodyT => .tbodies
  | .metaVT => .metaVs
  | .metaET => .metaEs
  | .otherT => fun _ => .inls []

/-- A visiting function: the type test its parameter type P induces,
the application itself (threading the closure state σ, returning the
replacement elements and the control/error outcome), and the list type
of its return elements (for the sameInOut test). -/
structure Visitor (σ : Type) : Type where
  matchP : Elt → Bool
  app : σ → Elt → σ × List Elt × WRes
  retTy : EltTy

/-- Cast a replacement list to the expected element type; none when
some element has the wrong type (ErrUnexpectedType in Go). -/
def castList (t : EltTy) : List Elt → Option (List (ElType t))
  | [] => some []
  | x :: xs => do
    let s ← tyOfElt t x
    let rest ← castList t xs
    some (s :: rest)

/-- Status of a list sweep: completed, halted part-way, or aborted by a
non-result error (whose caller then returns the original list). -/
inductive LStat : Type where
  | done | halted | failed (e : WRes)
  deriving Repr, DecidableEq

mutual

/-- walkChildren: dispatch on the element's type and walk its children
with the per-container rule of the source; returns the element (the
original unless a replacement happened beneath it) and the control
outcome of the sweep, passed through unchanged. -/
def walkChildren {σ : Type} (V : Visitor σ) : Nat → σ → Elt → σ × Elt × WRes
  | 0, st, e => (st, e, .fuelOut)
  | fuel + 1, st, e =>
    match e with
    | .pandoc p =>
      let (st, m, bs, err) := walkLists .metaET .blockT V fuel st p.meta p.blocks
      (st, (match isResult err with
        | none => e
        | some rslt => if rslt.replace then .pandoc ⟨m, bs⟩ else e), err)
    | .inl (.Emph l) =>
      let (st, lst, err) := walkList .inlineT V fuel st l
      (st, (match isResult err with
        | none => e
        | some rslt => if rslt.replace then .inl (.Emph lst) else e), err)
    | .inl (.Underline l) =>
      let (st, lst, err) := walkList .inlineT V fuel st l
      (st, (match isResult err with
        | none => e
        | some rslt => if rslt.replace then .inl (.Underline lst) else e), err)
    | .inl (.Strong l) =>
      let (st, lst, err) := walkList .inlineT V fuel st l
      (st, (match isResult err with
        | none => e
        | some rslt => if rslt.replace then .inl (.Strong lst) else e), err)
    | .inl (.Strikeout l) =>
      let (st, lst, err) := walkList .inlineT V fuel st l
      (st, (match isResult err with
        | none => e
        | some rslt => if rslt.replace then .inl (.Strikeout lst) else e), err)
    | .inl (.Superscript l) =>
      let (st, lst, err) := walkList .inlineT V fuel st l
      (st, (match isResult err with
        | none => e
        | some rslt => if rslt.replace then .inl (.Superscript lst) else e), err)
    | .inl (.Subscript l) =>
      let (st, lst, err) := walkList .inlineT V fuel st l
      (st, (match isResult err with
        | none => e
        | some rslt => if rslt.replace then .inl (.Subscript lst) else e), err)
    | .inl (.SmallCaps l) =>
      let (st, lst, err) := walkList .inlineT V fuel st l
      (st, (match isResult err with
        | none => e
        | some rslt => if rslt.replace then .inl (.SmallCaps lst) else e), err)
    | .inl (.Quoted qt l) =>
      let (st, lst, err) := walkList .inlineT V fuel st l
      (st, (match isResult err with
        | none => e
        | some rslt => if rslt.replace then .inl (.Quoted qt lst) else e), err)
    | .cit (.mk id pref suff mode nn h) =>
      let (st, p, sf, err) := walkLists .inlineT .inlineT V fuel st pref suff
      (st, (match isResult err with
        | none => e
        | some rslt =>
          if rslt.replace then .cit (.mk id p sf mode nn h) else e), err)
    | .inl (.Cite cts l) =>
      let (st, cs, lst, err) := walkLists .citT .inlineT V fuel st cts l
      (st, (match isResult err with
        | none => e
        | some rslt => if rslt.replace then .inl (.Cite cs lst) else e), err)
    | .inl (.Link a l t) =>
      let (st, lst, err) := walkList .inlineT V fuel st l
      (st, (match isResult err with
        | none => e
        | some rslt => if rslt.replace then .inl (.Link a lst t) else e), err)
    | .inl (.Image a l t) =>
      let (st, lst, err) := walkList .inlineT V fuel st l
      (st, (match isResult err with
        | none => e
        | some rslt => if rslt.replace then .inl (.Image a lst t) else e), err)
    | .inl (.Note bs) =>
      let (st, lst, err) := walkList .blockT V fuel st bs
      (st, (match isResult err with
        | none => e
        | some rslt => if rslt.replace then .inl (.Note lst) else e), err)
    | .inl (.Span a l) =>
      let (st, lst, err) := walkList .inlineT V fuel st l
      (st, (match isResult err with
        | none => e
        | some rslt => if rslt.replace then .inl (.Span a lst) else e), err)
    | .blk (.Plain l) =>
      let (st, lst, err) := walkList .inlineT V fuel st l
      (st, (match isResult err with
        | none => e
        | some rslt => if rslt.replace then .blk (.Plain lst) else e), err)
    | .blk (.Para l) =>
      let (st, lst, err) := walkList .inlineT V fuel st l
      (st, (match isResult err with
        | none => e
        | some rslt => if rslt.replace then .blk (.Para lst) else e), err)
    | .blk (.LineBlock ls) =>
      let (st, lst, err) := walkListOfLists .inlineT V fuel st ls
      (st, (match isResult err with
        | none => e
        | some rslt => if rslt.replace then .blk (.LineBlock lst) else e), err)
    | .blk (.BlockQuote bs) =>
      let (st, lst, err) := walkList .blockT V fuel st bs
      (st, (match isResult err with
        | none => e
        | some rslt => if rslt.replace then .blk (.BlockQuote lst) else e), err)
    | .blk (.OrderedList a items) =>
      let (st, lst, err) := walkListOfLists .blockT V fuel st items
      (st, (match isResult err with
        | none => e
        | some rslt => if rslt.replace then .blk (.OrderedList a lst) else e), err)
    | .blk (.BulletList items) =>
      let (st, lst, err) := walkListOfLists .blockT V fuel st items
      (st, (match isResult err with
        | none => e
        | some rslt => if rslt.replace then .blk (.BulletList lst) else e), err)
    | .blk (.DefinitionList items) =>
      match walkDefItems V fuel st items with
      | (st, _, _, .failed er) => (st, e, er)
      | (st, items', upd, .halted) =>
        if upd then (st, .blk (.DefinitionList items'), .res ReplaceHalt)
        else (st, e, .res Halt)
      | (st, items', upd, .done) =>
        if upd then (st, .blk (.DefinitionList items'), .res ReplaceContinue)
        else (st, e, .res Continue)
    | .blk (.Header lvl a l) =>
      let (st, lst, err) := walkList .inlineT V fuel st l
      (st, (match isResult err with
        | none => e
        | some rslt => if rslt.replace then .blk (.Header lvl a lst) else e), err)
    | .blk (.Table a cap aligns head bodies foot) =>
      walkTable V fuel st a cap aligns head bodies foot
    | .thf (.mk a rows) =>
      let (st, lst, err) := walkList .rowT V fuel st rows
      (st, (match isResult err with
        | none => e
        | some rslt => if rslt.replace then .thf (.mk a lst) else e), err)
    | .tbody (.mk a rhc hd bd) =>
      let (st, nh, nb, err) := walkLists .rowT .rowT V fuel st hd bd
      (st, (match isResult err with
        | none => e
        | some rslt => if rslt.replace then .tbody (.mk a rhc nh nb) else e), err)
    | .row (.mk a cells) =>
      let (st, lst, err) := walkList .cellT V fuel st cells
      (st, (match isResult err with
        | none => e
        | some rslt => if rslt.replace then .row (.mk a lst) else e), err)
    | .cell (.mk a al rs cs bs) =>
      let (st, lst, err) := walkList .blockT V fuel st bs
      (st, (match isResult err with
        | none => e
        | some rslt => if rslt.replace then .cell (.mk a al rs cs lst) else e), err)
    | .blk (.Figure a cap bs) =>
      let (st, cap', err) := walkCaption V fuel st cap
      match isResult err with
      | none => (st, e, err)
      | some r1 =>
        let upd1 := r1.replace
        if r1.halt then
          (st, (if upd1 then .blk (.Figure a cap' bs) else e), err)
        else
          let (st, lst, err2) := walkList .blockT V fuel st bs
          match isResult err2 with
          | none => (st, e, err2)
          | some r2 =>
            let bsN := if r2.replace then lst else bs
            if upd1 || r2.replace then
              (st, .blk (.Figure a cap' bsN),
                .res (if r2.halt then ReplaceHalt else ReplaceContinue))
            else (st, e, err2)
    | .blk (.Div a bs) =>
      let (st, lst, err) := walkList .blockT V fuel st bs
      (st, (match isResult err with
        | none => e
        | some rslt => if rslt.replace then .blk (.Div a lst) else e), err)
    | .metaV (.MetaMap entries) =>
      let (st, lst, err) := walkList .metaET V fuel st entries
      (st, (match isResult err with
        | none => e
        | some rslt => if rslt.replace then .metaV (.MetaMap lst) else e), err)
    | .metaE (.mk k v) =>
      let (st, valE, err) := walkChildren V fuel st (.metaV v)
      (st, (match isResult err with
        | none => e
        | some rslt =>
          if rslt.replace then
            .metaE (.mk k (match valE with | .metaV m => m | _ => v))
          else e), err)
    | .metaV (.MetaList entries) =>
      let (st, lst, err) := walkList .metaVT V fuel st entries
      (st, (match isResult err with
        | none => e
        | some rslt => if rslt.replace then .metaV (.MetaList lst) else e), err)
    | .metaV (.MetaBlocks bs) =>
      let (st, lst, err) := walkList .blockT V fuel st bs
      (st, (match isResult err with
        | none => e
        | some rslt => if rslt.replace then .metaV (.MetaBlocks lst) else e), err)
    | .metaV (.MetaInlines l) =>
      let (st, lst, err) := walkList .inlineT V fuel st l
      (st, (match isResult err with
        | none => e
        | some rslt => if rslt.replace then .metaV (.MetaInlines lst) else e), err)
    | e => (st, e, .res Continue)

/-- The per-item sweep of walkList's whole-list branch: every element's
children are walked (the elements themselves are not re-matched). -/
def walkElemsA {σ : Type} (t : EltTy) (V : Visitor σ) :
    Nat → σ → List (ElType t) → σ × List (ElType t) × Bool × LStat
  | 0, st, l => (st, l, false, .failed .fuelOut)
  | _ + 1, st, [] => (st, [], false, .done)
  | fuel + 1, st, x :: xs =>
    let (st, itemE, err) := walkChildren V fuel st (tyToElt t x)
    match isResult err with
    | none => (st, x :: xs, false, .failed err)
    | some r =>
      let (x', u) := if r.replace then ((tyOfElt t itemE).getD x, true) else (x, false)
      if r.halt then (st, x' :: xs, u, .halted)
      else
        let (st, rest, u2, stat) := walkElemsA t V fuel st xs
        (st, x' :: rest, u || u2, stat)

/-- Walk the children of each element of a freshly spliced replacement
block, in order, stopping on halt or a non-result error. -/
def walkSpliced {σ : Type} (t : EltTy) (V : Visitor σ) :
    Nat → σ → List (ElType t) → σ × List (ElType t) × LStat
  | 0, st, l => (st, l, .failed .fuelOut)
  | _ + 1, st, [] => (st, [], .done)
  | fuel + 1, st, r :: rs =>
    let (st, itemE, err) := walkChildren V fuel st (tyToElt t r)
    match isResult err with
    | none => (st, r :: rs, .failed err)
    | some rr =>
      let r' := if rr.replace then (tyOfElt t itemE).getD r else r
      if rr.halt then (st, r' :: rs, .halted)
      else
        let (st, rest, stat) := walkSpliced t V fuel st rs
        (st, r' :: rest, stat)

/-- The per-item sweep of walkList's element branch: match each element
against the parameter type, apply the visiting function on a match, and
handle skip/halt/replace (with zero, one or many replacements). -/
def walkElemsB {σ : Type} (t : EltTy) (V : Visitor σ) (sameInOut : Bool) :
    Nat → σ → List (ElType t) → σ × List (ElType t) × Bool × LStat
  | 0, st, l => (st, l, false, .failed .fuelOut)
  | _ + 1, st, [] => (st, [], false, .done)
  | fuel + 1, st, x :: xs =>
    if ¬ V.matchP (tyToElt t x) then
      let (st, itemE, err) := walkChildren V fuel st (tyToElt t x)
      match isResult err with
      | none => (st, x :: xs, false, .failed err)
      | some r =>
        let (x', u) := if r.replace then ((tyOfElt t itemE).getD x, true) else (x, false)
        if r.halt then (st, x' :: xs, u, .halted)
        else
          let (st, rest, u2, stat) := walkElemsB t V sameInOut fuel st xs
          (st, x' :: rest, u || u2, stat)
    else
      let (st, replace, err) := V.app st (tyToElt t x)
      match isResult err with
      | none => (st, x :: xs, false, .failed err)
      | some rslt =>
        if ¬ rslt.replace then
          if ¬ rslt.skipChildren then
            let (st, itemE, err') := walkChildren V fuel st (tyToElt t x)
            match isResult err' with
            | none => (st, x :: xs, false, .failed err')
            | some r2 =>
              let (x', u) :=
                if r2.replace then ((tyOfElt t itemE).getD x, true) else (x, false)
              if r2.halt then (st, x' :: xs, u, .halted)
              else
                let (st, rest, u2, stat) := walkElemsB t V sameInOut fuel st xs
                (st, x' :: rest, u || u2, stat)
          else if rslt.halt then (st, x :: xs, false, .halted)
          else
            let (st, rest, u2, stat) := walkElemsB t V sameInOut fuel st xs
            (st, x :: rest, u2, stat)
        else
          match replace with
          | [] =>
            if rslt.halt then (st, xs, true, .halted)
            else
              let (st, rest, _, stat) := walkElemsB t V sameInOut fuel st xs
              (st, rest, true, stat)
          | [r0] =>
            match tyOfElt t r0 with
            | none => (st, x :: xs, false, .failed .unexpectedType)
            | some s0 =>
              if rslt.skipChildren then
                if rslt.halt then (st, s0 :: xs, true, .halted)
                else
                  let (st, rest, _, stat) := walkElemsB t V sameInOut fuel st xs
                  (st, s0 :: rest, true, stat)
              else
                let (st, itemE, err') := walkChildren V fuel st (tyToElt t s0)
                match isResult err' with
                | none => (st, x :: xs, false, .failed err')
                | some r2 =>
                  let x' := if r2.replace then (tyOfElt t itemE).getD s0 else s0
                  if r2.halt then (st, x' :: xs, true, .halted)
                  else
                    let (st, rest, _, stat) := walkElemsB t V sameInOut fuel st xs
                    (st, x' :: rest, true, stat)
          | r0 :: r1 :: rrest =>
            if sameInOut ∧ rslt.skipChildren then
              match castList t (r0 :: r1 :: rrest) with
              | none => (st, x :: xs, false, .failed .unexpectedType)
              | some rs =>
                if rslt.halt then (st, rs ++ xs, true, .halted)
                else
                  let (st, rest, _, stat) := walkElemsB t V sameInOut fuel st xs
                  (st, rs ++ rest, true, stat)
            else
              match castList t (r0 :: r1 :: rrest) with
              | none => (st, x :: xs, false, .failed .unexpectedType)
              | some rs =>
                let (st, rs', stat) := walkSpliced t V fuel st rs
                match stat with
                | .failed er => (st, x :: xs, false, .failed er)
                | .halted => (st, rs' ++ xs, true, .halted)
                | .done =>
                  if rslt.halt then (st, rs' ++ xs, true, .halted)
                  else
                    let (st, rest, _, stat') := walkElemsB t V sameInOut fuel st xs
                    (st, rs' ++ rest, true, stat')

/-- walkList: apply the visiting function over a homogeneous list,
either as a whole (when the parameter type is the list type) followed
by a sweep of every element's children, or element by element. -/
def walkList {σ : Type} (t : EltTy) (V : Visitor σ) :
    Nat → σ → List (ElType t) → σ × List (ElType t) × WRes
  | 0, st, source => (st, source, .fuelOut)
  | fuel + 1, st, source =>
    let sameInOut := V.retTy == t
    let src := source
    if V.matchP (tyListElt t source) then
      let (st, replace, err) := V.app st (tyListElt t source)
      match isResult err with
      | none => (st, src, err)
      | some rslt =>
        let repRes : Option (List (ElType t) × Bool) :=
          if rslt.replace then (castList t replace).map (fun l => (l, true))
          else some (source, false)
        match repRes with
        | none => (st, src, .unexpectedType)
        | some (source, updated) =>
          if rslt.skipChildren then (st, source, err)
          else
            match walkElemsA t V fuel st source with
            | (st, _, _, .failed er) => (st, src, er)
            | (st, l, u, .halted) =>
              if updated || u then (st, l, .res ReplaceHalt)
              else (st, src, .res Halt)
            | (st, l, u, .done) =>
              if updated || u then (st, l, .res ReplaceContinue)
              else (st, src, .res Continue)
    else
      match walkElemsB t V sameInOut fuel st source with
      | (st, _, _, .failed er) => (st, src, er)
      | (st, l, u, .halted) =>
        if u then (st, l, .res ReplaceHalt) else (st, src, .res Halt)
      | (st, l, u, .done) =>
        if u then (st, l, .res ReplaceContinue) else (st, src, .res Continue)

/-- walkLists: two sibling lists in sequence, combining their
replace/halt outcomes. -/
def walkLists {σ : Type} (t1 t2 : EltTy) (V : Visitor σ) :
    Nat → σ → List (ElType t1) → List (ElType t2) →
    σ × List (ElType t1) × List (ElType t2) × WRes
  | 0, st, l1, l2 => (st, l1, l2, .fuelOut)
  | fuel + 1, st, l1, l2 =>
    let (st, nl1, err) := walkList t1 V fuel st l1
    match isResult err with
    | none => (st, l1, l2, err)
    | some rl1 =>
      if rl1.halt then
        if rl1.replace then (st, nl1, l2, .res ReplaceHalt)
        else (st, l1, l2, .res Halt)
      else
        let (st, nl2, err2) := walkList t2 V fuel st l2
        match isResult err2 with
        | none => (st, l1, l2, err2)
        | some rl2 =>
          if rl2.halt then
            if rl1.replace ∧ ¬ rl2.replace then (st, nl1, l2, .res ReplaceHalt)
            else if ¬ rl1.replace ∧ rl2.replace then (st, l1, nl2, .res ReplaceHalt)
            else if rl1.replace ∧ rl2.replace then (st, nl1, nl2, .res ReplaceHalt)
            else (st, l1, l2, .res Halt)
          else
            if rl1.replace ∧ ¬ rl2.replace then (st, nl1, l2, .res ReplaceContinue)
            else if ¬ rl1.replace ∧ rl2.replace then (st, l1, nl2, .res ReplaceContinue)
            else if rl1.replace ∧ rl2.replace then (st, nl1, nl2, .res ReplaceContinue)
            else (st, l1, l2, .res Continue)

/-- The item sweep of walkListOfLists: each inner list is walked as a
list; an inner list replaced by an empty one is removed. -/
def walkLoLElems {σ : Type} (t : EltTy) (V : Visitor σ) :
    Nat → σ → List (List (ElType t)) → σ × List (List (ElType t)) × Bool × LStat
  | 0, st, l => (st, l, false, .failed .fuelOut)
  | _ + 1, st, [] => (st, [], false, .done)
  | fuel + 1, st, x :: xs =>
    let (st, newList, err) := walkList t V fuel st x
    match isResult err with
    | none => (st, x :: xs, false, .failed err)
    | some r =>
      if r.replace then
        if r.halt then
          (st, (if newList.isEmpty then xs else newList :: xs), true, .halted)
        else
          let (st, rest, _, stat) := walkLoLElems t V fuel st xs
          (st, (if newList.isEmpty then rest else newList :: rest), true, stat)
      else
        if r.halt then (st, x :: xs, false, .halted)
        else
          let (st, rest, u2, stat) := walkLoLElems t V fuel st xs
          (st, x :: rest, u2, stat)

/-- walkListOfLists. -/
def walkListOfLists {σ : Type} (t : EltTy) (V : Visitor σ) :
    Nat → σ → List (List (ElType t)) → σ × List (List (ElType t)) × WRes
  | 0, st, source => (st, source, .fuelOut)
  | fuel + 1, st, source =>
    match walkLoLElems t V fuel st source with
    | (st, _, _, .failed er) => (st, source, er)
    | (st, l, u, .halted) =>
      if u then (st, l, .res ReplaceHalt) else (st, source, .res Halt)
    | (st, l, u, .done) =>
      if u then (st, l, .res ReplaceContinue) else (st, source, .res Continue)

/-- The item sweep of the DefinitionList case: term inlines, then the
definitions' list of block lists, per item. -/
def walkDefItems {σ : Type} (V : Visitor σ) :
    Nat → σ → List Definition → σ × List Definition × Bool × LStat
  | 0, st, l => (st, l, false, .failed .fuelOut)
  | _ + 1, st, [] => (st, [], false, .done)
  | fuel + 1, st, .mk term defs :: xs =>
    let (st, inls, err) := walkList .inlineT V fuel st term
    match isResult err with
    | none => (st, .mk term defs :: xs, false, .failed err)
    | some r1 =>
      let (term', u1) := if r1.replace then (inls, true) else (term, false)
      if r1.halt then (st, .mk term' defs :: xs, u1, .halted)
      else
        let (st, dss, err2) := walkListOfLists .blockT V fuel st defs
        match isResult err2 with
        | none => (st, .mk term' defs :: xs, u1, .failed err2)
        | some r2 =>
          let (defs', u2) := if r2.replace then (dss, true) else (defs, false)
          if r2.halt then (st, .mk term' defs' :: xs, u1 || u2, .halted)
          else
            let (st, rest, u3, stat) := walkDefItems V fuel st xs
            (st, .mk term' defs' :: rest, u1 || u2 || u3, stat)

/-- walkCaption: the short inlines then the long blocks; the caption
record itself is not matched. -/
def walkCaption {σ : Type} (V : Visitor σ) :
    Nat → σ → Caption → σ × Caption × WRes
  | 0, st, cap => (st, cap, .fuelOut)
  | fuel + 1, st, .mk hs short long =>
    let (st, short', long', err) := walkLists .inlineT .blockT V fuel st short long
    match isResult err with
    | none => (st, .mk hs short long, err)
    | some r =>
      if r.replace then (st, .mk hs short' long', err)
      else (st, .mk hs short long, err)

/-- walkTableHeadFoot: the head/foot record may itself match the
parameter type; a replacement must be exactly one record of the same
type, and the (possibly replaced) record's children are then walked
unless skipped. -/
def walkTableHeadFoot {σ : Type} (V : Visitor σ) :
    Nat → σ → TableHeadFoot → σ × TableHeadFoot × WRes
  | 0, st, hf => (st, hf, .fuelOut)
  | fuel + 1, st, hf =>
    if V.matchP (.thf hf) then
      let (st, replace, err) := V.app st (.thf hf)
      match isResult err with
      | none => (st, hf, err)
      | some rslt =>
        let src := hf
        let repl : Option (TableHeadFoot × Bool) :=
          if rslt.replace then
            match replace with
            | [r0] =>
              match r0 with
              | .thf h => some (h, true)
              | _ => none
            | _ => none
          else some (hf, false)
        match repl with
        | none => (st, hf, .unexpectedType)
        | some (hf, updated) =>
          if rslt.skipChildren then (st, hf, err)
          else
            let (st, hfE, err') := walkChildren V fuel st (.thf hf)
            let hf' := match hfE with | .thf h => h | _ => hf
            match isResult err' with
            | none => (st, src, err')
            | some r2 =>
              if ¬ r2.replace ∧ updated then
                (st, hf', .res (if r2.halt then ReplaceHalt else ReplaceContinue))
              else (st, hf', err')
    else
      let (st, hfE, err) := walkChildren V fuel st (.thf hf)
      (st, (match hfE with | .thf h => h | _ => hf), err)

/-- walkTable: caption, head, bodies, foot in that fixed order, each
stage short-circuiting to the rebuild step on halt. -/
def walkTable {σ : Type} (V : Visitor σ) :
    Nat → σ → Attr → Caption → List ColSpec → TableHeadFoot →
    List TableBody → TableHeadFoot → σ × Elt × WRes
  | 0, st, a, cap, aligns, head, bodies, foot =>
    (st, .blk (.Table a cap aligns head bodies foot), .fuelOut)
  | fuel + 1, st, a, cap, aligns, head, bodies, foot =>
    let orig : Elt := .blk (.Table a cap aligns head bodies foot)
    let fin := fun (st : σ) (upd : Bool) (rslt : TRes) (err : WRes)
        (capN : Caption) (headN : TableHeadFoot) (bodiesN : List TableBody)
        (footN : TableHeadFoot) =>
      if upd then
        (st, Elt.blk (.Table a capN aligns headN bodiesN footN),
          WRes.res (if rslt.halt then ReplaceHalt else ReplaceContinue))
      else (st, orig, err)
    let (st, capN, err) := walkCaption V fuel st cap
    match isResult err with
    | none => (st, orig, err)
    | some r1 =>
      let upd := r1.replace
      if r1.halt then fin st upd r1 err capN head bodies foot
      else
        let (st, headN, err) := walkTableHeadFoot V fuel st head
        match isResult err with
        | none => (st, orig, err)
        | some r2 =>
          let upd := upd || r2.replace
          if r2.halt then fin st upd r2 err capN headN bodies foot
          else
            let (st, bodiesN, err) := walkList .tbodyT V fuel st bodies
            match isResult err with
            | none => (st, orig, err)
            | some r3 =>
              let upd := upd || r3.replace
              if r3.halt then fin st upd r3 err capN headN bodiesN foot
              else
                let (st, footN, err) := walkTableHeadFoot V fuel st foot
                match isResult err with
                | none => (st, orig, err)
                | some r4 =>
                  let upd := upd || r4.replace
                  fin st upd r4 err capN headN bodiesN footN

end

/-- Filter: apply the visiting function to every matching descendant,
returning the updated element; a recognised control outcome is not an
error, anything else is returned alongside the element. -/
def Filter {σ : Type} (V : Visitor σ) (fuel : Nat) (st : σ) (e : Elt) :
    σ × Elt × Option WRes :=
  let (st, e', err) := walkChildren V fuel st e
  match isResult err with
  | some _ => (st, e', none)
  | none => (st, e', some err)

/-- The shared Space instance. -/
def SP : Inline := .Space

/-- The shared SoftBreak instance. -/
def SB : Inline := .SoftBreak

/-- The shared LineBreak instance. -/
def LB : Inline := .LineBreak

/-- The shared HorizontalRule instance. -/
def HR : Block := .HorizontalRule

/-- The clone methods of the inline variants: each non-singleton clone
is a shallow copy (the same value in this model); Space, SoftBreak and
LineBreak return the shared singletons. -/
def Inline.clone : Inline → Inline
  | .Space => SP
  | .SoftBreak => SB
  | .LineBreak => LB
  | i => i

/-- The clone methods of the block variants; HorizontalRule returns the
shared singleton. -/
def Block.clone : Block → Block
  | .HorizontalRule => HR
  | b => b

/-- Clone[P Element]: dispatch to the variant's clone method. -/
def Clone : Elt → Elt
  | .inl i => .inl i.clone
  | .blk b => .blk b.clone
  | e => e

/-! ## Well-formedness: the domain of the byte-exact round trip.  Each
condition names the writer/reader feature that forces it. -/

/-- A byte may appear in a Go-quoted key and re-read identically: the
printable ASCII range plus the seven common escapes (on which Go
quoting and the JSON quoting of appendQuote agree). -/
def keyByteOK (c : Nat) : Bool :=
  (32 ≤ c ∧ c ≤ 126) ∨ c = 8 ∨ c = 9 ∨ c = 10 ∨ c = 12 ∨ c = 13

def keyOK (s : List Nat) : Bool := s.all keyByteOK

/-- The byte-level validity parseStr demands of the raw (unescaped)
bytes of a string: multi-byte UTF-8 sequences must be complete and
minimally encoded; everything below 0x80 passes. -/
def strOKA : Nat → List Nat → Bool
  | 0, _ => false
  | _ + 1, [] => true
  | fuel + 1, c :: rest =>
    if c < 0x80 then strOKA fuel rest
    else
      let b := leadOnes c
      if b > 4 then false
      else if (c :: rest).length < b then false
      else if utf8DecLen (c :: rest) = b then strOKA fuel (rest.drop (b - 1))
      else false

def strOK (s : List Nat) : Bool := strOKA (s.length + 1) s

/-- int64 range. -/
def int64OK (i : Int) : Bool := -(2 ^ 63) ≤ i ∧ i < 2 ^ 63

/-- The width value round-trips through appendFloat and the scanner:
this is the shortest-round-trip contract of the external strconv digit
generation, checked value by value. -/
def widthOK (w : GoFloat) : Bool :=
  let b := appendFloat [] w
  match parseNum (b ++ [125]) 0 with
  | (.num v, rest, off) => v.toFloat = w ∧ rest = [125] ∧ off = b.length
  | _ => false

def wfKV (kv : KV) : Bool := strOK kv.key ∧ strOK kv.value

def wfStrList : List (List Nat) → Bool
  | [] => true
  | s :: ss => strOK s ∧ wfStrList ss

def wfKVList : List KV → Bool
  | [] => true
  | kv :: kvs => wfKV kv ∧ wfKVList kvs

def wfAttr (a : Attr) : Bool :=
  strOK a.id ∧ wfStrList a.classes ∧ wfKVList a.kvs

def wfTarget (t : Target) : Bool := strOK t.url ∧ strOK t.title

def wfListAttrs (a : ListAttrs) : Bool := int64OK a.start

/-- A column width the writer can reproduce: the default marker is
written without the width (the reader leaves it zero), a real width
must round-trip through appendFloat. -/
def wfColWidth (c : ColWidth) : Bool :=
  (c.isDefault ∧ c.width = GoFloat.zero) ∨
    (c.isDefault = false ∧ widthOK c.width)

def wfColSpec (c : ColSpec) : Bool := wfColWidth c.width

def wfColSpecList : List ColSpec → Bool
  | [] => true
  | c :: cs => wfColSpec c ∧ wfColSpecList cs

mutual

def wfInline : Inline → Bool
  | .Str text => strOK text
  | .Emph l => wfInlines l
  | .Underline l => wfInlines l
  | .Strong l => wfInlines l
  | .Strikeout l => wfInlines l
  | .Superscript l => wfInlines l
  | .Subscript l => wfInlines l
  | .SmallCaps l => wfInlines l
  | .Quoted _ l => wfInlines l
  | .Cite cs l => wfCitations cs ∧ wfInlines l
  | .Code a text => wfAttr a ∧ strOK text
  | .Space => true
  | .SoftBreak => true
  | .LineBreak => true
  | .Math _ text => strOK text
  | .RawInline f text => strOK f ∧ strOK text
  | .Link a l t => wfAttr a ∧ wfInlines l ∧ wfTarget t
  | .Image a l t => wfAttr a ∧ wfInlines l ∧ wfTarget t
  | .Note bs => wfBlocks bs
  | .Span a l => wfAttr a ∧ wfInlines l
  termination_by structural x => x

def wfInlines : List Inline → Bool
  | [] => true
  | i :: is => wfInline i ∧ wfInlines is
  termination_by structural x => x

def wfInliness : List (List Inline) → Bool
  | [] => true
  | l :: ls => wfInlines l ∧ wfInliness ls
  termination_by structural x => x

def wfBlock : Block → Bool
  | .Plain l => wfInlines l
  | .Para l => wfInlines l
  | .LineBlock ls => wfInliness ls
  | .CodeBlock a text => wfAttr a ∧ strOK text
  | .RawBlock f text => strOK f ∧ strOK text
  | .BlockQuote bs => wfBlocks bs
  | .OrderedList a items => wfListAttrs a ∧ wfBlockss items
  | .BulletList items => wfBlockss items
  | .DefinitionList items => wfDefs items
  | .HorizontalRule => true
  | .Header lvl a l => int64OK lvl ∧ wfAttr a ∧ wfInlines l
  | .Table a cap aligns head bodies foot =>
    wfAttr a ∧ wfCaption cap ∧ wfColSpecList aligns ∧ wfTHF head ∧
      wfBodies bodies ∧ wfTHF foot
  | .Figure a cap bs => wfAttr a ∧ wfCaption cap ∧ wfBlocks bs
  | .Div a bs => wfAttr a ∧ wfBlocks bs
  termination_by structural x => x

def wfBlocks : List Block → Bool
  | [] => true
  | b :: bs => wfBlock b ∧ wfBlocks bs
  termination_by structural x => x

def wfBlockss : List (List Block) → Bool
  | [] => true
  | l :: ls => wfBlocks l ∧ wfBlockss ls
  termination_by structural x => x

def wfCitation : Citation → Bool
  | .mk id pref suff _ noteNum hash =>
    strOK id ∧ wfInlines pref ∧ wfInlines suff ∧ int64OK noteNum ∧ int64OK hash
  termination_by structural x => x

def wfCitations : List Citation → Bool
  | [] => true
  | c :: cs => wfCitation c ∧ wfCitations cs
  termination_by structural x => x

def wfDef : Definition → Bool
  | .mk term defs => wfInlines term ∧ wfBlockss defs
  termination_by structural x => x

def wfDefs : List Definition → Bool
  | [] => true
  | d :: ds => wfDef d ∧ wfDefs ds
  termination_by structural x => x

/-- A caption with no short caption carries the empty short list (the
reader leaves it empty and the writer ignores it). -/
def wfCaption : Caption → Bool
  | .mk hasShort short long =>
    (hasShort ∨ short.isEmpty) ∧ (!hasShort ∨ wfInlines short) ∧ wfBlocks long
  termination_by structural x => x

def wfCell : TableCell → Bool
  | .mk a _ rowSpan colSpan bs =>
    wfAttr a ∧ int64OK rowSpan ∧ int64OK colSpan ∧ wfBlocks bs
  termination_by structural x => x

def wfCells : List TableCell → Bool
  | [] => true
  | c :: cs => wfCell c ∧ wfCells cs
  termination_by structural x => x

def wfRow : TableRow → Bool
  | .mk a cells => wfAttr a ∧ wfCells cells
  termination_by structural x => x

def wfRows : List TableRow → Bool
  | [] => true
  | r :: rs => wfRow r ∧ wfRows rs
  termination_by structural x => x

def wfTHF : TableHeadFoot → Bool
  | .mk a rows => wfAttr a ∧ wfRows rows
  termination_by structural x => x

def wfBody : TableBody → Bool
  | .mk a rhc head body => wfAttr a ∧ int64OK rhc ∧ wfRows head ∧ wfRows body
  termination_by structural x => x

def wfBodies : List TableBody → Bool
  | [] => true
  | b :: bs => wfBody b ∧ wfBodies bs
  termination_by structural x => x

def wfMetaValue : MetaValue → Bool
  | .MetaMap entries => wfMetaEntries entries
  | .MetaList entries => wfMetaValues entries
  | .MetaInlines l => wfInlines l
  | .MetaBlocks bs => wfBlocks bs
  | .MetaBool _ => true
  | .MetaString s => strOK s
  termination_by structural x => x

def wfMetaValues : List MetaValue → Bool
  | [] => true
  | m :: ms => wfMetaValue m ∧ wfMetaValues ms
  termination_by structural x => x

def wfMetaEntry : MetaMapEntry → Bool
  | .mk key value => keyOK key ∧ wfMetaValue value
  termination_by structural x => x

def wfMetaEntries : List MetaMapEntry → Bool
  | [] => true
  | e :: es => wfMetaEntry e ∧ wfMetaEntries es
  termination_by structural x => x

end

/-- Well-formed document: the domain of the byte-exact round trip. -/
def wfPandoc (p : Pandoc) : Bool := wfMetaEntries p.meta ∧ wfBlocks p.blocks

/-- Modelled from the spec: the spec's version order — component-wise
comparison in which a missing trailing component compares as smaller. -/
def specLess : List Int → List Int → Bool
  | [], [] => false
  | [], _ :: _ => true
  | _ :: _, [] => false
  | a :: as, b :: bs => a < b ∨ (a = b ∧ specLess as bs)

/-- Would the head of this input continue a numeric literal?  (The
scanner's number scan stops exactly at the first byte that is not a
digit, a decimal point, or an exponent marker.) -/
def numContB : List Nat → Bool
  | [] => false
  | c :: _ => isDigit c ∨ c = 46 ∨ c = 101 ∨ c = 69

/-- Does the byte pattern e-0 (a scientific-notation exponent with a
leading zero after a minus sign) occur in the byte list? -/
def hasEminus0 : List Nat → Bool
  | 101 :: 45 :: 48 :: _ => true
  | _ :: rest => hasEminus0 rest
  | [] => false

/-- The value of a decimal digit string (used to state what the
scanner's accumulation loop computes). -/
def digitsVal (acc : Nat) : List Nat → Nat
  | [] => acc
  | c :: rest => digitsVal (acc * 10 + (c - 48)) rest

def allDigits (l : List Nat) : Bool := l.all (fun c => isDigit c)

/-- Does the writer escape any byte of this string?  (Mirrors the
scanner's stringInBuffer flag: a string with no escapes is scanned in
place.) -/
def needsEsc (s : List Nat) : Bool := s.any (fun c => (escOut c).isSome)

/-- The citation-object byte layout, by number of fields still to be
written (the writer emits the six fields in pinned order; citBody k is
the tail of the object body holding the last k fields and the closing
brace). -/
def citBody1 (hash : Int) : List Nat :=
  writeKey (gs "citationHash") ++ intBytes hash ++ [125]

def citBody2 (nn hash : Int) : List Nat :=
  writeKey (gs "citationNoteNum") ++ intBytes nn ++ 44 :: citBody1 hash

def citBody3 (mode : CitationMode) (nn hash : Int) : List Nat :=
  writeKey (gs "citationMode") ++ tstr mode.tag ++ 44 :: citBody2 nn hash

def citBody4 (suff : List Inline) (mode : CitationMode) (nn hash : Int) :
    List Nat :=
  writeKey (gs "citationSuffix") ++ writeInlines suff
    ++ 44 :: citBody3 mode nn hash

def citBody5 (pref suff : List Inline) (mode : CitationMode) (nn hash : Int) :
    List Nat :=
  writeKey (gs "citationPrefix") ++ writeInlines pref
    ++ 44 :: citBody4 suff mode nn hash

def citBody6 (id : List Nat) (pref suff : List Inline) (mode : CitationMode)
    (nn hash : Int) : List Nat :=
  writeKey (gs "citationId") ++ wstr id ++ 44 :: citBody5 pref suff mode nn hash

/-- The bracketed six-component content of a written table object. -/
def tableC (a : Attr) (cap : Caption) (aligns : List ColSpec)
    (head : TableHeadFoot) (bodies : List TableBody) (foot : TableHeadFoot) :
    List Nat :=
  91 :: writeAttr a ++ 44 :: writeCaption cap ++ 44 ::
    wlist (aligns.map writeColSpec) ++ 44 :: writeTHF head ++ 44 ::
    (91 :: writeBodies bodies ++ [93]) ++ 44 :: writeTHF foot ++ [93]

/-- The write/read duality statements for every fuelled reader, at one
fuel value.  Each clause says: on a stream the writer produced, the
reader at this fuel returns exactly the written value and consumes
exactly the written bytes, provided the written payload is shorter than
the fuel. -/
structure DualityAt (n : Nat) : Prop where
  inl : ∀ i : Inline, wfInline i = true → (writeInline i).length < n →
    ∀ (r : List Nat) (off : Nat),
    readInline n ⟨writeInline i ++ r, off⟩
      = .ok (i, ⟨r, off + (writeInline i).length⟩)
  wrap : ∀ (mk : List Inline → Inline) (l : List Inline), wfInlines l = true →
    (writeInlines l).length + 6 < n → ∀ (r : List Nat) (off : Nat),
    readWrap mk n
      ⟨44 :: 34 :: 99 :: 34 :: 58 :: (writeInlines l ++ 125 :: r), off⟩
      = .ok (mk l, ⟨r, off + 6 + (writeInlines l).length⟩)
  quoted : ∀ (qt : QuoteType) (l : List Inline), wfInlines l = true →
    (tuple2W (tstr qt.tag) (writeInlines l)).length + 6 < n →
    ∀ (r : List Nat) (off : Nat),
    readQuoted n ⟨44 :: 34 :: 99 :: 34 :: 58 ::
        (tuple2W (tstr qt.tag) (writeInlines l) ++ 125 :: r), off⟩
      = .ok (.Quoted qt l,
          ⟨r, off + 6 + (tuple2W (tstr qt.tag) (writeInlines l)).length⟩)
  span : ∀ (a : Attr) (l : List Inline), wfAttr a = true → wfInlines l = true →
    (tuple2W (writeAttr a) (writeInlines l)).length + 6 < n →
    ∀ (r : List Nat) (off : Nat),
    readSpan n ⟨44 :: 34 :: 99 :: 34 :: 58 ::
        (tuple2W (writeAttr a) (writeInlines l) ++ 125 :: r), off⟩
      = .ok (.Span a l,
          ⟨r, off + 6 + (tuple2W (writeAttr a) (writeInlines l)).length⟩)
  cite : ∀ (cs : List Citation) (l : List Inline), wfCitations cs = true →
    wfInlines l = true →
    (tuple2W (writeCitations cs) (writeInlines l)).length + 6 < n →
    ∀ (r : List Nat) (off : Nat),
    readCite n ⟨44 :: 34 :: 99 :: 34 :: 58 ::
        (tuple2W (writeCitations cs) (writeInlines l) ++ 125 :: r), off⟩
      = .ok (.Cite cs l,
          ⟨r, off + 6 + (tuple2W (writeCitations cs) (writeInlines l)).length⟩)
  link : ∀ (a : Attr) (l : List Inline) (t : Target), wfAttr a = true →
    wfInlines l = true → wfTarget t = true →
    (tuple3W (writeAttr a) (writeInlines l) (writeTarget t)).length + 6 < n →
    ∀ (r : List Nat) (off : Nat),
    readLink n ⟨44 :: 34 :: 99 :: 34 :: 58 ::
        (tuple3W (writeAttr a) (writeInlines l) (writeTarget t)
          ++ 125 :: r), off⟩
      = .ok (.Link a l t,
          ⟨r, off + 6
            + (tuple3W (writeAttr a) (writeInlines l) (writeTarget t)).length⟩)
  image : ∀ (a : Attr) (l : List Inline) (t : Target), wfAttr a = true →
    wfInlines l = true → wfTarget t = true →
    (tuple3W (writeAttr a) (writeInlines l) (writeTarget t)).length + 6 < n →
    ∀ (r : List Nat) (off : Nat),
    readImage n ⟨44 :: 34 :: 99 :: 34 :: 58 ::
        (tuple3W (writeAttr a) (writeInlines l) (writeTarget t)
          ++ 125 :: r), off⟩
      = .ok (.Image a l t,
          ⟨r, off + 6
            + (tuple3W (writeAttr a) (writeInlines l) (writeTarget t)).length⟩)
  note : ∀ bs : List Block, wfBlocks bs = true →
    (writeBlocks bs).length + 6 < n → ∀ (r : List Nat) (off : Nat),
    readNote n
      ⟨44 :: 34 :: 99 :: 34 :: 58 :: (writeBlocks bs ++ 125 :: r), off⟩
      = .ok (.Note bs, ⟨r, off + 6 + (writeBlocks bs).length⟩)
  inlList : ∀ l : List Inline, wfInlines l = true →
    (writeInlines l).length < n → ∀ (r : List Nat) (off : Nat),
    readInlineList n ⟨writeInlines l ++ r, off⟩
      = .ok (l, ⟨r, off + (writeInlines l).length⟩)
  inlLoop : ∀ l : List Inline, wfInlines l = true →
    (writeInlineList l).length + 1 < n → ∀ (r : List Nat) (off : Nat),
    readInlineListLoop n ⟨writeInlineList l ++ 93 :: r, off⟩
      = .ok (l, ⟨r, off + (writeInlineList l).length + 1⟩)
  inlsLoop : ∀ ls : List (List Inline), wfInliness ls = true →
    (writeInliness ls).length + 1 < n → ∀ (r : List Nat) (off : Nat),
    readInlinessLoop n ⟨writeInliness ls ++ 93 :: r, off⟩
      = .ok (ls, ⟨r, off + (writeInliness ls).length + 1⟩)
  citLoop : ∀ cs : List Citation, wfCitations cs = true →
    (writeCitationList cs).length + 1 < n → ∀ (r : List Nat) (off : Nat),
    readCitationListLoop n ⟨writeCitationList cs ++ 93 :: r, off⟩
      = .ok (cs, ⟨r, off + (writeCitationList cs).length + 1⟩)
  cit : ∀ c : Citation, wfCitation c = true → (writeCitation c).length < n →
    ∀ (r : List Nat) (off : Nat),
    readCitation n ⟨writeCitation c ++ r, off⟩
      = .ok (c, ⟨r, off + (writeCitation c).length⟩)
  citL1 : ∀ (id : List Nat) (pref suff : List Inline) (mode : CitationMode)
    (nn h0 hash : Int), int64OK hash = true → (citBody1 hash).length < n →
    ∀ (r : List Nat) (off : Nat),
    readCitationLoop n 1 id pref suff mode nn h0 ⟨citBody1 hash ++ r, off⟩
      = .ok (.mk id pref suff mode nn hash, ⟨r, off + (citBody1 hash).length⟩)
  citL2 : ∀ (id : List Nat) (pref suff : List Inline) (mode : CitationMode)
    (nn0 h0 nn hash : Int), int64OK nn = true → int64OK hash = true →
    (citBody2 nn hash).length < n → ∀ (r : List Nat) (off : Nat),
    readCitationLoop n 2 id pref suff mode nn0 h0 ⟨citBody2 nn hash ++ r, off⟩
      = .ok (.mk id pref suff mode nn hash, ⟨r, off + (citBody2 nn hash).length⟩)
  citL3 : ∀ (id : List Nat) (pref suff : List Inline) (mode0 : CitationMode)
    (nn0 h0 : Int) (mode : CitationMode) (nn hash : Int),
    int64OK nn = true → int64OK hash = true →
    (citBody3 mode nn hash).length < n → ∀ (r : List Nat) (off : Nat),
    readCitationLoop n 3 id pref suff mode0 nn0 h0
      ⟨citBody3 mode nn hash ++ r, off⟩
      = .ok (.mk id pref suff mode nn hash,
          ⟨r, off + (citBody3 mode nn hash).length⟩)
  citL4 : ∀ (id : List Nat) (pref suff0 : List Inline) (mode0 : CitationMode)
    (nn0 h0 : Int) (suff : List Inline) (mode : CitationMode) (nn hash : Int),
    wfInlines suff = true → int64OK nn = true → int64OK hash = true →
    (citBody4 suff mode nn hash).length < n → ∀ (r : List Nat) (off : Nat),
    readCitationLoop n 4 id pref suff0 mode0 nn0 h0
      ⟨citBody4 suff mode nn hash ++ r, off⟩
      = .ok (.mk id pref suff mode nn hash,
          ⟨r, off + (citBody4 suff mode nn hash).length⟩)
  citL5 : ∀ (id : List Nat) (pref0 suff0 : List Inline) (mode0 : CitationMode)
    (nn0 h0 : Int) (pref suff : List Inline) (mode : CitationMode)
    (nn hash : Int),
    wfInlines pref = true → wfInlines suff = true → int64OK nn = true →
    int64OK hash = true →
    (citBody5 pref suff mode nn hash).length < n →
    ∀ (r : List Nat) (off : Nat),
    readCitationLoop n 5 id pref0 suff0 mode0 nn0 h0
      ⟨citBody5 pref suff mode nn hash ++ r, off⟩
      = .ok (.mk id pref suff mode nn hash,
          ⟨r, off + (citBody5 pref suff mode nn hash).length⟩)
  citL6 : ∀ (id0 : List Nat) (pref0 suff0 : List Inline)
    (mode0 : CitationMode) (nn0 h0 : Int) (id : List Nat)
    (pref suff : List Inline) (mode : CitationMode) (nn hash : Int),
    strOK id = true → wfInlines pref = true → wfInlines suff = true →
    int64OK nn = true → int64OK hash = true →
    (citBody6 id pref suff mode nn hash).length < n →
    ∀ (r : List Nat) (off : Nat),
    readCitationLoop n 6 id0 pref0 suff0 mode0 nn0 h0
      ⟨citBody6 id pref suff mode nn hash ++ r, off⟩
      = .ok (.mk id pref suff mode nn hash,
          ⟨r, off + (citBody6 id pref suff mode nn hash).length⟩)
  blk : ∀ b : Block, wfBlock b = true → (writeBlock b).length < n →
    ∀ (r : List Nat) (off : Nat),
    readBlock n ⟨writeBlock b ++ r, off⟩
      = .ok (b, ⟨r, off + (writeBlock b).length⟩)
  header : ∀ (lvl : Int) (a : Attr) (l : List Inline), int64OK lvl = true →
    wfAttr a = true → wfInlines l = true →
    (tuple3W (intBytes lvl) (writeAttr a) (writeInlines l)).length + 6 < n →
    ∀ (r : List Nat) (off : Nat),
    readHeader n ⟨44 :: 34 :: 99 :: 34 :: 58 ::
        (tuple3W (intBytes lvl) (writeAttr a) (writeInlines l)
          ++ 125 :: r), off⟩
      = .ok (.Header lvl a l,
          ⟨r, off + 6
            + (tuple3W (intBytes lvl) (writeAttr a) (writeInlines l)).length⟩)
  div : ∀ (a : Attr) (bs : List Block), wfAttr a = true → wfBlocks bs = true →
    (tuple2W (writeAttr a) (writeBlocks bs)).length + 6 < n →
    ∀ (r : List Nat) (off : Nat),
    readDiv n ⟨44 :: 34 :: 99 :: 34 :: 58 ::
        (tuple2W (writeAttr a) (writeBlocks bs) ++ 125 :: r), off⟩
      = .ok (.Div a bs,
          ⟨r, off + 6 + (tuple2W (writeAttr a) (writeBlocks bs)).length⟩)
  figure : ∀ (a : Attr) (cap : Caption) (bs : List Block), wfAttr a = true →
    wfCaption cap = true → wfBlocks bs = true →
    (tuple3W (writeAttr a) (writeCaption cap) (writeBlocks bs)).length + 6 < n →
    ∀ (r : List Nat) (off : Nat),
    readFigure n ⟨44 :: 34 :: 99 :: 34 :: 58 ::
        (tuple3W (writeAttr a) (writeCaption cap) (writeBlocks bs)
          ++ 125 :: r), off⟩
      = .ok (.Figure a cap bs,
          ⟨r, off + 6
            + (tuple3W (writeAttr a) (writeCaption cap)
                (writeBlocks bs)).length⟩)
  ordered : ∀ (la : ListAttrs) (items : List (List Block)),
    wfListAttrs la = true → wfBlockss items = true →
    (tuple2W (writeListAttrs la)
      (91 :: writeBlockss items ++ [93])).length + 6 < n →
    ∀ (r : List Nat) (off : Nat),
    readOrderedList n ⟨44 :: 34 :: 99 :: 34 :: 58 ::
        (tuple2W (writeListAttrs la) (91 :: writeBlockss items ++ [93])
          ++ 125 :: r), off⟩
      = .ok (.OrderedList la items,
          ⟨r, off + 6
            + (tuple2W (writeListAttrs la)
                (91 :: writeBlockss items ++ [93])).length⟩)
  table : ∀ (a : Attr) (cap : Caption) (aligns : List ColSpec)
    (head : TableHeadFoot) (bodies : List TableBody) (foot : TableHeadFoot),
    wfAttr a = true → wfCaption cap = true → wfColSpecList aligns = true →
    wfTHF head = true → wfBodies bodies = true → wfTHF foot = true →
    (tableC a cap aligns head bodies foot).length + 6 < n →
    ∀ (r : List Nat) (off : Nat),
    readTable n ⟨44 :: 34 :: 99 :: 34 :: 58 ::
        (tableC a cap aligns head bodies foot ++ 125 :: r), off⟩
      = .ok (.Table a cap aligns head bodies foot,
          ⟨r, off + 6 + (tableC a cap aligns head bodies foot).length⟩)
  caption : ∀ cap : Caption, wfCaption cap = true →
    (writeCaption cap).length < n → ∀ (r : List Nat) (off : Nat),
    readCaption n ⟨writeCaption cap ++ r, off⟩
      = .ok (cap, ⟨r, off + (writeCaption cap).length⟩)
  cell : ∀ c : TableCell, wfCell c = true → (writeCell c).length < n →
    ∀ (r : List Nat) (off : Nat),
    readTableCell n ⟨writeCell c ++ r, off⟩
      = .ok (c, ⟨r, off + (writeCell c).length⟩)
  cellLoop : ∀ cs : List TableCell, wfCells cs = true →
    (writeCellList cs).length + 1 < n → ∀ (r : List Nat) (off : Nat),
    readCellListLoop n ⟨writeCellList cs ++ 93 :: r, off⟩
      = .ok (cs, ⟨r, off + (writeCellList cs).length + 1⟩)
  row : ∀ tr : TableRow, wfRow tr = true → (writeRow tr).length < n →
    ∀ (r : List Nat) (off : Nat),
    readTableRow n ⟨writeRow tr ++ r, off⟩
      = .ok (tr, ⟨r, off + (writeRow tr).length⟩)
  rowLoop : ∀ rs : List TableRow, wfRows rs = true →
    (writeRowList rs).length + 1 < n → ∀ (r : List Nat) (off : Nat),
    readRowListLoop n ⟨writeRowList rs ++ 93 :: r, off⟩
      = .ok (rs, ⟨r, off + (writeRowList rs).length + 1⟩)
  thf : ∀ h : TableHeadFoot, wfTHF h = true → (writeTHF h).length < n →
    ∀ (r : List Nat) (off : Nat),
    readTableHeadFoot n ⟨writeTHF h ++ r, off⟩
      = .ok (h, ⟨r, off + (writeTHF h).length⟩)
  tbody : ∀ b : TableBody, wfBody b = true → (writeBody b).length < n →
    ∀ (r : List Nat) (off : Nat),
    readTableBody n ⟨writeBody b ++ r, off⟩
      = .ok (b, ⟨r, off + (writeBody b).length⟩)
  bodyLoop : ∀ bs : List TableBody, wfBodies bs = true →
    (writeBodies bs).length + 1 < n → ∀ (r : List Nat) (off : Nat),
    readBodyListLoop n ⟨writeBodies bs ++ 93 :: r, off⟩
      = .ok (bs, ⟨r, off + (writeBodies bs).length + 1⟩)
  defn : ∀ d : Definition, wfDef d = true → (writeDef d).length < n →
    ∀ (r : List Nat) (off : Nat),
    readDefinition n ⟨writeDef d ++ r, off⟩
      = .ok (d, ⟨r, off + (writeDef d).length⟩)
  defLoop : ∀ ds : List Definition, wfDefs ds = true →
    (writeDefs ds).length + 1 < n → ∀ (r : List Nat) (off : Nat),
    readDefListLoop n ⟨writeDefs ds ++ 93 :: r, off⟩
      = .ok (ds, ⟨r, off + (writeDefs ds).length + 1⟩)
  blkLoop : ∀ bs : List Block, wfBlocks bs = true →
    (writeBlockList bs).length + 1 < n → ∀ (r : List Nat) (off : Nat),
    readBlockListLoop n ⟨writeBlockList bs ++ 93 :: r, off⟩
      = .ok (bs, ⟨r, off + (writeBlockList bs).length + 1⟩)
  blkList : ∀ bs : List Block, wfBlocks bs = true →
    (writeBlocks bs).length < n → ∀ (r : List Nat) (off : Nat),
    readBlockList n ⟨writeBlocks bs ++ r, off⟩
      = .ok (bs, ⟨r, off + (writeBlocks bs).length⟩)
  blkssLoop : ∀ ls : List (List Block), wfBlockss ls = true →
    (writeBlockss ls).length + 1 < n → ∀ (r : List Nat) (off : Nat),
    readBlockssLoop n ⟨writeBlockss ls ++ 93 :: r, off⟩
      = .ok (ls, ⟨r, off + (writeBlockss ls).length + 1⟩)
  metaV : ∀ m : MetaValue, wfMetaValue m = true →
    (writeMetaValue m).length < n → ∀ (r : List Nat) (off : Nat),
    readMetaValue n ⟨writeMetaValue m ++ r, off⟩
      = .ok (m, ⟨r, off + (writeMetaValue m).length⟩)
  metaListLoop : ∀ ms : List MetaValue, wfMetaValues ms = true →
    (writeMetaList ms).length + 1 < n → ∀ (r : List Nat) (off : Nat),
    readMetaListLoop n ⟨writeMetaList ms ++ 93 :: r, off⟩
      = .ok (ms, ⟨r, off + (writeMetaList ms).length + 1⟩)
  meta : ∀ es : List MetaMapEntry, wfMetaEntries es = true →
    (writeMeta es).length < n → ∀ (r : List Nat) (off : Nat),
    readMeta n ⟨writeMeta es ++ r, off⟩
      = .ok (es, ⟨r, off + (writeMeta es).length⟩)
  metaLoop : ∀ es : List MetaMapEntry, wfMetaEntries es = true →
    (writeMetaEntries es).length + 1 < n → ∀ (r : List Nat) (off : Nat),
    readMetaLoop n ⟨writeMetaEntries es ++ 125 :: r, off⟩
      = .ok (es, ⟨r, off + (writeMetaEntries es).length + 1⟩)

/-- The error outcomes an always-continue visiting function can leave
behind: the plain Continue result, or a non-result error (fuel out in
the model). -/
def contOK (err : WRes) : Prop := err = .res Continue ∨ isResult err = none

/-- The sweep statuses an always-continue visiting function can leave
behind: completed, or aborted by a non-result error; never halted. -/
def statOK : LStat → Prop
  | .done => True
  | .halted => False
  | .failed er => isResult er = none

/-! # Theorems -/

/-! ## Decimal digit strings -/

theorem natDigitsAux_acc (fuel : Nat) :
    ∀ n acc, natDigitsAux fuel n acc = natDigitsAux fuel n [] ++ acc := by
  induction fuel with
  | zero => intro n acc; simp [natDigitsAux]
  | succ fuel ih =>
    intro n acc
    by_cases h : n < 10
    · simp [natDigitsAux, h]
    · simp only [natDigitsAux, if_neg h]
      rw [ih (n / 10) ((n % 10 + 48) :: acc), ih (n / 10) [n % 10 + 48]]
      simp

theorem natDigitsAux_eq (n : Nat) :
    ∀ fuel, n < fuel → ∀ acc, natDigitsAux fuel n acc = natDigits n ++ acc := by
  induction n using Nat.strong_induction_on with
  | _ n ih =>
    intro fuel hf acc
    match fuel, hf with
    | fuel + 1, hf =>
      by_cases h : n < 10
      · simp [natDigitsAux, natDigits, h]
      · simp only [natDigitsAux, if_neg h, natDigits]
        have hd : n / 10 < n := Nat.div_lt_self (by omega) (by omega)
        rw [ih (n / 10) hd fuel (by omega) ((n % 10 + 48) :: acc),
            ih (n / 10) hd n (by omega) [n % 10 + 48]]
        simp

theorem natDigits_cons (n : Nat) (h : ¬ n < 10) :
    natDigits n = natDigits (n / 10) ++ [n % 10 + 48] := by
  have hd : n / 10 < n := Nat.div_lt_self (by omega) (by omega)
  simp only [natDigits, natDigitsAux, if_neg h]
  exact natDigitsAux_eq (n / 10) n (by omega) [n % 10 + 48]

theorem natDigits_small (n : Nat) (h : n < 10) : natDigits n = [n + 48] := by
  simp [natDigits, natDigitsAux, h]

theorem natDigits_all (n : Nat) : allDigits (natDigits n) = true := by
  induction n using Nat.strong_induction_on with
  | _ n ih =>
    by_cases h : n < 10
    · simp [natDigits_small n h, allDigits, isDigit]; omega
    · rw [natDigits_cons n h]
      have ht := ih (n / 10) (Nat.div_lt_self (by omega) (by omega))
      simp only [allDigits, List.all_append, List.all_cons, List.all_nil,
        Bool.and_true, Bool.and_eq_true] at ht ⊢
      exact ⟨ht, by simp [isDigit]; omega⟩

theorem natDigits_head (n : Nat) (h : 1 ≤ n) :
    ∃ c cs, natDigits n = c :: cs ∧ 49 ≤ c ∧ c ≤ 57 := by
  induction n using Nat.strong_induction_on with
  | _ n ih =>
    by_cases hs : n < 10
    · exact ⟨n + 48, [], by simp [natDigits_small n hs]; omega⟩
    · rw [natDigits_cons n hs]
      obtain ⟨c, cs, hc, h1, h2⟩ :=
        ih (n / 10) (Nat.div_lt_self (by omega) (by omega))
          (by omega : 1 ≤ n / 10)
      exact ⟨c, cs ++ [n % 10 + 48], by simp [hc], h1, h2⟩

theorem digitsVal_append (xs ys : List Nat) :
    ∀ acc, digitsVal acc (xs ++ ys) = digitsVal (digitsVal acc xs) ys := by
  induction xs with
  | nil => intro acc; rfl
  | cons x xs ih => intro acc; exact ih _

theorem digitsVal_natDigits (n : Nat) :
    ∀ acc, digitsVal acc (natDigits n) =
      acc * 10 ^ (natDigits n).length + n := by
  induction n using Nat.strong_induction_on with
  | _ n ih =>
    intro acc
    by_cases h : n < 10
    · rw [natDigits_small n h]
      show acc * 10 + (n + 48 - 48) = acc * 10 ^ (1 : Nat) + n
      rw [pow_one]; omega
    · rw [natDigits_cons n h, digitsVal_append,
        ih (n / 10) (Nat.div_lt_self (by omega) (by omega)) acc]
      show (acc * 10 ^ (natDigits (n / 10)).length + n / 10) * 10
            + (n % 10 + 48 - 48)
          = acc * 10 ^ (natDigits (n / 10) ++ [n % 10 + 48]).length + n
      simp only [List.length_append, List.length_cons, List.length_nil,
        Nat.zero_add, Nat.pow_succ]
      have ha : acc * ((10 : Nat) ^ (natDigits (n / 10)).length * 10)
          = acc * 10 ^ (natDigits (n / 10)).length * 10 :=
        (Nat.mul_assoc _ _ _).symm
      omega

theorem digitsVal_ge (ds : List Nat) : ∀ acc, acc ≤ digitsVal acc ds := by
  induction ds with
  | nil => intro acc; exact Nat.le_refl _
  | cons d ds ih =>
    intro acc
    calc acc ≤ acc * 10 + (d - 48) := by omega
    _ ≤ digitsVal (acc * 10 + (d - 48)) ds := ih _

theorem intLoop_digits (ds : List Nat) (rest : List Nat)
    (hd : allDigits ds = true) (hr : numContB rest = false) :
    ∀ num, digitsVal num ds < 2 ^ 64 →
    intLoop (ds ++ rest) num false = (digitsVal num ds, false, rest, .fin) := by
  induction ds with
  | nil =>
    intro num _
    match rest, hr with
    | [], _ => rfl
    | c :: rest', hr =>
      simp only [numContB, decide_eq_false_iff_not] at hr
      push_neg at hr
      obtain ⟨h1, h2, h3, h4⟩ := hr
      show intLoop (c :: rest') num false = (num, false, c :: rest', .fin)
      simp only [intLoop]
      rw [if_neg, if_neg, if_neg]
      · exact not_or.mpr ⟨h3, h4⟩
      · exact h2
      · simp [h1]
  | cons d ds ih =>
    intro num hlt
    simp only [allDigits, List.all_cons, Bool.and_eq_true] at hd
    have hdig : isDigit d = true := hd.1
    have hrest : allDigits ds = true := hd.2
    have hv : digitsVal num (d :: ds) = digitsVal (num * 10 + (d - 48)) ds := rfl
    have hlt2 : num * 10 + (d - 48) < 2 ^ 64 := by
      have := digitsVal_ge ds (num * 10 + (d - 48))
      rw [hv] at hlt
      omega
    have hstep : intLoop ((d :: ds) ++ rest) num false
        = intLoop (ds ++ rest) (num * 10 + (d - 48)) false := by
      simp only [List.cons_append, intLoop, hdig, if_pos hlt2]
      rfl
    rw [hstep, ih hrest _ (by rw [← hv]; exact hlt), hv]

theorem intLoop_natDigits (m : Nat) (hm : m < 2 ^ 64)
    (rest : List Nat) (hr : numContB rest = false) (c1 : Nat) (ds : List Nat)
    (hc : natDigits m = c1 :: ds) :
    intLoop (ds ++ rest) (c1 - 48) false = (m, false, rest, .fin) := by
  have hall : allDigits ds = true := by
    have ha := natDigits_all m
    rw [hc] at ha
    simp only [allDigits, List.all_cons, Bool.and_eq_true] at ha
    simp only [allDigits]
    exact ha.2
  have hval : digitsVal (c1 - 48) ds = m := by
    have h2 := digitsVal_natDigits m 0
    rw [hc] at h2
    have h3 : digitsVal 0 (c1 :: ds) = digitsVal (0 * 10 + (c1 - 48)) ds := rfl
    have h0 : (0 : Nat) * 10 + (c1 - 48) = c1 - 48 := by omega
    rw [h3, h0] at h2
    rw [h2]
    simp
  rw [intLoop_digits ds rest hall hr (c1 - 48) (by rw [hval]; exact hm), hval]

/-- parseNum on an input headed by a nonzero digit immediately enters the
integer loop. -/
theorem parseNum_consDigit (c1 : Nat) (h1 : 49 ≤ c1) (h2 : c1 ≤ 57)
    (l2 : List Nat) (off : Nat) :
    parseNum (c1 :: l2) off
      = match intLoop l2 (c1 - 48) false with
        | (num, flt, rest, .fin) =>
          if flt then numFltDone (c1 :: l2) off rest
          else numIntDone (c1 :: l2) off false num rest
        | (_, _, rest, .dot) => numFracPath (c1 :: l2) off rest
        | (_, _, rest, .exp) => numExpPath (c1 :: l2) off rest := by
  interval_cases c1 <;> rfl

/-- parseNum on a minus sign followed by a nonzero digit enters the
integer loop with the negative flag. -/
theorem parseNum_minusDigit (c1 : Nat) (h1 : 49 ≤ c1) (h2 : c1 ≤ 57)
    (l2 : List Nat) (off : Nat) :
    parseNum (45 :: c1 :: l2) off
      = match intLoop l2 (c1 - 48) false with
        | (num, flt, rest, .fin) =>
          if flt then numFltDone (45 :: c1 :: l2) off rest
          else numIntDone (45 :: c1 :: l2) off true num rest
        | (_, _, rest, .dot) => numFracPath (45 :: c1 :: l2) off rest
        | (_, _, rest, .exp) => numExpPath (45 :: c1 :: l2) off rest := by
  interval_cases c1 <;> rfl

/-- On the decimal bytes of an in-range int64 followed by anything that
cannot extend a numeric literal, the scanner yields exactly that
integer, consuming exactly the literal. -/
theorem parseNum_intBytes (n : Int) (rest : List Nat) (off : Nat)
    (h : int64OK n = true) (hr : numContB rest = false) :
    parseNum (intBytes n ++ rest) off
      = (.num (.i n), rest, off + (intBytes n).length) := by
  simp only [int64OK, Bool.and_eq_true, decide_eq_true_eq] at h
  by_cases hn0 : n = 0
  · subst hn0
    have hib : intBytes 0 = [48] := rfl
    rw [hib]
    match rest, hr with
    | [], _ => rfl
    | c2 :: l3, hr =>
      simp only [numContB, decide_eq_false_iff_not] at hr
      push_neg at hr
      obtain ⟨hn1, hn2, hn3, hn4⟩ := hr
      show (if isDigit c2 = true then ((Tok.terr (ScanErr.invalidNum off)), c2 :: l3, off)
          else if c2 = 46 then numFracPath (48 :: c2 :: l3) off l3
          else if c2 = 101 ∨ c2 = 69 then numExpPath (48 :: c2 :: l3) off l3
          else ((Tok.num (NumV.i 0)), c2 :: l3, off + 1))
        = ((Tok.num (NumV.i 0)), c2 :: l3, off + 1)
      rw [if_neg hn1, if_neg hn2, if_neg (not_or.mpr ⟨hn3, hn4⟩)]
  · by_cases hneg : n < 0
    · -- negative: a minus sign then the digits of the absolute value
      set m := n.natAbs with hm
      have hm1 : 1 ≤ m := by omega
      have hmle : m ≤ 2 ^ 63 := by omega
      obtain ⟨c1, ds, hc, hb1, hb2⟩ := natDigits_head m hm1
      have hib : intBytes n = 45 :: c1 :: ds := by
        simp only [intBytes, if_pos hneg, ← hm, hc]
      rw [hib]
      have hloop := intLoop_natDigits m (by omega) rest hr c1 ds hc
      show parseNum (45 :: c1 :: (ds ++ rest)) off
          = (.num (.i n), rest, off + (45 :: c1 :: ds).length)
      rw [parseNum_minusDigit c1 hb1 hb2, hloop]
      show ((Tok.num (if m > 2 ^ 63 then NumV.f (roundNat true m)
            else NumV.i (-(m : Int)))),
          rest, off + ((45 :: c1 :: (ds ++ rest)).length - rest.length))
        = ((Tok.num (NumV.i n)), rest, off + (45 :: c1 :: ds).length)
      rw [if_neg (by omega : ¬ m > 2 ^ 63)]
      have hmn : -((m : Int)) = n := by omega
      rw [hmn]
      simp only [Prod.mk.injEq, List.length_cons, List.length_append,
        true_and, and_true, eq_self_iff_true]
      omega
    · -- positive: just the digits
      set m := n.natAbs with hm
      have hm1 : 1 ≤ m := by omega
      have hmle : m < 2 ^ 63 := by omega
      obtain ⟨c1, ds, hc, hb1, hb2⟩ := natDigits_head m hm1
      have hib : intBytes n = c1 :: ds := by
        simp only [intBytes, if_neg hneg, ← hm, hc]
      rw [hib]
      have hloop := intLoop_natDigits m (by omega) rest hr c1 ds hc
      show parseNum (c1 :: (ds ++ rest)) off
          = (.num (.i n), rest, off + (c1 :: ds).length)
      rw [parseNum_consDigit c1 hb1 hb2, hloop]
      show ((Tok.num (if m > 2 ^ 63 - 1 then NumV.f (roundNat false m)
            else NumV.i ((m : Int)))),
          rest, off + ((c1 :: (ds ++ rest)).length - rest.length))
        = ((Tok.num (NumV.i n)), rest, off + (c1 :: ds).length)
      rw [if_neg (by omega : ¬ m > 2 ^ 63 - 1)]
      have hmn : ((m : Int)) = n := by omega
      rw [hmn]
      simp only [Prod.mk.injEq, List.length_cons, List.length_append,
        true_and, and_true, eq_self_iff_true]
      omega

/-- An overflowing positive integer literal (above int64 but still below
the 64-bit accumulator bound) scans as the converted 64-bit float. -/
theorem parseNum_natOverflow (m : Nat) (h1 : 2 ^ 63 - 1 < m) (h2 : m < 2 ^ 64)
    (rest : List Nat) (off : Nat) (hr : numContB rest = false) :
    parseNum (natDigits m ++ rest) off
      = (.num (.f (roundNat false m)), rest, off + (natDigits m).length) := by
  obtain ⟨c1, ds, hc, hb1, hb2⟩ := natDigits_head m (by omega)
  have hloop := intLoop_natDigits m h2 rest hr c1 ds hc
  rw [hc]
  show parseNum (c1 :: (ds ++ rest)) off
      = (.num (.f (roundNat false m)), rest, off + (c1 :: ds).length)
  rw [parseNum_consDigit c1 hb1 hb2, hloop]
  show ((Tok.num (if m > 2 ^ 63 - 1 then NumV.f (roundNat false m)
        else NumV.i ((m : Int)))),
      rest, off + ((c1 :: (ds ++ rest)).length - rest.length))
    = ((Tok.num (NumV.f (roundNat false m))), rest, off + (c1 :: ds).length)
  rw [if_pos (by omega : m > 2 ^ 63 - 1)]
  simp only [Prod.mk.injEq, List.length_cons, List.length_append,
    true_and, and_true, eq_self_iff_true]
  omega

/-- An overflowing negative integer literal (magnitude above 2^63 but
below the 64-bit accumulator bound) scans as the negated converted
64-bit float. -/
theorem parseNum_negOverflow (m : Nat) (h1 : 2 ^ 63 < m) (h2 : m < 2 ^ 64)
    (rest : List Nat) (off : Nat) (hr : numContB rest = false) :
    parseNum (45 :: (natDigits m ++ rest)) off
      = (.num (.f (roundNat true m)), rest, off + (natDigits m).length + 1) := by
  obtain ⟨c1, ds, hc, hb1, hb2⟩ := natDigits_head m (by omega)
  have hloop := intLoop_natDigits m h2 rest hr c1 ds hc
  rw [hc]
  show parseNum (45 :: c1 :: (ds ++ rest)) off
      = (.num (.f (roundNat true m)), rest, off + (c1 :: ds).length + 1)
  rw [parseNum_minusDigit c1 hb1 hb2, hloop]
  show ((Tok.num (if m > 2 ^ 63 then NumV.f (roundNat true m)
        else NumV.i (-(m : Int)))),
      rest, off + ((45 :: c1 :: (ds ++ rest)).length - rest.length))
    = ((Tok.num (NumV.f (roundNat true m))), rest, off + (c1 :: ds).length + 1)
  rw [if_pos (by omega : m > 2 ^ 63)]
  simp only [Prod.mk.injEq, List.length_cons, List.length_append,
    true_and, and_true, eq_self_iff_true]
  omega

theorem numFltDone_not_int (inp : List Nat) (off : Nat) (rest : List Nat)
    (v : Int) : (numFltDone inp off rest).1 ≠ .num (.i v) := by
  simp only [numFltDone]
  split <;> simp

theorem numExpPath_not_int (inp : List Nat) (off : Nat) (l : List Nat)
    (v : Int) : (numExpPath inp off l).1 ≠ .num (.i v) := by
  simp only [numExpPath]
  split
  · simp
  · split
    · simp
    · split
      · exact numFltDone_not_int _ _ _ _
      · simp

theorem numFracPath_not_int (inp : List Nat) (off : Nat) (l : List Nat)
    (v : Int) : (numFracPath inp off l).1 ≠ .num (.i v) := by
  simp only [numFracPath]
  split
  · simp
  · split
    · split
      · exact numExpPath_not_int _ _ _ _
      · exact numFltDone_not_int _ _ _ _
    · simp

/-- The integer-path closer only emits exact integers inside the signed
64-bit range: its own guards convert anything larger to a float. -/
theorem numIntDone_int_range (inp : List Nat) (off : Nat) (neg : Bool)
    (num : Nat) (rest : List Nat) (n : Int)
    (h : (numIntDone inp off neg num rest).1 = .num (.i n)) :
    int64OK n = true := by
  cases neg with
  | true =>
    simp [numIntDone] at h
    split at h
    · simp at h
    · simp at h
      simp only [int64OK, Bool.decide_and, Bool.and_eq_true, decide_eq_true_eq]
      omega
  | false =>
    simp [numIntDone] at h
    split at h
    · simp at h
    · simp at h
      simp only [int64OK, Bool.decide_and, Bool.and_eq_true, decide_eq_true_eq]
      omega

/-- Every exact integer token the scanner produces, on any input
whatsoever, lies in the signed 64-bit range: a literal outside
[-2^63, 2^63), however large, never scans as an exact integer. -/
theorem parseNum_int_range (inp : List Nat) (off : Nat) (n : Int)
    (rest : List Nat) (o : Nat)
    (h : parseNum inp off = (.num (.i n), rest, o)) :
    int64OK n = true := by
  rcases inp with _ | ⟨c, rest0⟩
  · simp [parseNum] at h
  · simp only [parseNum] at h
    by_cases hc : c = 45
    · rw [if_pos hc] at h
      simp only [] at h
      rcases rest0 with _ | ⟨c1, l2⟩
      · simp at h
      · simp only [] at h
        by_cases hd : isDigit c1 = true
        · rw [if_neg (by simp [hd])] at h
          by_cases h48 : c1 = 48
          · rw [if_pos h48] at h
            rcases l2 with _ | ⟨c2, l3⟩
            · simp at h
            · simp only [] at h
              by_cases hd2 : isDigit c2 = true
              · rw [if_pos hd2] at h
                simp at h
              · rw [if_neg (by simp [hd2])] at h
                by_cases h46 : c2 = 46
                · rw [if_pos h46] at h
                  exact absurd (congrArg Prod.fst h)
                    (numFracPath_not_int _ _ _ _)
                · rw [if_neg h46] at h
                  by_cases hexp : c2 = 101 ∨ c2 = 69
                  · rw [if_pos hexp] at h
                    exact absurd (congrArg Prod.fst h)
                      (numExpPath_not_int _ _ _ _)
                  · rw [if_neg hexp] at h
                    simp at h
          · rw [if_neg h48] at h
            rcases hloop : intLoop l2 (c1 - 48) false with ⟨num, flt, rest', ne⟩
            rw [hloop] at h
            cases ne with
            | fin =>
              simp only [] at h
              cases flt with
              | true =>
                rw [if_pos rfl] at h
                exact absurd (congrArg Prod.fst h)
                  (numFltDone_not_int _ _ _ _)
              | false =>
                rw [if_neg (by simp)] at h
                exact numIntDone_int_range _ _ _ _ _ _ (congrArg Prod.fst h)
            | dot =>
              simp only [] at h
              exact absurd (congrArg Prod.fst h) (numFracPath_not_int _ _ _ _)
            | exp =>
              simp only [] at h
              exact absurd (congrArg Prod.fst h) (numExpPath_not_int _ _ _ _)
        · rw [if_pos (by simp [hd])] at h
          simp at h
    · rw [if_neg hc] at h
      simp only [] at h
      by_cases hd : isDigit c = true
      · rw [if_neg (by simp [hd])] at h
        by_cases h48 : c = 48
        · rw [if_pos h48] at h
          rcases rest0 with _ | ⟨c2, l3⟩
          · have h1 := congrArg Prod.fst h
            simp at h1
            simp only [int64OK, Bool.decide_and, Bool.and_eq_true,
              decide_eq_true_eq]
            omega
          · simp only [] at h
            by_cases hd2 : isDigit c2 = true
            · rw [if_pos hd2] at h
              simp at h
            · rw [if_neg (by simp [hd2])] at h
              by_cases h46 : c2 = 46
              · rw [if_pos h46] at h
                exact absurd (congrArg Prod.fst h)
                  (numFracPath_not_int _ _ _ _)
              · rw [if_neg h46] at h
                by_cases hexp : c2 = 101 ∨ c2 = 69
                · rw [if_pos hexp] at h
                  exact absurd (congrArg Prod.fst h)
                    (numExpPath_not_int _ _ _ _)
                · rw [if_neg hexp] at h
                  have h1 := congrArg Prod.fst h
                  simp at h1
                  simp only [int64OK, Bool.decide_and, Bool.and_eq_true,
                    decide_eq_true_eq]
                  omega
        · rw [if_neg h48] at h
          rcases hloop : intLoop rest0 (c - 48) false with ⟨num, flt, rest', ne⟩
          rw [hloop] at h
          cases ne with
          | fin =>
            simp only [] at h
            cases flt with
            | true =>
              rw [if_pos rfl] at h
              exact absurd (congrArg Prod.fst h) (numFltDone_not_int _ _ _ _)
            | false =>
              rw [if_neg (by simp)] at h
              exact numIntDone_int_range _ _ _ _ _ _ (congrArg Prod.fst h)
          | dot =>
            simp only [] at h
            exact absurd (congrArg Prod.fst h) (numFracPath_not_int _ _ _ _)
          | exp =>
            simp only [] at h
            exact absurd (congrArg Prod.fst h) (numExpPath_not_int _ _ _ _)
      · rw [if_pos (by simp [hd])] at h
        simp at h

/-- C4: counterexample.  The integer literal -9223372036854775808 has
magnitude 2^63, which does not fit in 63 bits, yet the scanner returns
it as an exact integer token (numberIsInt true), not as a 64-bit
float. -/
theorem C4_counterexample :
    parseNum (gs "-9223372036854775808") 0
      = (.num (.i (-(2 ^ 63))), [], 20)
    ∧ (2 ^ 63 - 1 : Nat) < (Int.natAbs (-(2 ^ 63))) := by
  exact ⟨rfl, by norm_num⟩

/-- C4 (amended): exact integers are produced precisely on the full
signed 64-bit range, not the 63-bit magnitude range: every literal
intBytes n with -2^63 ≤ n < 2^63 — including -9223372036854775808,
whose magnitude exceeds 63 bits — scans as the exact integer n;
conversely, every exact integer token the scanner produces, on any
input whatsoever, lies in [-2^63, 2^63), so a literal outside that
range, however large, never scans as an exact integer; a positive
integer literal above 2^63-1 and below 2^64 scans as the correctly
rounded 64-bit float, as does a negative literal of magnitude above
2^63 and below 2^64; a literal with a fractional part or an exponent
never produces an exact integer; and the literals -0 and -0.0 scan as
IEEE negative zero. -/
theorem C4_int_float_boundary :
    (∀ (n : Int) (rest : List Nat) (off : Nat),
      int64OK n = true → numContB rest = false →
      parseNum (intBytes n ++ rest) off
        = (.num (.i n), rest, off + (intBytes n).length))
    ∧ (∀ (m : Nat) (rest : List Nat) (off : Nat),
      2 ^ 63 - 1 < m → m < 2 ^ 64 → numContB rest = false →
      parseNum (natDigits m ++ rest) off
        = (.num (.f (roundNat false m)), rest, off + (natDigits m).length))
    ∧ (∀ (m : Nat) (rest : List Nat) (off : Nat),
      2 ^ 63 < m → m < 2 ^ 64 → numContB rest = false →
      parseNum (45 :: (natDigits m ++ rest)) off
        = (.num (.f (roundNat true m)), rest, off + (natDigits m).length + 1))
    ∧ (∀ (inp : List Nat) (off : Nat) (n : Int) (rest : List Nat) (o : Nat),
      parseNum inp off = (.num (.i n), rest, o) → int64OK n = true)
    ∧ (∀ (inp : List Nat) (off : Nat) (l : List Nat) (v : Int),
      (numFracPath inp off l).1 ≠ .num (.i v))
    ∧ (∀ (inp : List Nat) (off : Nat) (l : List Nat) (v : Int),
      (numExpPath inp off l).1 ≠ .num (.i v))
    ∧ parseNum (gs "-0") 0 = (.num (.f GoFloat.negZero), [], 2)
    ∧ parseNum (gs "-0.0") 0 = (.num (.f GoFloat.negZero), [], 4) :=
  ⟨parseNum_intBytes,
   fun m rest off h1 h2 hr => parseNum_natOverflow m h1 h2 rest off hr,
   fun m rest off h1 h2 hr => parseNum_negOverflow m h1 h2 rest off hr,
   parseNum_int_range,
   numFracPath_not_int,
   numExpPath_not_int,
   rfl,
   rfl⟩

/-- C4: witness.  The amended boundary at the concrete literals
9223372036854775807 (largest exact integer) and 9223372036854775808
(scanned as a float). -/
theorem C4_int_float_boundary_witness :
    parseNum (gs "9223372036854775807") 0
      = (.num (.i 9223372036854775807), [], 19)
    ∧ parseNum (gs "9223372036854775808") 0
      = (.num (.f (roundNat false 9223372036854775808)), [], 19) := by
  refine ⟨?_, ?_⟩
  · exact C4_int_float_boundary.1 9223372036854775807 [] 0 (by norm_num [int64OK]) rfl
  · exact C4_int_float_boundary.2.1 9223372036854775808 [] 0
      (by norm_num) (by norm_num) rfl

/-! ## C5: the string escape set -/

/-- C5: the escape table accepts exactly quote, slash, backslash, b, f,
n, r, t — with the decoded bytes 34, 47, 92, 8, 12, 10, 13, 9 — and in
the scanner an accepted escape continues the scan with the decoded byte
while any other escape character (u included) stops with an
invalid-escape error carrying the byte offset of the escape character;
an unterminated string is an unexpected-EOF error at the current
offset. -/
theorem C5_escape_set :
    (∀ c : Nat, (∃ b, escByte c = some b) ↔
      (c = 34 ∨ c = 47 ∨ c = 92 ∨ c = 98 ∨ c = 102 ∨ c = 110 ∨ c = 114
        ∨ c = 116))
    ∧ (escByte 34 = some 34 ∧ escByte 47 = some 47 ∧ escByte 92 = some 92
      ∧ escByte 98 = some 8 ∧ escByte 102 = some 12 ∧ escByte 110 = some 10
      ∧ escByte 114 = some 13 ∧ escByte 116 = some 9)
    ∧ (∀ (fuel : Nat) (inp : List Nat) (off : Nat) (acc : List Nat)
        (esc : Bool) (e b : Nat), escByte e = some b →
      parseStrAux (fuel + 1) (92 :: e :: inp) off acc esc
        = parseStrAux fuel inp (off + 2) (acc ++ [b]) true)
    ∧ (∀ (fuel : Nat) (inp : List Nat) (off : Nat) (acc : List Nat)
        (esc : Bool) (e : Nat), escByte e = none →
      parseStrAux (fuel + 1) (92 :: e :: inp) off acc esc
        = (.terr (.invalidEscape (off + 1)), e :: inp, off + 1))
    ∧ (escByte 117 = none
      ∧ parseStrLoop (gs "\\u0041\"") 1 [] false
        = (.terr (.invalidEscape 2), gs "u0041\"", 2))
    ∧ (∀ (fuel off : Nat) (acc : List Nat) (esc : Bool),
      parseStrAux fuel [] off acc esc
        = (.terr (.unexpectedEOF off), [], off)) := by
  refine ⟨?_, ⟨rfl, rfl, rfl, rfl, rfl, rfl, rfl, rfl⟩, ?_, ?_, ⟨rfl, rfl⟩, ?_⟩
  · intro c
    constructor
    · rintro ⟨b, hb⟩
      by_contra hno
      push_neg at hno
      obtain ⟨n1, n2, n3, n4, n5, n6, n7, n8⟩ := hno
      simp [escByte, n1, n2, n3, n4, n5, n6, n7, n8] at hb
    · rintro (h | h | h | h | h | h | h | h) <;> subst h <;> exact ⟨_, rfl⟩
  · intro fuel inp off acc esc e b hb
    show (match escByte e with
      | some b2 => parseStrAux fuel inp (off + 2) (acc ++ [b2]) true
      | none => (.terr (.invalidEscape (off + 1)), e :: inp, off + 1))
      = parseStrAux fuel inp (off + 2) (acc ++ [b]) true
    rw [hb]
  · intro fuel inp off acc esc e hb
    show (match escByte e with
      | some b2 => parseStrAux fuel inp (off + 2) (acc ++ [b2]) true
      | none => (.terr (.invalidEscape (off + 1)), e :: inp, off + 1))
      = (.terr (.invalidEscape (off + 1)), e :: inp, off + 1)
    rw [hb]
  · intro fuel off acc esc
    match fuel with
    | 0 => rfl
    | fuel + 1 => rfl

/-- C5: witness.  The escape step at the concrete escapes \n (accepted,
decodes to byte 10) and \u (rejected at the offset of the u). -/
theorem C5_escape_set_witness :
    parseStrAux 1 [92, 110] 0 [] false = parseStrAux 0 [] 2 [10] true
    ∧ parseStrAux 1 (92 :: 117 :: gs "0041") 0 [] false
      = (.terr (.invalidEscape 1), 117 :: gs "0041", 1) :=
  ⟨C5_escape_set.2.2.1 0 [] 0 [] false 110 10 rfl,
   C5_escape_set.2.2.2.1 0 (gs "0041") 0 [] false 117 rfl⟩

/-! ## The writer-reader duality: string scanning -/

theorem escOut_escByte (c e : Nat) (h : escOut c = some e) :
    escByte e = some c := by
  simp only [escOut] at h
  split_ifs at h <;> (cases h; subst_vars; rfl)

theorem escOut_none_facts (c : Nat) (h : escOut c = none) :
    c ≠ 34 ∧ c ≠ 92 := by
  constructor <;> (rintro rfl; simp [escOut] at h)

theorem escOut_ge80 (c : Nat) (h : 0x80 ≤ c) : escOut c = none := by
  simp only [escOut]
  split_ifs <;> first | rfl | (exfalso; omega)

theorem needsEsc_cons (c : Nat) (s : List Nat) :
    needsEsc (c :: s) = ((escOut c).isSome || needsEsc s) := by
  simp [needsEsc]

theorem quoteBody_cons_esc (c e : Nat) (s : List Nat)
    (h : escOut c = some e) :
    quoteBody (c :: s) = 92 :: e :: quoteBody s := by
  simp [quoteBody, h]

theorem quoteBody_cons_raw (c : Nat) (s : List Nat) (h : escOut c = none) :
    quoteBody (c :: s) = c :: quoteBody s := by
  simp [quoteBody, h]

theorem strOKA_mono :
    ∀ fuel₁, ∀ s : List Nat, ∀ fuel₂, s.length < fuel₁ → s.length < fuel₂ →
    strOKA fuel₁ s = strOKA fuel₂ s := by
  intro fuel₁
  induction fuel₁ with
  | zero => intro s fuel₂ h; omega
  | succ fuel₁ ih =>
    intro s fuel₂ h1 h2
    match s, fuel₂, h2 with
    | [], fuel₂ + 1, _ => rfl
    | c :: rest, fuel₂ + 1, h2 =>
      simp only [strOKA]
      by_cases hc : c < 0x80
      · rw [if_pos hc, if_pos hc]
        exact ih rest fuel₂ (by simp at h1; omega) (by simp at h2; omega)
      · rw [if_neg hc, if_neg hc]
        split_ifs with g1 g2 g3
        · rfl
        · rfl
        · exact ih (rest.drop (leadOnes c - 1)) fuel₂
            (by have := List.length_drop (leadOnes c - 1) rest; simp at h1 ⊢; omega)
            (by have := List.length_drop (leadOnes c - 1) rest; simp at h2 ⊢; omega)
        · rfl

theorem strOKA_eq_strOK (fuel : Nat) (s : List Nat) (h : s.length < fuel) :
    strOKA fuel s = strOK s :=
  strOKA_mono fuel s (s.length + 1) h (by omega)

/-- The escape step of parseStr (shared with the scan lemma): an
accepted escape appends the decoded byte and continues. -/
theorem parseStrAux_esc (fuel : Nat) (inp : List Nat) (off : Nat)
    (acc : List Nat) (esc : Bool) (e b : Nat) (hb : escByte e = some b) :
    parseStrAux (fuel + 1) (92 :: e :: inp) off acc esc
      = parseStrAux fuel inp (off + 2) (acc ++ [b]) true := by
  show (match escByte e with
    | some b2 => parseStrAux fuel inp (off + 2) (acc ++ [b2]) true
    | none => (.terr (.invalidEscape (off + 1)), e :: inp, off + 1))
    = parseStrAux fuel inp (off + 2) (acc ++ [b]) true
  rw [hb]

theorem escOut_some_lt80 (c e : Nat) (h : escOut c = some e) : c < 0x80 := by
  simp only [escOut] at h
  split_ifs at h <;> omega

/-- The central string-scan lemma: on the writer's quoted body followed
by the closing quote, parseStr reconstructs exactly the source bytes,
consumes exactly the quoted body, and reports whether any escape was
decoded. -/
theorem parseStrAux_scan :
    ∀ n : Nat, ∀ s : List Nat, s.length ≤ n → strOK s = true →
    ∀ fuel : Nat, (quoteBody s).length < fuel →
    ∀ (acc : List Nat) (esc : Bool) (off : Nat) (r : List Nat),
    parseStrAux fuel (quoteBody s ++ 34 :: r) off acc esc
      = (.str (acc ++ s) (!(esc || needsEsc s)), r,
          off + ((quoteBody s).length + 1)) := by
  intro n
  induction n with
  | zero =>
    intro s hlen hok fuel hfuel acc esc off r
    have hs : s = [] := List.length_eq_zero.mp (by omega)
    subst hs
    match fuel, hfuel with
    | fuel + 1, _ =>
      show (Tok.str acc (!esc), r, off + 1)
        = (.str (acc ++ []) (!(esc || needsEsc [])), r,
            off + ((quoteBody []).length + 1))
      simp [needsEsc, quoteBody]
  | succ n ih =>
    intro s hlen hok fuel hfuel acc esc off r
    match s with
    | [] =>
      match fuel, hfuel with
      | fuel + 1, _ =>
        show (Tok.str acc (!esc), r, off + 1)
          = (.str (acc ++ []) (!(esc || needsEsc [])), r,
              off + ((quoteBody []).length + 1))
        simp [needsEsc, quoteBody]
    | c :: s' =>
      have hlen' : s'.length ≤ n := by simp at hlen; omega
      match hesc : escOut c with
      | some e =>
        have hc80 := escOut_some_lt80 c e hesc
        have hok' : strOK s' = true := by
          have h2 := hok
          simp only [strOK, List.length_cons, strOKA] at h2
          rw [if_pos hc80] at h2
          exact h2
        rw [quoteBody_cons_esc c e s' hesc] at hfuel ⊢
        match fuel, hfuel with
        | fuel + 1, hfuel =>
          rw [List.cons_append, List.cons_append,
            parseStrAux_esc fuel _ off acc esc e c (escOut_escByte c e hesc)]
          rw [ih s' hlen' hok' fuel (by simp at hfuel; omega)]
          simp [needsEsc_cons, hesc, List.length_cons]
          omega
      | none =>
        obtain ⟨h34, h92⟩ := escOut_none_facts c hesc
        rw [quoteBody_cons_raw c s' hesc] at hfuel ⊢
        by_cases hc80 : c < 0x80
        · -- plain ASCII passthrough
          have hok' : strOK s' = true := by
            have h2 := hok
            simp only [strOK, List.length_cons, strOKA] at h2
            rw [if_pos hc80] at h2
            exact h2
          match fuel, hfuel with
          | fuel + 1, hfuel =>
            have hstep :
                parseStrAux (fuel + 1) ((c :: quoteBody s') ++ 34 :: r) off acc esc
                = parseStrAux fuel (quoteBody s' ++ 34 :: r) (off + 1)
                    (acc ++ [c]) esc := by
              simp only [List.cons_append, parseStrAux]
              rw [if_neg h34, if_neg h92, if_pos hc80]
            rw [hstep, ih s' hlen' hok' fuel (by simp at hfuel; omega)]
            simp [needsEsc_cons, hesc, List.length_cons]
            omega
        · -- multi-byte UTF-8 passthrough
          have h2 := hok
          simp only [strOK, List.length_cons, strOKA] at h2
          rw [if_neg hc80] at h2
          split_ifs at h2 with g1 g2 g3
          all_goals try exact Bool.noConfusion h2
          · -- g1: leadOnes ≤ 4; g2: enough bytes; g3: utf8DecLen agrees
            by_cases hA : c < 0xC0
            · -- one-byte passthrough (a bare continuation byte)
              have hb : leadOnes c = 1 := by
                simp only [leadOnes]
                rw [if_neg hc80, if_pos hA]
              rw [hb] at h2
              have hok' : strOK s' = true := by
                simp only [show (1:Nat) - 1 = 0 from rfl, List.drop_zero] at h2
                exact h2
              have hdec : utf8DecLen (c :: (quoteBody s' ++ 34 :: r)) = 1 := by
                simp only [utf8DecLen]
                rw [if_neg hc80, if_pos (by omega : c < 0xC2)]
              match fuel, hfuel with
              | fuel + 1, hfuel =>
                have hstep :
                    parseStrAux (fuel + 1) ((c :: quoteBody s') ++ 34 :: r) off acc esc
                    = parseStrAux fuel (quoteBody s' ++ 34 :: r) (off + 1)
                        (acc ++ [c]) esc := by
                  simp only [List.cons_append, parseStrAux]
                  rw [if_neg h34, if_neg h92, if_neg hc80, hb]
                  rw [if_neg (by omega : ¬ (1:Nat) > 4)]
                  rw [if_neg (by simp : ¬ (c :: (quoteBody s' ++ 34 :: r)).length < 1)]
                  rw [if_pos hdec]
                  rfl
                rw [hstep, ih s' hlen' hok' fuel (by simp at hfuel; omega)]
                simp [needsEsc_cons, hesc, List.length_cons]
                omega
            · by_cases hB : c < 0xE0
              · -- two-byte sequence
                have hb : leadOnes c = 2 := by
                  simp only [leadOnes]
                  rw [if_neg hc80, if_neg hA, if_pos hB]
                rw [hb] at g3 h2
                by_cases hC2 : c < 0xC2
                · exfalso
                  simp only [utf8DecLen] at g3
                  rw [if_neg hc80, if_pos hC2] at g3
                  omega
                match s', g3, h2, hlen' with
                | [], g3, _, _ =>
                  exfalso
                  simp only [utf8DecLen] at g3
                  rw [if_neg hc80, if_neg hC2, if_pos (by omega : c ≤ 0xDF)] at g3
                  omega
                | c1 :: s'', g3, h2, hlen' =>
                  have hcont : isCont c1 = true := by
                    simp only [utf8DecLen] at g3
                    rw [if_neg hc80, if_neg hC2,
                      if_pos (by omega : c ≤ 0xDF)] at g3
                    by_cases hk : isCont c1 = true
                    · exact hk
                    · rw [if_neg (by simp [hk])] at g3; omega
                  have hc1ge : 0x80 ≤ c1 := by
                    simp only [isCont, Bool.and_eq_true, decide_eq_true_eq] at hcont
                    omega
                  have he1 : escOut c1 = none := escOut_ge80 c1 hc1ge
                  have hok' : strOK s'' = true := by
                    simp only [show (2:Nat) - 1 = 1 from rfl, List.drop_one,
                      List.tail_cons, List.length_cons] at h2
                    rw [strOKA_eq_strOK _ _ (by omega)] at h2
                    exact h2
                  have hdec :
                      utf8DecLen (c :: c1 :: (quoteBody s'' ++ 34 :: r)) = 2 := by
                    simp only [utf8DecLen]
                    rw [if_neg hc80, if_neg hC2, if_pos (by omega : c ≤ 0xDF)]
                    rw [if_pos hcont]
                  rw [quoteBody_cons_raw c1 s'' he1] at hfuel ⊢
                  match fuel, hfuel with
                  | fuel + 1, hfuel =>
                    have hstep :
                        parseStrAux (fuel + 1)
                          ((c :: c1 :: quoteBody s'') ++ 34 :: r) off acc esc
                        = parseStrAux fuel (quoteBody s'' ++ 34 :: r) (off + 2)
                            (acc ++ [c, c1]) esc := by
                      simp only [List.cons_append, parseStrAux]
                      rw [if_neg h34, if_neg h92, if_neg hc80, hb]
                      rw [if_neg (by omega : ¬ (2:Nat) > 4)]
                      rw [if_neg (by simp :
                        ¬ (c :: (c1 :: (quoteBody s'' ++ 34 :: r))).length < 2)]
                      rw [if_pos hdec]
                      rfl
                    rw [hstep, ih s'' (by simp at hlen'; omega) hok' fuel (by simp at hfuel; omega)]
                    simp [needsEsc_cons, hesc, he1, List.length_cons]
                    omega
              · by_cases hC : c < 0xF0
                · -- three-byte sequence
                  have hb : leadOnes c = 3 := by
                    simp only [leadOnes]
                    rw [if_neg hc80, if_neg hA, if_neg hB, if_pos hC]
                  rw [hb] at g3 h2
                  match s', g3, h2, hlen' with
                  | [], g3, _, _ =>
                    exfalso
                    simp only [utf8DecLen] at g3
                    rw [if_neg hc80, if_neg (by omega : ¬ c < 0xC2),
                      if_neg (by omega : ¬ c ≤ 0xDF),
                      if_pos (by omega : c ≤ 0xEF)] at g3
                    omega
                  | [c1], g3, _, _ =>
                    exfalso
                    simp only [utf8DecLen] at g3
                    rw [if_neg hc80, if_neg (by omega : ¬ c < 0xC2),
                      if_neg (by omega : ¬ c ≤ 0xDF),
                      if_pos (by omega : c ≤ 0xEF)] at g3
                    omega
                  | c1 :: c2 :: s'', g3, h2, hlen' =>
                    have hcond : ((if c = 0xE0 then 0xA0 else 0x80) ≤ c1
                        ∧ c1 ≤ (if c = 0xED then 0x9F else 0xBF)
                        ∧ isCont c2 = true) := by
                      simp only [utf8DecLen] at g3
                      rw [if_neg hc80, if_neg (by omega : ¬ c < 0xC2),
                        if_neg (by omega : ¬ c ≤ 0xDF),
                        if_pos (by omega : c ≤ 0xEF)] at g3
                      by_cases hk : ((if c = 0xE0 then 0xA0 else 0x80) ≤ c1
                          ∧ c1 ≤ (if c = 0xED then 0x9F else 0xBF)
                          ∧ isCont c2 = true)
                      · exact hk
                      · rw [if_neg hk] at g3; omega
                    obtain ⟨hlo, hhi, hcont2⟩ := hcond
                    have hc1ge : 0x80 ≤ c1 := by
                      by_cases hE : c = 0xE0 <;> simp [hE] at hlo <;> omega
                    have hc2ge : 0x80 ≤ c2 := by
                      simp only [isCont, Bool.and_eq_true, decide_eq_true_eq] at hcont2
                      omega
                    have he1 : escOut c1 = none := escOut_ge80 c1 hc1ge
                    have he2 : escOut c2 = none := escOut_ge80 c2 hc2ge
                    have hok' : strOK s'' = true := by
                      simp only [show (3:Nat) - 1 = 2 from rfl, List.drop_succ_cons,
                        List.drop_zero, List.length_cons] at h2
                      rw [strOKA_eq_strOK _ _ (by omega)] at h2
                      exact h2
                    have hdec :
                        utf8DecLen (c :: c1 :: c2 :: (quoteBody s'' ++ 34 :: r)) = 3 := by
                      simp only [utf8DecLen]
                      rw [if_neg hc80, if_neg (by omega : ¬ c < 0xC2),
                        if_neg (by omega : ¬ c ≤ 0xDF),
                        if_pos (by omega : c ≤ 0xEF)]
                      rw [if_pos ⟨hlo, hhi, hcont2⟩]
                    rw [quoteBody_cons_raw c1 _ he1,
                      quoteBody_cons_raw c2 s'' he2] at hfuel ⊢
                    match fuel, hfuel with
                    | fuel + 1, hfuel =>
                      have hstep :
                          parseStrAux (fuel + 1)
                            ((c :: c1 :: c2 :: quoteBody s'') ++ 34 :: r) off acc esc
                          = parseStrAux fuel (quoteBody s'' ++ 34 :: r) (off + 3)
                              (acc ++ [c, c1, c2]) esc := by
                        simp only [List.cons_append, parseStrAux]
                        rw [if_neg h34, if_neg h92, if_neg hc80, hb]
                        rw [if_neg (by omega : ¬ (3:Nat) > 4)]
                        rw [if_neg (by simp :
                          ¬ (c :: (c1 :: (c2 :: (quoteBody s'' ++ 34 :: r)))).length < 3)]
                        rw [if_pos hdec]
                        rfl
                      rw [hstep, ih s'' (by simp at hlen'; omega) hok' fuel (by simp at hfuel; omega)]
                      simp [needsEsc_cons, hesc, he1, he2, List.length_cons]
                      omega
                · -- four-byte sequence
                  have hD : c < 0xF8 := by
                    by_contra hD
                    have : leadOnes c ≥ 5 := by
                      simp only [leadOnes]
                      rw [if_neg hc80, if_neg hA, if_neg hB, if_neg hC]
                      split_ifs <;> omega
                    omega
                  have hb : leadOnes c = 4 := by
                    simp only [leadOnes]
                    rw [if_neg hc80, if_neg hA, if_neg hB, if_neg hC, if_pos hD]
                  rw [hb] at g3 h2
                  have hF4 : c ≤ 0xF4 := by
                    by_contra hF4
                    simp only [utf8DecLen] at g3
                    rw [if_neg hc80, if_neg (by omega : ¬ c < 0xC2),
                      if_neg (by omega : ¬ c ≤ 0xDF),
                      if_neg (by omega : ¬ c ≤ 0xEF),
                      if_neg (by omega : ¬ c ≤ 0xF4)] at g3
                    omega
                  match s', g3, h2, hlen' with
                  | [], g3, _, _ =>
                    exfalso
                    simp only [utf8DecLen] at g3
                    rw [if_neg hc80, if_neg (by omega : ¬ c < 0xC2),
                      if_neg (by omega : ¬ c ≤ 0xDF),
                      if_neg (by omega : ¬ c ≤ 0xEF), if_pos hF4] at g3
                    omega
                  | [c1], g3, _, _ =>
                    exfalso
                    simp only [utf8DecLen] at g3
                    rw [if_neg hc80, if_neg (by omega : ¬ c < 0xC2),
                      if_neg (by omega : ¬ c ≤ 0xDF),
                      if_neg (by omega : ¬ c ≤ 0xEF), if_pos hF4] at g3
                    omega
                  | [c1, c2], g3, _, _ =>
                    exfalso
                    simp only [utf8DecLen] at g3
                    rw [if_neg hc80, if_neg (by omega : ¬ c < 0xC2),
                      if_neg (by omega : ¬ c ≤ 0xDF),
                      if_neg (by omega : ¬ c ≤ 0xEF), if_pos hF4] at g3
                    omega
                  | c1 :: c2 :: c3 :: s'', g3, h2, hlen' =>
                    have hcond : ((if c = 0xF0 then 0x90 else 0x80) ≤ c1
                        ∧ c1 ≤ (if c = 0xF4 then 0x8F else 0xBF)
                        ∧ isCont c2 = true ∧ isCont c3 = true) := by
                      simp only [utf8DecLen] at g3
                      rw [if_neg hc80, if_neg (by omega : ¬ c < 0xC2),
                        if_neg (by omega : ¬ c ≤ 0xDF),
                        if_neg (by omega : ¬ c ≤ 0xEF), if_pos hF4] at g3
                      by_cases hk : ((if c = 0xF0 then 0x90 else 0x80) ≤ c1
                          ∧ c1 ≤ (if c = 0xF4 then 0x8F else 0xBF)
                          ∧ isCont c2 = true ∧ isCont c3 = true)
                      · exact hk
                      · rw [if_neg hk] at g3; omega
                    obtain ⟨hlo, hhi, hcont2, hcont3⟩ := hcond
                    have hc1ge : 0x80 ≤ c1 := by
                      by_cases hE : c = 0xF0 <;> simp [hE] at hlo <;> omega
                    have hc2ge : 0x80 ≤ c2 := by
                      simp only [isCont, Bool.and_eq_true, decide_eq_true_eq] at hcont2
                      omega
                    have hc3ge : 0x80 ≤ c3 := by
                      simp only [isCont, Bool.and_eq_true, decide_eq_true_eq] at hcont3
                      omega
                    have he1 : escOut c1 = none := escOut_ge80 c1 hc1ge
                    have he2 : escOut c2 = none := escOut_ge80 c2 hc2ge
                    have he3 : escOut c3 = none := escOut_ge80 c3 hc3ge
                    have hok' : strOK s'' = true := by
                      simp only [show (4:Nat) - 1 = 3 from rfl, List.drop_succ_cons,
                        List.drop_zero, List.length_cons] at h2
                      rw [strOKA_eq_strOK _ _ (by omega)] at h2
                      exact h2
                    have hdec :
                        utf8DecLen (c :: c1 :: c2 :: c3 :: (quoteBody s'' ++ 34 :: r))
                          = 4 := by
                      simp only [utf8DecLen]
                      rw [if_neg hc80, if_neg (by omega : ¬ c < 0xC2),
                        if_neg (by omega : ¬ c ≤ 0xDF),
                        if_neg (by omega : ¬ c ≤ 0xEF), if_pos hF4]
                      rw [if_pos ⟨hlo, hhi, hcont2, hcont3⟩]
                    rw [quoteBody_cons_raw c1 _ he1, quoteBody_cons_raw c2 _ he2,
                      quoteBody_cons_raw c3 s'' he3] at hfuel ⊢
                    match fuel, hfuel with
                    | fuel + 1, hfuel =>
                      have hstep :
                          parseStrAux (fuel + 1)
                            ((c :: c1 :: c2 :: c3 :: quoteBody s'') ++ 34 :: r)
                            off acc esc
                          = parseStrAux fuel (quoteBody s'' ++ 34 :: r) (off + 4)
                              (acc ++ [c, c1, c2, c3]) esc := by
                        simp only [List.cons_append, parseStrAux]
                        rw [if_neg h34, if_neg h92, if_neg hc80, hb]
                        rw [if_neg (by omega : ¬ (4:Nat) > 4)]
                        rw [if_neg (by simp :
                          ¬ (c :: (c1 :: (c2 :: (c3 ::
                            (quoteBody s'' ++ 34 :: r))))).length < 4)]
                        rw [if_pos hdec]
                        rfl
                      rw [hstep, ih s'' (by simp at hlen'; omega) hok' fuel (by simp at hfuel; omega)]
                      simp [needsEsc_cons, hesc, he1, he2, he3, List.length_cons]
                      omega

/-! ## Token-level steps on writer output -/

theorem nextTok_wstr (s : List Nat) (hs : strOK s = true) (r : List Nat)
    (off : Nat) :
    nextTok (wstr s ++ r) off = (.str s (!needsEsc s), r, off + (wstr s).length) := by
  have hre : wstr s ++ r = 34 :: (quoteBody s ++ 34 :: r) := by
    simp [wstr]
  rw [hre]
  show parseStrLoop (quoteBody s ++ 34 :: r) (off + 1) [] false
      = (.str s (!needsEsc s), r, off + (wstr s).length)
  rw [parseStrLoop,
    parseStrAux_scan s.length s (Nat.le_refl _) hs _
      (by simp [List.length_append]; omega) [] false (off + 1) r]
  simp [wstr, List.length_append]
  omega

/-- A generic success step for scanner.expect. -/
theorem expectTok_of_next (k : TokK) (s : Scanner) (tok : Tok) (s' : Scanner)
    (hpeek : s.peek = k) (hnext : s.next = (tok, s')) (hkind : tok.kind = k) :
    expectTok k s = .ok (tok, s') := by
  unfold expectTok
  rw [hpeek, if_pos rfl, hnext]
  simp [hkind]

theorem expect_of_tok (k : TokK) (s : Scanner) (tok : Tok) (s' : Scanner)
    (h : expectTok k s = .ok (tok, s')) : expect k s = .ok s' := by
  unfold expect
  rw [h]

theorem expect_lbrace (l : List Nat) (off : Nat) :
    expect .lbrace ⟨123 :: l, off⟩ = .ok ⟨l, off + 1⟩ := rfl

theorem expect_rbrace (l : List Nat) (off : Nat) :
    expect .rbrace ⟨125 :: l, off⟩ = .ok ⟨l, off + 1⟩ := rfl

theorem expect_lbrack (l : List Nat) (off : Nat) :
    expect .lbrack ⟨91 :: l, off⟩ = .ok ⟨l, off + 1⟩ := rfl

theorem expect_rbrack (l : List Nat) (off : Nat) :
    expect .rbrack ⟨93 :: l, off⟩ = .ok ⟨l, off + 1⟩ := rfl

theorem expect_comma (l : List Nat) (off : Nat) :
    expect .comma ⟨44 :: l, off⟩ = .ok ⟨l, off + 1⟩ := rfl

theorem expect_colon (l : List Nat) (off : Nat) :
    expect .colon ⟨58 :: l, off⟩ = .ok ⟨l, off + 1⟩ := rfl

theorem expectTok_str_wstr (s : List Nat) (hs : strOK s = true) (r : List Nat)
    (off : Nat) :
    expectTok .str ⟨wstr s ++ r, off⟩
      = .ok (.str s (!needsEsc s), ⟨r, off + (wstr s).length⟩) :=
  expectTok_of_next .str _ _ _ rfl
    (by simp only [Scanner.next, nextTok_wstr s hs r off]) rfl

theorem readString_wstr (s : List Nat) (hs : strOK s = true) (r : List Nat)
    (off : Nat) :
    readString ⟨wstr s ++ r, off⟩ = .ok (s, ⟨r, off + (wstr s).length⟩) := by
  unfold readString
  rw [expectTok_str_wstr s hs r off]

theorem readStringB_wstr (s : List Nat) (hs : strOK s = true) (r : List Nat)
    (off : Nat) :
    readStringB ⟨wstr s ++ r, off⟩
      = .ok ((s, !needsEsc s), ⟨r, off + (wstr s).length⟩) := by
  unfold readStringB
  rw [expectTok_str_wstr s hs r off]

theorem expectStringF_wstr (s : List Nat) (hs : strOK s = true) (r : List Nat)
    (off : Nat) :
    expectStringF s ⟨wstr s ++ r, off⟩ = .ok ⟨r, off + (wstr s).length⟩ := by
  unfold expectStringF
  rw [show (Scanner.mk (wstr s ++ r) off).peek = .str from rfl, if_pos rfl]
  rw [show (Scanner.mk (wstr s ++ r) off).next
      = (.str s (!needsEsc s), ⟨r, off + (wstr s).length⟩) from
    by simp only [Scanner.next, nextTok_wstr s hs r off]]
  simp

theorem peekK_num_head (c : Nat) (h : c = 45 ∨ isDigit c = true) (l : List Nat) :
    peekK (c :: l) = .num := by
  rcases h with h | h
  · subst h; rfl
  · simp only [isDigit, Bool.and_eq_true, decide_eq_true_eq] at h
    obtain ⟨h1, h2⟩ := h
    interval_cases c <;> rfl

theorem nextTok_num_head (c : Nat) (h : c = 45 ∨ isDigit c = true)
    (l : List Nat) (off : Nat) :
    nextTok (c :: l) off = parseNum (c :: l) off := by
  rcases h with h | h
  · subst h; rfl
  · simp only [isDigit, Bool.and_eq_true, decide_eq_true_eq] at h
    obtain ⟨h1, h2⟩ := h
    interval_cases c <;> rfl

theorem intBytes_head (n : Int) :
    ∃ c l, intBytes n = c :: l ∧ (c = 45 ∨ isDigit c = true) := by
  by_cases hneg : n < 0
  · refine ⟨45, natDigits n.natAbs, ?_, Or.inl rfl⟩
    simp [intBytes, hneg]
  · have hi : intBytes n = natDigits n.natAbs := by simp [intBytes, hneg]
    by_cases h0 : n.natAbs = 0
    · rw [hi, h0, show natDigits 0 = [48] from rfl]
      exact ⟨48, [], rfl, Or.inr (by decide)⟩
    · obtain ⟨c, ds, hc, hb1, hb2⟩ := natDigits_head _ (Nat.pos_of_ne_zero h0)
      rw [hi, hc]
      exact ⟨c, ds, rfl, Or.inr (by simp [isDigit]; omega)⟩

theorem readInt_intBytes (n : Int) (h : int64OK n = true) (r : List Nat)
    (hr : numContB r = false) (off : Nat) :
    readInt ⟨intBytes n ++ r, off⟩ = .ok (n, ⟨r, off + (intBytes n).length⟩) := by
  obtain ⟨c, l, he, hcd⟩ := intBytes_head n
  have hcons : intBytes n ++ r = c :: (l ++ r) := by rw [he]; rfl
  have hpk : (Scanner.mk (intBytes n ++ r) off).peek = .num := by
    show peekK (intBytes n ++ r) = .num
    rw [hcons]; exact peekK_num_head c hcd (l ++ r)
  have hnx : (Scanner.mk (intBytes n ++ r) off).next
      = (.num (.i n), ⟨r, off + (intBytes n).length⟩) := by
    show (let (t, rest, o) := nextTok (intBytes n ++ r) off; (t, ⟨rest, o⟩) : Tok × Scanner)
      = (.num (.i n), ⟨r, off + (intBytes n).length⟩)
    rw [hcons, nextTok_num_head c hcd (l ++ r) off, ← hcons,
      parseNum_intBytes n r off h hr]
  unfold readInt
  rw [expectTok_of_next .num _ _ _ hpk hnx rfl]
  rfl

theorem readNull_step (r : List Nat) (off : Nat) :
    readNull ⟨gs "null" ++ r, off⟩ = .ok ⟨r, off + 4⟩ := rfl

theorem readBool_true (r : List Nat) (off : Nat) :
    readBool ⟨gs "true" ++ r, off⟩ = .ok (true, ⟨r, off + 4⟩) := rfl

theorem readBool_false (r : List Nat) (off : Nat) :
    readBool ⟨gs "false" ++ r, off⟩ = .ok (false, ⟨r, off + 5⟩) := rfl

/-! ## Scan locality: a numeric literal followed by a closing brace
scans the same way whatever follows the brace -/

theorem intLoop_rest125 : ∀ (X : List Nat) (num : Nat) (flt : Bool),
    ∃ (n' : Nat) (f' : Bool) (e : NumEnd) (v : List Nat),
      intLoop (X ++ [125]) num flt = (n', f', v ++ [125], e) := by
  intro X
  induction X with
  | nil => intro num flt; exact ⟨num, flt, .fin, [], rfl⟩
  | cons c X ih =>
    intro num flt
    by_cases hd : isDigit c = true
    · obtain ⟨n', f', e, v, hv⟩ := ih
        (if flt = true then (num, true) else
          if num * 10 + (c - 48) < 2 ^ 64 then (num * 10 + (c - 48), false)
          else (num, true)).1
        (if flt = true then (num, true) else
          if num * 10 + (c - 48) < 2 ^ 64 then (num * 10 + (c - 48), false)
          else (num, true)).2
      refine ⟨n', f', e, v, ?_⟩
      simp only [List.cons_append, intLoop]
      rw [if_pos hd]
      exact hv
    · by_cases h46 : c = 46
      · subst h46
        exact ⟨num, true, .dot, X, rfl⟩
      · by_cases hor : c = 101 ∨ c = 69
        · rcases hor with h | h
          · subst h; exact ⟨num, true, .exp, X, rfl⟩
          · subst h; exact ⟨num, true, .exp, X, rfl⟩
        · refine ⟨num, flt, .fin, c :: X, ?_⟩
          simp only [List.cons_append, intLoop]
          rw [if_neg hd, if_neg h46, if_neg hor]
          rfl

theorem intLoop_ext125 : ∀ (X : List Nat) (num : Nat) (flt : Bool)
    (n' : Nat) (f' : Bool) (e : NumEnd) (v : List Nat),
    intLoop (X ++ [125]) num flt = (n', f', v ++ [125], e) →
    ∀ r, intLoop (X ++ 125 :: r) num flt = (n', f', v ++ 125 :: r, e) := by
  intro X
  induction X with
  | nil =>
    intro num flt n' f' e v h r
    rw [show intLoop ([] ++ [125]) num flt = (num, flt, [] ++ [125], .fin) from rfl] at h
    simp only [Prod.mk.injEq, List.nil_append] at h
    obtain ⟨h1, h2, h3, h4⟩ := h
    have hv : v = [] := by
      have h5 : v ++ [125] = [] ++ [125] := by simpa using h3.symm
      exact List.append_left_inj _ |>.mp h5
    subst h1; subst h2; subst hv; subst h4
    rfl
  | cons c X ih =>
    intro num flt n' f' e v h r
    by_cases hd : isDigit c = true
    · simp only [List.cons_append, intLoop] at h ⊢
      rw [if_pos hd] at h ⊢
      exact ih _ _ _ _ _ _ h r
    · by_cases h46 : c = 46
      · subst h46
        rw [show intLoop ((46 :: X) ++ [125]) num flt
            = (num, true, X ++ [125], .dot) from rfl] at h
        simp only [Prod.mk.injEq] at h
        obtain ⟨h1, h2, h3, h4⟩ := h
        have hv : X = v := List.append_left_inj _ |>.mp h3
        subst h1; subst h2; subst hv; subst h4
        rfl
      · by_cases hor : c = 101 ∨ c = 69
        · have hstep : intLoop ((c :: X) ++ [125]) num flt
              = (num, true, X ++ [125], .exp) := by
            rcases hor with h9 | h9
            · subst h9; rfl
            · subst h9; rfl
          rw [hstep] at h
          simp only [Prod.mk.injEq] at h
          obtain ⟨h1, h2, h3, h4⟩ := h
          have hv : X = v := List.append_left_inj _ |>.mp h3
          subst h1; subst h2; subst hv; subst h4
          rcases hor with h9 | h9
          · subst h9; rfl
          · subst h9; rfl
        · rw [show intLoop ((c :: X) ++ [125]) num flt
              = (num, flt, (c :: X) ++ [125], .fin) from by
            simp only [List.cons_append, intLoop]
            rw [if_neg hd, if_neg h46, if_neg hor]
            rfl] at h
          simp only [Prod.mk.injEq, List.cons_append] at h
          obtain ⟨h1, h2, h3, h4⟩ := h
          have hv : c :: X = v := List.append_left_inj _ |>.mp (by simpa using h3)
          subst h1; subst h2; subst hv; subst h4
          simp only [List.cons_append, intLoop]
          rw [if_neg hd, if_neg h46, if_neg hor]
          rfl

theorem fracLoop_rest125 : ∀ X : List Nat,
    ∃ (v : List Nat) (sw : Bool), fracLoop (X ++ [125]) = (v ++ [125], sw) := by
  intro X
  induction X with
  | nil => exact ⟨[], false, rfl⟩
  | cons c X ih =>
    by_cases hd : isDigit c = true
    · obtain ⟨v, sw, hv⟩ := ih
      refine ⟨v, sw, ?_⟩
      simp only [List.cons_append, fracLoop]
      rw [if_pos hd]
      exact hv
    · by_cases hor : c = 101 ∨ c = 69
      · rcases hor with h | h
        · subst h; exact ⟨X, true, rfl⟩
        · subst h; exact ⟨X, true, rfl⟩
      · refine ⟨c :: X, false, ?_⟩
        simp only [List.cons_append, fracLoop]
        rw [if_neg hd, if_neg hor]
        rfl

theorem fracLoop_ext125 : ∀ (X v : List Nat) (sw : Bool),
    fracLoop (X ++ [125]) = (v ++ [125], sw) →
    ∀ r, fracLoop (X ++ 125 :: r) = (v ++ 125 :: r, sw) := by
  intro X
  induction X with
  | nil =>
    intro v sw h r
    rw [show fracLoop ([] ++ [125]) = ([] ++ [125], false) from rfl] at h
    simp only [Prod.mk.injEq, List.nil_append] at h
    obtain ⟨h1, h2⟩ := h
    have hv : v = [] := by
      have h5 : v ++ [125] = [] ++ [125] := by simpa using h1.symm
      exact List.append_left_inj _ |>.mp h5
    subst hv; subst h2
    rfl
  | cons c X ih =>
    intro v sw h r
    by_cases hd : isDigit c = true
    · simp only [List.cons_append, fracLoop] at h ⊢
      rw [if_pos hd] at h ⊢
      exact ih _ _ h r
    · by_cases hor : c = 101 ∨ c = 69
      · have hstep : fracLoop ((c :: X) ++ [125]) = (X ++ [125], true) := by
          rcases hor with h9 | h9
          · subst h9; rfl
          · subst h9; rfl
        rw [hstep] at h
        simp only [Prod.mk.injEq] at h
        obtain ⟨h1, h2⟩ := h
        have hv : X = v := List.append_left_inj _ |>.mp h1
        subst hv; subst h2
        rcases hor with h9 | h9
        · subst h9; rfl
        · subst h9; rfl
      · rw [show fracLoop ((c :: X) ++ [125]) = ((c :: X) ++ [125], false) from by
          simp only [List.cons_append, fracLoop]
          rw [if_neg hd, if_neg hor]
          rfl] at h
        simp only [Prod.mk.injEq, List.cons_append] at h
        obtain ⟨h1, h2⟩ := h
        have hv : c :: X = v := List.append_left_inj _ |>.mp (by simpa using h1)
        subst hv; subst h2
        simp only [List.cons_append, fracLoop]
        rw [if_neg hd, if_neg hor]
        rfl

theorem dropDigits_rest125 : ∀ X : List Nat,
    ∃ v, dropDigits (X ++ [125]) = v ++ [125] := by
  intro X
  induction X with
  | nil => exact ⟨[], rfl⟩
  | cons c X ih =>
    by_cases hd : isDigit c = true
    · obtain ⟨v, hv⟩ := ih
      refine ⟨v, ?_⟩
      simp only [List.cons_append, dropDigits]
      rw [if_pos hd]
      exact hv
    · refine ⟨c :: X, ?_⟩
      simp only [List.cons_append, dropDigits]
      rw [if_neg hd]
      rfl

theorem dropDigits_ext125 : ∀ (X v : List Nat),
    dropDigits (X ++ [125]) = v ++ [125] →
    ∀ r, dropDigits (X ++ 125 :: r) = v ++ 125 :: r := by
  intro X
  induction X with
  | nil =>
    intro v h r
    rw [show dropDigits ([] ++ [125]) = [] ++ [125] from rfl] at h
    have hv : v = [] := by
      have h5 : v ++ [125] = [] ++ [125] := by simpa using h.symm
      exact List.append_left_inj _ |>.mp h5
    subst hv
    rfl
  | cons c X ih =>
    intro v h r
    by_cases hd : isDigit c = true
    · simp only [List.cons_append, dropDigits] at h ⊢
      rw [if_pos hd] at h ⊢
      exact ih _ h r
    · rw [show dropDigits ((c :: X) ++ [125]) = (c :: X) ++ [125] from by
        simp only [List.cons_append, dropDigits]
        rw [if_neg hd]
        rfl] at h
      have hv : c :: X = v := List.append_left_inj _ |>.mp (by simpa using h)
      subst hv
      simp only [List.cons_append, dropDigits]
      rw [if_neg hd]
      rfl

theorem numFltDone_ext125 (b : List Nat) (w : List Nat) (vt : NumV)
    (h : numFltDone (b ++ [125]) 0 (w ++ [125]) = (.num vt, [125], b.length)) :
    ∀ (r : List Nat) (off : Nat),
    numFltDone (b ++ 125 :: r) off (w ++ 125 :: r)
      = (.num vt, 125 :: r, off + b.length) := by
  intro r off
  have hw : w = [] := by
    simp only [numFltDone] at h
    split at h <;>
      (simp only [Prod.mk.injEq] at h
       have h5 : w ++ [125] = [] ++ [125] := by simpa using h.2.1
       exact List.append_left_inj _ |>.mp h5)
  subst hw
  have hcons : (b ++ [125]).length - (([] : List Nat) ++ ([125] : List Nat)).length
      = b.length := by simp
  have hconsE : (b ++ 125 :: r).length - (([] : List Nat) ++ 125 :: r).length
      = b.length := by simp
  have hlit : List.take b.length (b ++ [125]) = b := List.take_left b [125]
  have hlitE : List.take b.length (b ++ 125 :: r) = b := List.take_left b (125 :: r)
  simp only [numFltDone, hcons, hlit] at h
  simp only [numFltDone, hconsE, hlitE]
  split at h
  case _ f hgp =>
    have hv : Tok.num (NumV.f f) = Tok.num vt := congrArg Prod.fst h
    show (Tok.num (NumV.f f), 125 :: r, off + b.length)
        = (Tok.num vt, 125 :: r, off + b.length)
    rw [hv]
  case _ e hgp =>
    simp only [Prod.mk.injEq] at h
    exact absurd h.1 (by simp)

theorem numExpPath_ext125 (b : List Nat) (w : List Nat) (vt : NumV)
    (h : numExpPath (b ++ [125]) 0 (w ++ [125]) = (.num vt, [125], b.length)) :
    ∀ (r : List Nat) (off : Nat),
    numExpPath (b ++ 125 :: r) off (w ++ 125 :: r)
      = (.num vt, 125 :: r, off + b.length) := by
  intro r off
  match w with
  | [] => exact absurd h (by simp [numExpPath, isDigit])
  | c :: w' =>
    simp only [List.cons_append, numExpPath] at h ⊢
    by_cases hsgn : c = 43 ∨ c = 45
    · rw [if_pos hsgn] at h ⊢
      match w' with
      | [] => exact absurd h (by simp [isDigit])
      | c2 :: w'' =>
        simp only [List.cons_append] at h ⊢
        by_cases hd : isDigit c2 = true
        · rw [if_pos hd] at h ⊢
          obtain ⟨v, hv⟩ := dropDigits_rest125 (c2 :: w'')
          have hvE := dropDigits_ext125 _ _ hv r
          simp only [List.cons_append] at hv hvE
          rw [hv] at h
          rw [hvE]
          exact numFltDone_ext125 b v vt h r off
        · rw [if_neg hd] at h ⊢
          exact absurd h (by simp)
    · rw [if_neg hsgn] at h ⊢
      simp only [] at h ⊢
      by_cases hd : isDigit c = true
      · rw [if_pos hd] at h ⊢
        obtain ⟨v, hv⟩ := dropDigits_rest125 (c :: w')
        have hvE := dropDigits_ext125 _ _ hv r
        simp only [List.cons_append] at hv hvE
        rw [hv] at h
        rw [hvE]
        exact numFltDone_ext125 b v vt h r off
      · rw [if_neg hd] at h ⊢
        exact absurd h (by simp)

theorem numFracPath_ext125 (b : List Nat) (w : List Nat) (vt : NumV)
    (h : numFracPath (b ++ [125]) 0 (w ++ [125]) = (.num vt, [125], b.length)) :
    ∀ (r : List Nat) (off : Nat),
    numFracPath (b ++ 125 :: r) off (w ++ 125 :: r)
      = (.num vt, 125 :: r, off + b.length) := by
  intro r off
  match w with
  | [] => exact absurd h (by simp [numFracPath, isDigit])
  | c :: w' =>
    simp only [List.cons_append, numFracPath] at h ⊢
    by_cases hd : isDigit c = true
    · rw [if_pos hd] at h ⊢
      obtain ⟨v, sw, hv⟩ := fracLoop_rest125 (c :: w')
      have hvE := fracLoop_ext125 _ _ _ hv r
      simp only [List.cons_append] at hv hvE
      rw [hv] at h
      rw [hvE]
      match sw with
      | true => exact numExpPath_ext125 b v vt h r off
      | false => exact numFltDone_ext125 b v vt h r off
    · rw [if_neg hd] at h ⊢
      exact absurd h (by simp)

theorem trip_ext {α β γ : Type} {a a' : α} {b b' : β} {c c' : γ}
    (h1 : a = a') (h2 : b = b') (h3 : c = c') : (a, b, c) = (a', b', c') := by
  subst h1; subst h2; subst h3; rfl

theorem numIntDone_ext125 (b w : List Nat) (neg : Bool) (num : Nat) (vt : NumV)
    (h : numIntDone (b ++ [125]) 0 neg num (w ++ [125])
      = (.num vt, [125], b.length)) :
    ∀ (r : List Nat) (off : Nat),
    numIntDone (b ++ 125 :: r) off neg num (w ++ 125 :: r)
      = (.num vt, 125 :: r, off + b.length) := by
  intro r off
  have hw : w = [] := by
    have hmid := congrArg (fun t => t.2.1) h
    simp only [numIntDone] at hmid
    have h5 : w ++ [125] = [] ++ [125] := by simpa using hmid
    exact List.append_left_inj _ |>.mp h5
  subst hw
  simp only [numIntDone] at h ⊢
  exact trip_ext (congrArg Prod.fst h) (by simp)
    (by simp only [List.length_append, List.length_cons, List.length_nil,
      List.nil_append]; omega)

/-- The full step of parseNum on a minus sign followed by anything. -/
theorem parseNum_minusStep (c1 : Nat) (l2 : List Nat) (off : Nat) :
    parseNum (45 :: c1 :: l2) off
      = (if ¬ isDigit c1 = true then
          ((Tok.terr (ScanErr.invalidNum off)), c1 :: l2, off)
        else if c1 = 48 then
          (match l2 with
            | [] => ((Tok.num (NumV.f GoFloat.negZero)), ([] : List Nat), off + 2)
            | c2 :: l3 =>
              if isDigit c2 = true then ((Tok.terr (ScanErr.invalidNum off)), l2, off)
              else if c2 = 46 then numFracPath (45 :: c1 :: l2) off l3
              else if c2 = 101 ∨ c2 = 69 then numExpPath (45 :: c1 :: l2) off l3
              else ((Tok.num (NumV.f GoFloat.negZero)), l2, off + 2))
        else
          match intLoop l2 (c1 - 48) false with
          | (num, flt, rest, .fin) =>
            if flt then numFltDone (45 :: c1 :: l2) off rest
            else numIntDone (45 :: c1 :: l2) off true num rest
          | (_, _, rest, .dot) => numFracPath (45 :: c1 :: l2) off rest
          | (_, _, rest, .exp) => numExpPath (45 :: c1 :: l2) off rest) := rfl

/-- The full step of parseNum on a non-minus first byte. -/
theorem parseNum_plusStep (c : Nat) (l2 : List Nat) (off : Nat) (h45 : ¬ c = 45) :
    parseNum (c :: l2) off
      = (if ¬ isDigit c = true then
          ((Tok.terr (ScanErr.invalidNum off)), c :: l2, off)
        else if c = 48 then
          (match l2 with
            | [] => ((Tok.num (NumV.i 0)), ([] : List Nat), off + 1)
            | c2 :: l3 =>
              if isDigit c2 = true then ((Tok.terr (ScanErr.invalidNum off)), l2, off)
              else if c2 = 46 then numFracPath (c :: l2) off l3
              else if c2 = 101 ∨ c2 = 69 then numExpPath (c :: l2) off l3
              else ((Tok.num (NumV.i 0)), l2, off + 1))
        else
          match intLoop l2 (c - 48) false with
          | (num, flt, rest, .fin) =>
            if flt then numFltDone (c :: l2) off rest
            else numIntDone (c :: l2) off false num rest
          | (_, _, rest, .dot) => numFracPath (c :: l2) off rest
          | (_, _, rest, .exp) => numExpPath (c :: l2) off rest) := by
  simp only [parseNum]
  rw [if_neg h45]
  rfl

/-- The rest of a successful number token is what follows the literal:
a literal scanned to completion against a closing brace scans the same
way against a closing brace followed by anything. -/
theorem parseNum_ext125 (b : List Nat) (v : NumV)
    (h : parseNum (b ++ [125]) 0 = (.num v, [125], b.length)) :
    ∀ (r : List Nat) (off : Nat),
    parseNum (b ++ 125 :: r) off = (.num v, 125 :: r, off + b.length) := by
  intro r off
  match b with
  | [] =>
    rw [show parseNum ([] ++ [125]) 0 = (.terr (.invalidNum 0), [125], 0) from rfl] at h
    exact absurd h (by simp)
  | c0 :: b0 =>
    by_cases h45 : c0 = 45
    case neg =>
      simp only [List.cons_append] at h ⊢
      rw [parseNum_plusStep c0 _ 0 h45] at h
      rw [parseNum_plusStep c0 _ off h45]
      by_cases hd : isDigit c0 = true
      case neg =>
        rw [if_pos hd] at h
        exact absurd h (by simp)
      case pos =>
        rw [if_neg (not_not_intro hd)] at h ⊢
        by_cases h48 : c0 = 48
        · subst h48
          rw [if_pos rfl] at h ⊢
          match b0 with
          | [] =>
            have hv : Tok.num (NumV.i 0) = Tok.num v := congrArg Prod.fst h
            exact trip_ext hv rfl rfl
          | c2 :: b3 =>
            simp only [List.cons_append] at h ⊢
            by_cases hd2 : isDigit c2 = true
            · rw [if_pos hd2] at h
              exact absurd h (by simp)
            · rw [if_neg hd2] at h ⊢
              by_cases h46 : c2 = 46
              · rw [if_pos h46] at h ⊢
                exact numFracPath_ext125 (48 :: c2 :: b3) b3 v h r off
              · rw [if_neg h46] at h ⊢
                by_cases hor : c2 = 101 ∨ c2 = 69
                · rw [if_pos hor] at h ⊢
                  exact numExpPath_ext125 (48 :: c2 :: b3) b3 v h r off
                · rw [if_neg hor] at h ⊢
                  have hmid := congrArg (fun t => t.2.1) h
                  simp at hmid
        · rw [if_neg h48] at h ⊢
          obtain ⟨n', f', e, w, hw⟩ := intLoop_rest125 b0 (c0 - 48) false
          have hwE := intLoop_ext125 _ _ _ _ _ _ _ hw r
          rw [hw] at h
          rw [hwE]
          match e with
          | .fin =>
            match f' with
            | true => exact numFltDone_ext125 (c0 :: b0) w v h r off
            | false => exact numIntDone_ext125 (c0 :: b0) w false n' v h r off
          | .dot => exact numFracPath_ext125 (c0 :: b0) w v h r off
          | .exp => exact numExpPath_ext125 (c0 :: b0) w v h r off
    case pos =>
    subst h45
    match b0 with
    | [] =>
      rw [show parseNum ((45 :: []) ++ [125]) 0
          = (.terr (.invalidNum 0), [125], 0) from rfl] at h
      exact absurd h (by simp)
    | c1 :: b'' =>
    simp only [List.cons_append] at h ⊢
    rw [parseNum_minusStep] at h ⊢
    by_cases hd : isDigit c1 = true
    case neg =>
      rw [if_pos hd] at h
      exact absurd h (by simp)
    case pos =>
      rw [if_neg (not_not_intro hd)] at h ⊢
      by_cases h48 : c1 = 48
      · subst h48
        rw [if_pos rfl] at h ⊢
        match b'' with
        | [] =>
          have hv : Tok.num (NumV.f GoFloat.negZero) = Tok.num v :=
            congrArg Prod.fst h
          exact trip_ext hv rfl rfl
        | c2 :: b3 =>
          simp only [List.cons_append] at h ⊢
          by_cases hd2 : isDigit c2 = true
          · rw [if_pos hd2] at h
            exact absurd h (by simp)
          · rw [if_neg hd2] at h ⊢
            by_cases h46 : c2 = 46
            · rw [if_pos h46] at h ⊢
              exact numFracPath_ext125 (45 :: 48 :: c2 :: b3) b3 v h r off
            · rw [if_neg h46] at h ⊢
              by_cases hor : c2 = 101 ∨ c2 = 69
              · rw [if_pos hor] at h ⊢
                exact numExpPath_ext125 (45 :: 48 :: c2 :: b3) b3 v h r off
              · rw [if_neg hor] at h ⊢
                have hmid := congrArg (fun t => t.2.1) h
                simp at hmid
      · rw [if_neg h48] at h ⊢
        obtain ⟨n', f', e, w, hw⟩ := intLoop_rest125 b'' (c1 - 48) false
        have hwE := intLoop_ext125 _ _ _ _ _ _ _ hw r
        rw [hw] at h
        rw [hwE]
        match e with
        | .fin =>
          match f' with
          | true => exact numFltDone_ext125 (45 :: c1 :: b'') w v h r off
          | false => exact numIntDone_ext125 (45 :: c1 :: b'') w true n' v h r off
        | .dot => exact numFracPath_ext125 (45 :: c1 :: b'') w v h r off
        | .exp => exact numExpPath_ext125 (45 :: c1 :: b'') w v h r off

theorem parseNum_ok_head (b : List Nat) (v : NumV) (rest : List Nat) (o : Nat)
    (h : parseNum (b ++ [125]) 0 = (.num v, rest, o)) :
    ∃ c t, b = c :: t ∧ (c = 45 ∨ isDigit c = true) := by
  match b with
  | [] =>
    rw [show parseNum ([] ++ [125]) 0 = (.terr (.invalidNum 0), [125], 0) from rfl] at h
    exact absurd h (by simp)
  | c :: t =>
    refine ⟨c, t, rfl, ?_⟩
    by_cases h45 : c = 45
    · exact Or.inl h45
    · right
      by_cases hd : isDigit c = true
      · exact hd
      · exfalso
        rw [List.cons_append, parseNum_plusStep c _ 0 h45, if_pos hd] at h
        exact absurd h (by simp)

theorem widthOK_spec (w : GoFloat) (hw : widthOK w = true) :
    ∃ v, parseNum (appendFloat [] w ++ [125]) 0
        = (.num v, [125], (appendFloat [] w).length) ∧ v.toFloat = w := by
  unfold widthOK at hw
  simp only [] at hw
  split at hw
  next v rest o heq =>
    simp only [decide_eq_true_eq] at hw
    obtain ⟨h1, h2, h3⟩ := hw
    subst h2; subst h3
    exact ⟨v, heq, h1⟩
  next heq => exact absurd hw (by simp)

theorem readFloat_width (w : GoFloat) (hw : widthOK w = true)
    (r : List Nat) (off : Nat) :
    readFloat ⟨appendFloat [] w ++ 125 :: r, off⟩
      = .ok (w, ⟨125 :: r, off + (appendFloat [] w).length⟩) := by
  obtain ⟨v, h, hv⟩ := widthOK_spec w hw
  obtain ⟨c, t, hb, hcd⟩ := parseNum_ok_head _ v [125] _ h
  have hpk : (Scanner.mk (appendFloat [] w ++ 125 :: r) off).peek = .num := by
    show peekK (appendFloat [] w ++ 125 :: r) = .num
    rw [hb, List.cons_append]
    exact peekK_num_head c hcd _
  have hnx : (Scanner.mk (appendFloat [] w ++ 125 :: r) off).next
      = (.num v, ⟨125 :: r, off + (appendFloat [] w).length⟩) := by
    show (let (t2, rest, o) := nextTok (appendFloat [] w ++ 125 :: r) off;
        ((t2, ⟨rest, o⟩) : Tok × Scanner))
      = (.num v, ⟨125 :: r, off + (appendFloat [] w).length⟩)
    rw [hb, List.cons_append, nextTok_num_head c hcd _ off, ← List.cons_append,
      ← hb, parseNum_ext125 (appendFloat [] w) v h r off]
  unfold readFloat
  rw [expectTok_of_next .num _ _ _ hpk hnx rfl]
  show Except.ok (v.toFloat, (⟨125 :: r, off + (appendFloat [] w).length⟩ : Scanner))
    = .ok (w, ⟨125 :: r, off + (appendFloat [] w).length⟩)
  rw [hv]

/-! ## Composite reader steps on writer layouts -/

theorem ebind_ok {α β : Type} (a : α) (f : α → Except Err β) :
    (Except.ok a >>= f) = f a := rfl

theorem ok_scan_off {α : Type} (a : α) (l : List Nat) (o1 o2 : Nat) (h : o1 = o2) :
    (Except.ok (a, (⟨l, o1⟩ : Scanner)) : Except Err (α × Scanner))
      = .ok (a, ⟨l, o2⟩) := by rw [h]

theorem ok_scan_off2 (l : List Nat) (o1 o2 : Nat) (h : o1 = o2) :
    (Except.ok (⟨l, o1⟩ : Scanner) : Except Err Scanner) = .ok ⟨l, o2⟩ := by
  rw [h]

theorem readObjPre_step (l : List Nat) (off : Nat) :
    readObjPre ⟨44 :: 34 :: 99 :: 34 :: 58 :: l, off⟩ = .ok ⟨l, off + 5⟩ := by
  unfold readObjPre
  rw [expect_comma]
  simp only [ebind_ok]
  rw [show (⟨34 :: 99 :: 34 :: 58 :: l, off + 1⟩ : Scanner)
      = ⟨wstr (gs "c") ++ 58 :: l, off + 1⟩ from rfl,
    expectStringF_wstr (gs "c") (by decide) (58 :: l) (off + 1)]
  simp only [ebind_ok]
  rw [expect_colon]
  rfl

theorem withTag_stream (tag content r : List Nat) (hq : quoteBody tag = tag) :
    withTag tag content ++ r
      = 123 :: (wstr (gs "t") ++ 58 :: (wstr tag
          ++ 44 :: 34 :: 99 :: 34 :: 58 :: (content ++ 125 :: r))) := by
  simp only [withTag, wstr, hq,
    show gs "\"t\":\"" = [34, 116, 34, 58, 34] from rfl,
    show gs "\",\"c\":" = [34, 44, 34, 99, 34, 58] from rfl,
    show gs "t" = [116] from rfl,
    show quoteBody [116] = [116] from rfl,
    List.cons_append, List.append_assoc, List.nil_append, List.append_nil]

theorem readTagPre_withTag (tag content r : List Nat) (off : Nat)
    (hs : strOK tag = true) (hq : quoteBody tag = tag) :
    readTagPre ⟨withTag tag content ++ r, off⟩
      = .ok ((tag, !needsEsc tag),
          ⟨44 :: 34 :: 99 :: 34 :: 58 :: (content ++ 125 :: r),
            off + 5 + (wstr tag).length⟩) := by
  rw [withTag_stream tag content r hq]
  simp only [readTagPre, ebind_ok, expect_lbrace,
    expectStringF_wstr (gs "t") (by decide), expect_colon,
    readStringB_wstr tag hs]
  exact ok_scan_off _ _ _ _
    (by rw [show (wstr (gs "t")).length = 3 from rfl])

theorem tstr_stream (tag r : List Nat) :
    tstr tag ++ r = 123 :: (wstr (gs "t") ++ 58 :: (wstr tag ++ 125 :: r)) := by
  simp only [tstr,
    show gs "\"t\":" = [34, 116, 34, 58] from rfl,
    show wstr (gs "t") = [34, 116, 34] from rfl,
    List.cons_append, List.append_assoc, List.nil_append]

theorem readTagged_tstr {α : Type} (tags : List (List Nat × α)) (tag : List Nat)
    (a : α) (hs : strOK tag = true) (hne : needsEsc tag = false)
    (hl : tags.lookup tag = some a) (r : List Nat) (off : Nat) :
    readTagged tags ⟨tstr tag ++ r, off⟩
      = .ok (a, ⟨r, off + (tstr tag).length⟩) := by
  rw [tstr_stream tag r]
  simp only [readTagged, expect_lbrace,
    expectStringF_wstr (gs "t") (by decide), expect_colon,
    readStringB_wstr tag hs, hne, Bool.not_false, not_true,
    if_false, expect_rbrace, hl]
  exact ok_scan_off _ _ _ _
    (by
      rw [show (wstr (gs "t")).length = 3 from rfl,
        show (tstr tag).length = 6 + (wstr tag).length from by
          simp [tstr, wstr, List.length_append,
            show (gs "\"t\":").length = 4 from rfl]
          omega]
      omega)

/-! ## Scanner micro-steps and writer shape facts -/

theorem next_comma (l : List Nat) (off : Nat) :
    (Scanner.mk (44 :: l) off).next = (.comma, ⟨l, off + 1⟩) := rfl

theorem next_rbrack (l : List Nat) (off : Nat) :
    (Scanner.mk (93 :: l) off).next = (.rbrack, ⟨l, off + 1⟩) := rfl

theorem next_rbrace (l : List Nat) (off : Nat) :
    (Scanner.mk (125 :: l) off).next = (.rbrace, ⟨l, off + 1⟩) := rfl

theorem next_lbrack (l : List Nat) (off : Nat) :
    (Scanner.mk (91 :: l) off).next = (.lbrack, ⟨l, off + 1⟩) := rfl

theorem peek_rbrack (l : List Nat) (off : Nat) :
    (Scanner.mk (93 :: l) off).peek = .rbrack := rfl

theorem peek_rbrace (l : List Nat) (off : Nat) :
    (Scanner.mk (125 :: l) off).peek = .rbrace := rfl

theorem peek_lbrack (l : List Nat) (off : Nat) :
    (Scanner.mk (91 :: l) off).peek = .lbrack := rfl

theorem peek_lbrace (l : List Nat) (off : Nat) :
    (Scanner.mk (123 :: l) off).peek = .lbrace := rfl

theorem peek_str (l : List Nat) (off : Nat) :
    (Scanner.mk (34 :: l) off).peek = .str := rfl

theorem peek_null (r : List Nat) (off : Nat) :
    (Scanner.mk (gs "null" ++ r) off).peek = .bnull := rfl

theorem numContB_comma (l : List Nat) : numContB (44 :: l) = false := rfl

theorem numContB_rbrack (l : List Nat) : numContB (93 :: l) = false := rfl

theorem numContB_rbrace (l : List Nat) : numContB (125 :: l) = false := rfl

theorem keyOK_strOK : ∀ s : List Nat, keyOK s = true → strOK s = true := by
  intro s
  induction s with
  | nil => intro _; rfl
  | cons c rest ih =>
    intro h
    simp only [keyOK, List.all_cons, Bool.and_eq_true] at h
    have hc : c < 0x80 := by
      have := h.1
      simp only [keyByteOK, decide_eq_true_eq] at this
      omega
    have hrest : strOK rest = true := by
      apply ih
      simp only [keyOK]
      exact h.2
    show strOKA ((c :: rest).length + 1) (c :: rest) = true
    simp only [List.length_cons]
    show strOKA (rest.length + 1 + 1) (c :: rest) = true
    unfold strOKA
    rw [if_pos hc]
    exact hrest

theorem writeInline_head (i : Inline) : ∃ t, writeInline i = 123 :: t := by
  cases i <;> exact ⟨_, rfl⟩

theorem writeBlock_head (b : Block) : ∃ t, writeBlock b = 123 :: t := by
  cases b <;> exact ⟨_, rfl⟩

theorem writeMetaValue_head (m : MetaValue) : ∃ t, writeMetaValue m = 123 :: t := by
  cases m <;> exact ⟨_, rfl⟩

theorem writeCitation_head (c : Citation) : ∃ t, writeCitation c = 123 :: t := by
  cases c; exact ⟨_, rfl⟩

theorem writeColSpec_head (c : ColSpec) : ∃ t, writeColSpec c = 91 :: t := by
  exact ⟨_, rfl⟩

theorem writeCell_head (c : TableCell) : ∃ t, writeCell c = 91 :: t := by
  cases c; exact ⟨_, rfl⟩

theorem writeRow_head (r : TableRow) : ∃ t, writeRow r = 91 :: t := by
  cases r; exact ⟨_, rfl⟩

theorem writeBody_head (b : TableBody) : ∃ t, writeBody b = 91 :: t := by
  cases b; exact ⟨_, rfl⟩

theorem writeDef_head (d : Definition) : ∃ t, writeDef d = 91 :: t := by
  cases d; exact ⟨_, rfl⟩

theorem writeKV_head (kv : KV) : ∃ t, writeKV kv = 91 :: t := by
  exact ⟨_, rfl⟩

theorem writeInline_len_pos (i : Inline) : 1 ≤ (writeInline i).length := by
  obtain ⟨t, ht⟩ := writeInline_head i
  rw [ht]; simp

theorem writeBlock_len_pos (b : Block) : 1 ≤ (writeBlock b).length := by
  obtain ⟨t, ht⟩ := writeBlock_head b
  rw [ht]; simp

theorem writeMetaValue_len_pos (m : MetaValue) : 1 ≤ (writeMetaValue m).length := by
  obtain ⟨t, ht⟩ := writeMetaValue_head m
  rw [ht]; simp

theorem writeCitation_len_pos (c : Citation) : 1 ≤ (writeCitation c).length := by
  obtain ⟨t, ht⟩ := writeCitation_head c
  rw [ht]; simp

theorem writeColSpec_len_pos (c : ColSpec) : 1 ≤ (writeColSpec c).length := by
  obtain ⟨t, ht⟩ := writeColSpec_head c
  rw [ht]; simp

theorem writeCell_len_pos (c : TableCell) : 1 ≤ (writeCell c).length := by
  obtain ⟨t, ht⟩ := writeCell_head c
  rw [ht]; simp

theorem writeRow_len_pos (r : TableRow) : 1 ≤ (writeRow r).length := by
  obtain ⟨t, ht⟩ := writeRow_head r
  rw [ht]; simp

theorem writeBody_len_pos (b : TableBody) : 1 ≤ (writeBody b).length := by
  obtain ⟨t, ht⟩ := writeBody_head b
  rw [ht]; simp

theorem writeDef_len_pos (d : Definition) : 1 ≤ (writeDef d).length := by
  obtain ⟨t, ht⟩ := writeDef_head d
  rw [ht]; simp

theorem wstr_length (s : List Nat) : (wstr s).length = (quoteBody s).length + 2 := by
  simp [wstr]

theorem writeKey_length (s : List Nat) :
    (writeKey s).length = (quoteBody s).length + 3 := by
  simp [writeKey, wstr_length]

theorem withTag_length (tag c : List Nat) :
    (withTag tag c).length = 13 + tag.length + c.length := by
  simp [withTag,
    show (gs "\"t\":\"").length = 5 from rfl,
    show (gs "\",\"c\":").length = 6 from rfl]
  omega

theorem tstr_length (tag : List Nat) :
    (tstr tag).length = 6 + (wstr tag).length := by
  simp [tstr, show (gs "\"t\":").length = 4 from rfl]
  omega

theorem tuple2W_length (a b : List Nat) :
    (tuple2W a b).length = a.length + b.length + 3 := by
  simp [tuple2W]; omega

theorem tuple3W_length (a b c : List Nat) :
    (tuple3W a b c).length = a.length + b.length + c.length + 4 := by
  simp [tuple3W]; omega

theorem wlist_length (xs : List (List Nat)) :
    (wlist xs).length = (sepList xs).length + 2 := by
  simp [wlist]

theorem writeInlines_length (l : List Inline) :
    (writeInlines l).length = (writeInlineList l).length + 2 := by
  simp [writeInlines]

theorem writeBlocks_length (l : List Block) :
    (writeBlocks l).length = (writeBlockList l).length + 2 := by
  simp [writeBlocks]

theorem writeCitations_length (cs : List Citation) :
    (writeCitations cs).length = (writeCitationList cs).length + 2 := by
  simp [writeCitations]

theorem writeMeta_length (m : List MetaMapEntry) :
    (writeMeta m).length = (writeMetaEntries m).length + 2 := by
  simp [writeMeta]

theorem readTagPre_tstr (tag r : List Nat) (off : Nat) (hs : strOK tag = true) :
    readTagPre ⟨tstr tag ++ r, off⟩
      = .ok ((tag, !needsEsc tag), ⟨125 :: r, off + 5 + (wstr tag).length⟩) := by
  rw [tstr_stream tag r]
  simp only [readTagPre, ebind_ok, expect_lbrace,
    expectStringF_wstr (gs "t") (by decide), expect_colon,
    readStringB_wstr tag hs]
  exact ok_scan_off _ _ _ _
    (by rw [show (wstr (gs "t")).length = 3 from rfl])

/-! ## appendFloat is a prefix writer -/

theorem goAppendFloat_prefix (b : List Nat) (f : GoFloat) (sci : Bool) :
    goAppendFloat b f sci = b ++ goAppendFloat [] f sci := by
  cases f with
  | inf neg => simp [goAppendFloat]
  | nan => simp [goAppendFloat]
  | fin neg m e =>
    match m with
    | 0 => simp [goAppendFloat]
    | m' + 1 =>
      simp only [goAppendFloat]
      cases hsf : shortestForm (.fin neg (m' + 1) e) neg (m' + 1) e with
      | mk D e10 => simp [List.append_assoc]

theorem fmtSci_len (neg : Bool) (D : Nat) (e10 : Int) :
    4 ≤ (fmtSci neg D e10).length := by
  simp only [fmtSci]
  split_ifs <;>
    simp [List.length_append, List.length_replicate, List.length_take] <;>
    omega

theorem goAppendFloat_sci_len (neg : Bool) (m : Nat) (e : Int) (hm : m ≠ 0) :
    4 ≤ (goAppendFloat [] (.fin neg m e) true).length := by
  obtain ⟨m', rfl⟩ : ∃ m', m = m' + 1 := ⟨m - 1, by omega⟩
  simp only [goAppendFloat]
  cases hsf : shortestForm (.fin neg (m' + 1) e) neg (m' + 1) e with
  | mk D e10 => simpa using fmtSci_len neg D e10

theorem exists_last4 (l : List Nat) (h : 4 ≤ l.length) :
    ∃ u a b c d, l = u ++ [a, b, c, d] := by
  induction l with
  | nil => simp at h
  | cons x xs ih =>
    by_cases h4 : 4 ≤ xs.length
    · obtain ⟨u, a, b, c, d, he⟩ := ih h4
      exact ⟨x :: u, a, b, c, d, by rw [he]; rfl⟩
    · have h3 : xs.length = 3 := by simp at h; omega
      obtain ⟨a, b, c, he⟩ : ∃ a b c, xs = [a, b, c] := by
        cases xs with
        | nil => simp at h3
        | cons a t1 =>
          cases t1 with
          | nil => simp at h3
          | cons b t2 =>
            cases t2 with
            | nil => simp at h3
            | cons c t3 =>
              cases t3 with
              | nil => exact ⟨a, b, c, rfl⟩
              | cons d t4 => simp at h3
      exact ⟨[], x, a, b, c, by rw [he]; rfl⟩

theorem appendFloat_prefix (b : List Nat) (f : GoFloat) :
    appendFloat b f = b ++ appendFloat [] f := by
  cases f with
  | inf neg => rfl
  | nan => rfl
  | fin neg m e =>
    simp only [appendFloat]
    by_cases hsci : m ≠ 0 ∧
        ((GoFloat.fin neg m e).abs.absLt c1e_1 ∨
          ¬ (GoFloat.fin neg m e).abs.absLt c1e21)
    · rw [if_pos hsci, if_pos hsci, decide_eq_true hsci,
        goAppendFloat_prefix b (.fin neg m e) true]
      obtain ⟨u, a1, b1, c1, d1, hdec⟩ :=
        exists_last4 _ (goAppendFloat_sci_len neg m e hsci.1)
      rw [hdec]
      have h1 : (b ++ (u ++ [a1, b1, c1, d1])).reverse
          = d1 :: c1 :: b1 :: a1 :: (u.reverse ++ b.reverse) := by simp
      have h2 : (u ++ [a1, b1, c1, d1]).reverse
          = d1 :: c1 :: b1 :: a1 :: u.reverse := by simp
      rw [h1, h2]
      simp only []
      split_ifs with hfix
      · simp [List.append_assoc]
      · rfl
    · rw [if_neg hsci, if_neg hsci, goAppendFloat_prefix]

theorem writeColWidth_eq (c : ColWidth) (h : c.isDefault = false) :
    writeColWidth c = withTag (gs "ColWidth") (appendFloat [] c.width) := by
  have h1 : writeColWidth c
      = appendFloat (123 :: gs "\"t\":\"ColWidth\",\"c\":") c.width ++ [125] := by
    simp only [writeColWidth, h]
    rfl
  rw [h1, appendFloat_prefix]
  simp only [withTag,
    show gs "\"t\":\"ColWidth\",\"c\":"
      = [34, 116, 34, 58, 34, 67, 111, 108, 87, 105, 100, 116, 104,
          34, 44, 34, 99, 34, 58] from rfl,
    show gs "\"t\":\"" = [34, 116, 34, 58, 34] from rfl,
    show gs "\",\"c\":" = [34, 44, 34, 99, 34, 58] from rfl,
    show gs "ColWidth" = [67, 111, 108, 87, 105, 100, 116, 104] from rfl,
    List.cons_append, List.append_assoc, List.nil_append]

/-! ## Dual lemmas for the tagged-enumeration readers -/

theorem readQuoteType_dual (qt : QuoteType) (r : List Nat) (off : Nat) :
    readQuoteType ⟨tstr qt.tag ++ r, off⟩
      = .ok (qt, ⟨r, off + (tstr qt.tag).length⟩) := by
  cases qt <;>
    exact readTagged_tstr _ _ _ (by decide) (by decide) (by decide) r off

theorem readMathType_dual (mt : MathType) (r : List Nat) (off : Nat) :
    readMathType ⟨tstr mt.tag ++ r, off⟩
      = .ok (mt, ⟨r, off + (tstr mt.tag).length⟩) := by
  cases mt <;>
    exact readTagged_tstr _ _ _ (by decide) (by decide) (by decide) r off

theorem readCitationMode_dual (m : CitationMode) (r : List Nat) (off : Nat) :
    readCitationMode ⟨tstr m.tag ++ r, off⟩
      = .ok (m, ⟨r, off + (tstr m.tag).length⟩) := by
  cases m <;>
    exact readTagged_tstr _ _ _ (by decide) (by decide) (by decide) r off

theorem readListNumberStyle_dual (s : ListNumberStyle) (r : List Nat) (off : Nat) :
    readListNumberStyle ⟨tstr s.tag ++ r, off⟩
      = .ok (s, ⟨r, off + (tstr s.tag).length⟩) := by
  cases s <;>
    exact readTagged_tstr _ _ _ (by decide) (by decide) (by decide) r off

theorem readListNumberDelim_dual (d : ListNumberDelim) (r : List Nat) (off : Nat) :
    readListNumberDelim ⟨tstr d.tag ++ r, off⟩
      = .ok (d, ⟨r, off + (tstr d.tag).length⟩) := by
  cases d <;>
    exact readTagged_tstr _ _ _ (by decide) (by decide) (by decide) r off

theorem readAlignment_dual (a : Alignment) (r : List Nat) (off : Nat) :
    readAlignment ⟨tstr a.tag ++ r, off⟩
      = .ok (a, ⟨r, off + (tstr a.tag).length⟩) := by
  cases a <;>
    exact readTagged_tstr _ _ _ (by decide) (by decide) (by decide) r off

/-! ## Dual lemmas for the non-recursive composite readers -/

theorem readTarget_dual (t : Target) (hw : wfTarget t = true) (r : List Nat)
    (off : Nat) :
    readTarget ⟨writeTarget t ++ r, off⟩
      = .ok (t, ⟨r, off + (writeTarget t).length⟩) := by
  obtain ⟨url, title⟩ := t
  simp only [wfTarget, Bool.decide_and, Bool.and_eq_true, decide_eq_true_eq] at hw
  have hst : writeTarget ⟨url, title⟩ ++ r
      = 91 :: (wstr url ++ 44 :: (wstr title ++ 93 :: r)) := by
    simp [writeTarget, tuple2W, List.append_assoc]
  rw [hst]
  simp only [readTarget, ebind_ok, expect_lbrack, readString_wstr url hw.1,
    expect_comma, readString_wstr title hw.2, expect_rbrack]
  exact ok_scan_off _ _ _ _
    (by simp [writeTarget, tuple2W_length, wstr_length]; omega)

theorem readAttrKV_dual (kv : KV) (hw : wfKV kv = true) (r : List Nat)
    (off : Nat) :
    readAttrKV ⟨writeKV kv ++ r, off⟩
      = .ok (kv, ⟨r, off + (writeKV kv).length⟩) := by
  obtain ⟨key, value⟩ := kv
  simp only [wfKV, Bool.decide_and, Bool.and_eq_true, decide_eq_true_eq] at hw
  have hst : writeKV ⟨key, value⟩ ++ r
      = 91 :: (wstr key ++ 44 :: (wstr value ++ 93 :: r)) := by
    simp [writeKV, tuple2W, List.append_assoc]
  rw [hst]
  simp only [readAttrKV, ebind_ok, expect_lbrack, readString_wstr key hw.1,
    expect_comma, readString_wstr value hw.2, expect_rbrack]
  exact ok_scan_off _ _ _ _
    (by simp [writeKV, tuple2W_length, wstr_length]; omega)

theorem readListAttr_dual (a : ListAttrs) (hw : wfListAttrs a = true)
    (r : List Nat) (off : Nat) :
    readListAttr ⟨writeListAttrs a ++ r, off⟩
      = .ok (a, ⟨r, off + (writeListAttrs a).length⟩) := by
  obtain ⟨start, style, delim⟩ := a
  have hint : int64OK start = true := hw
  have hst : writeListAttrs ⟨start, style, delim⟩ ++ r
      = 91 :: (intBytes start
          ++ 44 :: (tstr style.tag ++ 44 :: (tstr delim.tag ++ 93 :: r))) := by
    simp [writeListAttrs, tuple3W, List.append_assoc]
  rw [hst]
  simp only [readListAttr, ebind_ok, expect_lbrack]
  rw [readInt_intBytes start hint
    (44 :: (tstr style.tag ++ 44 :: (tstr delim.tag ++ 93 :: r)))
    (numContB_comma _) (off + 1)]
  simp only [ebind_ok]
  rw [expect_comma]
  simp only [ebind_ok]
  rw [readListNumberStyle_dual style]
  simp only [ebind_ok]
  rw [expect_comma]
  simp only [ebind_ok]
  rw [readListNumberDelim_dual delim]
  simp only [ebind_ok]
  rw [expect_rbrack]
  simp only [ebind_ok]
  exact ok_scan_off _ _ _ _
    (by simp [writeListAttrs, tuple3W_length]; omega)

theorem readColWidth_dual (c : ColWidth) (hw : wfColWidth c = true)
    (r : List Nat) (off : Nat) :
    readColWidth ⟨writeColWidth c ++ r, off⟩
      = .ok (c, ⟨r, off + (writeColWidth c).length⟩) := by
  obtain ⟨w, isDef⟩ := c
  simp only [wfColWidth, Bool.decide_or, Bool.decide_and, Bool.or_eq_true,
    Bool.and_eq_true, decide_eq_true_eq] at hw
  cases isDef with
  | true =>
    have hz : w = GoFloat.zero := by
      rcases hw with ⟨_, hz⟩ | ⟨hfalse, _⟩
      · exact hz
      · exact absurd hfalse (by simp)
    subst hz
    rw [show (writeColWidth ⟨GoFloat.zero, true⟩ : List Nat)
        = tstr (gs "ColWidthDefault") from rfl]
    simp only [readColWidth]
    rw [readTagPre_tstr (gs "ColWidthDefault") r off (by decide)]
    simp only [ebind_ok]
    rfl
  | false =>
    have hWOK : widthOK w = true := by
      rcases hw with ⟨htrue, _⟩ | ⟨_, hWOK⟩
      · exact absurd htrue (by simp)
      · exact hWOK
    rw [writeColWidth_eq ⟨w, false⟩ rfl]
    simp only [readColWidth]
    rw [readTagPre_withTag (gs "ColWidth") (appendFloat [] w) r off
      (by decide) rfl]
    simp only [ebind_ok]
    rw [readObjPre_step]
    simp only [ebind_ok]
    rw [readFloat_width w hWOK r]
    simp only [ebind_ok]
    rw [expect_rbrace]
    simp only [ebind_ok]
    exact Eq.trans rfl
      (ok_scan_off (⟨w, false⟩ : ColWidth) r
        (off + 5 + (wstr (gs "ColWidth")).length + 5
          + (appendFloat [] w).length + 1) _
        (by
          rw [withTag_length,
            show (wstr (gs "ColWidth")).length = 10 from rfl,
            show (gs "ColWidth").length = 8 from rfl]
          omega))

theorem readColSpec_dual (c : ColSpec) (hw : wfColSpec c = true)
    (r : List Nat) (off : Nat) :
    readColSpec ⟨writeColSpec c ++ r, off⟩
      = .ok (c, ⟨r, off + (writeColSpec c).length⟩) := by
  obtain ⟨align, width⟩ := c
  have hst : writeColSpec ⟨align, width⟩ ++ r
      = 91 :: (tstr align.tag ++ 44 :: (writeColWidth width ++ 93 :: r)) := by
    simp [writeColSpec, tuple2W, List.append_assoc]
  rw [hst]
  simp only [readColSpec, ebind_ok, expect_lbrack]
  rw [readAlignment_dual align]
  simp only [ebind_ok]
  rw [expect_comma]
  simp only [ebind_ok]
  rw [readColWidth_dual width hw (93 :: r)]
  simp only [ebind_ok]
  rw [expect_rbrack]
  simp only [ebind_ok]
  exact ok_scan_off _ _ _ _
    (by simp [writeColSpec, tuple2W_length]; omega)

/-! ## Dual lemmas for the element-list loops with non-recursive elements -/

theorem readStringListLoop_dual :
    ∀ (ss : List (List Nat)) (fuel : Nat), ss.length < fuel →
      wfStrList ss = true → ∀ (r : List Nat) (off : Nat),
      readStringListLoop fuel ⟨sepList (ss.map wstr) ++ 93 :: r, off⟩
        = .ok (ss, ⟨r, off + (sepList (ss.map wstr)).length + 1⟩) := by
  intro ss
  induction ss with
  | nil =>
    intro fuel hf _ r off
    obtain ⟨m, rfl⟩ : ∃ m, fuel = m + 1 := ⟨fuel - 1, by omega⟩
    rfl
  | cons s0 ss' ih =>
    intro fuel hf hw r off
    obtain ⟨m, rfl⟩ : ∃ m, fuel = m + 1 := ⟨fuel - 1, by omega⟩
    simp only [wfStrList, Bool.decide_and, Bool.and_eq_true,
      decide_eq_true_eq] at hw
    cases ss' with
    | nil =>
      have hst : sepList (([s0]).map wstr) ++ 93 :: r
          = wstr s0 ++ 93 :: r := by simp [sepList]
      rw [hst]
      simp only [readStringListLoop]
      have hpk : (⟨wstr s0 ++ 93 :: r, off⟩ : Scanner).peek = .str := rfl
      rw [if_neg (show ¬((⟨wstr s0 ++ 93 :: r, off⟩ : Scanner).peek
        = TokK.rbrack) from by rw [hpk]; decide)]
      rw [readString_wstr s0 hw.1]
      simp only [ebind_ok]
      rw [next_rbrack]
      simp only []
      exact Eq.trans rfl
        (ok_scan_off [s0] r (off + (wstr s0).length + 1) _
          (by simp [sepList]))
    | cons s1 ss'' =>
      have hst : sepList ((s0 :: s1 :: ss'').map wstr) ++ 93 :: r
          = wstr s0 ++ 44 :: (sepList ((s1 :: ss'').map wstr) ++ 93 :: r) := by
        simp [sepList, List.append_assoc]
      rw [hst]
      simp only [readStringListLoop]
      have hpk : (⟨wstr s0 ++ 44 :: (sepList ((s1 :: ss'').map wstr)
          ++ 93 :: r), off⟩ : Scanner).peek = .str := rfl
      rw [if_neg (show ¬((⟨wstr s0 ++ 44 :: (sepList ((s1 :: ss'').map wstr)
          ++ 93 :: r), off⟩ : Scanner).peek = TokK.rbrack)
        from by rw [hpk]; decide)]
      rw [readString_wstr s0 hw.1]
      simp only [ebind_ok]
      rw [next_comma]
      simp only []
      rw [ih m (by simp at hf ⊢; omega) hw.2]
      simp only [ebind_ok]
      exact Eq.trans rfl
        (ok_scan_off (s0 :: s1 :: ss'') r
          (off + (wstr s0).length + 1
            + (sepList ((s1 :: ss'').map wstr)).length + 1) _
          (by simp [sepList]; omega))

theorem readKVListLoop_dual :
    ∀ (kvs : List KV) (fuel : Nat), kvs.length < fuel →
      wfKVList kvs = true → ∀ (r : List Nat) (off : Nat),
      readKVListLoop fuel ⟨sepList (kvs.map writeKV) ++ 93 :: r, off⟩
        = .ok (kvs, ⟨r, off + (sepList (kvs.map writeKV)).length + 1⟩) := by
  intro kvs
  induction kvs with
  | nil =>
    intro fuel hf _ r off
    obtain ⟨m, rfl⟩ : ∃ m, fuel = m + 1 := ⟨fuel - 1, by omega⟩
    rfl
  | cons kv0 kvs' ih =>
    intro fuel hf hw r off
    obtain ⟨m, rfl⟩ : ∃ m, fuel = m + 1 := ⟨fuel - 1, by omega⟩
    simp only [wfKVList, Bool.decide_and, Bool.and_eq_true,
      decide_eq_true_eq] at hw
    obtain ⟨t0, ht0⟩ := writeKV_head kv0
    cases kvs' with
    | nil =>
      have hst : sepList (([kv0]).map writeKV) ++ 93 :: r
          = writeKV kv0 ++ 93 :: r := by simp [sepList]
      rw [hst]
      simp only [readKVListLoop]
      have hpk : (⟨writeKV kv0 ++ 93 :: r, off⟩ : Scanner).peek = .lbrack := by
        rw [ht0]; rfl
      rw [if_neg (show ¬((⟨writeKV kv0 ++ 93 :: r, off⟩ : Scanner).peek
        = TokK.rbrack) from by rw [hpk]; decide)]
      rw [readAttrKV_dual kv0 hw.1]
      simp only [ebind_ok]
      rw [next_rbrack]
      simp only []
      exact Eq.trans rfl
        (ok_scan_off [kv0] r (off + (writeKV kv0).length + 1) _
          (by simp [sepList]))
    | cons kv1 kvs'' =>
      have hst : sepList ((kv0 :: kv1 :: kvs'').map writeKV) ++ 93 :: r
          = writeKV kv0
              ++ 44 :: (sepList ((kv1 :: kvs'').map writeKV) ++ 93 :: r) := by
        simp [sepList, List.append_assoc]
      rw [hst]
      simp only [readKVListLoop]
      have hpk : (⟨writeKV kv0 ++ 44 :: (sepList ((kv1 :: kvs'').map writeKV)
          ++ 93 :: r), off⟩ : Scanner).peek = .lbrack := by
        rw [ht0]; rfl
      rw [if_neg (show ¬((⟨writeKV kv0 ++ 44 :: (sepList ((kv1 :: kvs'').map
          writeKV) ++ 93 :: r), off⟩ : Scanner).peek = TokK.rbrack)
        from by rw [hpk]; decide)]
      rw [readAttrKV_dual kv0 hw.1]
      simp only [ebind_ok]
      rw [next_comma]
      simp only []
      rw [ih m (by simp at hf ⊢; omega) hw.2]
      simp only [ebind_ok]
      exact Eq.trans rfl
        (ok_scan_off (kv0 :: kv1 :: kvs'') r
          (off + (writeKV kv0).length + 1
            + (sepList ((kv1 :: kvs'').map writeKV)).length + 1) _
          (by simp [sepList]; omega))

theorem readColSpecListLoop_dual :
    ∀ (cs : List ColSpec) (fuel : Nat), cs.length < fuel →
      wfColSpecList cs = true → ∀ (r : List Nat) (off : Nat),
      readColSpecListLoop fuel ⟨sepList (cs.map writeColSpec) ++ 93 :: r, off⟩
        = .ok (cs, ⟨r, off + (sepList (cs.map writeColSpec)).length + 1⟩) := by
  intro cs
  induction cs with
  | nil =>
    intro fuel hf _ r off
    obtain ⟨m, rfl⟩ : ∃ m, fuel = m + 1 := ⟨fuel - 1, by omega⟩
    rfl
  | cons c0 cs' ih =>
    intro fuel hf hw r off
    obtain ⟨m, rfl⟩ : ∃ m, fuel = m + 1 := ⟨fuel - 1, by omega⟩
    simp only [wfColSpecList, Bool.decide_and, Bool.and_eq_true,
      decide_eq_true_eq] at hw
    obtain ⟨t0, ht0⟩ := writeColSpec_head c0
    cases cs' with
    | nil =>
      have hst : sepList (([c0]).map writeColSpec) ++ 93 :: r
          = writeColSpec c0 ++ 93 :: r := by simp [sepList]
      rw [hst]
      simp only [readColSpecListLoop]
      have hpk : (⟨writeColSpec c0 ++ 93 :: r, off⟩ : Scanner).peek
          = .lbrack := by rw [ht0]; rfl
      rw [if_neg (show ¬((⟨writeColSpec c0 ++ 93 :: r, off⟩ : Scanner).peek
        = TokK.rbrack) from by rw [hpk]; decide)]
      rw [readColSpec_dual c0 hw.1]
      simp only [ebind_ok]
      rw [next_rbrack]
      simp only []
      exact Eq.trans rfl
        (ok_scan_off [c0] r (off + (writeColSpec c0).length + 1) _
          (by simp [sepList]))
    | cons c1 cs'' =>
      have hst : sepList ((c0 :: c1 :: cs'').map writeColSpec) ++ 93 :: r
          = writeColSpec c0
              ++ 44 :: (sepList ((c1 :: cs'').map writeColSpec) ++ 93 :: r) := by
        simp [sepList, List.append_assoc]
      rw [hst]
      simp only [readColSpecListLoop]
      have hpk : (⟨writeColSpec c0 ++ 44 :: (sepList ((c1 :: cs'').map
          writeColSpec) ++ 93 :: r), off⟩ : Scanner).peek = .lbrack := by
        rw [ht0]; rfl
      rw [if_neg (show ¬((⟨writeColSpec c0 ++ 44 :: (sepList ((c1 :: cs'').map
          writeColSpec) ++ 93 :: r), off⟩ : Scanner).peek = TokK.rbrack)
        from by rw [hpk]; decide)]
      rw [readColSpec_dual c0 hw.1]
      simp only [ebind_ok]
      rw [next_comma]
      simp only []
      rw [ih m (by simp at hf ⊢; omega) hw.2]
      simp only [ebind_ok]
      exact Eq.trans rfl
        (ok_scan_off (c0 :: c1 :: cs'') r
          (off + (writeColSpec c0).length + 1
            + (sepList ((c1 :: cs'').map writeColSpec)).length + 1) _
          (by simp [sepList]; omega))

theorem readIntListLoop_dual :
    ∀ (vs : List Int) (fuel : Nat), vs.length < fuel →
      (∀ v ∈ vs, int64OK v = true) → ∀ (r : List Nat) (off : Nat),
      readIntListLoop fuel ⟨sepList (vs.map intBytes) ++ 93 :: r, off⟩
        = .ok (vs, ⟨r, off + (sepList (vs.map intBytes)).length + 1⟩) := by
  intro vs
  induction vs with
  | nil =>
    intro fuel hf _ r off
    obtain ⟨m, rfl⟩ : ∃ m, fuel = m + 1 := ⟨fuel - 1, by omega⟩
    rfl
  | cons v0 vs' ih =>
    intro fuel hf hw r off
    obtain ⟨m, rfl⟩ : ∃ m, fuel = m + 1 := ⟨fuel - 1, by omega⟩
    obtain ⟨c0, t0, ht0, hcd⟩ := intBytes_head v0
    have hpknum : ∀ l : List Nat,
        (⟨intBytes v0 ++ l, off⟩ : Scanner).peek = .num := by
      intro l
      show peekK (intBytes v0 ++ l) = .num
      rw [show intBytes v0 ++ l = c0 :: (t0 ++ l) from by rw [ht0]; rfl]
      exact peekK_num_head c0 hcd (t0 ++ l)
    cases vs' with
    | nil =>
      have hst : sepList (([v0]).map intBytes) ++ 93 :: r
          = intBytes v0 ++ 93 :: r := by simp [sepList]
      rw [hst]
      simp only [readIntListLoop]
      rw [if_neg (show ¬((⟨intBytes v0 ++ 93 :: r, off⟩ : Scanner).peek
        = TokK.rbrack) from by rw [hpknum]; decide)]
      rw [readInt_intBytes v0 (hw v0 (by simp)) (93 :: r)
        (numContB_rbrack _) off]
      simp only [ebind_ok]
      rw [next_rbrack]
      simp only []
      exact Eq.trans rfl
        (ok_scan_off [v0] r (off + (intBytes v0).length + 1) _
          (by simp [sepList]))
    | cons v1 vs'' =>
      have hst : sepList ((v0 :: v1 :: vs'').map intBytes) ++ 93 :: r
          = intBytes v0
              ++ 44 :: (sepList ((v1 :: vs'').map intBytes) ++ 93 :: r) := by
        simp [sepList, List.append_assoc]
      rw [hst]
      simp only [readIntListLoop]
      rw [if_neg (show ¬((⟨intBytes v0 ++ 44 :: (sepList ((v1 :: vs'').map
          intBytes) ++ 93 :: r), off⟩ : Scanner).peek = TokK.rbrack)
        from by rw [hpknum]; decide)]
      rw [readInt_intBytes v0 (hw v0 (by simp))
        (44 :: (sepList ((v1 :: vs'').map intBytes) ++ 93 :: r))
        (numContB_comma _) off]
      simp only [ebind_ok]
      rw [next_comma]
      simp only []
      rw [ih m (by simp at hf ⊢; omega)
        (fun v hv => hw v (by simp at hv ⊢; tauto))]
      simp only [ebind_ok]
      exact Eq.trans rfl
        (ok_scan_off (v0 :: v1 :: vs'') r
          (off + (intBytes v0).length + 1
            + (sepList ((v1 :: vs'').map intBytes)).length + 1) _
          (by simp [sepList]; omega))

/-- readAttr duality: identifier, class list, key-value list. -/
theorem readAttr_dual (a : Attr) (hw : wfAttr a = true) (fuel : Nat)
    (hf1 : a.classes.length < fuel) (hf2 : a.kvs.length < fuel)
    (r : List Nat) (off : Nat) :
    readAttr fuel ⟨writeAttr a ++ r, off⟩
      = .ok (a, ⟨r, off + (writeAttr a).length⟩) := by
  obtain ⟨id, classes, kvs⟩ := a
  simp only [wfAttr, Bool.decide_and, Bool.and_eq_true,
    decide_eq_true_eq] at hw
  have hst : writeAttr ⟨id, classes, kvs⟩ ++ r
      = 91 :: (wstr id ++ 44 :: 91 :: ((sepList (classes.map wstr))
          ++ 93 :: 44 :: 91 :: ((sepList (kvs.map writeKV))
            ++ 93 :: 93 :: r))) := by
    simp [writeAttr, tuple3W, wlist, List.append_assoc]
  rw [hst]
  simp only [readAttr, ebind_ok, expect_lbrack]
  rw [readString_wstr id hw.1]
  simp only [ebind_ok]
  rw [expect_comma]
  simp only [ebind_ok]
  rw [expect_lbrack]
  simp only [ebind_ok]
  rw [readStringListLoop_dual classes fuel hf1 hw.2.1]
  simp only [ebind_ok]
  rw [expect_comma]
  simp only [ebind_ok]
  rw [expect_lbrack]
  simp only [ebind_ok]
  rw [readKVListLoop_dual kvs fuel hf2 hw.2.2]
  simp only [ebind_ok]
  rw [expect_rbrack]
  simp only [ebind_ok]
  exact ok_scan_off _ _ _ _
    (by simp [writeAttr, tuple3W_length, wlist_length]; omega)

/-! ## Dual lemmas for the non-recursive tagged-content readers -/

theorem readCode_dual (a : Attr) (text : List Nat) (hwa : wfAttr a = true)
    (hwt : strOK text = true) (fuel : Nat)
    (hf1 : a.classes.length < fuel) (hf2 : a.kvs.length < fuel)
    (r : List Nat) (off : Nat) :
    readCode fuel ⟨44 :: 34 :: 99 :: 34 :: 58 ::
        (tuple2W (writeAttr a) (wstr text) ++ 125 :: r), off⟩
      = .ok (.Code a text,
          ⟨r, off + 6 + (tuple2W (writeAttr a) (wstr text)).length⟩) := by
  have hst : tuple2W (writeAttr a) (wstr text) ++ 125 :: r
      = 91 :: (writeAttr a ++ 44 :: (wstr text ++ 93 :: 125 :: r)) := by
    simp [tuple2W, List.append_assoc]
  rw [hst]
  simp only [readCode, ebind_ok]
  rw [readObjPre_step]
  simp only [ebind_ok]
  rw [expect_lbrack]
  simp only [ebind_ok]
  rw [readAttr_dual a hwa fuel hf1 hf2]
  simp only [ebind_ok]
  rw [expect_comma]
  simp only [ebind_ok]
  rw [readString_wstr text hwt]
  simp only [ebind_ok]
  rw [expect_rbrack]
  simp only [ebind_ok]
  rw [expect_rbrace]
  simp only [ebind_ok]
  exact ok_scan_off _ _ _ _ (by simp [tuple2W_length]; omega)

theorem readMath_dual (mt : MathType) (text : List Nat)
    (hwt : strOK text = true) (r : List Nat) (off : Nat) :
    readMath ⟨44 :: 34 :: 99 :: 34 :: 58 ::
        (tuple2W (tstr mt.tag) (wstr text) ++ 125 :: r), off⟩
      = .ok (.Math mt text,
          ⟨r, off + 6 + (tuple2W (tstr mt.tag) (wstr text)).length⟩) := by
  have hst : tuple2W (tstr mt.tag) (wstr text) ++ 125 :: r
      = 91 :: (tstr mt.tag ++ 44 :: (wstr text ++ 93 :: 125 :: r)) := by
    simp [tuple2W, List.append_assoc]
  rw [hst]
  simp only [readMath, ebind_ok]
  rw [readObjPre_step]
  simp only [ebind_ok]
  rw [expect_lbrack]
  simp only [ebind_ok]
  rw [readMathType_dual mt]
  simp only [ebind_ok]
  rw [expect_comma]
  simp only [ebind_ok]
  rw [readString_wstr text hwt]
  simp only [ebind_ok]
  rw [expect_rbrack]
  simp only [ebind_ok]
  rw [expect_rbrace]
  simp only [ebind_ok]
  exact ok_scan_off _ _ _ _ (by simp [tuple2W_length]; omega)

theorem readRawInline_dual (f text : List Nat) (hwf : strOK f = true)
    (hwt : strOK text = true) (r : List Nat) (off : Nat) :
    readRawInline ⟨44 :: 34 :: 99 :: 34 :: 58 ::
        (tuple2W (wstr f) (wstr text) ++ 125 :: r), off⟩
      = .ok (.RawInline f text,
          ⟨r, off + 6 + (tuple2W (wstr f) (wstr text)).length⟩) := by
  have hst : tuple2W (wstr f) (wstr text) ++ 125 :: r
      = 91 :: (wstr f ++ 44 :: (wstr text ++ 93 :: 125 :: r)) := by
    simp [tuple2W, List.append_assoc]
  rw [hst]
  simp only [readRawInline, ebind_ok]
  rw [readObjPre_step]
  simp only [ebind_ok]
  rw [expect_lbrack]
  simp only [ebind_ok]
  rw [readString_wstr f hwf]
  simp only [ebind_ok]
  rw [expect_comma]
  simp only [ebind_ok]
  rw [readString_wstr text hwt]
  simp only [ebind_ok]
  rw [expect_rbrack]
  simp only [ebind_ok]
  rw [expect_rbrace]
  simp only [ebind_ok]
  exact ok_scan_off _ _ _ _ (by simp [tuple2W_length]; omega)

theorem readCodeBlock_dual (a : Attr) (text : List Nat) (hwa : wfAttr a = true)
    (hwt : strOK text = true) (fuel : Nat)
    (hf1 : a.classes.length < fuel) (hf2 : a.kvs.length < fuel)
    (r : List Nat) (off : Nat) :
    readCodeBlock fuel ⟨44 :: 34 :: 99 :: 34 :: 58 ::
        (tuple2W (writeAttr a) (wstr text) ++ 125 :: r), off⟩
      = .ok (.CodeBlock a text,
          ⟨r, off + 6 + (tuple2W (writeAttr a) (wstr text)).length⟩) := by
  have hst : tuple2W (writeAttr a) (wstr text) ++ 125 :: r
      = 91 :: (writeAttr a ++ 44 :: (wstr text ++ 93 :: 125 :: r)) := by
    simp [tuple2W, List.append_assoc]
  rw [hst]
  simp only [readCodeBlock, ebind_ok]
  rw [readObjPre_step]
  simp only [ebind_ok]
  rw [expect_lbrack]
  simp only [ebind_ok]
  rw [readAttr_dual a hwa fuel hf1 hf2]
  simp only [ebind_ok]
  rw [expect_comma]
  simp only [ebind_ok]
  rw [readString_wstr text hwt]
  simp only [ebind_ok]
  rw [expect_rbrack]
  simp only [ebind_ok]
  rw [expect_rbrace]
  simp only [ebind_ok]
  exact ok_scan_off _ _ _ _ (by simp [tuple2W_length]; omega)

theorem readRawBlock_dual (f text : List Nat) (hwf : strOK f = true)
    (hwt : strOK text = true) (r : List Nat) (off : Nat) :
    readRawBlock ⟨44 :: 34 :: 99 :: 34 :: 58 ::
        (tuple2W (wstr f) (wstr text) ++ 125 :: r), off⟩
      = .ok (.RawBlock f text,
          ⟨r, off + 6 + (tuple2W (wstr f) (wstr text)).length⟩) := by
  have hst : tuple2W (wstr f) (wstr text) ++ 125 :: r
      = 91 :: (wstr f ++ 44 :: (wstr text ++ 93 :: 125 :: r)) := by
    simp [tuple2W, List.append_assoc]
  rw [hst]
  simp only [readRawBlock, ebind_ok]
  rw [readObjPre_step]
  simp only [ebind_ok]
  rw [expect_lbrack]
  simp only [ebind_ok]
  rw [readString_wstr f hwf]
  simp only [ebind_ok]
  rw [expect_comma]
  simp only [ebind_ok]
  rw [readString_wstr text hwt]
  simp only [ebind_ok]
  rw [expect_rbrack]
  simp only [ebind_ok]
  rw [expect_rbrace]
  simp only [ebind_ok]
  exact ok_scan_off _ _ _ _ (by simp [tuple2W_length]; omega)

/-! ## Standalone duals for the non-recursive inline and block variants -/

theorem readInline_str_dual (m : Nat) (text : List Nat)
    (hs : strOK text = true) (r : List Nat) (off : Nat) :
    readInline (m + 1) ⟨writeInline (.Str text) ++ r, off⟩
      = .ok (.Str text, ⟨r, off + (writeInline (.Str text)).length⟩) := by
  show readInline (m + 1) ⟨withTag (gs "Str") (wstr text) ++ r, off⟩ = _
  simp only [readInline]
  rw [readTagPre_withTag (gs "Str") (wstr text) r off (by decide) rfl]
  simp only [ebind_ok]
  rw [readObjPre_step]
  simp only [ebind_ok]
  rw [readString_wstr text hs]
  simp only [ebind_ok]
  rw [expect_rbrace]
  simp only [ebind_ok]
  exact Eq.trans rfl
    (ok_scan_off (Inline.Str text) r
      (off + 5 + (wstr (gs "Str")).length + 5 + (wstr text).length + 1) _
      (by
        simp [writeInline, withTag_length, wstr_length,
          show (wstr (gs "Str")).length = 5 from rfl,
          show (gs "Str").length = 3 from rfl]
        omega))

theorem readInline_space_dual (m : Nat) (r : List Nat) (off : Nat) :
    readInline (m + 1) ⟨writeInline .Space ++ r, off⟩
      = .ok (.Space, ⟨r, off + (writeInline .Space).length⟩) := by
  show readInline (m + 1) ⟨tstr (gs "Space") ++ r, off⟩ = _
  simp only [readInline]
  rw [readTagPre_tstr (gs "Space") r off (by decide)]
  simp only [ebind_ok]
  rfl

theorem readInline_softBreak_dual (m : Nat) (r : List Nat) (off : Nat) :
    readInline (m + 1) ⟨writeInline .SoftBreak ++ r, off⟩
      = .ok (.SoftBreak, ⟨r, off + (writeInline .SoftBreak).length⟩) := by
  show readInline (m + 1) ⟨tstr (gs "SoftBreak") ++ r, off⟩ = _
  simp only [readInline]
  rw [readTagPre_tstr (gs "SoftBreak") r off (by decide)]
  simp only [ebind_ok]
  rfl

theorem readInline_lineBreak_dual (m : Nat) (r : List Nat) (off : Nat) :
    readInline (m + 1) ⟨writeInline .LineBreak ++ r, off⟩
      = .ok (.LineBreak, ⟨r, off + (writeInline .LineBreak).length⟩) := by
  show readInline (m + 1) ⟨tstr (gs "LineBreak") ++ r, off⟩ = _
  simp only [readInline]
  rw [readTagPre_tstr (gs "LineBreak") r off (by decide)]
  simp only [ebind_ok]
  rfl

theorem readInline_math_dual (m : Nat) (mt : MathType) (text : List Nat)
    (hs : strOK text = true) (r : List Nat) (off : Nat) :
    readInline (m + 1) ⟨writeInline (.Math mt text) ++ r, off⟩
      = .ok (.Math mt text, ⟨r, off + (writeInline (.Math mt text)).length⟩) := by
  show readInline (m + 1)
    ⟨withTag (gs "Math") (tuple2W (tstr mt.tag) (wstr text)) ++ r, off⟩ = _
  simp only [readInline]
  rw [readTagPre_withTag (gs "Math") (tuple2W (tstr mt.tag) (wstr text)) r off
    (by decide) rfl]
  simp only [ebind_ok]
  rw [readMath_dual mt text hs]
  exact Eq.trans rfl
    (ok_scan_off (Inline.Math mt text) r
      (off + 5 + (wstr (gs "Math")).length + 6
        + (tuple2W (tstr mt.tag) (wstr text)).length) _
      (by
        simp [writeInline, withTag_length,
          show (wstr (gs "Math")).length = 6 from rfl,
          show (gs "Math").length = 4 from rfl]
        omega))

theorem readInline_rawInline_dual (m : Nat) (f text : List Nat)
    (hwf : strOK f = true) (hs : strOK text = true) (r : List Nat) (off : Nat) :
    readInline (m + 1) ⟨writeInline (.RawInline f text) ++ r, off⟩
      = .ok (.RawInline f text,
          ⟨r, off + (writeInline (.RawInline f text)).length⟩) := by
  show readInline (m + 1)
    ⟨withTag (gs "RawInline") (tuple2W (wstr f) (wstr text)) ++ r, off⟩ = _
  simp only [readInline]
  rw [readTagPre_withTag (gs "RawInline") (tuple2W (wstr f) (wstr text)) r off
    (by decide) rfl]
  simp only [ebind_ok]
  rw [readRawInline_dual f text hwf hs]
  exact Eq.trans rfl
    (ok_scan_off (Inline.RawInline f text) r
      (off + 5 + (wstr (gs "RawInline")).length + 6
        + (tuple2W (wstr f) (wstr text)).length) _
      (by
        simp [writeInline, withTag_length,
          show (wstr (gs "RawInline")).length = 11 from rfl,
          show (gs "RawInline").length = 9 from rfl]
        omega))

theorem readInline_code_dual (m : Nat) (a : Attr) (text : List Nat)
    (hwa : wfAttr a = true) (hs : strOK text = true)
    (hf1 : a.classes.length < m) (hf2 : a.kvs.length < m)
    (r : List Nat) (off : Nat) :
    readInline (m + 1) ⟨writeInline (.Code a text) ++ r, off⟩
      = .ok (.Code a text, ⟨r, off + (writeInline (.Code a text)).length⟩) := by
  show readInline (m + 1)
    ⟨withTag (gs "Code") (tuple2W (writeAttr a) (wstr text)) ++ r, off⟩ = _
  simp only [readInline]
  rw [readTagPre_withTag (gs "Code") (tuple2W (writeAttr a) (wstr text)) r off
    (by decide) rfl]
  simp only [ebind_ok]
  rw [readCode_dual a text hwa hs m hf1 hf2]
  exact Eq.trans rfl
    (ok_scan_off (Inline.Code a text) r
      (off + 5 + (wstr (gs "Code")).length + 6
        + (tuple2W (writeAttr a) (wstr text)).length) _
      (by
        simp [writeInline, withTag_length,
          show (wstr (gs "Code")).length = 6 from rfl,
          show (gs "Code").length = 4 from rfl]
        omega))

theorem readBlock_hr_dual (m : Nat) (r : List Nat) (off : Nat) :
    readBlock (m + 1) ⟨writeBlock .HorizontalRule ++ r, off⟩
      = .ok (.HorizontalRule, ⟨r, off + (writeBlock .HorizontalRule).length⟩) := by
  show readBlock (m + 1) ⟨tstr (gs "HorizontalRule") ++ r, off⟩ = _
  simp only [readBlock]
  rw [readTagPre_tstr (gs "HorizontalRule") r off (by decide)]
  simp only [ebind_ok]
  rfl

theorem readBlock_codeBlock_dual (m : Nat) (a : Attr) (text : List Nat)
    (hwa : wfAttr a = true) (hs : strOK text = true)
    (hf1 : a.classes.length < m) (hf2 : a.kvs.length < m)
    (r : List Nat) (off : Nat) :
    readBlock (m + 1) ⟨writeBlock (.CodeBlock a text) ++ r, off⟩
      = .ok (.CodeBlock a text,
          ⟨r, off + (writeBlock (.CodeBlock a text)).length⟩) := by
  show readBlock (m + 1)
    ⟨withTag (gs "CodeBlock") (tuple2W (writeAttr a) (wstr text)) ++ r, off⟩ = _
  simp only [readBlock]
  rw [readTagPre_withTag (gs "CodeBlock")
    (tuple2W (writeAttr a) (wstr text)) r off (by decide) rfl]
  simp only [ebind_ok]
  rw [readCodeBlock_dual a text hwa hs m hf1 hf2]
  exact Eq.trans rfl
    (ok_scan_off (Block.CodeBlock a text) r
      (off + 5 + (wstr (gs "CodeBlock")).length + 6
        + (tuple2W (writeAttr a) (wstr text)).length) _
      (by
        simp [writeBlock, withTag_length,
          show (wstr (gs "CodeBlock")).length = 11 from rfl,
          show (gs "CodeBlock").length = 9 from rfl]
        omega))

theorem readBlock_rawBlock_dual (m : Nat) (f text : List Nat)
    (hwf : strOK f = true) (hs : strOK text = true) (r : List Nat) (off : Nat) :
    readBlock (m + 1) ⟨writeBlock (.RawBlock f text) ++ r, off⟩
      = .ok (.RawBlock f text,
          ⟨r, off + (writeBlock (.RawBlock f text)).length⟩) := by
  show readBlock (m + 1)
    ⟨withTag (gs "RawBlock") (tuple2W (wstr f) (wstr text)) ++ r, off⟩ = _
  simp only [readBlock]
  rw [readTagPre_withTag (gs "RawBlock") (tuple2W (wstr f) (wstr text)) r off
    (by decide) rfl]
  simp only [ebind_ok]
  rw [readRawBlock_dual f text hwf hs]
  exact Eq.trans rfl
    (ok_scan_off (Block.RawBlock f text) r
      (off + 5 + (wstr (gs "RawBlock")).length + 6
        + (tuple2W (wstr f) (wstr text)).length) _
      (by
        simp [writeBlock, withTag_length,
          show (wstr (gs "RawBlock")).length = 10 from rfl,
          show (gs "RawBlock").length = 8 from rfl]
        omega))

/-! ## Step duals for the recursive readers, conditioned on their
recursive calls -/

theorem readWrap_dual (mk : List Inline → Inline) (m : Nat) (l : List Inline)
    (r : List Nat) (off : Nat)
    (hrec : ∀ (r' : List Nat) (off' : Nat),
      readInlineList m ⟨writeInlines l ++ r', off'⟩
        = .ok (l, ⟨r', off' + (writeInlines l).length⟩)) :
    readWrap mk (m + 1)
      ⟨44 :: 34 :: 99 :: 34 :: 58 :: (writeInlines l ++ 125 :: r), off⟩
      = .ok (mk l, ⟨r, off + 6 + (writeInlines l).length⟩) := by
  simp only [readWrap, ebind_ok]
  rw [readObjPre_step]
  simp only [ebind_ok]
  rw [hrec (125 :: r)]
  simp only [ebind_ok]
  rw [expect_rbrace]
  simp only [ebind_ok]
  exact ok_scan_off _ _ _ _ (by omega)

theorem readInlineList_dual (m : Nat) (l : List Inline) (r : List Nat)
    (off : Nat)
    (hrec : ∀ (r' : List Nat) (off' : Nat),
      readInlineListLoop m ⟨writeInlineList l ++ 93 :: r', off'⟩
        = .ok (l, ⟨r', off' + (writeInlineList l).length + 1⟩)) :
    readInlineList (m + 1) ⟨writeInlines l ++ r, off⟩
      = .ok (l, ⟨r, off + (writeInlines l).length⟩) := by
  have hst : writeInlines l ++ r = 91 :: (writeInlineList l ++ 93 :: r) := by
    simp [writeInlines, List.append_assoc]
  rw [hst]
  simp only [readInlineList, ebind_ok]
  rw [expect_lbrack]
  simp only [ebind_ok]
  rw [hrec r]
  exact ok_scan_off _ _ _ _ (by simp [writeInlines_length]; omega)

theorem readBlockList_dual (m : Nat) (bs : List Block) (r : List Nat)
    (off : Nat)
    (hrec : ∀ (r' : List Nat) (off' : Nat),
      readBlockListLoop m ⟨writeBlockList bs ++ 93 :: r', off'⟩
        = .ok (bs, ⟨r', off' + (writeBlockList bs).length + 1⟩)) :
    readBlockList (m + 1) ⟨writeBlocks bs ++ r, off⟩
      = .ok (bs, ⟨r, off + (writeBlocks bs).length⟩) := by
  have hst : writeBlocks bs ++ r = 91 :: (writeBlockList bs ++ 93 :: r) := by
    simp [writeBlocks, List.append_assoc]
  rw [hst]
  simp only [readBlockList, ebind_ok]
  rw [expect_lbrack]
  simp only [ebind_ok]
  rw [hrec r]
  exact ok_scan_off _ _ _ _ (by simp [writeBlocks_length]; omega)

theorem readMeta_dual (m : Nat) (es : List MetaMapEntry) (r : List Nat)
    (off : Nat)
    (hrec : ∀ (r' : List Nat) (off' : Nat),
      readMetaLoop m ⟨writeMetaEntries es ++ 125 :: r', off'⟩
        = .ok (es, ⟨r', off' + (writeMetaEntries es).length + 1⟩)) :
    readMeta (m + 1) ⟨writeMeta es ++ r, off⟩
      = .ok (es, ⟨r, off + (writeMeta es).length⟩) := by
  have hst : writeMeta es ++ r = 123 :: (writeMetaEntries es ++ 125 :: r) := by
    simp [writeMeta, List.append_assoc]
  rw [hst]
  simp only [readMeta, ebind_ok]
  rw [expect_lbrace]
  simp only [ebind_ok]
  rw [hrec r]
  exact ok_scan_off _ _ _ _ (by simp [writeMeta_length]; omega)

theorem readInline_emph_dual (m : Nat) (l : List Inline) (r : List Nat)
    (off : Nat)
    (hrec : ∀ (r' : List Nat) (off' : Nat),
      readWrap Inline.Emph m ⟨44 :: 34 :: 99 :: 34 :: 58 ::
          (writeInlines l ++ 125 :: r'), off'⟩
        = .ok (Inline.Emph l, ⟨r', off' + 6 + (writeInlines l).length⟩)) :
    readInline (m + 1) ⟨writeInline (.Emph l) ++ r, off⟩
      = .ok (.Emph l, ⟨r, off + (writeInline (.Emph l)).length⟩) := by
  show readInline (m + 1) ⟨withTag (gs "Emph") (writeInlines l) ++ r, off⟩ = _
  simp only [readInline]
  rw [readTagPre_withTag (gs "Emph") (writeInlines l) r off (by decide) rfl]
  simp only [ebind_ok]
  rw [hrec r]
  exact Eq.trans rfl
    (ok_scan_off (Inline.Emph l) r
      (off + 5 + (wstr (gs "Emph")).length + 6 + (writeInlines l).length) _
      (by
        simp [writeInline, withTag_length, writeInlines_length,
          show (wstr (gs "Emph")).length = 6 from rfl,
          show (gs "Emph").length = 4 from rfl]
        omega))

theorem readInline_underline_dual (m : Nat) (l : List Inline) (r : List Nat)
    (off : Nat)
    (hrec : ∀ (r' : List Nat) (off' : Nat),
      readWrap Inline.Underline m ⟨44 :: 34 :: 99 :: 34 :: 58 ::
          (writeInlines l ++ 125 :: r'), off'⟩
        = .ok (Inline.Underline l, ⟨r', off' + 6 + (writeInlines l).length⟩)) :
    readInline (m + 1) ⟨writeInline (.Underline l) ++ r, off⟩
      = .ok (.Underline l, ⟨r, off + (writeInline (.Underline l)).length⟩) := by
  show readInline (m + 1)
    ⟨withTag (gs "Underline") (writeInlines l) ++ r, off⟩ = _
  simp only [readInline]
  rw [readTagPre_withTag (gs "Underline") (writeInlines l) r off
    (by decide) rfl]
  simp only [ebind_ok]
  rw [hrec r]
  exact Eq.trans rfl
    (ok_scan_off (Inline.Underline l) r
      (off + 5 + (wstr (gs "Underline")).length + 6 + (writeInlines l).length) _
      (by
        simp [writeInline, withTag_length, writeInlines_length,
          show (wstr (gs "Underline")).length = 11 from rfl,
          show (gs "Underline").length = 9 from rfl]
        omega))

theorem readInline_strong_dual (m : Nat) (l : List Inline) (r : List Nat)
    (off : Nat)
    (hrec : ∀ (r' : List Nat) (off' : Nat),
      readWrap Inline.Strong m ⟨44 :: 34 :: 99 :: 34 :: 58 ::
          (writeInlines l ++ 125 :: r'), off'⟩
        = .ok (Inline.Strong l, ⟨r', off' + 6 + (writeInlines l).length⟩)) :
    readInline (m + 1) ⟨writeInline (.Strong l) ++ r, off⟩
      = .ok (.Strong l, ⟨r, off + (writeInline (.Strong l)).length⟩) := by
  show readInline (m + 1) ⟨withTag (gs "Strong") (writeInlines l) ++ r, off⟩ = _
  simp only [readInline]
  rw [readTagPre_withTag (gs "Strong") (writeInlines l) r off (by decide) rfl]
  simp only [ebind_ok]
  rw [hrec r]
  exact Eq.trans rfl
    (ok_scan_off (Inline.Strong l) r
      (off + 5 + (wstr (gs "Strong")).length + 6 + (writeInlines l).length) _
      (by
        simp [writeInline, withTag_length, writeInlines_length,
          show (wstr (gs "Strong")).length = 8 from rfl,
          show (gs "Strong").length = 6 from rfl]
        omega))

theorem readInline_strikeout_dual (m : Nat) (l : List Inline) (r : List Nat)
    (off : Nat)
    (hrec : ∀ (r' : List Nat) (off' : Nat),
      readWrap Inline.Strikeout m ⟨44 :: 34 :: 99 :: 34 :: 58 ::
          (writeInlines l ++ 125 :: r'), off'⟩
        = .ok (Inline.Strikeout l, ⟨r', off' + 6 + (writeInlines l).length⟩)) :
    readInline (m + 1) ⟨writeInline (.Strikeout l) ++ r, off⟩
      = .ok (.Strikeout l, ⟨r, off + (writeInline (.Strikeout l)).length⟩) := by
  show readInline (m + 1)
    ⟨withTag (gs "Strikeout") (writeInlines l) ++ r, off⟩ = _
  simp only [readInline]
  rw [readTagPre_withTag (gs "Strikeout") (writeInlines l) r off
    (by decide) rfl]
  simp only [ebind_ok]
  rw [hrec r]
  exact Eq.trans rfl
    (ok_scan_off (Inline.Strikeout l) r
      (off + 5 + (wstr (gs "Strikeout")).length + 6 + (writeInlines l).length) _
      (by
        simp [writeInline, withTag_length, writeInlines_length,
          show (wstr (gs "Strikeout")).length = 11 from rfl,
          show (gs "Strikeout").length = 9 from rfl]
        omega))

theorem readInline_superscript_dual (m : Nat) (l : List Inline) (r : List Nat)
    (off : Nat)
    (hrec : ∀ (r' : List Nat) (off' : Nat),
      readWrap Inline.Superscript m ⟨44 :: 34 :: 99 :: 34 :: 58 ::
          (writeInlines l ++ 125 :: r'), off'⟩
        = .ok (Inline.Superscript l,
            ⟨r', off' + 6 + (writeInlines l).length⟩)) :
    readInline (m + 1) ⟨writeInline (.Superscript l) ++ r, off⟩
      = .ok (.Superscript l,
          ⟨r, off + (writeInline (.Superscript l)).length⟩) := by
  show readInline (m + 1)
    ⟨withTag (gs "Superscript") (writeInlines l) ++ r, off⟩ = _
  simp only [readInline]
  rw [readTagPre_withTag (gs "Superscript") (writeInlines l) r off
    (by decide) rfl]
  simp only [ebind_ok]
  rw [hrec r]
  exact Eq.trans rfl
    (ok_scan_off (Inline.Superscript l) r
      (off + 5 + (wstr (gs "Superscript")).length + 6
        + (writeInlines l).length) _
      (by
        simp [writeInline, withTag_length, writeInlines_length,
          show (wstr (gs "Superscript")).length = 13 from rfl,
          show (gs "Superscript").length = 11 from rfl]
        omega))

theorem readInline_subscript_dual (m : Nat) (l : List Inline) (r : List Nat)
    (off : Nat)
    (hrec : ∀ (r' : List Nat) (off' : Nat),
      readWrap Inline.Subscript m ⟨44 :: 34 :: 99 :: 34 :: 58 ::
          (writeInlines l ++ 125 :: r'), off'⟩
        = .ok (Inline.Subscript l, ⟨r', off' + 6 + (writeInlines l).length⟩)) :
    readInline (m + 1) ⟨writeInline (.Subscript l) ++ r, off⟩
      = .ok (.Subscript l, ⟨r, off + (writeInline (.Subscript l)).length⟩) := by
  show readInline (m + 1)
    ⟨withTag (gs "Subscript") (writeInlines l) ++ r, off⟩ = _
  simp only [readInline]
  rw [readTagPre_withTag (gs "Subscript") (writeInlines l) r off
    (by decide) rfl]
  simp only [ebind_ok]
  rw [hrec r]
  exact Eq.trans rfl
    (ok_scan_off (Inline.Subscript l) r
      (off + 5 + (wstr (gs "Subscript")).length + 6 + (writeInlines l).length) _
      (by
        simp [writeInline, withTag_length, writeInlines_length,
          show (wstr (gs "Subscript")).length = 11 from rfl,
          show (gs "Subscript").length = 9 from rfl]
        omega))

theorem readInline_smallcaps_dual (m : Nat) (l : List Inline) (r : List Nat)
    (off : Nat)
    (hrec : ∀ (r' : List Nat) (off' : Nat),
      readWrap Inline.SmallCaps m ⟨44 :: 34 :: 99 :: 34 :: 58 ::
          (writeInlines l ++ 125 :: r'), off'⟩
        = .ok (Inline.SmallCaps l, ⟨r', off' + 6 + (writeInlines l).length⟩)) :
    readInline (m + 1) ⟨writeInline (.SmallCaps l) ++ r, off⟩
      = .ok (.SmallCaps l, ⟨r, off + (writeInline (.SmallCaps l)).length⟩) := by
  show readInline (m + 1)
    ⟨withTag (gs "SmallCaps") (writeInlines l) ++ r, off⟩ = _
  simp only [readInline]
  rw [readTagPre_withTag (gs "SmallCaps") (writeInlines l) r off
    (by decide) rfl]
  simp only [ebind_ok]
  rw [hrec r]
  exact Eq.trans rfl
    (ok_scan_off (Inline.SmallCaps l) r
      (off + 5 + (wstr (gs "SmallCaps")).length + 6 + (writeInlines l).length) _
      (by
        simp [writeInline, withTag_length, writeInlines_length,
          show (wstr (gs "SmallCaps")).length = 11 from rfl,
          show (gs "SmallCaps").length = 9 from rfl]
        omega))

theorem readInline_quoted_dual (m : Nat) (qt : QuoteType) (l : List Inline)
    (r : List Nat) (off : Nat)
    (hrec : ∀ (r' : List Nat) (off' : Nat),
      readQuoted m ⟨44 :: 34 :: 99 :: 34 :: 58 ::
          (tuple2W (tstr qt.tag) (writeInlines l) ++ 125 :: r'), off'⟩
        = .ok (.Quoted qt l,
            ⟨r', off' + 6 + (tuple2W (tstr qt.tag) (writeInlines l)).length⟩)) :
    readInline (m + 1) ⟨writeInline (.Quoted qt l) ++ r, off⟩
      = .ok (.Quoted qt l, ⟨r, off + (writeInline (.Quoted qt l)).length⟩) := by
  show readInline (m + 1)
    ⟨withTag (gs "Quoted") (tuple2W (tstr qt.tag) (writeInlines l))
      ++ r, off⟩ = _
  simp only [readInline]
  rw [readTagPre_withTag (gs "Quoted") (tuple2W (tstr qt.tag) (writeInlines l))
    r off (by decide) rfl]
  simp only [ebind_ok]
  rw [hrec r]
  exact Eq.trans rfl
    (ok_scan_off (Inline.Quoted qt l) r
      (off + 5 + (wstr (gs "Quoted")).length + 6
        + (tuple2W (tstr qt.tag) (writeInlines l)).length) _
      (by
        simp [writeInline, withTag_length, writeInlines, writeCitations,
          show (wstr (gs "Quoted")).length = 8 from rfl,
          show (gs "Quoted").length = 6 from rfl]
        omega))

theorem readInline_span_dual (m : Nat) (a : Attr) (l : List Inline)
    (r : List Nat) (off : Nat)
    (hrec : ∀ (r' : List Nat) (off' : Nat),
      readSpan m ⟨44 :: 34 :: 99 :: 34 :: 58 ::
          (tuple2W (writeAttr a) (writeInlines l) ++ 125 :: r'), off'⟩
        = .ok (.Span a l,
            ⟨r', off' + 6 + (tuple2W (writeAttr a) (writeInlines l)).length⟩)) :
    readInline (m + 1) ⟨writeInline (.Span a l) ++ r, off⟩
      = .ok (.Span a l, ⟨r, off + (writeInline (.Span a l)).length⟩) := by
  show readInline (m + 1)
    ⟨withTag (gs "Span") (tuple2W (writeAttr a) (writeInlines l))
      ++ r, off⟩ = _
  simp only [readInline]
  rw [readTagPre_withTag (gs "Span") (tuple2W (writeAttr a) (writeInlines l))
    r off (by decide) rfl]
  simp only [ebind_ok]
  rw [hrec r]
  exact Eq.trans rfl
    (ok_scan_off (Inline.Span a l) r
      (off + 5 + (wstr (gs "Span")).length + 6
        + (tuple2W (writeAttr a) (writeInlines l)).length) _
      (by
        simp [writeInline, withTag_length, writeInlines, writeCitations,
          show (wstr (gs "Span")).length = 6 from rfl,
          show (gs "Span").length = 4 from rfl]
        omega))

theorem readInline_cite_dual (m : Nat) (cs : List Citation) (l : List Inline)
    (r : List Nat) (off : Nat)
    (hrec : ∀ (r' : List Nat) (off' : Nat),
      readCite m ⟨44 :: 34 :: 99 :: 34 :: 58 ::
          (tuple2W (writeCitations cs) (writeInlines l) ++ 125 :: r'), off'⟩
        = .ok (.Cite cs l,
            ⟨r', off' + 6
              + (tuple2W (writeCitations cs) (writeInlines l)).length⟩)) :
    readInline (m + 1) ⟨writeInline (.Cite cs l) ++ r, off⟩
      = .ok (.Cite cs l, ⟨r, off + (writeInline (.Cite cs l)).length⟩) := by
  show readInline (m + 1)
    ⟨withTag (gs "Cite") (tuple2W (writeCitations cs) (writeInlines l))
      ++ r, off⟩ = _
  simp only [readInline]
  rw [readTagPre_withTag (gs "Cite")
    (tuple2W (writeCitations cs) (writeInlines l)) r off (by decide) rfl]
  simp only [ebind_ok]
  rw [hrec r]
  exact Eq.trans rfl
    (ok_scan_off (Inline.Cite cs l) r
      (off + 5 + (wstr (gs "Cite")).length + 6
        + (tuple2W (writeCitations cs) (writeInlines l)).length) _
      (by
        simp [writeInline, withTag_length, writeInlines, writeCitations,
          show (wstr (gs "Cite")).length = 6 from rfl,
          show (gs "Cite").length = 4 from rfl]
        omega))

theorem readInline_link_dual (m : Nat) (a : Attr) (l : List Inline)
    (t : Target) (r : List Nat) (off : Nat)
    (hrec : ∀ (r' : List Nat) (off' : Nat),
      readLink m ⟨44 :: 34 :: 99 :: 34 :: 58 ::
          (tuple3W (writeAttr a) (writeInlines l) (writeTarget t)
            ++ 125 :: r'), off'⟩
        = .ok (.Link a l t,
            ⟨r', off' + 6 + (tuple3W (writeAttr a) (writeInlines l)
              (writeTarget t)).length⟩)) :
    readInline (m + 1) ⟨writeInline (.Link a l t) ++ r, off⟩
      = .ok (.Link a l t, ⟨r, off + (writeInline (.Link a l t)).length⟩) := by
  show readInline (m + 1)
    ⟨withTag (gs "Link")
      (tuple3W (writeAttr a) (writeInlines l) (writeTarget t)) ++ r, off⟩ = _
  simp only [readInline]
  rw [readTagPre_withTag (gs "Link")
    (tuple3W (writeAttr a) (writeInlines l) (writeTarget t)) r off
    (by decide) rfl]
  simp only [ebind_ok]
  rw [hrec r]
  exact Eq.trans rfl
    (ok_scan_off (Inline.Link a l t) r
      (off + 5 + (wstr (gs "Link")).length + 6
        + (tuple3W (writeAttr a) (writeInlines l) (writeTarget t)).length) _
      (by
        simp [writeInline, withTag_length, writeInlines, writeCitations,
          show (wstr (gs "Link")).length = 6 from rfl,
          show (gs "Link").length = 4 from rfl]
        omega))

theorem readInline_image_dual (m : Nat) (a : Attr) (l : List Inline)
    (t : Target) (r : List Nat) (off : Nat)
    (hrec : ∀ (r' : List Nat) (off' : Nat),
      readImage m ⟨44 :: 34 :: 99 :: 34 :: 58 ::
          (tuple3W (writeAttr a) (writeInlines l) (writeTarget t)
            ++ 125 :: r'), off'⟩
        = .ok (.Image a l t,
            ⟨r', off' + 6 + (tuple3W (writeAttr a) (writeInlines l)
              (writeTarget t)).length⟩)) :
    readInline (m + 1) ⟨writeInline (.Image a l t) ++ r, off⟩
      = .ok (.Image a l t, ⟨r, off + (writeInline (.Image a l t)).length⟩) := by
  show readInline (m + 1)
    ⟨withTag (gs "Image")
      (tuple3W (writeAttr a) (writeInlines l) (writeTarget t)) ++ r, off⟩ = _
  simp only [readInline]
  rw [readTagPre_withTag (gs "Image")
    (tuple3W (writeAttr a) (writeInlines l) (writeTarget t)) r off
    (by decide) rfl]
  simp only [ebind_ok]
  rw [hrec r]
  exact Eq.trans rfl
    (ok_scan_off (Inline.Image a l t) r
      (off + 5 + (wstr (gs "Image")).length + 6
        + (tuple3W (writeAttr a) (writeInlines l) (writeTarget t)).length) _
      (by
        simp [writeInline, withTag_length, writeInlines, writeCitations,
          show (wstr (gs "Image")).length = 7 from rfl,
          show (gs "Image").length = 5 from rfl]
        omega))

theorem readInline_note_dual (m : Nat) (bs : List Block) (r : List Nat)
    (off : Nat)
    (hrec : ∀ (r' : List Nat) (off' : Nat),
      readNote m ⟨44 :: 34 :: 99 :: 34 :: 58 ::
          (writeBlocks bs ++ 125 :: r'), off'⟩
        = .ok (.Note bs, ⟨r', off' + 6 + (writeBlocks bs).length⟩)) :
    readInline (m + 1) ⟨writeInline (.Note bs) ++ r, off⟩
      = .ok (.Note bs, ⟨r, off + (writeInline (.Note bs)).length⟩) := by
  show readInline (m + 1) ⟨withTag (gs "Note") (writeBlocks bs) ++ r, off⟩ = _
  simp only [readInline]
  rw [readTagPre_withTag (gs "Note") (writeBlocks bs) r off (by decide) rfl]
  simp only [ebind_ok]
  rw [hrec r]
  exact Eq.trans rfl
    (ok_scan_off (Inline.Note bs) r
      (off + 5 + (wstr (gs "Note")).length + 6 + (writeBlocks bs).length) _
      (by
        simp [writeInline, withTag_length, writeBlocks_length,
          show (wstr (gs "Note")).length = 6 from rfl,
          show (gs "Note").length = 4 from rfl]
        omega))

theorem readQuoted_dual (m : Nat) (qt : QuoteType) (l : List Inline)
    (r : List Nat) (off : Nat)
    (hrec : ∀ (r' : List Nat) (off' : Nat),
      readInlineList m ⟨writeInlines l ++ r', off'⟩
        = .ok (l, ⟨r', off' + (writeInlines l).length⟩)) :
    readQuoted (m + 1) ⟨44 :: 34 :: 99 :: 34 :: 58 ::
        (tuple2W (tstr qt.tag) (writeInlines l) ++ 125 :: r), off⟩
      = .ok (.Quoted qt l,
          ⟨r, off + 6 + (tuple2W (tstr qt.tag) (writeInlines l)).length⟩) := by
  have hst : tuple2W (tstr qt.tag) (writeInlines l) ++ 125 :: r
      = 91 :: (tstr qt.tag ++ 44 :: (writeInlines l ++ 93 :: 125 :: r)) := by
    simp [tuple2W, List.append_assoc]
  rw [hst]
  simp only [readQuoted, ebind_ok]
  rw [readObjPre_step]
  simp only [ebind_ok]
  rw [expect_lbrack]
  simp only [ebind_ok]
  rw [readQuoteType_dual qt]
  simp only [ebind_ok]
  rw [expect_comma]
  simp only [ebind_ok]
  rw [hrec (93 :: 125 :: r)]
  simp only [ebind_ok]
  rw [expect_rbrack]
  simp only [ebind_ok]
  rw [expect_rbrace]
  simp only [ebind_ok]
  exact ok_scan_off _ _ _ _ (by simp [tuple2W_length]; omega)

theorem readSpan_dual (m : Nat) (a : Attr) (l : List Inline)
    (hwa : wfAttr a = true) (hf1 : a.classes.length < m)
    (hf2 : a.kvs.length < m) (r : List Nat) (off : Nat)
    (hrec : ∀ (r' : List Nat) (off' : Nat),
      readInlineList m ⟨writeInlines l ++ r', off'⟩
        = .ok (l, ⟨r', off' + (writeInlines l).length⟩)) :
    readSpan (m + 1) ⟨44 :: 34 :: 99 :: 34 :: 58 ::
        (tuple2W (writeAttr a) (writeInlines l) ++ 125 :: r), off⟩
      = .ok (.Span a l,
          ⟨r, off + 6 + (tuple2W (writeAttr a) (writeInlines l)).length⟩) := by
  have hst : tuple2W (writeAttr a) (writeInlines l) ++ 125 :: r
      = 91 :: (writeAttr a ++ 44 :: (writeInlines l ++ 93 :: 125 :: r)) := by
    simp [tuple2W, List.append_assoc]
  rw [hst]
  simp only [readSpan, ebind_ok]
  rw [readObjPre_step]
  simp only [ebind_ok]
  rw [expect_lbrack]
  simp only [ebind_ok]
  rw [readAttr_dual a hwa m hf1 hf2]
  simp only [ebind_ok]
  rw [expect_comma]
  simp only [ebind_ok]
  rw [hrec (93 :: 125 :: r)]
  simp only [ebind_ok]
  rw [expect_rbrack]
  simp only [ebind_ok]
  rw [expect_rbrace]
  simp only [ebind_ok]
  exact ok_scan_off _ _ _ _ (by simp [tuple2W_length]; omega)

theorem readCite_dual (m : Nat) (cs : List Citation) (l : List Inline)
    (r : List Nat) (off : Nat)
    (hcits : ∀ (r' : List Nat) (off' : Nat),
      readCitationListLoop m ⟨writeCitationList cs ++ 93 :: r', off'⟩
        = .ok (cs, ⟨r', off' + (writeCitationList cs).length + 1⟩))
    (hrec : ∀ (r' : List Nat) (off' : Nat),
      readInlineList m ⟨writeInlines l ++ r', off'⟩
        = .ok (l, ⟨r', off' + (writeInlines l).length⟩)) :
    readCite (m + 1) ⟨44 :: 34 :: 99 :: 34 :: 58 ::
        (tuple2W (writeCitations cs) (writeInlines l) ++ 125 :: r), off⟩
      = .ok (.Cite cs l,
          ⟨r, off + 6
            + (tuple2W (writeCitations cs) (writeInlines l)).length⟩) := by
  have hst : tuple2W (writeCitations cs) (writeInlines l) ++ 125 :: r
      = 91 :: 91 :: (writeCitationList cs
          ++ 93 :: 44 :: (writeInlines l ++ 93 :: 125 :: r)) := by
    simp [tuple2W, writeCitations, List.append_assoc]
  rw [hst]
  simp only [readCite, ebind_ok]
  rw [readObjPre_step]
  simp only [ebind_ok]
  rw [expect_lbrack]
  simp only [ebind_ok]
  rw [expect_lbrack]
  simp only [ebind_ok]
  rw [hcits (44 :: (writeInlines l ++ 93 :: 125 :: r))]
  simp only [ebind_ok]
  rw [expect_comma]
  simp only [ebind_ok]
  rw [hrec (93 :: 125 :: r)]
  simp only [ebind_ok]
  rw [expect_rbrack]
  simp only [ebind_ok]
  rw [expect_rbrace]
  simp only [ebind_ok]
  exact ok_scan_off _ _ _ _
    (by simp [tuple2W_length, writeCitations_length]; omega)

theorem readLink_dual (m : Nat) (a : Attr) (l : List Inline) (t : Target)
    (hwa : wfAttr a = true) (hf1 : a.classes.length < m)
    (hf2 : a.kvs.length < m) (hwt : wfTarget t = true) (r : List Nat)
    (off : Nat)
    (hrec : ∀ (r' : List Nat) (off' : Nat),
      readInlineList m ⟨writeInlines l ++ r', off'⟩
        = .ok (l, ⟨r', off' + (writeInlines l).length⟩)) :
    readLink (m + 1) ⟨44 :: 34 :: 99 :: 34 :: 58 ::
        (tuple3W (writeAttr a) (writeInlines l) (writeTarget t)
          ++ 125 :: r), off⟩
      = .ok (.Link a l t,
          ⟨r, off + 6 + (tuple3W (writeAttr a) (writeInlines l)
            (writeTarget t)).length⟩) := by
  have hst : tuple3W (writeAttr a) (writeInlines l) (writeTarget t)
        ++ 125 :: r
      = 91 :: (writeAttr a ++ 44 :: (writeInlines l
          ++ 44 :: (writeTarget t ++ 93 :: 125 :: r))) := by
    simp [tuple3W, List.append_assoc]
  rw [hst]
  simp only [readLink, ebind_ok]
  rw [readObjPre_step]
  simp only [ebind_ok]
  rw [expect_lbrack]
  simp only [ebind_ok]
  rw [readAttr_dual a hwa m hf1 hf2]
  simp only [ebind_ok]
  rw [expect_comma]
  simp only [ebind_ok]
  rw [hrec (44 :: (writeTarget t ++ 93 :: 125 :: r))]
  simp only [ebind_ok]
  rw [expect_comma]
  simp only [ebind_ok]
  rw [readTarget_dual t hwt]
  simp only [ebind_ok]
  rw [expect_rbrack]
  simp only [ebind_ok]
  rw [expect_rbrace]
  simp only [ebind_ok]
  exact ok_scan_off _ _ _ _ (by simp [tuple3W_length]; omega)

theorem readImage_dual (m : Nat) (a : Attr) (l : List Inline) (t : Target)
    (hwa : wfAttr a = true) (hf1 : a.classes.length < m)
    (hf2 : a.kvs.length < m) (hwt : wfTarget t = true) (r : List Nat)
    (off : Nat)
    (hrec : ∀ (r' : List Nat) (off' : Nat),
      readInlineList m ⟨writeInlines l ++ r', off'⟩
        = .ok (l, ⟨r', off' + (writeInlines l).length⟩)) :
    readImage (m + 1) ⟨44 :: 34 :: 99 :: 34 :: 58 ::
        (tuple3W (writeAttr a) (writeInlines l) (writeTarget t)
          ++ 125 :: r), off⟩
      = .ok (.Image a l t,
          ⟨r, off + 6 + (tuple3W (writeAttr a) (writeInlines l)
            (writeTarget t)).length⟩) := by
  have hst : tuple3W (writeAttr a) (writeInlines l) (writeTarget t)
        ++ 125 :: r
      = 91 :: (writeAttr a ++ 44 :: (writeInlines l
          ++ 44 :: (writeTarget t ++ 93 :: 125 :: r))) := by
    simp [tuple3W, List.append_assoc]
  rw [hst]
  simp only [readImage, ebind_ok]
  rw [readObjPre_step]
  simp only [ebind_ok]
  rw [expect_lbrack]
  simp only [ebind_ok]
  rw [readAttr_dual a hwa m hf1 hf2]
  simp only [ebind_ok]
  rw [expect_comma]
  simp only [ebind_ok]
  rw [hrec (44 :: (writeTarget t ++ 93 :: 125 :: r))]
  simp only [ebind_ok]
  rw [expect_comma]
  simp only [ebind_ok]
  rw [readTarget_dual t hwt]
  simp only [ebind_ok]
  rw [expect_rbrack]
  simp only [ebind_ok]
  rw [expect_rbrace]
  simp only [ebind_ok]
  exact ok_scan_off _ _ _ _ (by simp [tuple3W_length]; omega)

theorem readNote_dual (m : Nat) (bs : List Block) (r : List Nat) (off : Nat)
    (hrec : ∀ (r' : List Nat) (off' : Nat),
      readBlockList m ⟨writeBlocks bs ++ r', off'⟩
        = .ok (bs, ⟨r', off' + (writeBlocks bs).length⟩)) :
    readNote (m + 1) ⟨44 :: 34 :: 99 :: 34 :: 58 ::
        (writeBlocks bs ++ 125 :: r), off⟩
      = .ok (.Note bs, ⟨r, off + 6 + (writeBlocks bs).length⟩) := by
  simp only [readNote, ebind_ok]
  rw [readObjPre_step]
  simp only [ebind_ok]
  rw [hrec (125 :: r)]
  simp only [ebind_ok]
  rw [expect_rbrace]
  simp only [ebind_ok]
  exact ok_scan_off _ _ _ _ (by omega)

/-! ## Cons steps for the element-list loops with recursive elements -/

theorem readInlineListLoop_cons (m : Nat) (x : Inline) (xs : List Inline)
    (r : List Nat) (off : Nat)
    (helem : ∀ (r' : List Nat) (off' : Nat),
      readInline m ⟨writeInline x ++ r', off'⟩
        = .ok (x, ⟨r', off' + (writeInline x).length⟩))
    (hloop : ∀ (r' : List Nat) (off' : Nat),
      readInlineListLoop m ⟨writeInlineList xs ++ 93 :: r', off'⟩
        = .ok (xs, ⟨r', off' + (writeInlineList xs).length + 1⟩)) :
    readInlineListLoop (m + 1) ⟨writeInlineList (x :: xs) ++ 93 :: r, off⟩
      = .ok (x :: xs, ⟨r, off + (writeInlineList (x :: xs)).length + 1⟩) := by
  obtain ⟨t0, ht0⟩ := writeInline_head x
  cases xs with
  | nil =>
    have hst : writeInlineList [x] ++ 93 :: r = writeInline x ++ 93 :: r := by
      simp [writeInlineList]
    rw [hst]
    simp only [readInlineListLoop]
    rw [if_neg (show ¬((⟨writeInline x ++ 93 :: r, off⟩ : Scanner).peek
      = TokK.rbrack) from by rw [show (⟨writeInline x ++ 93 :: r,
        off⟩ : Scanner).peek = .lbrace from by rw [ht0]; rfl]; decide)]
    rw [helem (93 :: r)]
    simp only [ebind_ok]
    rw [next_rbrack]
    simp only []
    exact Eq.trans rfl
      (ok_scan_off [x] r (off + (writeInline x).length + 1) _
        (by simp [writeInlineList]))
  | cons x1 xs' =>
    have hst : writeInlineList (x :: x1 :: xs') ++ 93 :: r
        = writeInline x ++ 44 :: (writeInlineList (x1 :: xs') ++ 93 :: r) := by
      simp [writeInlineList, List.append_assoc]
    rw [hst]
    simp only [readInlineListLoop]
    rw [if_neg (show ¬((⟨writeInline x
        ++ 44 :: (writeInlineList (x1 :: xs') ++ 93 :: r), off⟩ : Scanner).peek
      = TokK.rbrack) from by rw [show (⟨writeInline x
        ++ 44 :: (writeInlineList (x1 :: xs') ++ 93 :: r),
        off⟩ : Scanner).peek = .lbrace from by rw [ht0]; rfl]; decide)]
    rw [helem (44 :: (writeInlineList (x1 :: xs') ++ 93 :: r))]
    simp only [ebind_ok]
    rw [next_comma]
    simp only []
    rw [hloop]
    simp only [ebind_ok]
    exact Eq.trans rfl
      (ok_scan_off (x :: x1 :: xs') r
        (off + (writeInline x).length + 1
          + (writeInlineList (x1 :: xs')).length + 1) _
        (by simp [writeInlineList]; omega))

theorem readInlinessLoop_cons (m : Nat) (x : List Inline)
    (xs : List (List Inline)) (r : List Nat) (off : Nat)
    (helem : ∀ (r' : List Nat) (off' : Nat),
      readInlineList m ⟨writeInlines x ++ r', off'⟩
        = .ok (x, ⟨r', off' + (writeInlines x).length⟩))
    (hloop : ∀ (r' : List Nat) (off' : Nat),
      readInlinessLoop m ⟨writeInliness xs ++ 93 :: r', off'⟩
        = .ok (xs, ⟨r', off' + (writeInliness xs).length + 1⟩)) :
    readInlinessLoop (m + 1) ⟨writeInliness (x :: xs) ++ 93 :: r, off⟩
      = .ok (x :: xs, ⟨r, off + (writeInliness (x :: xs)).length + 1⟩) := by
  cases xs with
  | nil =>
    have hst : writeInliness [x] ++ 93 :: r = writeInlines x ++ 93 :: r := by
      simp [writeInliness, writeInlines]
    rw [hst]
    simp only [readInlinessLoop]
    rw [if_neg (show ¬((⟨writeInlines x ++ 93 :: r, off⟩ : Scanner).peek
      = TokK.rbrack) from by rw [show (⟨writeInlines x ++ 93 :: r,
        off⟩ : Scanner).peek = .lbrack from rfl]; decide)]
    rw [helem (93 :: r)]
    simp only [ebind_ok]
    rw [next_rbrack]
    simp only []
    exact Eq.trans rfl
      (ok_scan_off [x] r (off + (writeInlines x).length + 1) _
        (by simp [writeInliness, writeInlines]))
  | cons x1 xs' =>
    have hst : writeInliness (x :: x1 :: xs') ++ 93 :: r
        = writeInlines x ++ 44 :: (writeInliness (x1 :: xs') ++ 93 :: r) := by
      simp [writeInliness, writeInlines, List.append_assoc]
    rw [hst]
    simp only [readInlinessLoop]
    rw [if_neg (show ¬((⟨writeInlines x
        ++ 44 :: (writeInliness (x1 :: xs') ++ 93 :: r), off⟩ : Scanner).peek
      = TokK.rbrack) from by rw [show (⟨writeInlines x
        ++ 44 :: (writeInliness (x1 :: xs') ++ 93 :: r),
        off⟩ : Scanner).peek = .lbrack from rfl]; decide)]
    rw [helem (44 :: (writeInliness (x1 :: xs') ++ 93 :: r))]
    simp only [ebind_ok]
    rw [next_comma]
    simp only []
    rw [hloop]
    simp only [ebind_ok]
    exact Eq.trans rfl
      (ok_scan_off (x :: x1 :: xs') r
        (off + (writeInlines x).length + 1
          + (writeInliness (x1 :: xs')).length + 1) _
        (by simp [writeInliness, writeInlines]; omega))

theorem readBlockListLoop_cons (m : Nat) (x : Block) (xs : List Block)
    (r : List Nat) (off : Nat)
    (helem : ∀ (r' : List Nat) (off' : Nat),
      readBlock m ⟨writeBlock x ++ r', off'⟩
        = .ok (x, ⟨r', off' + (writeBlock x).length⟩))
    (hloop : ∀ (r' : List Nat) (off' : Nat),
      readBlockListLoop m ⟨writeBlockList xs ++ 93 :: r', off'⟩
        = .ok (xs, ⟨r', off' + (writeBlockList xs).length + 1⟩)) :
    readBlockListLoop (m + 1) ⟨writeBlockList (x :: xs) ++ 93 :: r, off⟩
      = .ok (x :: xs, ⟨r, off + (writeBlockList (x :: xs)).length + 1⟩) := by
  obtain ⟨t0, ht0⟩ := writeBlock_head x
  cases xs with
  | nil =>
    have hst : writeBlockList [x] ++ 93 :: r = writeBlock x ++ 93 :: r := by
      simp [writeBlockList]
    rw [hst]
    simp only [readBlockListLoop]
    rw [if_neg (show ¬((⟨writeBlock x ++ 93 :: r, off⟩ : Scanner).peek
      = TokK.rbrack) from by rw [show (⟨writeBlock x ++ 93 :: r,
        off⟩ : Scanner).peek = .lbrace from by rw [ht0]; rfl]; decide)]
    rw [helem (93 :: r)]
    simp only [ebind_ok]
    rw [next_rbrack]
    simp only []
    exact Eq.trans rfl
      (ok_scan_off [x] r (off + (writeBlock x).length + 1) _
        (by simp [writeBlockList]))
  | cons x1 xs' =>
    have hst : writeBlockList (x :: x1 :: xs') ++ 93 :: r
        = writeBlock x ++ 44 :: (writeBlockList (x1 :: xs') ++ 93 :: r) := by
      simp [writeBlockList, List.append_assoc]
    rw [hst]
    simp only [readBlockListLoop]
    rw [if_neg (show ¬((⟨writeBlock x
        ++ 44 :: (writeBlockList (x1 :: xs') ++ 93 :: r), off⟩ : Scanner).peek
      = TokK.rbrack) from by rw [show (⟨writeBlock x
        ++ 44 :: (writeBlockList (x1 :: xs') ++ 93 :: r),
        off⟩ : Scanner).peek = .lbrace from by rw [ht0]; rfl]; decide)]
    rw [helem (44 :: (writeBlockList (x1 :: xs') ++ 93 :: r))]
    simp only [ebind_ok]
    rw [next_comma]
    simp only []
    rw [hloop]
    simp only [ebind_ok]
    exact Eq.trans rfl
      (ok_scan_off (x :: x1 :: xs') r
        (off + (writeBlock x).length + 1
          + (writeBlockList (x1 :: xs')).length + 1) _
        (by simp [writeBlockList]; omega))

theorem readBlockssLoop_cons (m : Nat) (x : List Block)
    (xs : List (List Block)) (r : List Nat) (off : Nat)
    (helem : ∀ (r' : List Nat) (off' : Nat),
      readBlockList m ⟨writeBlocks x ++ r', off'⟩
        = .ok (x, ⟨r', off' + (writeBlocks x).length⟩))
    (hloop : ∀ (r' : List Nat) (off' : Nat),
      readBlockssLoop m ⟨writeBlockss xs ++ 93 :: r', off'⟩
        = .ok (xs, ⟨r', off' + (writeBlockss xs).length + 1⟩)) :
    readBlockssLoop (m + 1) ⟨writeBlockss (x :: xs) ++ 93 :: r, off⟩
      = .ok (x :: xs, ⟨r, off + (writeBlockss (x :: xs)).length + 1⟩) := by
  cases xs with
  | nil =>
    have hst : writeBlockss [x] ++ 93 :: r = writeBlocks x ++ 93 :: r := by
      simp [writeBlockss, writeBlocks]
    rw [hst]
    simp only [readBlockssLoop]
    rw [if_neg (show ¬((⟨writeBlocks x ++ 93 :: r, off⟩ : Scanner).peek
      = TokK.rbrack) from by rw [show (⟨writeBlocks x ++ 93 :: r,
        off⟩ : Scanner).peek = .lbrack from rfl]; decide)]
    rw [helem (93 :: r)]
    simp only [ebind_ok]
    rw [next_rbrack]
    simp only []
    exact Eq.trans rfl
      (ok_scan_off [x] r (off + (writeBlocks x).length + 1) _
        (by simp [writeBlockss, writeBlocks]))
  | cons x1 xs' =>
    have hst : writeBlockss (x :: x1 :: xs') ++ 93 :: r
        = writeBlocks x ++ 44 :: (writeBlockss (x1 :: xs') ++ 93 :: r) := by
      simp [writeBlockss, writeBlocks, List.append_assoc]
    rw [hst]
    simp only [readBlockssLoop]
    rw [if_neg (show ¬((⟨writeBlocks x
        ++ 44 :: (writeBlockss (x1 :: xs') ++ 93 :: r), off⟩ : Scanner).peek
      = TokK.rbrack) from by rw [show (⟨writeBlocks x
        ++ 44 :: (writeBlockss (x1 :: xs') ++ 93 :: r),
        off⟩ : Scanner).peek = .lbrack from rfl]; decide)]
    rw [helem (44 :: (writeBlockss (x1 :: xs') ++ 93 :: r))]
    simp only [ebind_ok]
    rw [next_comma]
    simp only []
    rw [hloop]
    simp only [ebind_ok]
    exact Eq.trans rfl
      (ok_scan_off (x :: x1 :: xs') r
        (off + (writeBlocks x).length + 1
          + (writeBlockss (x1 :: xs')).length + 1) _
        (by simp [writeBlockss, writeBlocks]; omega))

theorem readCitationListLoop_cons (m : Nat) (x : Citation)
    (xs : List Citation) (r : List Nat) (off : Nat)
    (helem : ∀ (r' : List Nat) (off' : Nat),
      readCitation m ⟨writeCitation x ++ r', off'⟩
        = .ok (x, ⟨r', off' + (writeCitation x).length⟩))
    (hloop : ∀ (r' : List Nat) (off' : Nat),
      readCitationListLoop m ⟨writeCitationList xs ++ 93 :: r', off'⟩
        = .ok (xs, ⟨r', off' + (writeCitationList xs).length + 1⟩)) :
    readCitationListLoop (m + 1) ⟨writeCitationList (x :: xs) ++ 93 :: r, off⟩
      = .ok (x :: xs, ⟨r, off + (writeCitationList (x :: xs)).length + 1⟩) := by
  obtain ⟨t0, ht0⟩ := writeCitation_head x
  cases xs with
  | nil =>
    have hst : writeCitationList [x] ++ 93 :: r = writeCitation x ++ 93 :: r := by
      simp [writeCitationList]
    rw [hst]
    simp only [readCitationListLoop]
    rw [if_neg (show ¬((⟨writeCitation x ++ 93 :: r, off⟩ : Scanner).peek
      = TokK.rbrack) from by rw [show (⟨writeCitation x ++ 93 :: r,
        off⟩ : Scanner).peek = .lbrace from by rw [ht0]; rfl]; decide)]
    rw [helem (93 :: r)]
    simp only [ebind_ok]
    rw [next_rbrack]
    simp only []
    exact Eq.trans rfl
      (ok_scan_off [x] r (off + (writeCitation x).length + 1) _
        (by simp [writeCitationList]))
  | cons x1 xs' =>
    have hst : writeCitationList (x :: x1 :: xs') ++ 93 :: r
        = writeCitation x
            ++ 44 :: (writeCitationList (x1 :: xs') ++ 93 :: r) := by
      simp [writeCitationList, List.append_assoc]
    rw [hst]
    simp only [readCitationListLoop]
    rw [if_neg (show ¬((⟨writeCitation x
        ++ 44 :: (writeCitationList (x1 :: xs') ++ 93 :: r),
        off⟩ : Scanner).peek
      = TokK.rbrack) from by rw [show (⟨writeCitation x
        ++ 44 :: (writeCitationList (x1 :: xs') ++ 93 :: r),
        off⟩ : Scanner).peek = .lbrace from by rw [ht0]; rfl]; decide)]
    rw [helem (44 :: (writeCitationList (x1 :: xs') ++ 93 :: r))]
    simp only [ebind_ok]
    rw [next_comma]
    simp only []
    rw [hloop]
    simp only [ebind_ok]
    exact Eq.trans rfl
      (ok_scan_off (x :: x1 :: xs') r
        (off + (writeCitation x).length + 1
          + (writeCitationList (x1 :: xs')).length + 1) _
        (by simp [writeCitationList]; omega))

theorem readCellListLoop_cons (m : Nat) (x : TableCell) (xs : List TableCell)
    (r : List Nat) (off : Nat)
    (helem : ∀ (r' : List Nat) (off' : Nat),
      readTableCell m ⟨writeCell x ++ r', off'⟩
        = .ok (x, ⟨r', off' + (writeCell x).length⟩))
    (hloop : ∀ (r' : List Nat) (off' : Nat),
      readCellListLoop m ⟨writeCellList xs ++ 93 :: r', off'⟩
        = .ok (xs, ⟨r', off' + (writeCellList xs).length + 1⟩)) :
    readCellListLoop (m + 1) ⟨writeCellList (x :: xs) ++ 93 :: r, off⟩
      = .ok (x :: xs, ⟨r, off + (writeCellList (x :: xs)).length + 1⟩) := by
  obtain ⟨t0, ht0⟩ := writeCell_head x
  cases xs with
  | nil =>
    have hst : writeCellList [x] ++ 93 :: r = writeCell x ++ 93 :: r := by
      simp [writeCellList]
    rw [hst]
    simp only [readCellListLoop]
    rw [if_neg (show ¬((⟨writeCell x ++ 93 :: r, off⟩ : Scanner).peek
      = TokK.rbrack) from by rw [show (⟨writeCell x ++ 93 :: r,
        off⟩ : Scanner).peek = .lbrack from by rw [ht0]; rfl]; decide)]
    rw [helem (93 :: r)]
    simp only [ebind_ok]
    rw [next_rbrack]
    simp only []
    exact Eq.trans rfl
      (ok_scan_off [x] r (off + (writeCell x).length + 1) _
        (by simp [writeCellList]))
  | cons x1 xs' =>
    have hst : writeCellList (x :: x1 :: xs') ++ 93 :: r
        = writeCell x ++ 44 :: (writeCellList (x1 :: xs') ++ 93 :: r) := by
      simp [writeCellList, List.append_assoc]
    rw [hst]
    simp only [readCellListLoop]
    rw [if_neg (show ¬((⟨writeCell x
        ++ 44 :: (writeCellList (x1 :: xs') ++ 93 :: r), off⟩ : Scanner).peek
      = TokK.rbrack) from by rw [show (⟨writeCell x
        ++ 44 :: (writeCellList (x1 :: xs') ++ 93 :: r),
        off⟩ : Scanner).peek = .lbrack from by rw [ht0]; rfl]; decide)]
    rw [helem (44 :: (writeCellList (x1 :: xs') ++ 93 :: r))]
    simp only [ebind_ok]
    rw [next_comma]
    simp only []
    rw [hloop]
    simp only [ebind_ok]
    exact Eq.trans rfl
      (ok_scan_off (x :: x1 :: xs') r
        (off + (writeCell x).length + 1
          + (writeCellList (x1 :: xs')).length + 1) _
        (by simp [writeCellList]; omega))

theorem readRowListLoop_cons (m : Nat) (x : TableRow) (xs : List TableRow)
    (r : List Nat) (off : Nat)
    (helem : ∀ (r' : List Nat) (off' : Nat),
      readTableRow m ⟨writeRow x ++ r', off'⟩
        = .ok (x, ⟨r', off' + (writeRow x).length⟩))
    (hloop : ∀ (r' : List Nat) (off' : Nat),
      readRowListLoop m ⟨writeRowList xs ++ 93 :: r', off'⟩
        = .ok (xs, ⟨r', off' + (writeRowList xs).length + 1⟩)) :
    readRowListLoop (m + 1) ⟨writeRowList (x :: xs) ++ 93 :: r, off⟩
      = .ok (x :: xs, ⟨r, off + (writeRowList (x :: xs)).length + 1⟩) := by
  obtain ⟨t0, ht0⟩ := writeRow_head x
  cases xs with
  | nil =>
    have hst : writeRowList [x] ++ 93 :: r = writeRow x ++ 93 :: r := by
      simp [writeRowList]
    rw [hst]
    simp only [readRowListLoop]
    rw [if_neg (show ¬((⟨writeRow x ++ 93 :: r, off⟩ : Scanner).peek
      = TokK.rbrack) from by rw [show (⟨writeRow x ++ 93 :: r,
        off⟩ : Scanner).peek = .lbrack from by rw [ht0]; rfl]; decide)]
    rw [helem (93 :: r)]
    simp only [ebind_ok]
    rw [next_rbrack]
    simp only []
    exact Eq.trans rfl
      (ok_scan_off [x] r (off + (writeRow x).length + 1) _
        (by simp [writeRowList]))
  | cons x1 xs' =>
    have hst : writeRowList (x :: x1 :: xs') ++ 93 :: r
        = writeRow x ++ 44 :: (writeRowList (x1 :: xs') ++ 93 :: r) := by
      simp [writeRowList, List.append_assoc]
    rw [hst]
    simp only [readRowListLoop]
    rw [if_neg (show ¬((⟨writeRow x
        ++ 44 :: (writeRowList (x1 :: xs') ++ 93 :: r), off⟩ : Scanner).peek
      = TokK.rbrack) from by rw [show (⟨writeRow x
        ++ 44 :: (writeRowList (x1 :: xs') ++ 93 :: r),
        off⟩ : Scanner).peek = .lbrack from by rw [ht0]; rfl]; decide)]
    rw [helem (44 :: (writeRowList (x1 :: xs') ++ 93 :: r))]
    simp only [ebind_ok]
    rw [next_comma]
    simp only []
    rw [hloop]
    simp only [ebind_ok]
    exact Eq.trans rfl
      (ok_scan_off (x :: x1 :: xs') r
        (off + (writeRow x).length + 1
          + (writeRowList (x1 :: xs')).length + 1) _
        (by simp [writeRowList]; omega))

theorem readBodyListLoop_cons (m : Nat) (x : TableBody) (xs : List TableBody)
    (r : List Nat) (off : Nat)
    (helem : ∀ (r' : List Nat) (off' : Nat),
      readTableBody m ⟨writeBody x ++ r', off'⟩
        = .ok (x, ⟨r', off' + (writeBody x).length⟩))
    (hloop : ∀ (r' : List Nat) (off' : Nat),
      readBodyListLoop m ⟨writeBodies xs ++ 93 :: r', off'⟩
        = .ok (xs, ⟨r', off' + (writeBodies xs).length + 1⟩)) :
    readBodyListLoop (m + 1) ⟨writeBodies (x :: xs) ++ 93 :: r, off⟩
      = .ok (x :: xs, ⟨r, off + (writeBodies (x :: xs)).length + 1⟩) := by
  obtain ⟨t0, ht0⟩ := writeBody_head x
  cases xs with
  | nil =>
    have hst : writeBodies [x] ++ 93 :: r = writeBody x ++ 93 :: r := by
      simp [writeBodies]
    rw [hst]
    simp only [readBodyListLoop]
    rw [if_neg (show ¬((⟨writeBody x ++ 93 :: r, off⟩ : Scanner).peek
      = TokK.rbrack) from by rw [show (⟨writeBody x ++ 93 :: r,
        off⟩ : Scanner).peek = .lbrack from by rw [ht0]; rfl]; decide)]
    rw [helem (93 :: r)]
    simp only [ebind_ok]
    rw [next_rbrack]
    simp only []
    exact Eq.trans rfl
      (ok_scan_off [x] r (off + (writeBody x).length + 1) _
        (by simp [writeBodies]))
  | cons x1 xs' =>
    have hst : writeBodies (x :: x1 :: xs') ++ 93 :: r
        = writeBody x ++ 44 :: (writeBodies (x1 :: xs') ++ 93 :: r) := by
      simp [writeBodies, List.append_assoc]
    rw [hst]
    simp only [readBodyListLoop]
    rw [if_neg (show ¬((⟨writeBody x
        ++ 44 :: (writeBodies (x1 :: xs') ++ 93 :: r), off⟩ : Scanner).peek
      = TokK.rbrack) from by rw [show (⟨writeBody x
        ++ 44 :: (writeBodies (x1 :: xs') ++ 93 :: r),
        off⟩ : Scanner).peek = .lbrack from by rw [ht0]; rfl]; decide)]
    rw [helem (44 :: (writeBodies (x1 :: xs') ++ 93 :: r))]
    simp only [ebind_ok]
    rw [next_comma]
    simp only []
    rw [hloop]
    simp only [ebind_ok]
    exact Eq.trans rfl
      (ok_scan_off (x :: x1 :: xs') r
        (off + (writeBody x).length + 1
          + (writeBodies (x1 :: xs')).length + 1) _
        (by simp [writeBodies]; omega))

theorem readDefListLoop_cons (m : Nat) (x : Definition) (xs : List Definition)
    (r : List Nat) (off : Nat)
    (helem : ∀ (r' : List Nat) (off' : Nat),
      readDefinition m ⟨writeDef x ++ r', off'⟩
        = .ok (x, ⟨r', off' + (writeDef x).length⟩))
    (hloop : ∀ (r' : List Nat) (off' : Nat),
      readDefListLoop m ⟨writeDefs xs ++ 93 :: r', off'⟩
        = .ok (xs, ⟨r', off' + (writeDefs xs).length + 1⟩)) :
    readDefListLoop (m + 1) ⟨writeDefs (x :: xs) ++ 93 :: r, off⟩
      = .ok (x :: xs, ⟨r, off + (writeDefs (x :: xs)).length + 1⟩) := by
  obtain ⟨t0, ht0⟩ := writeDef_head x
  cases xs with
  | nil =>
    have hst : writeDefs [x] ++ 93 :: r = writeDef x ++ 93 :: r := by
      simp [writeDefs]
    rw [hst]
    simp only [readDefListLoop]
    rw [if_neg (show ¬((⟨writeDef x ++ 93 :: r, off⟩ : Scanner).peek
      = TokK.rbrack) from by rw [show (⟨writeDef x ++ 93 :: r,
        off⟩ : Scanner).peek = .lbrack from by rw [ht0]; rfl]; decide)]
    rw [helem (93 :: r)]
    simp only [ebind_ok]
    rw [next_rbrack]
    simp only []
    exact Eq.trans rfl
      (ok_scan_off [x] r (off + (writeDef x).length + 1) _
        (by simp [writeDefs]))
  | cons x1 xs' =>
    have hst : writeDefs (x :: x1 :: xs') ++ 93 :: r
        = writeDef x ++ 44 :: (writeDefs (x1 :: xs') ++ 93 :: r) := by
      simp [writeDefs, List.append_assoc]
    rw [hst]
    simp only [readDefListLoop]
    rw [if_neg (show ¬((⟨writeDef x
        ++ 44 :: (writeDefs (x1 :: xs') ++ 93 :: r), off⟩ : Scanner).peek
      = TokK.rbrack) from by rw [show (⟨writeDef x
        ++ 44 :: (writeDefs (x1 :: xs') ++ 93 :: r),
        off⟩ : Scanner).peek = .lbrack from by rw [ht0]; rfl]; decide)]
    rw [helem (44 :: (writeDefs (x1 :: xs') ++ 93 :: r))]
    simp only [ebind_ok]
    rw [next_comma]
    simp only []
    rw [hloop]
    simp only [ebind_ok]
    exact Eq.trans rfl
      (ok_scan_off (x :: x1 :: xs') r
        (off + (writeDef x).length + 1
          + (writeDefs (x1 :: xs')).length + 1) _
        (by simp [writeDefs]; omega))

theorem readMetaListLoop_cons (m : Nat) (x : MetaValue) (xs : List MetaValue)
    (r : List Nat) (off : Nat)
    (helem : ∀ (r' : List Nat) (off' : Nat),
      readMetaValue m ⟨writeMetaValue x ++ r', off'⟩
        = .ok (x, ⟨r', off' + (writeMetaValue x).length⟩))
    (hloop : ∀ (r' : List Nat) (off' : Nat),
      readMetaListLoop m ⟨writeMetaList xs ++ 93 :: r', off'⟩
        = .ok (xs, ⟨r', off' + (writeMetaList xs).length + 1⟩)) :
    readMetaListLoop (m + 1) ⟨writeMetaList (x :: xs) ++ 93 :: r, off⟩
      = .ok (x :: xs, ⟨r, off + (writeMetaList (x :: xs)).length + 1⟩) := by
  obtain ⟨t0, ht0⟩ := writeMetaValue_head x
  cases xs with
  | nil =>
    have hst : writeMetaList [x] ++ 93 :: r = writeMetaValue x ++ 93 :: r := by
      simp [writeMetaList]
    rw [hst]
    simp only [readMetaListLoop]
    rw [if_neg (show ¬((⟨writeMetaValue x ++ 93 :: r, off⟩ : Scanner).peek
      = TokK.rbrack) from by rw [show (⟨writeMetaValue x ++ 93 :: r,
        off⟩ : Scanner).peek = .lbrace from by rw [ht0]; rfl]; decide)]
    rw [helem (93 :: r)]
    simp only [ebind_ok]
    rw [next_rbrack]
    simp only []
    exact Eq.trans rfl
      (ok_scan_off [x] r (off + (writeMetaValue x).length + 1) _
        (by simp [writeMetaList]))
  | cons x1 xs' =>
    have hst : writeMetaList (x :: x1 :: xs') ++ 93 :: r
        = writeMetaValue x ++ 44 :: (writeMetaList (x1 :: xs') ++ 93 :: r) := by
      simp [writeMetaList, List.append_assoc]
    rw [hst]
    simp only [readMetaListLoop]
    rw [if_neg (show ¬((⟨writeMetaValue x
        ++ 44 :: (writeMetaList (x1 :: xs') ++ 93 :: r), off⟩ : Scanner).peek
      = TokK.rbrack) from by rw [show (⟨writeMetaValue x
        ++ 44 :: (writeMetaList (x1 :: xs') ++ 93 :: r),
        off⟩ : Scanner).peek = .lbrace from by rw [ht0]; rfl]; decide)]
    rw [helem (44 :: (writeMetaList (x1 :: xs') ++ 93 :: r))]
    simp only [ebind_ok]
    rw [next_comma]
    simp only []
    rw [hloop]
    simp only [ebind_ok]
    exact Eq.trans rfl
      (ok_scan_off (x :: x1 :: xs') r
        (off + (writeMetaValue x).length + 1
          + (writeMetaList (x1 :: xs')).length + 1) _
        (by simp [writeMetaList]; omega))

theorem readMetaLoop_cons (m : Nat) (key : List Nat) (v : MetaValue)
    (es : List MetaMapEntry) (r : List Nat) (off : Nat)
    (hkey : strOK key = true)
    (helem : ∀ (r' : List Nat) (off' : Nat),
      readMetaValue m ⟨writeMetaValue v ++ r', off'⟩
        = .ok (v, ⟨r', off' + (writeMetaValue v).length⟩))
    (hloop : ∀ (r' : List Nat) (off' : Nat),
      readMetaLoop m ⟨writeMetaEntries es ++ 125 :: r', off'⟩
        = .ok (es, ⟨r', off' + (writeMetaEntries es).length + 1⟩)) :
    readMetaLoop (m + 1) ⟨writeMetaEntries (.mk key v :: es) ++ 125 :: r, off⟩
      = .ok (.mk key v :: es,
          ⟨r, off + (writeMetaEntries (.mk key v :: es)).length + 1⟩) := by
  cases es with
  | nil =>
    have hst : writeMetaEntries [.mk key v] ++ 125 :: r
        = wstr key ++ 58 :: (writeMetaValue v ++ 125 :: r) := by
      simp [writeMetaEntries, writeMetaEntry, writeKey, List.append_assoc]
    rw [hst]
    simp only [readMetaLoop]
    rw [if_neg (show ¬((⟨wstr key ++ 58 :: (writeMetaValue v ++ 125 :: r),
        off⟩ : Scanner).peek = TokK.rbrace)
      from by rw [show (⟨wstr key ++ 58 :: (writeMetaValue v ++ 125 :: r),
        off⟩ : Scanner).peek = .str from rfl]; decide)]
    rw [readString_wstr key hkey]
    simp only [ebind_ok]
    rw [expect_colon]
    simp only [ebind_ok]
    rw [helem (125 :: r)]
    simp only [ebind_ok]
    rw [next_rbrace]
    simp only []
    exact Eq.trans rfl
      (ok_scan_off [MetaMapEntry.mk key v] r
        (off + (wstr key).length + 1 + (writeMetaValue v).length + 1) _
        (by
          simp [writeMetaEntries, writeMetaEntry, writeKey, wstr_length]
          omega))
  | cons e1 es' =>
    have hst : writeMetaEntries (.mk key v :: e1 :: es') ++ 125 :: r
        = wstr key ++ 58 :: (writeMetaValue v
            ++ 44 :: (writeMetaEntries (e1 :: es') ++ 125 :: r)) := by
      simp [writeMetaEntries, writeMetaEntry, writeKey, List.append_assoc]
    rw [hst]
    simp only [readMetaLoop]
    rw [if_neg (show ¬((⟨wstr key ++ 58 :: (writeMetaValue v
        ++ 44 :: (writeMetaEntries (e1 :: es') ++ 125 :: r)),
        off⟩ : Scanner).peek = TokK.rbrace)
      from by rw [show (⟨wstr key ++ 58 :: (writeMetaValue v
        ++ 44 :: (writeMetaEntries (e1 :: es') ++ 125 :: r)),
        off⟩ : Scanner).peek = .str from rfl]; decide)]
    rw [readString_wstr key hkey]
    simp only [ebind_ok]
    rw [expect_colon]
    simp only [ebind_ok]
    rw [helem (44 :: (writeMetaEntries (e1 :: es') ++ 125 :: r))]
    simp only [ebind_ok]
    rw [next_comma]
    simp only []
    rw [hloop]
    simp only [ebind_ok]
    exact Eq.trans rfl
      (ok_scan_off (MetaMapEntry.mk key v :: e1 :: es') r
        (off + (wstr key).length + 1 + (writeMetaValue v).length + 1
          + (writeMetaEntries (e1 :: es')).length + 1) _
        (by
          simp [writeMetaEntries, writeMetaEntry, writeKey, wstr_length]
          omega))

/-! ## C7: table traversal order -/

/-- C3 counterexample: the claimed rejection of repeated top-level keys
does not happen.  A document whose three fields are meta, meta and blocks
(no pandoc-api-version at all) is accepted: the key loop reads exactly
three fields and dispatches each by name without tracking which keys have
already been seen, so the second meta silently overwrites the first and
the version gate never runs. -/
theorem C3_counterexample :
    ReadFrom (gs "\x7b\"meta\":\x7b\x7d,\"meta\":\x7b\x7d,\"blocks\":[]\x7d")
      = .ok ⟨[], []⟩ := by rfl

/-- C3 (amended): ReadFrom reads exactly three top-level key/value pairs.
Each key must be one of pandoc-api-version, meta and blocks, in any order
(both the canonical and a permuted order are accepted); an unrecognised
key is rejected with the unknown-field error, and a pair count other than
three (an empty object, a single pair, or four pairs) is rejected.  But
repeated keys are not detected: three pairs whose keys are meta, meta and
blocks are accepted even though pandoc-api-version is missing. -/
theorem C3_key_handling :
    ReadFrom (gs "\x7b\"pandoc-api-version\":[1,23,1],\"meta\":\x7b\x7d,\"blocks\":[]\x7d")
      = .ok ⟨[], []⟩
    ∧ ReadFrom (gs "\x7b\"blocks\":[],\"meta\":\x7b\x7d,\"pandoc-api-version\":[1,23,1]\x7d")
      = .ok ⟨[], []⟩
    ∧ ReadFrom (gs "\x7b\"wrong\":0\x7d")
      = .error (.errorf (.unknownPandocField (gs "wrong")))
    ∧ (ReadFrom (gs "\x7b\"meta\":\x7b\x7d\x7d")).toOption = none
    ∧ (ReadFrom (gs "\x7b\x7d")).toOption = none
    ∧ (ReadFrom (gs "\x7b\"pandoc-api-version\":[1,23,1],\"meta\":\x7b\x7d,\"blocks\":[],\"blocks\":[]\x7d")).toOption
      = none
    ∧ ReadFrom (gs "\x7b\"meta\":\x7b\x7d,\"meta\":\x7b\x7d,\"blocks\":[]\x7d")
      = .ok ⟨[], []⟩ := by
  refine ⟨by rfl, by rfl, by rfl, by rfl, by rfl, by rfl, by rfl⟩

/-! ## C6: appendFloat notation choice, exponent compaction, null for
non-finite floats -/

theorem isResult_res (r : TRes) : isResult (.res r) = some r := rfl

theorem isResult_some {e : WRes} {r : TRes} (h : isResult e = some r) :
    e = .res r := by
  cases e with
  | res r2 =>
    simp [isResult] at h
    rw [h]
  | unexpectedType => simp [isResult] at h
  | fatal u => simp [isResult] at h
  | fuelOut => simp [isResult] at h

theorem walk_fatal_pack {σ : Type} (V : Visitor σ) : ∀ n : Nat,
    (∀ (st : σ) (e : Elt), isResult (walkChildren V n st e).2.2 = none →
      (walkChildren V n st e).2.1 = e)
    ∧ (∀ (st : σ) (hf : TableHeadFoot),
      isResult (walkTableHeadFoot V n st hf).2.2 = none →
      (walkTableHeadFoot V n st hf).2.1 = hf)
    ∧ (∀ (st : σ) (a : Attr) (cap : Caption) (aligns : List ColSpec)
        (head : TableHeadFoot) (bodies : List TableBody)
        (foot : TableHeadFoot),
      isResult (walkTable V n st a cap aligns head bodies foot).2.2 = none →
      (walkTable V n st a cap aligns head bodies foot).2.1
        = .blk (.Table a cap aligns head bodies foot)) := by
  intro n
  induction n with
  | zero => exact ⟨fun st e _ => rfl, fun st hf _ => rfl,
      fun st a cap aligns head bodies foot _ => rfl⟩
  | succ m ih =>
    refine ⟨?_, ?_, ?_⟩
    · intro st e h
      cases e with
      | pandoc p =>
        rcases hw : walkLists .metaET .blockT V m st p.meta p.blocks
          with ⟨st2, x1, x2, err⟩
        simp only [walkChildren, hw] at h ⊢
        rw [h]
      | inl i =>
        cases i with
        | Str text => simp [walkChildren, isResult] at h
        | Space => simp [walkChildren, isResult] at h
        | SoftBreak => simp [walkChildren, isResult] at h
        | LineBreak => simp [walkChildren, isResult] at h
        | Code a text => simp [walkChildren, isResult] at h
        | Math mt text => simp [walkChildren, isResult] at h
        | RawInline f text => simp [walkChildren, isResult] at h
        | Emph l =>
          rcases hw : walkList .inlineT V m st l with ⟨st2, lst, err⟩
          simp only [walkChildren, hw] at h ⊢
          rw [h]
        | Underline l =>
          rcases hw : walkList .inlineT V m st l with ⟨st2, lst, err⟩
          simp only [walkChildren, hw] at h ⊢
          rw [h]
        | Strong l =>
          rcases hw : walkList .inlineT V m st l with ⟨st2, lst, err⟩
          simp only [walkChildren, hw] at h ⊢
          rw [h]
        | Strikeout l =>
          rcases hw : walkList .inlineT V m st l with ⟨st2, lst, err⟩
          simp only [walkChildren, hw] at h ⊢
          rw [h]
        | Superscript l =>
          rcases hw : walkList .inlineT V m st l with ⟨st2, lst, err⟩
          simp only [walkChildren, hw] at h ⊢
          rw [h]
        | Subscript l =>
          rcases hw : walkList .inlineT V m st l with ⟨st2, lst, err⟩
          simp only [walkChildren, hw] at h ⊢
          rw [h]
        | SmallCaps l =>
          rcases hw : walkList .inlineT V m st l with ⟨st2, lst, err⟩
          simp only [walkChildren, hw] at h ⊢
          rw [h]
        | Quoted qt l =>
          rcases hw : walkList .inlineT V m st l with ⟨st2, lst, err⟩
          simp only [walkChildren, hw] at h ⊢
          rw [h]
        | Cite cts l =>
          rcases hw : walkLists .citT .inlineT V m st cts l
            with ⟨st2, x1, x2, err⟩
          simp only [walkChildren, hw] at h ⊢
          rw [h]
        | Link a l t =>
          rcases hw : walkList .inlineT V m st l with ⟨st2, lst, err⟩
          simp only [walkChildren, hw] at h ⊢
          rw [h]
        | Image a l t =>
          rcases hw : walkList .inlineT V m st l with ⟨st2, lst, err⟩
          simp only [walkChildren, hw] at h ⊢
          rw [h]
        | Note bs =>
          rcases hw : walkList .blockT V m st bs with ⟨st2, lst, err⟩
          simp only [walkChildren, hw] at h ⊢
          rw [h]
        | Span a l =>
          rcases hw : walkList .inlineT V m st l with ⟨st2, lst, err⟩
          simp only [walkChildren, hw] at h ⊢
          rw [h]
      | blk b =>
        cases b with
        | CodeBlock a text => simp [walkChildren, isResult] at h
        | RawBlock f text => simp [walkChildren, isResult] at h
        | HorizontalRule => simp [walkChildren, isResult] at h
        | Plain l =>
          rcases hw : walkList .inlineT V m st l with ⟨st2, lst, err⟩
          simp only [walkChildren, hw] at h ⊢
          rw [h]
        | Para l =>
          rcases hw : walkList .inlineT V m st l with ⟨st2, lst, err⟩
          simp only [walkChildren, hw] at h ⊢
          rw [h]
        | LineBlock ls =>
          rcases hw : walkListOfLists .inlineT V m st ls with ⟨st2, lst, err⟩
          simp only [walkChildren, hw] at h ⊢
          rw [h]
        | BlockQuote bs =>
          rcases hw : walkList .blockT V m st bs with ⟨st2, lst, err⟩
          simp only [walkChildren, hw] at h ⊢
          rw [h]
        | OrderedList a items =>
          rcases hw : walkListOfLists .blockT V m st items with ⟨st2, lst, err⟩
          simp only [walkChildren, hw] at h ⊢
          rw [h]
        | BulletList items =>
          rcases hw : walkListOfLists .blockT V m st items with ⟨st2, lst, err⟩
          simp only [walkChildren, hw] at h ⊢
          rw [h]
        | DefinitionList items =>
          rcases hw : walkDefItems V m st items with ⟨st2, items2, upd, stat⟩
          simp only [walkChildren, hw] at h ⊢
          cases stat with
          | failed er => rfl
          | halted => cases upd <;> simp [isResult] at h
          | done => cases upd <;> simp [isResult] at h
        | Header lvl a l =>
          rcases hw : walkList .inlineT V m st l with ⟨st2, lst, err⟩
          simp only [walkChildren, hw] at h ⊢
          rw [h]
        | Table a cap aligns head bodies foot =>
          simp only [walkChildren] at h ⊢
          exact ih.2.2 st a cap aligns head bodies foot h
        | Figure a cap bs =>
          rcases hw1 : walkCaption V m st cap with ⟨st1, cap1, err1⟩
          simp only [walkChildren, hw1] at h ⊢
          cases herr1 : isResult err1 with
          | none => rfl
          | some r1 =>
            have hE1 := isResult_some herr1
            subst hE1
            rw [isResult_res] at h
            simp only [] at h ⊢
            by_cases hh1 : r1.halt = true
            · rw [if_pos hh1] at h
              simp [isResult] at h
            · rw [if_neg hh1] at h ⊢
              rcases hw2 : walkList .blockT V m st1 bs with ⟨st2, lst2, err2⟩
              rw [hw2] at h
              simp only [] at h ⊢
              cases herr2 : isResult err2 with
              | none => rfl
              | some r2 =>
                have hE2 := isResult_some herr2
                subst hE2
                rw [isResult_res] at h
                simp only [] at h
                split_ifs at h <;> simp [isResult] at h
        | Div a bs =>
          rcases hw : walkList .blockT V m st bs with ⟨st2, lst, err⟩
          simp only [walkChildren, hw] at h ⊢
          rw [h]
      | metaV mv =>
        cases mv with
        | MetaBool b => simp [walkChildren, isResult] at h
        | MetaString s => simp [walkChildren, isResult] at h
        | MetaMap entries =>
          rcases hw : walkList .metaET V m st entries with ⟨st2, lst, err⟩
          simp only [walkChildren, hw] at h ⊢
          rw [h]
        | MetaList entries =>
          rcases hw : walkList .metaVT V m st entries with ⟨st2, lst, err⟩
          simp only [walkChildren, hw] at h ⊢
          rw [h]
        | MetaInlines l =>
          rcases hw : walkList .inlineT V m st l with ⟨st2, lst, err⟩
          simp only [walkChildren, hw] at h ⊢
          rw [h]
        | MetaBlocks bs =>
          rcases hw : walkList .blockT V m st bs with ⟨st2, lst, err⟩
          simp only [walkChildren, hw] at h ⊢
          rw [h]
      | metaE me =>
        cases me with
        | mk k v =>
          rcases hw : walkChildren V m st (.metaV v) with ⟨st2, valE, err⟩
          simp only [walkChildren, hw] at h ⊢
          rw [h]
      | cit c =>
        cases c with
        | mk id pref suff mode nn hsh =>
          rcases hw : walkLists .inlineT .inlineT V m st pref suff
            with ⟨st2, x1, x2, err⟩
          simp only [walkChildren, hw] at h ⊢
          rw [h]
      | row tr =>
        cases tr with
        | mk a cells =>
          rcases hw : walkList .cellT V m st cells with ⟨st2, lst, err⟩
          simp only [walkChildren, hw] at h ⊢
          rw [h]
      | cell tc =>
        cases tc with
        | mk a al rs cs bs =>
          rcases hw : walkList .blockT V m st bs with ⟨st2, lst, err⟩
          simp only [walkChildren, hw] at h ⊢
          rw [h]
      | thf hh =>
        cases hh with
        | mk a rows =>
          rcases hw : walkList .rowT V m st rows with ⟨st2, lst, err⟩
          simp only [walkChildren, hw] at h ⊢
          rw [h]
      | tbody tb =>
        cases tb with
        | mk a rhc hd bd =>
          rcases hw : walkLists .rowT .rowT V m st hd bd
            with ⟨st2, x1, x2, err⟩
          simp only [walkChildren, hw] at h ⊢
          rw [h]
      | inls l => simp [walkChildren, isResult] at h
      | blks l => simp [walkChildren, isResult] at h
      | cits l => simp [walkChildren, isResult] at h
      | rows l => simp [walkChildren, isResult] at h
      | cells l => simp [walkChildren, isResult] at h
      | tbodies l => simp [walkChildren, isResult] at h
      | metaVs l => simp [walkChildren, isResult] at h
      | metaEs l => simp [walkChildren, isResult] at h
    · intro st hf h
      by_cases hm : V.matchP (.thf hf) = true
      · rcases happ : V.app st (.thf hf) with ⟨st1, repl, err1⟩
        simp only [walkTableHeadFoot, happ] at h ⊢
        rw [if_pos hm] at h ⊢
        cases herr1 : isResult err1 with
        | none => rfl
        | some rslt =>
          have hE1 := isResult_some herr1
          subst hE1
          rw [isResult_res] at h
          simp only [] at h ⊢
          by_cases hrep : rslt.replace = true
          · rw [if_pos hrep] at h ⊢
            cases repl with
            | nil => rfl
            | cons r0 rest =>
              cases rest with
              | cons r1 rest2 => rfl
              | nil =>
                cases r0 with
                | thf h2 =>
                  simp only [] at h ⊢
                  by_cases hskip : rslt.skipChildren = true
                  · rw [if_pos hskip] at h
                    simp [isResult] at h
                  · rw [if_neg hskip] at h ⊢
                    rcases hw2 : walkChildren V m st1 (.thf h2)
                      with ⟨st2, hfE, err2⟩
                    rw [hw2] at h
                    simp only [] at h ⊢
                    cases herr2 : isResult err2 with
                    | none => rfl
                    | some r2 =>
                      have hE2 := isResult_some herr2
                      subst hE2
                      rw [isResult_res] at h
                      simp only [] at h
                      split_ifs at h <;> simp [isResult] at h
                | pandoc x => rfl
                | inl x => rfl
                | blk x => rfl
                | metaV x => rfl
                | metaE x => rfl
                | cit x => rfl
                | row x => rfl
                | cell x => rfl
                | tbody x => rfl
                | inls x => rfl
                | blks x => rfl
                | cits x => rfl
                | rows x => rfl
                | cells x => rfl
                | tbodies x => rfl
                | metaVs x => rfl
                | metaEs x => rfl
          · rw [if_neg hrep] at h ⊢
            simp only [] at h ⊢
            by_cases hskip : rslt.skipChildren = true
            · rw [if_pos hskip] at h
              simp [isResult] at h
            · rw [if_neg hskip] at h ⊢
              rcases hw2 : walkChildren V m st1 (.thf hf)
                with ⟨st2, hfE, err2⟩
              rw [hw2] at h
              simp only [] at h ⊢
              cases herr2 : isResult err2 with
              | none => rfl
              | some r2 =>
                have hE2 := isResult_some herr2
                subst hE2
                rw [isResult_res] at h
                simp only [] at h
                split_ifs at h <;> simp [isResult] at h
      · simp only [walkTableHeadFoot] at h ⊢
        rw [if_neg hm] at h ⊢
        rcases hw : walkChildren V m st (.thf hf) with ⟨st2, hfE, err⟩
        rw [hw] at h
        simp only [] at h ⊢
        have hE : hfE = .thf hf := by
          have hq := ih.1 st (.thf hf) (by rw [hw]; exact h)
          rw [hw] at hq
          exact hq
        rw [hE]
    · intro st a cap aligns head bodies foot h
      rcases hw1 : walkCaption V m st cap with ⟨st1, capN, err1⟩
      simp only [walkTable, hw1] at h ⊢
      cases herr1 : isResult err1 with
      | none => rfl
      | some r1 =>
        have hE1 := isResult_some herr1
        subst hE1
        rw [isResult_res] at h
        simp only [] at h ⊢
        by_cases hh1 : r1.halt = true
        · rw [if_pos hh1] at h
          split_ifs at h <;> simp [isResult] at h
        · rw [if_neg hh1] at h ⊢
          rcases hw2 : walkTableHeadFoot V m st1 head with ⟨st2, headN, err2⟩
          rw [hw2] at h
          simp only [] at h ⊢
          cases herr2 : isResult err2 with
          | none => rfl
          | some r2 =>
            have hE2 := isResult_some herr2
            subst hE2
            rw [isResult_res] at h
            simp only [] at h ⊢
            by_cases hh2 : r2.halt = true
            · rw [if_pos hh2] at h
              split_ifs at h <;> simp [isResult] at h
            · rw [if_neg hh2] at h ⊢
              rcases hw3 : walkList .tbodyT V m st2 bodies
                with ⟨st3, bodiesN, err3⟩
              rw [hw3] at h
              simp only [] at h ⊢
              cases herr3 : isResult err3 with
              | none => rfl
              | some r3 =>
                have hE3 := isResult_some herr3
                subst hE3
                rw [isResult_res] at h
                simp only [] at h ⊢
                by_cases hh3 : r3.halt = true
                · rw [if_pos hh3] at h
                  split_ifs at h <;> simp [isResult] at h
                · rw [if_neg hh3] at h ⊢
                  rcases hw4 : walkTableHeadFoot V m st3 foot
                    with ⟨st4, footN, err4⟩
                  rw [hw4] at h
                  simp only [] at h ⊢
                  cases herr4 : isResult err4 with
                  | none => rfl
                  | some r4 =>
                    have hE4 := isResult_some herr4
                    subst hE4
                    rw [isResult_res] at h
                    simp only [] at h
                    split_ifs at h <;> simp [isResult] at h

/-- C9: for every tree and every visiting function, whenever the traversal
ends with an error that is not a recognised traversal-control outcome
(isResult err = none: a fatal error from the visiting function,
an unexpected replacement type, or fuel exhaustion), the element walkChildren
hands back is the original input unchanged; Filter propagates exactly such
errors (some err) and then also returns the original tree, never a partially
rewritten one together with an error. -/
theorem C9_fatal_abort {σ : Type} (V : Visitor σ) (fuel : Nat) (st : σ)
    (e : Elt) (st2 : σ) (e2 : Elt) (err : WRes) :
    (isResult err = none → walkChildren V fuel st e = (st2, e2, err) →
      e2 = e)
    ∧ (Filter V fuel st e = (st2, e2, some err) →
      e2 = e ∧ isResult err = none ∧
        walkChildren V fuel st e = (st2, e, err)) := by
  constructor
  · intro hne heq
    have hp := (walk_fatal_pack V fuel).1 st e (by rw [heq]; exact hne)
    rw [heq] at hp
    exact hp
  · intro hF
    rcases hw : walkChildren V fuel st e with ⟨s1, e1, er1⟩
    simp only [Filter, hw] at hF
    cases hres : isResult er1 with
    | some r =>
      rw [hres] at hF
      simp at hF
    | none =>
      rw [hres] at hF
      simp only [Prod.mk.injEq] at hF
      obtain ⟨hs, he, her⟩ := hF
      have her2 : er1 = err := Option.some.inj her
      have hp := (walk_fatal_pack V fuel).1 st e (by rw [hw]; exact hres)
      rw [hw] at hp
      have hp2 : e1 = e := hp
      refine ⟨he ▸ hp2, her2 ▸ hres, ?_⟩
      rw [hs, hp2, her2]

/-! ## C8: an always-continue visiting function leaves the tree untouched -/

theorem walk_continue_pack {σ : Type} (V : Visitor σ)
    (hV : ∀ (st : σ) (e : Elt), (V.app st e).2.2 = .res Continue) :
    ∀ n : Nat,
    (∀ (st : σ) (e : Elt), (walkChildren V n st e).2.1 = e
      ∧ contOK (walkChildren V n st e).2.2)
    ∧ (∀ (t : EltTy) (st : σ) (l : List (ElType t)),
      (walkElemsA t V n st l).2.1 = l ∧ (walkElemsA t V n st l).2.2.1 = false
      ∧ statOK (walkElemsA t V n st l).2.2.2)
    ∧ (∀ (t : EltTy) (st : σ) (l : List (ElType t)),
      (walkSpliced t V n st l).2.1 = l ∧ statOK (walkSpliced t V n st l).2.2)
    ∧ (∀ (t : EltTy) (sio : Bool) (st : σ) (l : List (ElType t)),
      (walkElemsB t V sio n st l).2.1 = l
      ∧ (walkElemsB t V sio n st l).2.2.1 = false
      ∧ statOK (walkElemsB t V sio n st l).2.2.2)
    ∧ (∀ (t : EltTy) (st : σ) (l : List (ElType t)),
      (walkList t V n st l).2.1 = l ∧ contOK (walkList t V n st l).2.2)
    ∧ (∀ (t1 t2 : EltTy) (st : σ) (l1 : List (ElType t1))
        (l2 : List (ElType t2)),
      (walkLists t1 t2 V n st l1 l2).2.1 = l1
      ∧ (walkLists t1 t2 V n st l1 l2).2.2.1 = l2
      ∧ contOK (walkLists t1 t2 V n st l1 l2).2.2.2)
    ∧ (∀ (t : EltTy) (st : σ) (l : List (List (ElType t))),
      (walkLoLElems t V n st l).2.1 = l ∧ (walkLoLElems t V n st l).2.2.1 = false
      ∧ statOK (walkLoLElems t V n st l).2.2.2)
    ∧ (∀ (t : EltTy) (st : σ) (l : List (List (ElType t))),
      (walkListOfLists t V n st l).2.1 = l
      ∧ contOK (walkListOfLists t V n st l).2.2)
    ∧ (∀ (st : σ) (l : List Definition),
      (walkDefItems V n st l).2.1 = l ∧ (walkDefItems V n st l).2.2.1 = false
      ∧ statOK (walkDefItems V n st l).2.2.2)
    ∧ (∀ (st : σ) (cap : Caption),
      (walkCaption V n st cap).2.1 = cap ∧ contOK (walkCaption V n st cap).2.2)
    ∧ (∀ (st : σ) (hf : TableHeadFoot),
      (walkTableHeadFoot V n st hf).2.1 = hf
      ∧ contOK (walkTableHeadFoot V n st hf).2.2)
    ∧ (∀ (st : σ) (a : Attr) (cap : Caption) (aligns : List ColSpec)
        (head : TableHeadFoot) (bodies : List TableBody) (foot : TableHeadFoot),
      (walkTable V n st a cap aligns head bodies foot).2.1
        = .blk (.Table a cap aligns head bodies foot)
      ∧ contOK (walkTable V n st a cap aligns head bodies foot).2.2) := by
  intro n
  induction n with
  | zero =>
    exact ⟨fun st e => ⟨rfl, Or.inr rfl⟩,
      fun t st l => ⟨rfl, rfl, rfl⟩,
      fun t st l => ⟨rfl, rfl⟩,
      fun t sio st l => ⟨rfl, rfl, rfl⟩,
      fun t st l => ⟨rfl, Or.inr rfl⟩,
      fun t1 t2 st l1 l2 => ⟨rfl, rfl, Or.inr rfl⟩,
      fun t st l => ⟨rfl, rfl, rfl⟩,
      fun t st l => ⟨rfl, Or.inr rfl⟩,
      fun st l => ⟨rfl, rfl, rfl⟩,
      fun st cap => ⟨rfl, Or.inr rfl⟩,
      fun st hf => ⟨rfl, Or.inr rfl⟩,
      fun st a cap aligns head bodies foot => ⟨rfl, Or.inr rfl⟩⟩
  | succ m ih =>
    obtain ⟨ihC, ihA, ihS, ihB, ihL, ihLL, ihLE, ihLOL, ihD, ihCap, ihTHF, ihT⟩ := ih
    refine ⟨?_, ?_, ?_, ?_, ?_, ?_, ?_, ?_, ?_, ?_, ?_, ?_⟩
    · intro st e
      cases e with
      | pandoc p =>
        rcases hw : walkLists .metaET .blockT V m st p.meta p.blocks
          with ⟨st2, x1, x2, err⟩
        have hL := ihLL .metaET .blockT st p.meta p.blocks
        rw [hw] at hL
        have hE : contOK err := hL.2.2
        rcases hE with hcont | hnone
        · subst hcont
          simp only [walkChildren, hw]
          exact ⟨rfl, Or.inl rfl⟩
        · simp only [walkChildren, hw]
          refine ⟨?_, Or.inr hnone⟩
          rw [hnone]
      | inl i =>
        cases i with
        | Str text => exact ⟨rfl, Or.inl rfl⟩
        | Space => exact ⟨rfl, Or.inl rfl⟩
        | SoftBreak => exact ⟨rfl, Or.inl rfl⟩
        | LineBreak => exact ⟨rfl, Or.inl rfl⟩
        | Code a text => exact ⟨rfl, Or.inl rfl⟩
        | Math mt text => exact ⟨rfl, Or.inl rfl⟩
        | RawInline fo text => exact ⟨rfl, Or.inl rfl⟩
        | Emph l =>
          rcases hw : walkList .inlineT V m st l with ⟨st2, lst, err⟩
          have hL := ihL .inlineT st l
          rw [hw] at hL
          have hE : contOK err := hL.2
          rcases hE with hcont | hnone
          · subst hcont
            simp only [walkChildren, hw]
            exact ⟨rfl, Or.inl rfl⟩
          · simp only [walkChildren, hw]
            refine ⟨?_, Or.inr hnone⟩
            rw [hnone]
        | Underline l =>
          rcases hw : walkList .inlineT V m st l with ⟨st2, lst, err⟩
          have hL := ihL .inlineT st l
          rw [hw] at hL
          have hE : contOK err := hL.2
          rcases hE with hcont | hnone
          · subst hcont
            simp only [walkChildren, hw]
            exact ⟨rfl, Or.inl rfl⟩
          · simp only [walkChildren, hw]
            refine ⟨?_, Or.inr hnone⟩
            rw [hnone]
        | Strong l =>
          rcases hw : walkList .inlineT V m st l with ⟨st2, lst, err⟩
          have hL := ihL .inlineT st l
          rw [hw] at hL
          have hE : contOK err := hL.2
          rcases hE with hcont | hnone
          · subst hcont
            simp only [walkChildren, hw]
            exact ⟨rfl, Or.inl rfl⟩
          · simp only [walkChildren, hw]
            refine ⟨?_, Or.inr hnone⟩
            rw [hnone]
        | Strikeout l =>
          rcases hw : walkList .inlineT V m st l with ⟨st2, lst, err⟩
          have hL := ihL .inlineT st l
          rw [hw] at hL
          have hE : contOK err := hL.2
          rcases hE with hcont | hnone
          · subst hcont
            simp only [walkChildren, hw]
            exact ⟨rfl, Or.inl rfl⟩
          · simp only [walkChildren, hw]
            refine ⟨?_, Or.inr hnone⟩
            rw [hnone]
        | Superscript l =>
          rcases hw : walkList .inlineT V m st l with ⟨st2, lst, err⟩
          have hL := ihL .inlineT st l
          rw [hw] at hL
          have hE : contOK err := hL.2
          rcases hE with hcont | hnone
          · subst hcont
            simp only [walkChildren, hw]
            exact ⟨rfl, Or.inl rfl⟩
          · simp only [walkChildren, hw]
            refine ⟨?_, Or.inr hnone⟩
            rw [hnone]
        | Subscript l =>
          rcases hw : walkList .inlineT V m st l with ⟨st2, lst, err⟩
          have hL := ihL .inlineT st l
          rw [hw] at hL
          have hE : contOK err := hL.2
          rcases hE with hcont | hnone
          · subst hcont
            simp only [walkChildren, hw]
            exact ⟨rfl, Or.inl rfl⟩
          · simp only [walkChildren, hw]
            refine ⟨?_, Or.inr hnone⟩
            rw [hnone]
        | SmallCaps l =>
          rcases hw : walkList .inlineT V m st l with ⟨st2, lst, err⟩
          have hL := ihL .inlineT st l
          rw [hw] at hL
          have hE : contOK err := hL.2
          rcases hE with hcont | hnone
          · subst hcont
            simp only [walkChildren, hw]
            exact ⟨rfl, Or.inl rfl⟩
          · simp only [walkChildren, hw]
            refine ⟨?_, Or.inr hnone⟩
            rw [hnone]
        | Quoted qt l =>
          rcases hw : walkList .inlineT V m st l with ⟨st2, lst, err⟩
          have hL := ihL .inlineT st l
          rw [hw] at hL
          have hE : contOK err := hL.2
          rcases hE with hcont | hnone
          · subst hcont
            simp only [walkChildren, hw]
            exact ⟨rfl, Or.inl rfl⟩
          · simp only [walkChildren, hw]
            refine ⟨?_, Or.inr hnone⟩
            rw [hnone]
        | Cite cts l =>
          rcases hw : walkLists .citT .inlineT V m st cts l
            with ⟨st2, x1, x2, err⟩
          have hL := ihLL .citT .inlineT st cts l
          rw [hw] at hL
          have hE : contOK err := hL.2.2
          rcases hE with hcont | hnone
          · subst hcont
            simp only [walkChildren, hw]
            exact ⟨rfl, Or.inl rfl⟩
          · simp only [walkChildren, hw]
            refine ⟨?_, Or.inr hnone⟩
            rw [hnone]
        | Link a l t =>
          rcases hw : walkList .inlineT V m st l with ⟨st2, lst, err⟩
          have hL := ihL .inlineT st l
          rw [hw] at hL
          have hE : contOK err := hL.2
          rcases hE with hcont | hnone
          · subst hcont
            simp only [walkChildren, hw]
            exact ⟨rfl, Or.inl rfl⟩
          · simp only [walkChildren, hw]
            refine ⟨?_, Or.inr hnone⟩
            rw [hnone]
        | Image a l t =>
          rcases hw : walkList .inlineT V m st l with ⟨st2, lst, err⟩
          have hL := ihL .inlineT st l
          rw [hw] at hL
          have hE : contOK err := hL.2
          rcases hE with hcont | hnone
          · subst hcont
            simp only [walkChildren, hw]
            exact ⟨rfl, Or.inl rfl⟩
          · simp only [walkChildren, hw]
            refine ⟨?_, Or.inr hnone⟩
            rw [hnone]
        | Note bs =>
          rcases hw : walkList .blockT V m st bs with ⟨st2, lst, err⟩
          have hL := ihL .blockT st bs
          rw [hw] at hL
          have hE : contOK err := hL.2
          rcases hE with hcont | hnone
          · subst hcont
            simp only [walkChildren, hw]
            exact ⟨rfl, Or.inl rfl⟩
          · simp only [walkChildren, hw]
            refine ⟨?_, Or.inr hnone⟩
            rw [hnone]
        | Span a l =>
          rcases hw : walkList .inlineT V m st l with ⟨st2, lst, err⟩
          have hL := ihL .inlineT st l
          rw [hw] at hL
          have hE : contOK err := hL.2
          rcases hE with hcont | hnone
          · subst hcont
            simp only [walkChildren, hw]
            exact ⟨rfl, Or.inl rfl⟩
          · simp only [walkChildren, hw]
            refine ⟨?_, Or.inr hnone⟩
            rw [hnone]
      | blk b =>
        cases b with
        | CodeBlock a text => exact ⟨rfl, Or.inl rfl⟩
        | RawBlock fo text => exact ⟨rfl, Or.inl rfl⟩
        | HorizontalRule => exact ⟨rfl, Or.inl rfl⟩
        | Plain l =>
          rcases hw : walkList .inlineT V m st l with ⟨st2, lst, err⟩
          have hL := ihL .inlineT st l
          rw [hw] at hL
          have hE : contOK err := hL.2
          rcases hE with hcont | hnone
          · subst hcont
            simp only [walkChildren, hw]
            exact ⟨rfl, Or.inl rfl⟩
          · simp only [walkChildren, hw]
            refine ⟨?_, Or.inr hnone⟩
            rw [hnone]
        | Para l =>
          rcases hw : walkList .inlineT V m st l with ⟨st2, lst, err⟩
          have hL := ihL .inlineT st l
          rw [hw] at hL
          have hE : contOK err := hL.2
          rcases hE with hcont | hnone
          · subst hcont
            simp only [walkChildren, hw]
            exact ⟨rfl, Or.inl rfl⟩
          · simp only [walkChildren, hw]
            refine ⟨?_, Or.inr hnone⟩
            rw [hnone]
        | LineBlock ls =>
          rcases hw : walkListOfLists .inlineT V m st ls with ⟨st2, lst, err⟩
          have hL := ihLOL .inlineT st ls
          rw [hw] at hL
          have hE : contOK err := hL.2
          rcases hE with hcont | hnone
          · subst hcont
            simp only [walkChildren, hw]
            exact ⟨rfl, Or.inl rfl⟩
          · simp only [walkChildren, hw]
            refine ⟨?_, Or.inr hnone⟩
            rw [hnone]
        | BlockQuote bs =>
          rcases hw : walkList .blockT V m st bs with ⟨st2, lst, err⟩
          have hL := ihL .blockT st bs
          rw [hw] at hL
          have hE : contOK err := hL.2
          rcases hE with hcont | hnone
          · subst hcont
            simp only [walkChildren, hw]
            exact ⟨rfl, Or.inl rfl⟩
          · simp only [walkChildren, hw]
            refine ⟨?_, Or.inr hnone⟩
            rw [hnone]
        | OrderedList a items =>
          rcases hw : walkListOfLists .blockT V m st items with ⟨st2, lst, err⟩
          have hL := ihLOL .blockT st items
          rw [hw] at hL
          have hE : contOK err := hL.2
          rcases hE with hcont | hnone
          · subst hcont
            simp only [walkChildren, hw]
            exact ⟨rfl, Or.inl rfl⟩
          · simp only [walkChildren, hw]
            refine ⟨?_, Or.inr hnone⟩
            rw [hnone]
        | BulletList items =>
          rcases hw : walkListOfLists .blockT V m st items with ⟨st2, lst, err⟩
          have hL := ihLOL .blockT st items
          rw [hw] at hL
          have hE : contOK err := hL.2
          rcases hE with hcont | hnone
          · subst hcont
            simp only [walkChildren, hw]
            exact ⟨rfl, Or.inl rfl⟩
          · simp only [walkChildren, hw]
            refine ⟨?_, Or.inr hnone⟩
            rw [hnone]
        | DefinitionList items =>
          rcases hw : walkDefItems V m st items with ⟨st2, items2, upd, stat⟩
          have hD := ihD st items
          rw [hw] at hD
          have hu : upd = false := hD.2.1
          have hs : statOK stat := hD.2.2
          subst hu
          cases stat with
          | done =>
            simp only [walkChildren, hw]
            exact ⟨rfl, Or.inl rfl⟩
          | halted => exact hs.elim
          | failed er =>
            simp only [walkChildren, hw]
            exact ⟨True.intro, Or.inr hs⟩
        | Header lvl a l =>
          rcases hw : walkList .inlineT V m st l with ⟨st2, lst, err⟩
          have hL := ihL .inlineT st l
          rw [hw] at hL
          have hE : contOK err := hL.2
          rcases hE with hcont | hnone
          · subst hcont
            simp only [walkChildren, hw]
            exact ⟨rfl, Or.inl rfl⟩
          · simp only [walkChildren, hw]
            refine ⟨?_, Or.inr hnone⟩
            rw [hnone]
        | Table a cap aligns head bodies foot =>
          simp only [walkChildren]
          exact ihT st a cap aligns head bodies foot
        | Figure a cap bs =>
          rcases hw1 : walkCaption V m st cap with ⟨st1, capN, err1⟩
          have hC1 := ihCap st cap
          rw [hw1] at hC1
          have hE1 : contOK err1 := hC1.2
          rcases hE1 with hcont1 | hnone1
          · subst hcont1
            rcases hw2 : walkList .blockT V m st1 bs with ⟨st2, lst2, err2⟩
            have hL2 := ihL .blockT st1 bs
            rw [hw2] at hL2
            have hE2 : contOK err2 := hL2.2
            rcases hE2 with hcont2 | hnone2
            · subst hcont2
              simp only [walkChildren, hw1, hw2]
              exact ⟨rfl, Or.inl rfl⟩
            · simp only [walkChildren, hw1, hw2]
              refine ⟨?_, ?_⟩
              · rw [hnone2]
                rfl
              · rw [hnone2]
                exact Or.inr hnone2
          · simp only [walkChildren, hw1]
            refine ⟨?_, ?_⟩
            · rw [hnone1]
            · rw [hnone1]
              exact Or.inr hnone1
        | Div a bs =>
          rcases hw : walkList .blockT V m st bs with ⟨st2, lst, err⟩
          have hL := ihL .blockT st bs
          rw [hw] at hL
          have hE : contOK err := hL.2
          rcases hE with hcont | hnone
          · subst hcont
            simp only [walkChildren, hw]
            exact ⟨rfl, Or.inl rfl⟩
          · simp only [walkChildren, hw]
            refine ⟨?_, Or.inr hnone⟩
            rw [hnone]
      | metaV mv =>
        cases mv with
        | MetaBool b => exact ⟨rfl, Or.inl rfl⟩
        | MetaString s => exact ⟨rfl, Or.inl rfl⟩
        | MetaMap entries =>
          rcases hw : walkList .metaET V m st entries with ⟨st2, lst, err⟩
          have hL := ihL .metaET st entries
          rw [hw] at hL
          have hE : contOK err := hL.2
          rcases hE with hcont | hnone
          · subst hcont
            simp only [walkChildren, hw]
            exact ⟨rfl, Or.inl rfl⟩
          · simp only [walkChildren, hw]
            refine ⟨?_, Or.inr hnone⟩
            rw [hnone]
        | MetaList entries =>
          rcases hw : walkList .metaVT V m st entries with ⟨st2, lst, err⟩
          have hL := ihL .metaVT st entries
          rw [hw] at hL
          have hE : contOK err := hL.2
          rcases hE with hcont | hnone
          · subst hcont
            simp only [walkChildren, hw]
            exact ⟨rfl, Or.inl rfl⟩
          · simp only [walkChildren, hw]
            refine ⟨?_, Or.inr hnone⟩
            rw [hnone]
        | MetaInlines l =>
          rcases hw : walkList .inlineT V m st l with ⟨st2, lst, err⟩
          have hL := ihL .inlineT st l
          rw [hw] at hL
          have hE : contOK err := hL.2
          rcases hE with hcont | hnone
          · subst hcont
            simp only [walkChildren, hw]
            exact ⟨rfl, Or.inl rfl⟩
          · simp only [walkChildren, hw]
            refine ⟨?_, Or.inr hnone⟩
            rw [hnone]
        | MetaBlocks bs =>
          rcases hw : walkList .blockT V m st bs with ⟨st2, lst, err⟩
          have hL := ihL .blockT st bs
          rw [hw] at hL
          have hE : contOK err := hL.2
          rcases hE with hcont | hnone
          · subst hcont
            simp only [walkChildren, hw]
            exact ⟨rfl, Or.inl rfl⟩
          · simp only [walkChildren, hw]
            refine ⟨?_, Or.inr hnone⟩
            rw [hnone]
      | metaE me =>
        cases me with
        | mk k v =>
          rcases hw : walkChildren V m st (.metaV v) with ⟨st2, valE, err⟩
          have hL := ihC st (.metaV v)
          rw [hw] at hL
          have hE : contOK err := hL.2
          rcases hE with hcont | hnone
          · subst hcont
            simp only [walkChildren, hw]
            exact ⟨rfl, Or.inl rfl⟩
          · simp only [walkChildren, hw]
            refine ⟨?_, Or.inr hnone⟩
            rw [hnone]
      | cit c =>
        cases c with
        | mk id pref suff mode nn hsh =>
          rcases hw : walkLists .inlineT .inlineT V m st pref suff
            with ⟨st2, x1, x2, err⟩
          have hL := ihLL .inlineT .inlineT st pref suff
          rw [hw] at hL
          have hE : contOK err := hL.2.2
          rcases hE with hcont | hnone
          · subst hcont
            simp only [walkChildren, hw]
            exact ⟨rfl, Or.inl rfl⟩
          · simp only [walkChildren, hw]
            refine ⟨?_, Or.inr hnone⟩
            rw [hnone]
      | row tr =>
        cases tr with
        | mk a cells =>
          rcases hw : walkList .cellT V m st cells with ⟨st2, lst, err⟩
          have hL := ihL .cellT st cells
          rw [hw] at hL
          have hE : contOK err := hL.2
          rcases hE with hcont | hnone
          · subst hcont
            simp only [walkChildren, hw]
            exact ⟨rfl, Or.inl rfl⟩
          · simp only [walkChildren, hw]
            refine ⟨?_, Or.inr hnone⟩
            rw [hnone]
      | cell tc =>
        cases tc with
        | mk a al rs cs bs =>
          rcases hw : walkList .blockT V m st bs with ⟨st2, lst, err⟩
          have hL := ihL .blockT st bs
          rw [hw] at hL
          have hE : contOK err := hL.2
          rcases hE with hcont | hnone
          · subst hcont
            simp only [walkChildren, hw]
            exact ⟨rfl, Or.inl rfl⟩
          · simp only [walkChildren, hw]
            refine ⟨?_, Or.inr hnone⟩
            rw [hnone]
      | thf hh =>
        cases hh with
        | mk a rows =>
          rcases hw : walkList .rowT V m st rows with ⟨st2, lst, err⟩
          have hL := ihL .rowT st rows
          rw [hw] at hL
          have hE : contOK err := hL.2
          rcases hE with hcont | hnone
          · subst hcont
            simp only [walkChildren, hw]
            exact ⟨rfl, Or.inl rfl⟩
          · simp only [walkChildren, hw]
            refine ⟨?_, Or.inr hnone⟩
            rw [hnone]
      | tbody tb =>
        cases tb with
        | mk a rhc hd bd =>
          rcases hw : walkLists .rowT .rowT V m st hd bd
            with ⟨st2, x1, x2, err⟩
          have hL := ihLL .rowT .rowT st hd bd
          rw [hw] at hL
          have hE : contOK err := hL.2.2
          rcases hE with hcont | hnone
          · subst hcont
            simp only [walkChildren, hw]
            exact ⟨rfl, Or.inl rfl⟩
          · simp only [walkChildren, hw]
            refine ⟨?_, Or.inr hnone⟩
            rw [hnone]
      | inls l => exact ⟨rfl, Or.inl rfl⟩
      | blks l => exact ⟨rfl, Or.inl rfl⟩
      | cits l => exact ⟨rfl, Or.inl rfl⟩
      | rows l => exact ⟨rfl, Or.inl rfl⟩
      | cells l => exact ⟨rfl, Or.inl rfl⟩
      | tbodies l => exact ⟨rfl, Or.inl rfl⟩
      | metaVs l => exact ⟨rfl, Or.inl rfl⟩
      | metaEs l => exact ⟨rfl, Or.inl rfl⟩
    · intro t st l
      cases l with
      | nil => exact ⟨rfl, rfl, trivial⟩
      | cons x xs =>
        rcases hw : walkChildren V m st (tyToElt t x) with ⟨st1, itemE, err⟩
        have hC := ihC st (tyToElt t x)
        rw [hw] at hC
        have hE : contOK err := hC.2
        rcases hE with hcont | hnone
        · subst hcont
          rcases hrec : walkElemsA t V m st1 xs with ⟨st2, rest, u2, stat⟩
          have hR := ihA t st1 xs
          rw [hrec] at hR
          have h1 : rest = xs := hR.1
          have h2 : u2 = false := hR.2.1
          have h3 : statOK stat := hR.2.2
          subst h1
          subst h2
          simp only [walkElemsA, hw, hrec]
          exact ⟨rfl, rfl, h3⟩
        · simp only [walkElemsA, hw]
          rw [hnone]
          exact ⟨rfl, rfl, hnone⟩
    · intro t st l
      cases l with
      | nil => exact ⟨rfl, trivial⟩
      | cons r rs =>
        rcases hw : walkChildren V m st (tyToElt t r) with ⟨st1, itemE, err⟩
        have hC := ihC st (tyToElt t r)
        rw [hw] at hC
        have hE : contOK err := hC.2
        rcases hE with hcont | hnone
        · subst hcont
          rcases hrec : walkSpliced t V m st1 rs with ⟨st2, rest, stat⟩
          have hR := ihS t st1 rs
          rw [hrec] at hR
          have h1 : rest = rs := hR.1
          have h3 : statOK stat := hR.2
          subst h1
          simp only [walkSpliced, hw, hrec]
          exact ⟨rfl, h3⟩
        · simp only [walkSpliced, hw]
          rw [hnone]
          exact ⟨rfl, hnone⟩
    · intro t sio st l
      cases l with
      | nil => exact ⟨rfl, rfl, trivial⟩
      | cons x xs =>
        by_cases hm : V.matchP (tyToElt t x) = true
        · rcases happ : V.app st (tyToElt t x) with ⟨st1, repl, errA⟩
          have hA : errA = .res Continue := by
            have hh := hV st (tyToElt t x)
            rw [happ] at hh
            exact hh
          subst hA
          rcases hw : walkChildren V m st1 (tyToElt t x) with ⟨st2, itemE, err⟩
          have hC := ihC st1 (tyToElt t x)
          rw [hw] at hC
          have hE : contOK err := hC.2
          rcases hE with hcont | hnone
          · subst hcont
            rcases hrec : walkElemsB t V sio m st2 xs with ⟨st3, rest, u2, stat⟩
            have hR := ihB t sio st2 xs
            rw [hrec] at hR
            have h1 : rest = xs := hR.1
            have h2 : u2 = false := hR.2.1
            have h3 : statOK stat := hR.2.2
            subst h1
            subst h2
            simp only [walkElemsB, happ, hw, hrec]
            rw [if_neg (by simp [hm])]
            exact ⟨rfl, rfl, h3⟩
          · simp only [walkElemsB, happ, hw]
            rw [if_neg (by simp [hm])]
            rw [hnone]
            exact ⟨rfl, rfl, hnone⟩
        · rcases hw : walkChildren V m st (tyToElt t x) with ⟨st1, itemE, err⟩
          have hC := ihC st (tyToElt t x)
          rw [hw] at hC
          have hE : contOK err := hC.2
          rcases hE with hcont | hnone
          · subst hcont
            rcases hrec : walkElemsB t V sio m st1 xs with ⟨st2, rest, u2, stat⟩
            have hR := ihB t sio st1 xs
            rw [hrec] at hR
            have h1 : rest = xs := hR.1
            have h2 : u2 = false := hR.2.1
            have h3 : statOK stat := hR.2.2
            subst h1
            subst h2
            simp only [walkElemsB, hw, hrec]
            rw [if_pos hm]
            exact ⟨rfl, rfl, h3⟩
          · simp only [walkElemsB, hw]
            rw [if_pos hm]
            rw [hnone]
            exact ⟨rfl, rfl, hnone⟩
    · intro t st l
      by_cases hm : V.matchP (tyListElt t l) = true
      · rcases happ : V.app st (tyListElt t l) with ⟨st1, repl, errA⟩
        have hA : errA = .res Continue := by
          have hh := hV st (tyListElt t l)
          rw [happ] at hh
          exact hh
        subst hA
        rcases hrec : walkElemsA t V m st1 l with ⟨st2, l2, u, stat⟩
        have hR := ihA t st1 l
        rw [hrec] at hR
        have h1 : l2 = l := hR.1
        have h2 : u = false := hR.2.1
        have h3 : statOK stat := hR.2.2
        subst h1
        subst h2
        cases stat with
        | done =>
          simp [walkList, hm, happ, hrec, isResult, Continue, TRes.replace,
            TRes.halt, TRes.skipChildren]
          exact Or.inl rfl
        | halted => exact h3.elim
        | failed er =>
          have h4 : isResult er = none := h3
          simp [walkList, hm, happ, hrec, isResult, Continue, TRes.replace,
            TRes.halt, TRes.skipChildren]
          exact Or.inr h4
      · rcases hrec : walkElemsB t V (V.retTy == t) m st l with ⟨st2, l2, u, stat⟩
        have hR := ihB t (V.retTy == t) st l
        rw [hrec] at hR
        have h1 : l2 = l := hR.1
        have h2 : u = false := hR.2.1
        have h3 : statOK stat := hR.2.2
        subst h1
        subst h2
        cases stat with
        | done =>
          simp [walkList, hm, hrec]
          exact Or.inl rfl
        | halted => exact h3.elim
        | failed er =>
          have h4 : isResult er = none := h3
          simp [walkList, hm, hrec]
          exact Or.inr h4
    · intro t1 t2 st l1 l2
      rcases hw1 : walkList t1 V m st l1 with ⟨st1, nl1, err1⟩
      have hL1 := ihL t1 st l1
      rw [hw1] at hL1
      have hE1 : contOK err1 := hL1.2
      rcases hE1 with hcont1 | hnone1
      · subst hcont1
        rcases hw2 : walkList t2 V m st1 l2 with ⟨st2, nl2, err2⟩
        have hL2 := ihL t2 st1 l2
        rw [hw2] at hL2
        have hE2 : contOK err2 := hL2.2
        rcases hE2 with hcont2 | hnone2
        · subst hcont2
          simp only [walkLists, hw1, hw2]
          exact ⟨rfl, rfl, Or.inl rfl⟩
        · simp only [walkLists, hw1, hw2]
          rw [hnone2]
          exact ⟨rfl, rfl, Or.inr hnone2⟩
      · simp only [walkLists, hw1]
        rw [hnone1]
        exact ⟨rfl, rfl, Or.inr hnone1⟩
    · intro t st l
      cases l with
      | nil => exact ⟨rfl, rfl, trivial⟩
      | cons x xs =>
        rcases hw : walkList t V m st x with ⟨st1, newL, err⟩
        have hL := ihL t st x
        rw [hw] at hL
        have hE : contOK err := hL.2
        rcases hE with hcont | hnone
        · subst hcont
          rcases hrec : walkLoLElems t V m st1 xs with ⟨st2, rest, u2, stat⟩
          have hR := ihLE t st1 xs
          rw [hrec] at hR
          have h1 : rest = xs := hR.1
          have h2 : u2 = false := hR.2.1
          have h3 : statOK stat := hR.2.2
          subst h1
          subst h2
          simp only [walkLoLElems, hw, hrec]
          exact ⟨rfl, rfl, h3⟩
        · simp only [walkLoLElems, hw]
          rw [hnone]
          exact ⟨rfl, rfl, hnone⟩
    · intro t st l
      rcases hrec : walkLoLElems t V m st l with ⟨st1, l2, u, stat⟩
      have hR := ihLE t st l
      rw [hrec] at hR
      have h1 : l2 = l := hR.1
      have h2 : u = false := hR.2.1
      have h3 : statOK stat := hR.2.2
      subst h1
      subst h2
      cases stat with
      | done =>
        simp only [walkListOfLists, hrec]
        exact ⟨rfl, Or.inl rfl⟩
      | halted => exact h3.elim
      | failed er =>
        have h4 : isResult er = none := h3
        simp only [walkListOfLists, hrec]
        exact ⟨True.intro, Or.inr h4⟩
    · intro st l
      cases l with
      | nil => exact ⟨rfl, rfl, trivial⟩
      | cons d xs =>
        cases d with
        | mk term defs =>
          rcases hw1 : walkList .inlineT V m st term with ⟨st1, inls1, err1⟩
          have hL1 := ihL .inlineT st term
          rw [hw1] at hL1
          have hE1 : contOK err1 := hL1.2
          rcases hE1 with hcont1 | hnone1
          · subst hcont1
            rcases hw2 : walkListOfLists .blockT V m st1 defs
              with ⟨st2, dss, err2⟩
            have hL2 := ihLOL .blockT st1 defs
            rw [hw2] at hL2
            have hE2 : contOK err2 := hL2.2
            rcases hE2 with hcont2 | hnone2
            · subst hcont2
              rcases hrec : walkDefItems V m st2 xs with ⟨st3, rest, u3, stat⟩
              have hR := ihD st2 xs
              rw [hrec] at hR
              have h1 : rest = xs := hR.1
              have h2 : u3 = false := hR.2.1
              have h3 : statOK stat := hR.2.2
              subst h1
              subst h2
              simp only [walkDefItems, hw1, hw2, hrec]
              exact ⟨rfl, rfl, h3⟩
            · simp only [walkDefItems, hw1, hw2]
              rw [hnone2]
              exact ⟨rfl, rfl, hnone2⟩
          · simp only [walkDefItems, hw1]
            rw [hnone1]
            exact ⟨rfl, rfl, hnone1⟩
    · intro st cap
      cases cap with
      | mk hs short long =>
        rcases hw : walkLists .inlineT .blockT V m st short long
          with ⟨st1, s2, l2, err⟩
        have hL := ihLL .inlineT .blockT st short long
        rw [hw] at hL
        have hE : contOK err := hL.2.2
        rcases hE with hcont | hnone
        · subst hcont
          simp only [walkCaption, hw]
          exact ⟨rfl, Or.inl rfl⟩
        · simp only [walkCaption, hw]
          rw [hnone]
          exact ⟨rfl, Or.inr hnone⟩
    · intro st hf
      by_cases hm : V.matchP (.thf hf) = true
      · rcases happ : V.app st (.thf hf) with ⟨st1, repl, errA⟩
        have hA : errA = .res Continue := by
          have hh := hV st (.thf hf)
          rw [happ] at hh
          exact hh
        subst hA
        rcases hw : walkChildren V m st1 (.thf hf) with ⟨st2, hfE, err⟩
        have hC := ihC st1 (.thf hf)
        rw [hw] at hC
        have h1 : hfE = .thf hf := hC.1
        have hE : contOK err := hC.2
        subst h1
        rcases hE with hcont | hnone
        · subst hcont
          simp [walkTableHeadFoot, hm, happ, hw, isResult, Continue,
            TRes.replace, TRes.halt, TRes.skipChildren]
          exact Or.inl rfl
        · simp [walkTableHeadFoot, hm, happ, hw, isResult_res, Continue,
            TRes.replace, TRes.halt, TRes.skipChildren, hnone]
          exact Or.inr hnone
      · rcases hw : walkChildren V m st (.thf hf) with ⟨st2, hfE, err⟩
        have hC := ihC st (.thf hf)
        rw [hw] at hC
        have h1 : hfE = .thf hf := hC.1
        have hE : contOK err := hC.2
        subst h1
        simp only [walkTableHeadFoot, hw]
        rw [if_neg hm]
        exact ⟨rfl, hE⟩
    · intro st a cap aligns head bodies foot
      rcases hw1 : walkCaption V m st cap with ⟨st1, capN, err1⟩
      have hC1 := ihCap st cap
      rw [hw1] at hC1
      have hE1 : contOK err1 := hC1.2
      rcases hE1 with hcont1 | hnone1
      · subst hcont1
        rcases hw2 : walkTableHeadFoot V m st1 head with ⟨st2, headN, err2⟩
        have hC2 := ihTHF st1 head
        rw [hw2] at hC2
        have hE2 : contOK err2 := hC2.2
        rcases hE2 with hcont2 | hnone2
        · subst hcont2
          rcases hw3 : walkList .tbodyT V m st2 bodies with ⟨st3, bodiesN, err3⟩
          have hC3 := ihL .tbodyT st2 bodies
          rw [hw3] at hC3
          have hE3 : contOK err3 := hC3.2
          rcases hE3 with hcont3 | hnone3
          · subst hcont3
            rcases hw4 : walkTableHeadFoot V m st3 foot with ⟨st4, footN, err4⟩
            have hC4 := ihTHF st3 foot
            rw [hw4] at hC4
            have hE4 : contOK err4 := hC4.2
            rcases hE4 with hcont4 | hnone4
            · subst hcont4
              simp only [walkTable, hw1, hw2, hw3, hw4]
              exact ⟨rfl, Or.inl rfl⟩
            · simp only [walkTable, hw1, hw2, hw3, hw4]
              rw [hnone4]
              exact ⟨rfl, Or.inr hnone4⟩
          · simp only [walkTable, hw1, hw2, hw3]
            rw [hnone3]
            exact ⟨rfl, Or.inr hnone3⟩
        · simp only [walkTable, hw1, hw2]
          rw [hnone2]
          exact ⟨rfl, Or.inr hnone2⟩
      · simp only [walkTable, hw1]
        rw [hnone1]
        exact ⟨rfl, Or.inr hnone1⟩

/-- C8: a visiting function that always returns the continue signal and no
replacement leaves the tree untouched, whatever state threading it performs:
walkChildren hands back the input element itself at every fuel, and Filter
returns the input tree identically at every level. -/
theorem C8_continue_identity {σ : Type} (mP : Elt → Bool) (f : σ → Elt → σ)
    (rT : EltTy) (fuel : Nat) (st : σ) (e : Elt) :
    (walkChildren ⟨mP, fun s x => (f s x, [], .res Continue), rT⟩ fuel st e).2.1
      = e
    ∧ (Filter ⟨mP, fun s x => (f s x, [], .res Continue), rT⟩ fuel st e).2.1
      = e := by
  have hp := (walk_continue_pack ⟨mP, fun s x => (f s x, [], .res Continue), rT⟩
    (fun s x => rfl) fuel).1 st e
  constructor
  · exact hp.1
  · rcases hw : walkChildren ⟨mP, fun s x => (f s x, [], .res Continue), rT⟩
      fuel st e with ⟨s1, e1, er⟩
    rw [hw] at hp
    simp only [Filter, hw]
    cases hres : isResult er with
    | some r => exact hp.1
    | none => exact hp.1

/-! ## C10: clone on the zero-field singletons -/

/-- C10: the clone methods of the zero-field variants Space, SoftBreak,
LineBreak and HorizontalRule return the shared singleton instances SP,
SB, LB and HR, so Clone is the identity on these variants. -/
theorem C10_clone_singletons :
    Inline.clone .Space = SP ∧ Inline.clone .SoftBreak = SB
    ∧ Inline.clone .LineBreak = LB ∧ Block.clone .HorizontalRule = HR
    ∧ Clone (.inl SP) = .inl SP ∧ Clone (.inl SB) = .inl SB
    ∧ Clone (.inl LB) = .inl LB ∧ Clone (.blk HR) = .blk HR :=
  ⟨rfl, rfl, rfl, rfl, rfl, rfl, rfl, rfl⟩

end GoPandoc
